import Mathlib

/-!
# bitECS: entity index, world, queries, relations and packet codecs

A shallow embedding of `bitecs/dist/core/index.mjs` and
`bitecs/dist/serialization/index.cjs`.

Conventions of the embedding

* JavaScript numbers that hold integers are `Int`; the 32-bit operators
  (`&`, `|`, `<<`, `>>>`) go through `toUint32` / `toInt32` exactly as the
  language defines them.
* A JavaScript array used as a sparse table (`sparse[id]`, a mask row) is a
  function `Int → Option _`: an absent entry is `none` (`undefined`).
* A JavaScript array that is iterated (`dense`) is a `List`.
-/

namespace BitEcs

/-! ## 32-bit integer operators of the language -/

/-- ToUint32: the unsigned 32-bit pattern of an integer-valued number. -/
def toUint32 (x : Int) : Nat := (x % 4294967296).toNat

/-- ToInt32 of a bit pattern: patterns from `2^31` on read as negative numbers. -/
def toInt32 (n : Nat) : Int :=
  if n % 4294967296 < 2147483648 then ((n % 4294967296 : Nat) : Int)
  else ((n % 4294967296 : Nat) : Int) - 4294967296

/-- The operator `a & b`. -/
def jsAnd (a b : Int) : Int := toInt32 (toUint32 a &&& toUint32 b)

/-- The operator `a | b`. -/
def jsOr (a b : Int) : Int := toInt32 (toUint32 a ||| toUint32 b)

/-- The operator `a << s` (the shift count is taken modulo 32). -/
def jsShl (a s : Int) : Int := toInt32 (toUint32 a <<< (toUint32 s % 32))

/-- The operator `a >>> s` (unsigned; the shift count is taken modulo 32). -/
def jsUshr (a s : Int) : Int := ((toUint32 a >>> (toUint32 s % 32) : Nat) : Int)

/-! ## src/core/EntityIndex.ts -/

/-- The record built by `createEntityIndex`. `dense` has no holes: every
index the code writes is below its length. -/
structure EntityIndex where
  aliveCount : Nat
  dense : List Int
  sparse : Int → Option Nat
  maxId : Int
  versioning : Bool
  versionBits : Int
  entityMask : Int
  versionShift : Int
  versionMask : Int

/-- `getId = (index, id) => id & index.entityMask`. -/
def getId (index : EntityIndex) (id : Int) : Int := jsAnd id index.entityMask

/-- `getVersion = (index, id) => id >>> index.versionShift & (1 << index.versionBits) - 1`. -/
def getVersion (index : EntityIndex) (id : Int) : Int :=
  jsAnd (jsUshr id index.versionShift) (jsShl 1 index.versionBits - 1)

/-- `incrementVersion`: the id bits of `id` with the version field advanced by one. -/
def incrementVersion (index : EntityIndex) (id : Int) : Int :=
  let currentVersion := getVersion index id
  let newVersion := jsAnd (currentVersion + 1) (jsShl 1 index.versionBits - 1)
  jsOr (jsAnd id index.entityMask) (jsShl newVersion index.versionShift)

/-- `createEntityIndex(options)`, the options already resolved to the two
fields `versioning` and `versionBits` (defaults: `false` and `8`). -/
def createEntityIndex (versioning : Bool) (versionBits : Int) : EntityIndex :=
  let entityBits := 32 - versionBits
  let entityMask := jsShl 1 entityBits - 1
  let versionShift := entityBits
  let versionMask := jsShl (jsShl 1 versionBits - 1) versionShift
  { aliveCount := 0, dense := [], sparse := fun _ => none, maxId := 0,
    versioning := versioning, versionBits := versionBits, entityMask := entityMask,
    versionShift := versionShift, versionMask := versionMask }

/-- Assignment `table[key] = value` on a sparse table. -/
def setKey {α : Type} (table : Int → Option α) (key : Int) (value : α) : Int → Option α :=
  fun k => if k = key then some value else table k

/-- `addEntityId(index)`: the id handed out and the index afterwards. -/
def addEntityId (index : EntityIndex) : Int × EntityIndex :=
  if index.aliveCount < index.dense.length then
    let recycledId := index.dense.getD index.aliveCount 0
    let entityId := recycledId
    (recycledId, { index with
      sparse := setKey index.sparse entityId index.aliveCount,
      aliveCount := index.aliveCount + 1 })
  else
    let id := index.maxId + 1
    (id, { index with
      maxId := id,
      dense := index.dense ++ [id],
      sparse := setKey index.sparse id index.aliveCount,
      aliveCount := index.aliveCount + 1 })

/-- `removeEntityId(index, id)`. -/
def removeEntityId (index : EntityIndex) (id : Int) : EntityIndex :=
  match index.sparse id with
  | none => index
  | some denseIndex =>
    if denseIndex ≥ index.aliveCount then index
    else
      let lastIndex := index.aliveCount - 1
      let lastId := index.dense.getD lastIndex 0
      let sparse1 := setKey index.sparse lastId denseIndex
      let dense1 := index.dense.set denseIndex lastId
      let sparse2 := setKey sparse1 id lastIndex
      let dense2 := dense1.set lastIndex id
      let dense3 := if index.versioning then dense2.set lastIndex (incrementVersion index id) else dense2
      { index with sparse := sparse2, dense := dense3, aliveCount := index.aliveCount - 1 }

/-- `isEntityIdAlive(index, id)`. -/
def isEntityIdAlive (index : EntityIndex) (id : Int) : Bool :=
  let entityId := getId index id
  match index.sparse entityId with
  | none => false
  | some denseIndex => decide (denseIndex < index.aliveCount) && (index.dense.get? denseIndex == some id)

/-! ### Call sequences on an entity index -/

/-- One call of the allocator interface. -/
inductive IndexOp where
  | alloc
  | release (id : Int)

/-- The index after one call. -/
def IndexOp.run (index : EntityIndex) : IndexOp → EntityIndex
  | .alloc => (addEntityId index).2
  | .release id => removeEntityId index id

/-- The index after a sequence of calls. -/
def runOps (index : EntityIndex) (ops : List IndexOp) : EntityIndex :=
  ops.foldl IndexOp.run index

/-- The ids handed out by `addEntityId` and not passed to `removeEntityId`
since, along a sequence of calls started with `live` outstanding. -/
def liveIds : EntityIndex → List Int → List IndexOp → List Int
  | _, live, [] => live
  | index, live, .alloc :: ops =>
    liveIds (addEntityId index).2 (live ++ [(addEntityId index).1]) ops
  | index, live, .release id :: ops =>
    liveIds (removeEntityId index id) (live.filter (fun x => decide (x ≠ id))) ops

/-- The guard of `removeEntityId` rejects `id`: the call returns at once. -/
def releaseRejected (index : EntityIndex) (id : Int) : Bool :=
  match index.sparse id with
  | none => true
  | some denseIndex => decide (denseIndex ≥ index.aliveCount)

/-- Every `removeEntityId` of the sequence is applied to an id that is
outstanding at that moment, or is rejected by the guard of `removeEntityId`
(a repeated release, an id never handed out). -/
def releasesLive : EntityIndex → List Int → List IndexOp → Bool
  | _, _, [] => true
  | index, live, .alloc :: ops =>
    releasesLive (addEntityId index).2 (live ++ [(addEntityId index).1]) ops
  | index, live, .release id :: ops =>
    (decide (id ∈ live) || releaseRejected index id) &&
      releasesLive (removeEntityId index id) (live.filter (fun x => decide (x ≠ id))) ops

/-! ### Invariant of the entity index -/

/-- The index carries the masks and shifts `createEntityIndex` derives from
`vb` version bits, `1 ≤ vb ≤ 31`. -/
def HasBits (ix : EntityIndex) (vb : Nat) : Prop :=
  1 ≤ vb ∧ vb ≤ 31 ∧ ix.versionBits = (vb : Int) ∧
    ix.entityMask = jsShl 1 ((32 - vb : Nat) : Int) - 1 ∧
    ix.versionShift = ((32 - vb : Nat) : Int)

/-- The entry `removeEntityId` leaves in the freed slot. -/
def releasedEntry (ix : EntityIndex) (x : Int) : Int :=
  if ix.versioning then incrementVersion ix x else x

/-- The invariant of the allocator along valid call sequences; `live` is the
list of ids handed out and not released since. -/
structure IndexInv (ix : EntityIndex) (live : List Int) : Prop where
  alive_le : ix.aliveCount ≤ ix.dense.length
  sparse_dense : ∀ p, p < ix.aliveCount → ix.sparse (ix.dense.getD p 0) = some p
  nodupId : ∀ i j, i < ix.dense.length → j < ix.dense.length →
    getId ix (ix.dense.getD i 0) = getId ix (ix.dense.getD j 0) → i = j
  range : ∀ i, i < ix.dense.length →
    1 ≤ getId ix (ix.dense.getD i 0) ∧ getId ix (ix.dense.getD i 0) ≤ ix.maxId
  live_iff : ∀ x, x ∈ live ↔ ∃ p, p < ix.aliveCount ∧ ix.dense.getD p 0 = x
  maxId_nonneg : 0 ≤ ix.maxId

/-! ## src/core/utils/SparseSet.ts -/

/-- The object built by `createSparseSet`: `dense` and the sparse table. -/
structure SparseSet where
  dense : List Int
  sparse : Int → Option Nat

/-- `createSparseSet()`. -/
def createSparseSet : SparseSet := { dense := [], sparse := fun _ => none }

/-- `has = (val) => dense[sparse[val]] === val`. -/
def SparseSet.has (s : SparseSet) (val : Int) : Bool :=
  match s.sparse val with
  | none => false
  | some i => s.dense.get? i == some val

/-- `add`: `if (has(val)) return; sparse[val] = dense.push(val) - 1`. -/
def SparseSet.add (s : SparseSet) (val : Int) : SparseSet :=
  if s.has val then s
  else { dense := s.dense ++ [val], sparse := setKey s.sparse val s.dense.length }

/-- `remove`: swap the last element of `dense` into the place of `val`. -/
def SparseSet.remove (s : SparseSet) (val : Int) : SparseSet :=
  if !s.has val then s
  else
    match s.sparse val, s.dense.getLast? with
    | some index, some swapped =>
      if swapped ≠ val then
        { dense := s.dense.dropLast.set index swapped, sparse := setKey s.sparse swapped index }
      else { dense := s.dense.dropLast, sparse := s.sparse }
    | _, _ => s

/-- `reset`: `dense.length = 0; sparse.length = 0`. Setting the length of an
array to zero deletes its array-index properties, the keys `0 .. 2^32 - 2`;
other keys (negative numbers) are ordinary properties and stay. -/
def SparseSet.reset (s : SparseSet) : SparseSet :=
  { dense := [], sparse := fun k => if 0 ≤ k ∧ k < 4294967295 then none else s.sparse k }

/-! ## Components, relations and query terms -/

/-- A relation (the function built by `createBaseRelation`): its identity and
the flags of its `$relationData`. The `onTargetRemoved` callback and the
store initialiser are caller code and are not part of the embedding. -/
structure Relation where
  id : Nat
  exclusiveRelation : Bool
  autoRemoveSubject : Bool
  deriving DecidableEq, Repr

/-- The global `Wildcard` relation. -/
def Wildcard : Relation := { id := 0, exclusiveRelation := false, autoRemoveSubject := false }

/-- The global `IsA` relation. -/
def IsA : Relation := { id := 1, exclusiveRelation := false, autoRemoveSubject := false }

/-- The target of a pair: an entity id (a number) or a relation; the wildcard
target is the relation `Wildcard` itself (`"*"` is normalised to it). -/
inductive Target where
  | eid (id : Int)
  | rel (r : Relation)
  deriving DecidableEq, Repr

/-- A component, by identity: a caller's component object without a key `component`, the
exported `Prefab`, a relation function passed where a component is expected, the pair
component `relation(target)` memoised in the relation's `pairsMap`, or a caller's object
that has a key `component` holding another object: the wrapper `set(component, data)`
returns one, and a component object can have a field of that name. -/
inductive Component where
  | plain (n : Nat)
  | prefab
  | fn (r : Relation)
  | pair (r : Relation) (t : Target)
  | keyed (n : Nat) (component : Component)
  deriving DecidableEq, Repr

/-- `"component" in componentOrSet ? componentOrSet.component : componentOrSet`, the first
statement of the `forEach` body of `addComponent`. -/
def Component.unwrap : Component → Component
  | .keyed _ component => component
  | c => c

/-- `Prefab`. -/
def Prefab : Component := Component.prefab

/-- `Pair = (relation, target) => relation(target)`. -/
def Pair (relation : Relation) (target : Target) : Component := Component.pair relation target

/-- `component[$isPairComponent]`. -/
def Component.isPairComponent : Component → Bool
  | .pair _ _ => true
  | _ => false

/-- `isRelation(target)` for a pair target. -/
def Target.isRelation : Target → Bool
  | .rel _ => true
  | .eid _ => false

/-- The `$opType` of an operator term. -/
inductive OpType where
  | Or
  | And
  | Not
  deriving DecidableEq, Repr

/-- A query term: a component, or `Or(...)`, `And(...)`, `Not(...)`. -/
inductive Term where
  | comp (c : Component)
  | op (type : OpType) (terms : List Component)
  deriving DecidableEq, Repr

/-! ## src/core/World.ts -/

/-- The value `registerComponent` stores in `componentMap`; `queries` holds
the positions of the query objects in `World.queryStore`. -/
structure ComponentData where
  id : Nat
  generationId : Nat
  bitflag : Nat
  queries : List Nat

/-- A query object: the sparse set of `registerQuery` with the fields
assigned onto it. A string is the list of its UTF-16 code units.
`addNotified` and `removeNotified` record the calls of
`addObservable.notify` and `removeObservable.notify`: the entity of each
call, in call order. -/
structure Query where
  sparseSet : SparseSet
  components : List Component
  notComponents : List Component
  orComponents : List Component
  allComponents : List Component
  masks : Nat → Option Nat
  notMasks : Nat → Option Nat
  orMasks : Nat → Option Nat
  hasMasks : Nat → Option Nat
  generations : List Nat
  toRemove : SparseSet
  addNotified : List Int
  removeNotified : List Int

/-- The `$internal` context of a world. Query objects live in `queryStore`
and the sets that hold them (`queries`, `notQueries`, `dirtyQueries`, the
hash map, `ComponentData.queries`) hold their positions, in insertion order. -/
structure World where
  entityIndex : EntityIndex
  entityMasks : List (Int → Option Nat)
  entityComponents : List (Int × List Component)
  bitflag : Nat
  componentMap : List (Component × ComponentData)
  componentCount : Nat
  queryStore : List Query
  queries : List Nat
  queriesHashMap : List (List Nat × Nat)
  notQueries : List Nat
  dirtyQueries : List Nat
  entitiesWithRelations : List Target

/-- `createWorld()`: `createBaseWorld` with the default entity index. -/
def createWorld : World :=
  { entityIndex := createEntityIndex false 8,
    entityMasks := [fun _ => none],
    entityComponents := [],
    bitflag := 1,
    componentMap := [],
    componentCount := 0,
    queryStore := [],
    queries := [],
    queriesHashMap := [],
    notQueries := [],
    dirtyQueries := [],
    entitiesWithRelations := [] }

/-- What a call can throw; `outOfFuel` is the embedding running out of
recursion budget, not a behaviour of the code. -/
inductive Err where
  | outOfFuel
  | noEntity
  | typeError
  deriving DecidableEq, Repr

/-- The result of a call that may throw: the value, or the error together
with the world as the throw left it. -/
abbrev Res (α : Type) := Except (Err × World) α

/-! ### Maps and sets in insertion order -/

/-- `map.get(key)`. -/
def mapGet {κ ν : Type} [DecidableEq κ] : List (κ × ν) → κ → Option ν
  | [], _ => none
  | (k, v) :: rest, key => if k = key then some v else mapGet rest key

/-- `map.set(key, value)`: an existing key keeps its place. -/
def mapSet {κ ν : Type} [DecidableEq κ] : List (κ × ν) → κ → ν → List (κ × ν)
  | [], key, value => [(key, value)]
  | (k, v) :: rest, key, value =>
    if k = key then (k, value) :: rest else (k, v) :: mapSet rest key value

/-- `map.delete(key)`. -/
def mapDelete {κ ν : Type} [DecidableEq κ] (m : List (κ × ν)) (key : κ) : List (κ × ν) :=
  m.filter (fun p => decide (p.1 ≠ key))

/-- `set.add(x)`. -/
def setAdd {κ : Type} [DecidableEq κ] (s : List κ) (x : κ) : List κ :=
  if x ∈ s then s else s ++ [x]

/-- `set.delete(x)`. -/
def setDelete {κ : Type} [DecidableEq κ] (s : List κ) (x : κ) : List κ :=
  s.filter (fun y => decide (y ≠ x))

/-- `getAllEntities`. -/
def getAllEntities (world : World) : List Int := world.entityComponents.map Prod.fst

/-- `entityExists`. -/
def entityExists (world : World) (eid : Int) : Bool := isEntityIdAlive world.entityIndex eid

/-! ## src/core/Component.ts: registration and presence -/

/-- `registerComponent(world, component)` for a component that is not null:
the stored data and the world afterwards. -/
def registerComponent (world : World) (component : Component) : ComponentData × World :=
  let data : ComponentData :=
    { id := world.componentCount,
      generationId := world.entityMasks.length - 1,
      bitflag := world.bitflag,
      queries := [] }
  let world1 := { world with
    componentCount := world.componentCount + 1,
    componentMap := mapSet world.componentMap component data,
    bitflag := world.bitflag * 2 }
  if world1.bitflag ≥ 2 ^ 31 then
    (data, { world1 with bitflag := 1, entityMasks := world1.entityMasks ++ [fun _ => none] })
  else (data, world1)

/-- `if (!ctx.componentMap.has(component)) registerComponent(world, component)`. -/
def ensureRegistered (world : World) (component : Component) : World :=
  match mapGet world.componentMap component with
  | some _ => world
  | none => (registerComponent world component).2

/-- The word `ctx.entityMasks[generationId][eid]`, `undefined` read as `0`
by the bit operators. -/
def maskWord (world : World) (generationId : Nat) (eid : Int) : Nat :=
  match world.entityMasks.get? generationId with
  | none => 0
  | some row => (row eid).getD 0

/-- `hasComponent(world, eid, component)`. -/
def hasComponent (world : World) (eid : Int) (component : Component) : Bool :=
  match mapGet world.componentMap component with
  | none => false
  | some registeredComponent =>
    let mask := maskWord world registeredComponent.generationId eid
    (mask &&& registeredComponent.bitflag) == registeredComponent.bitflag

/-- `ctx.entityMasks[generationId][eid] = value`. -/
def setMaskWord (world : World) (generationId : Nat) (eid : Int) (value : Nat) : World :=
  match world.entityMasks.get? generationId with
  | none => world
  | some row =>
    { world with entityMasks := world.entityMasks.set generationId (setKey row eid value) }

/-- `getEntityComponents(world, eid)`. -/
def getEntityComponents (world : World) (eid : Int) : Res (List Component) :=
  if !isEntityIdAlive world.entityIndex eid then .error (Err.noEntity, world)
  else
    match mapGet world.entityComponents eid with
    | none => .error (Err.typeError, world)
    | some components => .ok components

/-- The filter of `getRelationTargets`: the targets of the pairs of
`relation` that are neither `Wildcard` nor a relation. -/
def relationTargetsOf (components : List Component) (relation : Relation) : List Int :=
  components.filterMap (fun c =>
    match c with
    | .pair r (.eid t) => if r = relation then some t else none
    | _ => none)

/-- `getRelationTargets(world, eid, relation)`. -/
def getRelationTargets (world : World) (eid : Int) (relation : Relation) : Res (List Int) := do
  let components ← getEntityComponents world eid
  pure (relationTargetsOf components relation)

/-! ## src/core/Query.ts -/

/-- The query object at position `q` of the store. -/
def getQuery (world : World) (q : Nat) : Option Query := world.queryStore.get? q

/-- Write back the query object at position `q`. -/
def setQuery (world : World) (q : Nat) (query : Query) : World :=
  { world with queryStore := world.queryStore.set q query }

/-- `queryCheckEntity(world, query, eid)`. A mask that is `undefined` or `0`
is falsy and its test is skipped. -/
def queryCheckEntity (world : World) (query : Query) (eid : Int) : Bool :=
  query.generations.all (fun generationId =>
    let qMask := (query.masks generationId).getD 0
    let qNotMask := (query.notMasks generationId).getD 0
    let qOrMask := (query.orMasks generationId).getD 0
    let eMask := maskWord world generationId eid
    if qNotMask ≠ 0 ∧ (eMask &&& qNotMask) ≠ 0 then false
    else if qMask ≠ 0 ∧ (eMask &&& qMask) ≠ qMask then false
    else if qOrMask ≠ 0 ∧ (eMask &&& qOrMask) = 0 then false
    else true)

/-- `queryAddEntity(query, eid)`. -/
def queryAddEntity (query : Query) (eid : Int) : Query :=
  let query1 := { query with toRemove := query.toRemove.remove eid }
  let query2 := { query1 with addNotified := query1.addNotified ++ [eid] }
  { query2 with sparseSet := query2.sparseSet.add eid }

/-- `queryRemoveEntity(world, query, eid)` on the query at position `q`. -/
def queryRemoveEntity (world : World) (q : Nat) (eid : Int) : World :=
  match getQuery world q with
  | none => world
  | some query =>
    let has := query.sparseSet.has eid
    if !has || query.toRemove.has eid then world
    else
      let query1 := { query with toRemove := query.toRemove.add eid }
      let world1 := { world with dirtyQueries := setAdd world.dirtyQueries q }
      setQuery world1 q { query1 with removeNotified := query1.removeNotified ++ [eid] }

/-- `queryCommitRemovals(query)`. -/
def queryCommitRemovals (query : Query) : Query :=
  let removed := query.toRemove.dense.foldl (fun (s : SparseSet) eid => s.remove eid) query.sparseSet
  { query with sparseSet := removed, toRemove := query.toRemove.reset }

/-- `commitRemovals(world)`. -/
def commitRemovals (world : World) : World :=
  if world.dirtyQueries.length = 0 then world
  else
    let world1 := world.dirtyQueries.foldl (fun (w : World) q =>
      match getQuery w q with
      | none => w
      | some query => setQuery w q (queryCommitRemovals query)) world
    { world1 with dirtyQueries := [] }

/-- The decimal digits of a number, as code units. -/
def numberToString (n : Nat) : List Nat := (Nat.toDigits 10 n).map Char.toNat

/-- `list.join(sep)` on strings given as code units. -/
def joinStrings (sep : List Nat) : List (List Nat) → List Nat
  | [] => []
  | [s] => s
  | s :: rest => s ++ sep ++ joinStrings sep rest

/-- The default order of `Array.prototype.sort` on strings: code units,
lexicographically. -/
def stringLe : List Nat → List Nat → Bool
  | [], _ => true
  | _ :: _, [] => false
  | a :: as, b :: bs => if a < b then true else if b < a then false else stringLe as bs

/-- Insert into a sorted list. -/
def insertSorted {α : Type} (le : α → α → Bool) (x : α) : List α → List α
  | [] => [x]
  | y :: ys => if le x y then x :: y :: ys else y :: insertSorted le x ys

/-- `list.sort(le)`: the sorted arrangement of the list. -/
def sortBy {α : Type} (le : α → α → Bool) (l : List α) : List α :=
  l.foldr (insertSorted le) []

/-- Register every component of the list that the world does not know yet. -/
def ensureAllRegistered (world : World) (components : List Component) : World :=
  components.foldl ensureRegistered world

/-- `getComponentId` of `queryHash`, on a registered component. -/
def componentId (world : World) (component : Component) : Nat :=
  match mapGet world.componentMap component with
  | some data => data.id
  | none => 0

/-- `$opType.toLowerCase()`. -/
def OpType.lowerName : OpType → List Nat
  | .Or => [111, 114]
  | .And => [97, 110, 100]
  | .Not => [110, 111, 116]

/-- `termToString` of `queryHash`: the string of a term and the world after
the registrations it makes. -/
def termToString (world : World) : Term → List Nat × World
  | .comp c =>
    let world1 := ensureRegistered world c
    (numberToString (componentId world1 c), world1)
  | .op type terms =>
    let step := fun (acc : List Nat × World) (c : Component) =>
      let w := ensureRegistered acc.2 c
      (acc.1 ++ [componentId w c], w)
    let r := terms.foldl step ([], world)
    let sortedComponentIds := sortBy (fun a b => decide (a ≤ b)) r.1
    (type.lowerName ++ [40] ++ joinStrings [44] (sortedComponentIds.map numberToString) ++ [41], r.2)

/-- `queryHash(world, terms)`: the signature and the world after the
registrations it makes. -/
def queryHash (world : World) (terms : List Term) : List Nat × World :=
  let step := fun (acc : List (List Nat) × World) (t : Term) =>
    let r := termToString acc.2 t
    (acc.1 ++ [r.1], r.2)
  let r := terms.foldl step ([], world)
  (joinStrings [45] (sortBy stringLe r.1), r.2)

/-- `reduceBitflags` folded over the data of `components`. -/
def reduceBitflags (world : World) (components : List Component) : Nat → Option Nat :=
  components.foldl (fun (a : Nat → Option Nat) c =>
    match mapGet world.componentMap c with
    | none => a
    | some data =>
      fun g => if g = data.generationId then some ((a g).getD 0 ||| data.bitflag) else a g)
    (fun _ => none)

/-- `c.queries.add(query)` for the component `c`. -/
def addQueryToComponent (world : World) (q : Nat) (c : Component) : World :=
  match mapGet world.componentMap c with
  | none => world
  | some data =>
    let data1 := { data with queries := setAdd data.queries q }
    { world with componentMap := mapSet world.componentMap c data1 }

/-- `registerQuery(world, terms)` with the default options: the position of
the new query object and the world afterwards. An `And` term falls through
both branches of the term loop and contributes no component. -/
def registerQuery (world : World) (terms : List Term) : Nat × World :=
  let (hash, world1) := queryHash world terms
  let components := terms.foldl (fun (acc : List Component) t =>
    match t with
    | .comp c => acc ++ [c]
    | .op _ _ => acc) []
  let notComponents := terms.foldl (fun (acc : List Component) t =>
    match t with
    | .op .Not cs => acc ++ cs
    | _ => acc) []
  let orComponents := terms.foldl (fun (acc : List Component) t =>
    match t with
    | .op .Or cs => acc ++ cs
    | _ => acc) []
  let world2 := terms.foldl (fun (w : World) t =>
    match t with
    | .comp c => ensureRegistered w c
    | .op .Not cs => ensureAllRegistered w cs
    | .op .Or cs => ensureAllRegistered w cs
    | .op .And _ => w) world1
  let allComponents := components ++ notComponents ++ orComponents
  let generations := allComponents.foldl (fun (a : List Nat) c =>
    match mapGet world2.componentMap c with
    | none => a
    | some data => if data.generationId ∈ a then a else a ++ [data.generationId]) []
  let query2 : Query :=
    { sparseSet := createSparseSet,
      components := components,
      notComponents := notComponents,
      orComponents := orComponents,
      allComponents := allComponents,
      masks := reduceBitflags world2 components,
      notMasks := reduceBitflags world2 notComponents,
      orMasks := reduceBitflags world2 orComponents,
      hasMasks := reduceBitflags world2 allComponents,
      generations := generations,
      toRemove := createSparseSet,
      addNotified := [],
      removeNotified := [] }
  let q := world2.queryStore.length
  let world3 := { world2 with
    queryStore := world2.queryStore ++ [query2],
    queries := setAdd world2.queries q,
    queriesHashMap := mapSet world2.queriesHashMap hash q }
  let world4 := allComponents.foldl (fun w c => addQueryToComponent w q c) world3
  let world5 := if notComponents.length ≠ 0 then
      { world4 with notQueries := setAdd world4.notQueries q } else world4
  let seeded := (world5.entityIndex.dense.take world5.entityIndex.aliveCount).foldl
    (fun (query : Query) eid =>
      if hasComponent world5 eid Prefab then query
      else if queryCheckEntity world5 query eid then queryAddEntity query eid
      else query) query2
  (q, setQuery world5 q seeded)

/-- `innerQuery(world, terms)` with the default options: the position of
the query object, and the world. -/
def innerQueryObject (world : World) (terms : List Term) : Nat × World :=
  let (hash, world1) := queryHash world terms
  match mapGet world1.queriesHashMap hash with
  | some q => (q, world1)
  | none => registerQuery world1 terms

/-- `observe(world, onAdd(...terms), callback)` and
`observe(world, onRemove(...terms), callback)` up to the `subscribe` call:
the position of the query object whose observable the callback is
subscribed to. -/
def observe (world : World) (terms : List Term) : Nat × World :=
  innerQueryObject world terms

/-- `innerQuery(world, terms)`: the `dense` array of the query. -/
def innerQuery (world : World) (terms : List Term) : List Int × World :=
  let (q, world1) := innerQueryObject world terms
  (match getQuery world1 q with
   | some query => query.sparseSet.dense
   | none => [], world1)

/-- `query(world, terms)`. -/
def query (world : World) (terms : List Term) : List Int × World :=
  innerQuery (commitRemovals world) terms

/-- `removeQuery(world, terms)`. -/
def removeQuery (world : World) (terms : List Term) : World :=
  let (hash, world1) := queryHash world terms
  match mapGet world1.queriesHashMap hash with
  | some q =>
    { world1 with
      queries := setDelete world1.queries q,
      queriesHashMap := mapDelete world1.queriesHashMap hash }
  | none => world1

/-- The body of `queries.forEach(...)` in `addComponent` and
`removeComponent`, for the query at position `q`. -/
def updateQueryFor (world : World) (eid : Int) (q : Nat) : World :=
  match getQuery world q with
  | none => world
  | some query =>
    let query1 := { query with toRemove := query.toRemove.remove eid }
    let world1 := setQuery world q query1
    if queryCheckEntity world1 query1 eid then setQuery world1 q (queryAddEntity query1 eid)
    else queryRemoveEntity world1 q eid

/-! ## src/core/Component.ts and src/core/Entity.ts: mutation -/

/-- `ctx.entityComponents.get(eid).add(component)`. -/
def entityComponentsAdd (world : World) (eid : Int) (component : Component) : Res World :=
  match mapGet world.entityComponents eid with
  | none => .error (Err.typeError, world)
  | some components =>
    let components1 := setAdd components component
    .ok { world with entityComponents := mapSet world.entityComponents eid components1 }

/-- `ctx.entityComponents.get(eid).delete(component)`. -/
def entityComponentsDelete (world : World) (eid : Int) (component : Component) : Res World :=
  match mapGet world.entityComponents eid with
  | none => .error (Err.typeError, world)
  | some components =>
    let components1 := setDelete components component
    .ok { world with entityComponents := mapSet world.entityComponents eid components1 }

/-- The part of the `forEach` body of `addComponent` before the pair
branch: register, set the bit, update the queries of the component, record
the component. The flag is `false` when the entity already has the
component (the body returns there). -/
def attach (world : World) (eid : Int) (component : Component) : Res (World × Bool) :=
  let world1 := ensureRegistered world component
  if hasComponent world1 eid component then .ok (world1, false)
  else
    match mapGet world1.componentMap component with
    | none => .error (Err.typeError, world1)
    | some componentData =>
      let world2 := setMaskWord world1 componentData.generationId eid
        (maskWord world1 componentData.generationId eid ||| componentData.bitflag)
      let world3 :=
        if !hasComponent world2 eid Prefab then
          componentData.queries.foldl (fun w q => updateQueryFor w eid q) world2
        else world2
      (entityComponentsAdd world3 eid component).map (fun w => (w, true))

/-- The part of the `forEach` body of `removeComponent` before the pair
branch: clear the bit, update the queries of the component, drop the
component. `~bitflag` is the complement on 32 bits. -/
def detach (world : World) (eid : Int) (component : Component) : Res World :=
  match mapGet world.componentMap component with
  | none => .error (Err.typeError, world)
  | some componentNode =>
    let world1 := setMaskWord world componentNode.generationId eid
      (maskWord world componentNode.generationId eid &&& (4294967295 ^^^ componentNode.bitflag))
    let world2 := componentNode.queries.foldl (fun w q => updateQueryFor w eid q) world1
    entityComponentsDelete world2 eid component

mutual

/-- `removeComponent(world, eid, ...components)`. -/
def removeComponent : Nat → World → Int → List Component → Res World
  | 0, world, _, _ => .error (Err.outOfFuel, world)
  | fuel + 1, world, eid, components =>
    if !entityExists world eid then .error (Err.noEntity, world)
    else components.foldlM (fun w c => removeComponentEach fuel w eid c) world

/-- The `forEach` body of `removeComponent`. -/
def removeComponentEach : Nat → World → Int → Component → Res World
  | 0, world, _, _ => .error (Err.outOfFuel, world)
  | fuel + 1, world, eid, component =>
    if !hasComponent world eid component then .ok world
    else do
      let world1 ← detach world eid component
      match component with
      | .pair relation target =>
        let world2 ← removeComponent fuel world1 eid [Pair Wildcard target]
        let otherTargets ← getRelationTargets world2 eid relation
        if otherTargets.length = 0 then
          removeComponent fuel world2 eid [Pair relation (.rel Wildcard)]
        else pure world2
      | _ => pure world1

end

mutual

/-- `addComponent(world, eid, ...components)`, each argument a component or an object
with a key `component` (the `data` of a `set(component, data)` wrapper only feeds the
caller hooks of `setObservable`). -/
def addComponent : Nat → World → Int → List Component → Res World
  | 0, world, _, _ => .error (Err.outOfFuel, world)
  | fuel + 1, world, eid, components =>
    if !entityExists world eid then .error (Err.noEntity, world)
    else components.foldlM (fun w c => addComponentEach fuel w eid c) world

/-- The `forEach` body of `addComponent`. -/
def addComponentEach : Nat → World → Int → Component → Res World
  | 0, world, _, _ => .error (Err.outOfFuel, world)
  | fuel + 1, world, eid, componentOrSet => do
    let component := componentOrSet.unwrap
    let (world1, attached) ← attach world eid component
    if !attached then pure world1
    else
      match component with
      | .pair relation target =>
        let world2 ← addComponent fuel world1 eid [Pair relation (.rel Wildcard)]
        let world3 ← addComponent fuel world2 eid [Pair Wildcard target]
        let world4 ←
          match target with
          | .eid t => do
            let wa ← addComponent fuel world3 t [Pair Wildcard (.eid eid)]
            let wb ← addComponent fuel wa t [Pair Wildcard (.rel relation)]
            let withRelations := setAdd (setAdd wb.entitiesWithRelations target) (.eid eid)
            pure { wb with entitiesWithRelations := withRelations }
          | .rel _ => pure world3
        let world5 := { world4 with entitiesWithRelations := setAdd world4.entitiesWithRelations target }
        let world6 ←
          if relation.exclusiveRelation = true ∧ target ≠ .rel Wildcard then do
            let targets ← getRelationTargets world5 eid relation
            match targets.head? with
            | some oldTarget =>
              if Target.eid oldTarget ≠ target then
                removeComponent fuel world5 eid [Pair relation (.eid oldTarget)]
              else pure world5
            | none => pure world5
          else pure world5
        if relation = IsA then do
          let inheritedTargets ← getRelationTargets world6 eid IsA
          let r ← inheritedTargets.foldlM
            (fun (w : World) inherited => do
              let r ← recursivelyInherit fuel w eid inherited []
              pure r.1) world6
          pure r
        else pure world6
      | _ => pure world1

/-- `recursivelyInherit(ctx, world, baseEid, inheritedEid, visited)`: the
world and the `visited` set afterwards. -/
def recursivelyInherit : Nat → World → Int → Int → List Int → Res (World × List Int)
  | 0, world, _, _, _ => .error (Err.outOfFuel, world)
  | fuel + 1, world, baseEid, inheritedEid, visited =>
    if inheritedEid ∈ visited then .ok (world, visited)
    else do
      let visited1 := visited ++ [inheritedEid]
      let world1 ← addComponent fuel world baseEid [Pair IsA (.eid inheritedEid)]
      let components ← getEntityComponents world1 inheritedEid
      let world2 ← components.foldlM (fun (w : World) component =>
        if component = Prefab then pure w
        else if !hasComponent w baseEid component then addComponent fuel w baseEid [component]
        else pure w) world1
      let parents ← getRelationTargets world2 inheritedEid IsA
      parents.foldlM (fun (acc : World × List Int) parentEid =>
        recursivelyInherit fuel acc.1 baseEid parentEid acc.2) (world2, visited1)

end

/-- `addEntity(world)`: the new id and the world afterwards. -/
def addEntity (world : World) : Int × World :=
  let (eid, index1) := addEntityId world.entityIndex
  let world1 := { world with entityIndex := index1 }
  let world2 := world1.notQueries.foldl (fun (w : World) q =>
    match getQuery w q with
    | none => w
    | some query =>
      if queryCheckEntity w query eid then setQuery w q (queryAddEntity query eid) else w) world1
  (eid, { world2 with entityComponents := mapSet world2.entityComponents eid [] })

/-- `addPrefab(world)`. -/
def addPrefab (fuel : Nat) (world : World) : Res (Int × World) := do
  let (eid, world1) := addEntity world
  let world2 ← addComponent fuel world1 eid [Prefab]
  pure (eid, world2)

/-- The two inner loops of `removeEntity` over the holders of pairs that
target `currentEid`: the queued component removals `(subject, component)`
and the subjects pushed on the removal queue. -/
def collectRemovals (world : World) (currentEid : Int) (subjects : List Int) :
    Res (List (Int × Component) × List Int) :=
  subjects.foldlM (fun (acc : List (Int × Component) × List Int) subject =>
    if !entityExists world subject then pure acc
    else
      match mapGet world.entityComponents subject with
      | none => .error (Err.typeError, world)
      | some components =>
        pure (components.foldl (fun (acc : List (Int × Component) × List Int) component =>
          match component with
          | .pair relation target =>
            let acc1 := (acc.1 ++ [(subject, Pair Wildcard (.eid currentEid))], acc.2)
            if target = .eid currentEid then
              let acc2 := (acc1.1 ++ [(subject, component)], acc1.2)
              if relation.autoRemoveSubject then (acc2.1, acc2.2 ++ [subject]) else acc2
            else acc1
          | _ => acc) acc)) ([], [])

mutual

/-- `removeEntity(world, eid)`. -/
def removeEntity : Nat → World → Int → Res World
  | 0, world, _ => .error (Err.outOfFuel, world)
  | fuel + 1, world, eid =>
    if !isEntityIdAlive world.entityIndex eid then .ok world
    else removeEntityLoop fuel world [eid] []

/-- The `while (removalQueue.length > 0)` loop of `removeEntity`. -/
def removeEntityLoop : Nat → World → List Int → List Int → Res World
  | 0, world, _, _ => .error (Err.outOfFuel, world)
  | _ + 1, world, [], _ => .ok world
  | fuel + 1, world, currentEid :: removalQueue, processedEntities =>
    if currentEid ∈ processedEntities then
      removeEntityLoop fuel world removalQueue processedEntities
    else do
      let processed1 := processedEntities ++ [currentEid]
      let (componentRemovalQueue, pushed, world1) ←
        if Target.eid currentEid ∈ world.entitiesWithRelations then do
          let (subjects, w) := innerQuery world [Term.comp (Pair Wildcard (.eid currentEid))]
          let (ops, pushed) ← collectRemovals w currentEid subjects
          let withRelations := setDelete w.entitiesWithRelations (.eid currentEid)
          pure (ops, pushed, { w with entitiesWithRelations := withRelations })
        else pure ([], [], world)
      let removalQueue1 := removalQueue ++ pushed
      let world2 ← componentRemovalQueue.foldlM
        (fun (w : World) op => removeComponent fuel w op.1 [op.2]) world1
      let world3 ← removalQueue1.foldlM (fun (w : World) eid2 => removeEntity fuel w eid2) world2
      let world4 := world3.queries.foldl (fun w q => queryRemoveEntity w q currentEid) world3
      let world5 := { world4 with
        entityIndex := removeEntityId world4.entityIndex currentEid,
        entityComponents := mapDelete world4.entityComponents currentEid }
      let cleared := world5.entityMasks.map (fun row => setKey row currentEid 0)
      let world6 := { world5 with entityMasks := cleared }
      removeEntityLoop fuel world6 removalQueue1 processed1

end

/-! ## Invariants of the world -/

/-- The registry after `k` guarded registrations in a fresh world: the
cursor (`componentCount`, `bitflag`, number of mask words) and the data of
every registered component. -/
structure RegInv (w : World) (k : Nat) : Prop where
  count : w.componentCount = k
  flag : w.bitflag = 2 ^ (k % 31)
  words : w.entityMasks.length = k / 31 + 1
  data : ∀ c d, mapGet w.componentMap c = some d →
    d.id < k ∧ d.generationId = d.id / 31 ∧ d.bitflag = 2 ^ (d.id % 31)
  inj : ∀ c1 c2 d1 d2, mapGet w.componentMap c1 = some d1 → mapGet w.componentMap c2 = some d2 →
    d1.id = d2.id → c1 = c2


/-! ## src/core/utils/Observer.ts -/

/-- What a listener returns: an object, as its own properties in insertion
order, or a value for which `result && typeof result === "object"` is false. -/
inductive JsResult where
  | object (fields : List (Nat × Int))
  | other

/-- A listener function: `ident` stands for the identity of the function
object (the key of the `Set`), `run` for the value a call returns. -/
structure Listener where
  ident : Nat
  run : Int → JsResult

/-- The `observers` set of `createObservable`, in insertion order. -/
structure Observable where
  observers : List Listener

/-- `createObservable()`. -/
def createObservable : Observable := { observers := [] }

/-- `subscribe(observer)`: `observers.add(observer)`. -/
def Observable.subscribe (o : Observable) (observer : Listener) : Observable :=
  if observer.ident ∈ o.observers.map Listener.ident then o
  else { observers := o.observers ++ [observer] }

/-- The function `subscribe` returns: `observers.delete(observer)`. -/
def Observable.unsubscribe (o : Observable) (observer : Listener) : Observable :=
  { observers := o.observers.filter (fun l => decide (l.ident ≠ observer.ident)) }

/-- The object spread `{ ...acc, ...result }`. -/
def objectSpread (acc result : List (Nat × Int)) : List (Nat × Int) :=
  result.foldl (fun a p => mapSet a p.1 p.2) acc

/-- `notify(entity)`: the object the `reduce` returns, and the listeners
called, in call order. -/
def Observable.notify (o : Observable) (entity : Int) : List (Nat × Int) × List Nat :=
  o.observers.foldl (fun (state : List (Nat × Int) × List Nat) listener =>
    let result := listener.run entity
    (match result with
     | .object fields => objectSpread state.1 fields
     | .other => state.1, state.2 ++ [listener.ident])) ([], [])

/-- A call on an observable: `subscribe(l)`, or the handle `subscribe(l)` returned. -/
inductive ObsOp where
  | subscribe (l : Listener)
  | unsubscribe (l : Listener)

/-- The observable after a call. -/
def ObsOp.run (o : Observable) : ObsOp → Observable
  | .subscribe l => o.subscribe l
  | .unsubscribe l => o.unsubscribe l

/-- The observable after a sequence of calls. -/
def runObs (o : Observable) (ops : List ObsOp) : Observable := ops.foldl ObsOp.run o

/-- The value of property `key` in an object written as a property list: the
last entry for the key. -/
def objGet : List (Nat × Int) → Nat → Option Int
  | [], _ => none
  | (k, v) :: rest, key =>
    match objGet rest key with
    | some x => some x
    | none => if k = key then some v else none

/-- The key-wise merge of a list of return values: the value of `key` in the
last object that has the key. -/
def lastValue : List JsResult → Nat → Option Int
  | [], _ => none
  | r :: rest, key =>
    match lastValue rest key with
    | some x => some x
    | none =>
      match r with
      | .object fields => objGet fields key
      | .other => none

/-! ## Call sequences on a world -/

/-- One call of the mutation and query interface. -/
inductive Call where
  | addEntity
  | addPrefab
  | addComponent (eid : Int) (component : Component)
  | removeComponent (eid : Int) (component : Component)
  | removeEntity (eid : Int)
  | query (terms : List Term)
  | commitRemovals

/-- The world after one call; a throw ends the sequence. -/
def Call.run (fuel : Nat) (world : World) : Call → Res World
  | .addEntity => .ok (BitEcs.addEntity world).2
  | .addPrefab => (BitEcs.addPrefab fuel world).map Prod.snd
  | .addComponent eid component => BitEcs.addComponent fuel world eid [component]
  | .removeComponent eid component => BitEcs.removeComponent fuel world eid [component]
  | .removeEntity eid => BitEcs.removeEntity fuel world eid
  | .query terms => .ok (BitEcs.query world terms).2
  | .commitRemovals => .ok (BitEcs.commitRemovals world)

/-- The world after a sequence of calls on a fresh world. -/
def runCalls (fuel : Nat) (calls : List Call) : Res World :=
  calls.foldlM (Call.run fuel) createWorld

/-- What a throw leaves behind: the error and the world at the throw. -/
def thrown {α : Type} : Res α → Option (Err × World)
  | .error e => some e
  | .ok _ => none

/-! ### Relations and components of the examples -/

/-- A relation created with `autoRemoveSubject: true`. -/
def ChildOf : Relation := { id := 2, exclusiveRelation := false, autoRemoveSubject := true }

/-- A relation created with the default options. -/
def Likes : Relation := { id := 3, exclusiveRelation := false, autoRemoveSubject := false }

/-- A relation created with `exclusive: true`. -/
def Targeting : Relation := { id := 4, exclusiveRelation := true, autoRemoveSubject := false }

/-- The `n`-th plain component object of an example. -/
def comp (n : Nat) : Component := Component.plain n

/-- What is observed of entity `eid` in the query at position `q`: the flags
(1 for true) of being in the live set, of being queued in `toRemove` and of
satisfying the match predicate; the entities the add observable was notified
with; the entities the remove observable was notified with. -/
def memberState (world : World) (q : Nat) (eid : Int) : List (List Int) :=
  match getQuery world q with
  | none => []
  | some query =>
    [[if query.sparseSet.has eid then 1 else 0, if query.toRemove.has eid then 1 else 0,
        if queryCheckEntity world query eid then 1 else 0],
      query.addNotified, query.removeNotified]

/-! ## src/core/utils/SparseSet.ts: the buffer-backed set -/

/-- The state of the closure built by `createUint32SparseSet`: the `sparse`
array and its `length` property, the counter `length`, and the elements of
the typed array `dense` (its length is the capacity). -/
structure Uint32SparseSet where
  sparse : Int → Option Nat
  sparseLength : Nat
  length : Nat
  dense : List Int

/-- `createUint32SparseSet(initialCapacity)`. -/
def createUint32SparseSet (initialCapacity : Nat) : Uint32SparseSet :=
  { sparse := fun _ => none, sparseLength := 0, length := 0,
    dense := List.replicate initialCapacity 0 }

/-- The `length` of an array after the assignment `array[key] = value`:
the keys `0 .. 2^32 - 2` are array indices, other keys are plain properties. -/
def arrayLengthAfterSet (length : Nat) (key : Int) : Nat :=
  if 0 ≤ key ∧ key < 4294967295 then max length (key.toNat + 1) else length

/-- `has = (val) => val < sparse.length && sparse[val] < length && dense[sparse[val]] === val`. -/
def Uint32SparseSet.has (s : Uint32SparseSet) (val : Int) : Bool :=
  decide (val < (s.sparseLength : Int)) &&
    (match s.sparse val with
     | none => false
     | some i => decide (i < s.length) && (s.dense.get? i == some val))

/-- `add(val)`; the typed array keeps `ToUint32(val)` and ignores a write
past its end. -/
def Uint32SparseSet.add (s : Uint32SparseSet) (val : Int) : Uint32SparseSet :=
  if s.has val then s
  else
    let dense1 :=
      if s.length ≥ s.dense.length then s.dense ++ List.replicate s.dense.length 0 else s.dense
    let dense2 := dense1.set s.length ((toUint32 val : Nat) : Int)
    { sparse := setKey s.sparse val s.length,
      sparseLength := arrayLengthAfterSet s.sparseLength val,
      length := s.length + 1,
      dense := dense2 }

/-- `remove(val)`. Past the end of the typed array a read gives `undefined`,
which the typed array stores as `0`. -/
def Uint32SparseSet.remove (s : Uint32SparseSet) (val : Int) : Uint32SparseSet :=
  if !s.has val then s
  else
    let length1 := s.length - 1
    match s.sparse val with
    | none => s
    | some index =>
      match s.dense.get? length1 with
      | some swapped =>
        { sparse := setKey s.sparse swapped index,
          sparseLength := arrayLengthAfterSet s.sparseLength swapped,
          length := length1,
          dense := s.dense.set index swapped }
      | none => { s with length := length1, dense := s.dense.set index 0 }

/-- The getter `dense`: `new Uint32Array(dense.buffer, 0, length)`, for a set whose counter
`length` is within the capacity of the typed array. That is so along every call sequence
on a set created with a capacity of at least 1; on a set created with capacity 0 the first
`add` leaves `length = 1` above the capacity 0 and the getter of the source throws a
`RangeError`, which this list does not show. -/
def Uint32SparseSet.view (s : Uint32SparseSet) : List Int := s.dense.take s.length

/-! ### Call sequences on a sparse set -/

/-- A call on a sparse set. -/
inductive SetOp where
  | add (val : Int)
  | remove (val : Int)

/-- The value a call concerns. -/
def SetOp.val : SetOp → Int
  | .add v => v
  | .remove v => v

/-- A call on the set of `createSparseSet`. -/
def SetOp.run (s : SparseSet) : SetOp → SparseSet
  | .add v => s.add v
  | .remove v => s.remove v

/-- A call on the set of `createUint32SparseSet`. -/
def SetOp.runBuffered (s : Uint32SparseSet) : SetOp → Uint32SparseSet
  | .add v => s.add v
  | .remove v => s.remove v

/-- Whether the last call of the sequence that concerns `v` is `add(v)`,
`start` standing for the calls before the sequence. -/
def lastCallAdds (v : Int) (start : Bool) (ops : List SetOp) : Bool :=
  ops.foldl (fun m op =>
    match op with
    | .add x => if x = v then true else m
    | .remove x => if x = v then false else m) start

/-- Swap-removal on a list without repetition: the last element takes the
place of `v`. -/
def swapRemove (d : List Int) (v : Int) : List Int :=
  match d.getLast? with
  | none => d
  | some last =>
    if v ∈ d then
      if last = v then d.dropLast else d.dropLast.map (fun x => if x = v then last else x)
    else d

/-- The invariant of the set of `createSparseSet`. -/
def SparseInv (s : SparseSet) : Prop :=
  s.dense.Nodup ∧ ∀ i v, s.dense.get? i = some v → s.sparse v = some i

/-- The invariant of the set of `createUint32SparseSet` on values
`0 .. 2^32 - 2`. -/
def BufferedInv (s : Uint32SparseSet) : Prop :=
  1 ≤ s.dense.length ∧ s.length ≤ s.dense.length ∧ s.view.Nodup ∧
    (∀ i v, s.view.get? i = some v →
      s.sparse v = some i ∧ 0 ≤ v ∧ v < 4294967295 ∧ v < (s.sparseLength : Int)) ∧
    (∀ v, v < 0 → s.sparse v = none) ∧ s.sparseLength ≤ 4294967295

/-! ## src/serialization/SoASerializer.ts

Numbers are integers in the embedding. The byte formats of `setFloat32` /
`setFloat64` belong to the platform and are a parameter. A packet is the list
of its bytes; the preallocated buffer is taken to be large enough. -/

/-- The type tags of `typeSetters` and `typeGetters`. -/
inductive WireType where
  | u8
  | i8
  | u16
  | i16
  | u32
  | i32
  | f32
  | f64
  deriving DecidableEq, Repr

/-- The number of bytes a setter reports and a getter consumes. -/
def WireType.size : WireType → Nat
  | .u8 => 1
  | .i8 => 1
  | .u16 => 2
  | .i16 => 2
  | .u32 => 4
  | .i32 => 4
  | .f32 => 4
  | .f64 => 8

/-- The float formats of `DataView`: the bytes of a number and of `NaN`, and
the number of four and of eight bytes. -/
structure FloatFormat where
  encode32 : Int → List Nat
  decode32 : List Nat → Int
  nan32 : List Nat
  encode64 : Int → List Nat
  decode64 : List Nat → Int
  nan64 : List Nat

/-- The float formats write four and eight bytes. -/
def FloatFormat.Sized (fmt : FloatFormat) : Prop :=
  (∀ v, (fmt.encode32 v).length = 4) ∧ fmt.nan32.length = 4 ∧
  (∀ v, (fmt.encode64 v).length = 8) ∧ fmt.nan64.length = 8

/-- The `n` bytes of the low `8 * n` bits of `x`, most significant first. -/
def bytesBE : Nat → Int → List Nat
  | 0, _ => []
  | n + 1, x => ((x / 256 ^ n) % 256).toNat :: bytesBE n x

/-- The number whose big-endian bytes are given. -/
def readBE (bytes : List Nat) : Nat := bytes.foldl (fun acc b => acc * 256 + b) 0

/-- The bytes a setter of `typeSetters` writes for `value`; `undefined`
converts to `0` for the integer types and to `NaN` for the float types. -/
def encodeValue (fmt : FloatFormat) (type : WireType) (value : Option Int) : List Nat :=
  match type with
  | .f32 => match value with
    | some v => fmt.encode32 v
    | none => fmt.nan32
  | .f64 => match value with
    | some v => fmt.encode64 v
    | none => fmt.nan64
  | _ => bytesBE type.size (value.getD 0)

/-- The value a getter of `typeGetters` returns for the bytes of its type. -/
def decodeValue (fmt : FloatFormat) (type : WireType) (bytes : List Nat) : Int :=
  match type with
  | .u8 => readBE bytes
  | .u16 => readBE bytes
  | .u32 => readBE bytes
  | .i8 => if readBE bytes < 128 then readBE bytes else (readBE bytes : Int) - 256
  | .i16 => if readBE bytes < 32768 then readBE bytes else (readBE bytes : Int) - 65536
  | .i32 => if readBE bytes < 2147483648 then readBE bytes else (readBE bytes : Int) - 4294967296
  | .f32 => fmt.decode32 bytes
  | .f64 => fmt.decode64 bytes

/-- A read of `size` bytes at `offset` through a `DataView` on the packet;
`none` is the `RangeError` of a read past the end. -/
def readBytes (packet : List Nat) (offset size : Nat) : Option (List Nat) :=
  if offset + size ≤ packet.length then some ((packet.drop offset).take size) else none

/-- An array a serializer reads or writes (a typed array, or an array
branded by `u8(...)` .. `f64(...)`; an unbranded array counts as `f64`): its
type tag and its elements. -/
structure TypedStore where
  type : WireType
  values : Int → Option Int

/-- A component handed to the SoA serializers: one array, or an object whose
properties, in the order of `Object.keys`, are arrays. A property name is the
list of its code units. -/
inductive Store where
  | array (a : TypedStore)
  | struct (props : List (List Nat × TypedStore))

/-- The function `createComponentSerializer(component)` returns: the bytes
written for `index`. -/
def createComponentSerializer (fmt : FloatFormat) (component : Store) (index : Int) : List Nat :=
  match component with
  | .array a => encodeValue fmt .u32 (some index) ++ encodeValue fmt a.type (a.values index)
  | .struct props =>
    props.foldl (fun bytes p => bytes ++ encodeValue fmt p.2.type (p.2.values index))
      (encodeValue fmt .u32 (some index))

/-- The serializer `createSoASerializer(components)` returns: the packet for
`indices`. -/
def createSoASerializer (fmt : FloatFormat) (components : List Store) (indices : List Int) :
    List Nat :=
  indices.foldl (fun packet index =>
    components.foldl (fun packet component =>
      packet ++ createComponentSerializer fmt component index) packet) []

/-- `entityIdMapping ? entityIdMapping.get(originalIndex) ?? originalIndex : originalIndex`. -/
def mapIndex (entityIdMapping : Option (List (Int × Int))) (originalIndex : Int) : Int :=
  match entityIdMapping with
  | none => originalIndex
  | some mapping => (mapGet mapping originalIndex).getD originalIndex

/-- The loop over `props` of the deserializer of an object-shaped component:
the properties written so far, the properties left, the offset. -/
def readProps (fmt : FloatFormat) (packet : List Nat) (index : Int) :
    List (List Nat × TypedStore) → List (List Nat × TypedStore) → Nat →
    Option (List (List Nat × TypedStore) × Nat)
  | done, [], offset => some (done, offset)
  | done, p :: rest, offset =>
    match readBytes packet offset p.2.type.size with
    | none => none
    | some bytes =>
      let value := decodeValue fmt p.2.type bytes
      readProps fmt packet index
        (done ++ [(p.1, { p.2 with values := setKey p.2.values index value })]) rest
        (offset + p.2.type.size)

/-- The function `createComponentDeserializer(component)` returns: the
component after the write and the number of bytes read; `none` is a
`RangeError`. -/
def createComponentDeserializer (fmt : FloatFormat) (component : Store) (packet : List Nat)
    (offset : Nat) (entityIdMapping : Option (List (Int × Int))) : Option (Store × Nat) :=
  match readBytes packet offset 4 with
  | none => none
  | some indexBytes =>
    let originalIndex := decodeValue fmt .u32 indexBytes
    let index := mapIndex entityIdMapping originalIndex
    match component with
    | .array a =>
      match readBytes packet (offset + 4) a.type.size with
      | none => none
      | some bytes =>
        some (.array { a with values := setKey a.values index (decodeValue fmt a.type bytes) },
          4 + a.type.size)
    | .struct props =>
      match readProps fmt packet index [] props (offset + 4) with
      | none => none
      | some (props1, offset1) => some (.struct props1, offset1 - offset)

/-- The `for` loop over the component deserializers: the components read so
far, the components left, the offset. -/
def readComponents (fmt : FloatFormat) (packet : List Nat)
    (entityIdMapping : Option (List (Int × Int))) :
    List Store → List Store → Nat → Option (List Store × Nat)
  | done, [], offset => some (done, offset)
  | done, c :: rest, offset =>
    match createComponentDeserializer fmt c packet offset entityIdMapping with
    | none => none
    | some (c1, bytesRead) =>
      readComponents fmt packet entityIdMapping (done ++ [c1]) rest (offset + bytesRead)

/-- The deserializer `createSoADeserializer(components)` returns: the
components after reading the packet; `fuel` bounds the rounds of the `while`
loop. -/
def createSoADeserializer (fmt : FloatFormat) (packet : List Nat)
    (entityIdMapping : Option (List (Int × Int))) : Nat → List Store → Nat → Option (List Store)
  | 0, components, offset => if offset < packet.length then none else some components
  | fuel + 1, components, offset =>
    if offset < packet.length then
      match readComponents fmt packet entityIdMapping [] components offset with
      | none => none
      | some (components1, offset1) =>
        createSoADeserializer fmt packet entityIdMapping fuel components1 offset1
    else some components

/-! ## src/serialization/SnapshotSerializer.ts and ObserverSerializer.ts: relation data -/

/-- The `data` argument of `serializeRelationData`: a falsy value, an array
(`Array.isArray`), or an object whose properties, in the order of
`Object.keys`, are arrays. -/
inductive RelationStore where
  | absent
  | array (values : Int → Option Int)
  | struct (props : List (List Nat × TypedStore))

/-- `serializeRelationData(data, eid, dataView, offset)`: the bytes written
from `offset` on (the function returns `offset` plus their number). -/
def serializeRelationData (fmt : FloatFormat) (data : RelationStore) (eid : Int) : List Nat :=
  match data with
  | .absent => []
  | .array values =>
    match values eid with
    | some value => fmt.encode64 value
    | none => []
  | .struct props =>
    (sortBy stringLe (props.map Prod.fst)).foldl (fun bytes key =>
      match mapGet props key with
      | none => bytes
      | some arr =>
        match arr.values eid with
        | some value => bytes ++ encodeValue fmt arr.type (some value)
        | none => bytes) []

/-- The loop over the sorted keys of `deserializeRelationData`. -/
def readRelationProps (fmt : FloatFormat) (packet : List Nat) (eid : Int) :
    List (List Nat × TypedStore) → List (List Nat) → Nat →
    Option (List (List Nat × TypedStore) × Nat)
  | props, [], offset => some (props, offset)
  | props, key :: keys, offset =>
    match mapGet props key with
    | none => readRelationProps fmt packet eid props keys offset
    | some arr =>
      match readBytes packet offset arr.type.size with
      | none => none
      | some bytes =>
        let arr1 := { arr with values := setKey arr.values eid (decodeValue fmt arr.type bytes) }
        readRelationProps fmt packet eid (mapSet props key arr1) keys (offset + arr.type.size)

/-- `deserializeRelationData(data, eid, dataView, offset)`: the store after
the writes and the offset returned; `none` is a `RangeError`. -/
def deserializeRelationData (fmt : FloatFormat) (data : RelationStore) (eid : Int)
    (packet : List Nat) (offset : Nat) : Option (RelationStore × Nat) :=
  match data with
  | .absent => some (data, offset)
  | .array values =>
    match readBytes packet offset 8 with
    | none => none
    | some bytes => some (.array (setKey values eid (fmt.decode64 bytes)), offset + 8)
  | .struct props =>
    match readRelationProps fmt packet eid props (sortBy stringLe (props.map Prod.fst)) offset with
    | none => none
    | some (props1, offset1) => some (.struct props1, offset1)

/-- `serializeRelationData2`, the copy in ObserverSerializer.ts. -/
def serializeRelationData2 (fmt : FloatFormat) (data : RelationStore) (eid : Int) : List Nat :=
  match data with
  | .absent => []
  | .array values =>
    match values eid with
    | some value => fmt.encode64 value
    | none => []
  | .struct props =>
    (sortBy stringLe (props.map Prod.fst)).foldl (fun bytes key =>
      match mapGet props key with
      | none => bytes
      | some arr =>
        match arr.values eid with
        | some value => bytes ++ encodeValue fmt arr.type (some value)
        | none => bytes) []

/-- `deserializeRelationData2`, the copy in ObserverSerializer.ts. -/
def deserializeRelationData2 (fmt : FloatFormat) (data : RelationStore) (eid : Int)
    (packet : List Nat) (offset : Nat) : Option (RelationStore × Nat) :=
  match data with
  | .absent => some (data, offset)
  | .array values =>
    match readBytes packet offset 8 with
    | none => none
    | some bytes => some (.array (setKey values eid (fmt.decode64 bytes)), offset + 8)
  | .struct props =>
    match readRelationProps fmt packet eid props (sortBy stringLe (props.map Prod.fst)) offset with
    | none => none
    | some (props1, offset1) => some (.struct props1, offset1)

/-! ## src/serialization/ObserverSerializer.ts: the serializer -/

/-- The operation types of the observer packets. -/
inductive OperationType where
  | AddEntity
  | RemoveEntity
  | AddComponent
  | RemoveComponent
  | AddRelation
  | RemoveRelation
  deriving DecidableEq, Repr

/-- The number of an operation type. -/
def OperationType.code : OperationType → Nat
  | .AddEntity => 0
  | .RemoveEntity => 1
  | .AddComponent => 2
  | .RemoveComponent => 3
  | .AddRelation => 4
  | .RemoveRelation => 5

/-- An entry of `queue`: `[entityId, type, componentId, targetId, relationData]`,
the last two `undefined` where the entry is shorter. -/
structure QueueEntry where
  entityId : Int
  type : OperationType
  componentId : Int
  targetId : Option Int
  relationData : Option RelationStore

/-- The bytes the loop body of the function `createObserverSerializer`
returns writes for one entry of `queue`. -/
def writeQueueEntry (fmt : FloatFormat) (entry : QueueEntry) : List Nat :=
  let header := encodeValue fmt .u32 (some entry.entityId) ++
    encodeValue fmt .u8 (some (entry.type.code : Int))
  if entry.type = .AddComponent ∨ entry.type = .RemoveComponent ∨
      entry.type = .AddRelation ∨ entry.type = .RemoveRelation then
    let withComponent := header ++ encodeValue fmt .u8 (some entry.componentId)
    if entry.type = .AddRelation ∨ entry.type = .RemoveRelation then
      let withTarget := withComponent ++ encodeValue fmt .u32 entry.targetId
      match entry.type, entry.relationData with
      | .AddRelation, some (.array values) =>
        withTarget ++ serializeRelationData2 fmt (.array values) entry.entityId
      | .AddRelation, some (.struct props) =>
        withTarget ++ serializeRelationData2 fmt (.struct props) entry.entityId
      | _, _ => withTarget
    else withComponent
  else header

/-- The function `createObserverSerializer` returns: the packet for the
queued entries. -/
def flushQueue (fmt : FloatFormat) (queue : List QueueEntry) : List Nat :=
  queue.foldl (fun packet entry => packet ++ writeQueueEntry fmt entry) []

/-! ## src/serialization/ObserverSerializer.ts: the deserializer -/

/-- An entry of the `components` list of a serializer: a component object,
or a relation together with the stores of its pair components
`relation(target)`, by target. -/
inductive NetComponent where
  | plain (component : Component)
  | relation (relation : Relation) (store : Int → RelationStore)

/-- `isRelation(component)`. -/
def NetComponent.isRelation : NetComponent → Bool
  | .plain _ => false
  | .relation _ _ => true

/-- The component object itself, as `addComponent` receives it. -/
def NetComponent.component : NetComponent → Component
  | .plain c => c
  | .relation r _ => Component.fn r

/-- What a deserializer can throw: the `RangeError` of a read past the end of
the packet, a `TypeError`, an error of the world, or the embedding running
out of loop rounds. -/
inductive DecodeErr where
  | range
  | typeError
  | world (e : Err)
  | outOfFuel
  deriving DecidableEq, Repr

/-- What a deserializer works on: the world, the id mapping (packet id to
world id) and the components with their stores. -/
structure DecodeState where
  world : World
  mapping : List (Int × Int)
  components : List NetComponent

/-- A call into the world from a deserializer. -/
def liftWorld (r : Res World) : Except DecodeErr World :=
  match r with
  | .ok w => .ok w
  | .error e => .error (DecodeErr.world e.1)

/-- A read through the `DataView` of a deserializer. -/
def readValue (fmt : FloatFormat) (type : WireType) (packet : List Nat) (offset : Nat) :
    Except DecodeErr Int :=
  match readBytes packet offset type.size with
  | none => .error DecodeErr.range
  | some bytes => .ok (decodeValue fmt type bytes)

/-- The body of the `while` loop of the function `createObserverDeserializer`
returns: the state and the offset after one record. `fuel` is the recursion
budget of the calls into the world. -/
def readObserverRecord (fmt : FloatFormat) (fuel : Nat) (networkedTag : Component)
    (packet : List Nat) (state : DecodeState) (offset0 : Nat) :
    Except DecodeErr (DecodeState × Nat) := do
  let packetEntityId ← readValue fmt .u32 packet offset0
  let offset1 := offset0 + 4
  let operationType ← readValue fmt .u8 packet offset1
  let offset2 := offset1 + 1
  let hasComponentId := operationType = 2 ∨ operationType = 3 ∨ operationType = 4 ∨ operationType = 5
  let hasTargetId := operationType = 4 ∨ operationType = 5
  let componentId ← if hasComponentId then readValue fmt .u8 packet offset2 else pure (-1)
  let offset3 := if hasComponentId then offset2 + 1 else offset2
  let targetId ← if hasTargetId then readValue fmt .u32 packet offset3 else pure (-1)
  let offset := if hasTargetId then offset3 + 4 else offset3
  let component := if componentId < 0 then none else state.components.get? componentId.toNat
  let worldEntityId := mapGet state.mapping packetEntityId
  if operationType = 0 then
    match worldEntityId with
    | none =>
      let (eid, world1) := addEntity state.world
      let mapping1 := mapSet state.mapping packetEntityId eid
      let world2 ← liftWorld (addComponent fuel world1 eid [networkedTag])
      pure ({ state with world := world2, mapping := mapping1 }, offset)
    | some _ => pure (state, offset)
  else
    match worldEntityId with
    | none => pure (state, offset)
    | some eid =>
      if !entityExists state.world eid then pure (state, offset)
      else if operationType = 1 then do
        let world1 ← liftWorld (removeEntity fuel state.world eid)
        pure ({ state with world := world1, mapping := mapDelete state.mapping packetEntityId },
          offset)
      else if operationType = 2 then
        match component with
        | none => .error DecodeErr.typeError
        | some c => do
          let world1 ← liftWorld (addComponent fuel state.world eid [c.component])
          pure ({ state with world := world1 }, offset)
      else if operationType = 3 then
        match component with
        | none => pure (state, offset)
        | some c => do
          let world1 ← liftWorld (removeComponent fuel state.world eid [c.component])
          pure ({ state with world := world1 }, offset)
      else if operationType = 4 then
        match mapGet state.mapping targetId with
        | none => pure (state, offset)
        | some worldTargetId =>
          match component with
          | some (.relation r store) => do
            let world1 ← liftWorld
              (addComponent fuel state.world eid [Pair r (.eid worldTargetId)])
            match deserializeRelationData2 fmt (store worldTargetId) eid packet offset with
            | none => .error DecodeErr.range
            | some (data1, offset4) =>
              let store1 := fun t => if t = worldTargetId then data1 else store t
              pure ({ state with
                world := world1,
                components := state.components.set componentId.toNat (.relation r store1) },
                offset4)
          | _ => .error DecodeErr.typeError
      else if operationType = 5 then
        match mapGet state.mapping targetId with
        | none => pure (state, offset)
        | some worldTargetId =>
          match component with
          | some (.relation r _) => do
            let world1 ← liftWorld
              (removeComponent fuel state.world eid [Pair r (.eid worldTargetId)])
            pure ({ state with world := world1 }, offset)
          | _ => .error DecodeErr.typeError
      else pure (state, offset)

/-- The function `createObserverDeserializer` returns, applied to a packet:
the state after the `while (offset < packet.byteLength)` loop; `rounds`
bounds the rounds of the loop. -/
def createObserverDeserializer (fmt : FloatFormat) (fuel : Nat) (networkedTag : Component)
    (packet : List Nat) : Nat → DecodeState → Nat → Except DecodeErr DecodeState
  | 0, state, offset => if offset < packet.length then .error DecodeErr.outOfFuel else .ok state
  | rounds + 1, state, offset =>
    if offset < packet.length then
      match readObserverRecord fmt fuel networkedTag packet state offset with
      | .error e => .error e
      | .ok (state1, offset1) =>
        createObserverDeserializer fmt fuel networkedTag packet rounds state1 offset1
    else .ok state

/-! ### Inputs of the codec examples -/

/-- A stand-in float format for the examples: a float value is written as a big-endian
integer and a missing one as zero bytes, which is not the IEEE 754 encoding of the
platform `DataView`. The examples that use it state lengths of packets and outcomes of
decoding only, which depend on the byte widths, not on the bytes of a float. -/
def plainFloats : FloatFormat :=
  { encode32 := fun v => bytesBE 4 v, decode32 := fun bytes => readBE bytes, nan32 := [0, 0, 0, 0],
    encode64 := fun v => bytesBE 8 v, decode64 := fun bytes => readBE bytes,
    nan64 := [0, 0, 0, 0, 0, 0, 0, 0] }

/-- What is observed of a decoding: the outcome (0 for a return, 1 for a
`RangeError`, 2 for another throw), the entities of the world and the id
mapping. -/
def decodeOutcome (r : Except DecodeErr DecodeState) : Nat × List Int × List (Int × Int) :=
  match r with
  | .ok state => (0, getAllEntities state.world, state.mapping)
  | .error DecodeErr.range => (1, [], [])
  | .error _ => (2, [], [])

/-! ## The elementary mutations of the component calls -/

/-- One elementary mutation made by `addComponent` and `removeComponent`:
the `forEach` body up to the pair branch, on an entity that exists, or an
update of `entitiesWithRelations`. -/
inductive Prim : World → World → Prop where
  | attach (w : World) (eid : Int) (c : Component) (w1 : World) (b : Bool) :
      entityExists w eid = true → attach w eid c = .ok (w1, b) → Prim w w1
  | detach (w : World) (eid : Int) (c : Component) (w1 : World) :
      entityExists w eid = true → hasComponent w eid c = true → detach w eid c = .ok w1 →
      Prim w w1
  | relations (w : World) (s : List Target) : Prim w { w with entitiesWithRelations := s }

/-- A world reached through elementary mutations. -/
inductive Reach : World → World → Prop where
  | refl (w : World) : Reach w w
  | step (w w1 w2 : World) : Reach w w1 → Prim w1 w2 → Reach w w2

/-- The last statements of the loop body of `removeEntity`: the id leaves
the index, its component set is deleted and its mask words are set to 0. -/
def eraseEntity (w : World) (eid : Int) : World :=
  { w with
    entityIndex := removeEntityId w.entityIndex eid,
    entityComponents := mapDelete w.entityComponents eid,
    entityMasks := w.entityMasks.map (fun row => setKey row eid 0) }

/-! ## Invariants of a world -/

/-- The ids that are alive in an index: the first `aliveCount` entries of `dense`. -/
def aliveIds (ix : EntityIndex) : List Int := ix.dense.take ix.aliveCount

/-- The invariant of the entity index of a world (versioning off, eight
version bits): `sparse` and `dense` are inverse to each other on every slot,
alive or free. -/
def IndexPlain (ix : EntityIndex) : Prop :=
  ix.versioning = false ∧ HasBits ix 8 ∧ ix.aliveCount ≤ ix.dense.length ∧
  (∀ p v, ix.dense[p]? = some v → ix.sparse v = some p ∧ 1 ≤ v ∧ v ≤ ix.maxId) ∧
  (∀ v p, ix.sparse v = some p → ix.dense[p]? = some v) ∧ 0 ≤ ix.maxId

/-- The part of the data of a component that places it in the masks. -/
def ComponentData.layout (d : ComponentData) : Nat × Nat × Nat := (d.id, d.generationId, d.bitflag)

/-- Two worlds with the same entities, masks, component sets and registry
(up to the query sets of the components). -/
def SameCore (a b : World) : Prop :=
  a.entityIndex = b.entityIndex ∧ a.entityMasks = b.entityMasks ∧
  a.entityComponents = b.entityComponents ∧ a.bitflag = b.bitflag ∧
  a.componentCount = b.componentCount ∧
  ∀ c, (mapGet a.componentMap c).map ComponentData.layout
    = (mapGet b.componentMap c).map ComponentData.layout

/-- The invariant of a world: the index is well formed and below its
capacity, the registry has the layout of `RegInv`, the keys of
`entityComponents` are the entities that exist, every member of a component
set has its bit set, and every bit that is set belongs to a member of the
component set. -/
structure WorldInv (w : World) : Prop where
  index : IndexPlain w.entityIndex
  cap : w.entityIndex.maxId < 16777216
  reg : RegInv w w.componentCount
  keys : ∀ e, (∃ cs, mapGet w.entityComponents e = some cs) ↔ entityExists w e = true
  sets : ∀ e cs, mapGet w.entityComponents e = some cs →
    cs.Nodup ∧ ∀ c, c ∈ cs → hasComponent w e c = true
  bits : ∀ e g k, (maskWord w g e).testBit k = true →
    ∃ c d cs, mapGet w.componentMap c = some d ∧ d.generationId = g ∧ d.id % 31 = k ∧
      mapGet w.entityComponents e = some cs ∧ c ∈ cs

/-- One step of a call of the interface: an elementary mutation of the
component calls, a registration, a change outside the entities, masks,
component sets and registry layout, the erasure of an entity, or `addEntity`. -/
inductive Step : World → World → Prop where
  | prim (a b : World) : Prim a b → Step a b
  | register (a : World) (c : Component) : Step a (ensureRegistered a c)
  | same (a b : World) : SameCore a b → Step a b
  | erase (a : World) (eid : Int) : Step a (eraseEntity a eid)
  | spawn (a : World) : Step a (addEntity a).2

/-- A world reached through steps. -/
inductive Run : World → World → Prop where
  | refl (w : World) : Run w w
  | step (w w1 w2 : World) : Run w w1 → Step w1 w2 → Run w w2

/-! ## Outcome of a call sequence -/

/-- The world a call sequence leaves: the world returned, or the world at the throw. -/
def finalWorld : Res World → World
  | .ok w => w
  | .error e => e.2

/-- The calls ended without a throw. -/
def returns : Res World → Bool
  | .ok _ => true
  | .error _ => false

/-! ## Signatures of query terms -/

/-- The components a term names. -/
def Term.componentsOf : Term → List Component
  | .comp c => [c]
  | .op _ cs => cs

/-- The string `termToString` builds for a term whose components are all
registered: no registration takes place. -/
def termSignature (world : World) : Term → List Nat
  | .comp c => numberToString (componentId world c)
  | .op type cs =>
    type.lowerName ++ [40] ++
      joinStrings [44]
        ((sortBy (fun a b => decide (a ≤ b)) (cs.map (componentId world))).map numberToString)
      ++ [41]

/-- Two terms that differ only in the order of the components of an operator term. -/
inductive TermPerm : Term → Term → Prop where
  | comp (c : Component) : TermPerm (.comp c) (.comp c)
  | op (type : OpType) (cs cs2 : List Component) : cs.Perm cs2 → TermPerm (.op type cs) (.op type cs2)

/-- Two term lists that differ only in ordering: the order of the terms and
the order of the components inside each operator term. -/
def TermsPerm (terms terms2 : List Term) : Prop :=
  ∃ mid, List.Forall₂ TermPerm terms mid ∧ mid.Perm terms2

/-- The component is registered in the world. -/
def Registered (w : World) (c : Component) : Prop := ∃ d, mapGet w.componentMap c = some d

/-- Every component registered in `a` is registered in `b` under the same id. -/
def IdExt (a b : World) : Prop :=
  ∀ c d, mapGet a.componentMap c = some d → ∃ d2, mapGet b.componentMap c = some d2 ∧ d2.id = d.id

/-! ## Steps of the interface, with the queries -/

/-- One step of a call of the interface, the steps on queries spelled out: an
elementary mutation of the component calls, a registration, `registerQuery`,
`commitRemovals`, the end of the loop body of `removeEntity` (the entity is
queued for removal in every query, then erased), or `addEntity`. -/
inductive QStep : World → World → Prop where
  | prim (a b : World) : Prim a b → QStep a b
  | register (a : World) (c : Component) : QStep a (ensureRegistered a c)
  | newQuery (a : World) (terms : List Term) : QStep a (registerQuery a terms).2
  | commit (a : World) : QStep a (commitRemovals a)
  | remove (a : World) (eid : Int) :
      QStep a (eraseEntity (a.queries.foldl (fun w q => queryRemoveEntity w q eid) a) eid)
  | spawn (a : World) : QStep a (addEntity a).2

/-- A world reached through such steps. -/
inductive QRun : World → World → Prop where
  | refl (w : World) : QRun w w
  | step (w w1 w2 : World) : QRun w w1 → QStep w1 w2 → QRun w w2

/-- The two sparse sets of a query are well formed and every entity queued in
`toRemove` is still in the live set. -/
def QueryOk (query : Query) : Prop :=
  SparseInv query.sparseSet ∧ SparseInv query.toRemove ∧
    ∀ e, e ∈ query.toRemove.dense → e ∈ query.sparseSet.dense

/-- The invariant of the query objects of a world: each is well formed, and
each query with a queued removal is in `dirtyQueries`. -/
def QuerySetsInv (w : World) : Prop :=
  ∀ q query, getQuery w q = some query →
    QueryOk query ∧ (query.toRemove.dense ≠ [] → q ∈ w.dirtyQueries)

/-- The query `after` is `before` with its queued removals carried out: the
live set lost exactly the entities queued in `toRemove`, and `toRemove` is empty. -/
def Committed (before after : Query) : Prop :=
  (∀ e, e ∈ after.sparseSet.dense ↔ (e ∈ before.sparseSet.dense ∧ e ∉ before.toRemove.dense)) ∧
  (∀ e, after.sparseSet.has e = true ↔
    (before.sparseSet.has e = true ∧ before.toRemove.has e = false)) ∧
  after.toRemove.dense = [] ∧ (∀ e, after.toRemove.has e = false)

/-! ## src/serialization/SnapshotSerializer.ts: the snapshot codec -/

/-- An entry of the `components` list of the snapshot codec: a component
object (its identity in the world and the arrays it is made of), or a
relation together with the stores of its pair components `relation(target)`,
by target. -/
inductive SnapComponent where
  | plain (component : Component) (store : Store)
  | relation (relation : Relation) (store : Int → RelationStore)

/-- What the SoA serializers see of an entry: the arrays of a component; a
relation function has no enumerable property. -/
def SnapComponent.soaStore : SnapComponent → Store
  | .plain _ store => store
  | .relation _ _ => .struct []

/-- The loop over `components` of `serializeEntityComponentRelationships`
for one entity: the bytes written after the count byte and the count. -/
def snapshotEntityBody (fmt : FloatFormat) (world : World) (entityId : Int) :
    List SnapComponent → Nat → List Nat × Nat → Res (List Nat × Nat)
  | [], _, acc => .ok acc
  | .relation r store :: rest, j, acc => do
    let targets ← getRelationTargets world entityId r
    let acc1 := targets.foldl (fun (a : List Nat × Nat) target =>
      (a.1 ++ encodeValue fmt .u8 (some (j : Int)) ++ encodeValue fmt .u32 (some target) ++
        serializeRelationData fmt (store target) entityId, a.2 + 1)) acc
    snapshotEntityBody fmt world entityId rest (j + 1) acc1
  | .plain c _ :: rest, j, acc =>
    if hasComponent world entityId c then
      snapshotEntityBody fmt world entityId rest (j + 1)
        (acc.1 ++ encodeValue fmt .u8 (some (j : Int)), acc.2 + 1)
    else snapshotEntityBody fmt world entityId rest (j + 1) acc

/-- The function `createSnapshotSerializer` returns: the packet. -/
def createSnapshotSerializer (fmt : FloatFormat) (world : World)
    (components : List SnapComponent) : Res (List Nat) := do
  let entities := getAllEntities world
  let header := encodeValue fmt .u32 (some (entities.length : Int))
  let records ← entities.foldlM (fun (packet : List Nat) entityId => do
    let body ← snapshotEntityBody fmt world entityId components 0 ([], 0)
    pure (packet ++ encodeValue fmt .u32 (some entityId) ++
      encodeValue fmt .u8 (some (body.2 : Int)) ++ body.1)) header
  pure (records ++ createSoASerializer fmt (components.map SnapComponent.soaStore) entities)

/-- What the snapshot deserializer works on. -/
structure SnapState where
  world : World
  mapping : List (Int × Int)
  components : List SnapComponent

/-- `currentMapping.get(id)`, with `addEntity` and `currentMapping.set` when
the id is not mapped yet. -/
def mapOrCreate (state : SnapState) (packetId : Int) : Int × SnapState :=
  match mapGet state.mapping packetId with
  | some worldId => (worldId, state)
  | none =>
    let (eid, world1) := addEntity state.world
    (eid, { state with world := world1, mapping := mapSet state.mapping packetId eid })

/-- The loop `for (let i = 0; i < componentCount; i++)` of the snapshot
deserializer. -/
def readSnapshotComponents (fmt : FloatFormat) (fuel : Nat) (packet : List Nat)
    (worldEntityId : Int) : Nat → SnapState → Nat → Except DecodeErr (SnapState × Nat)
  | 0, state, offset => .ok (state, offset)
  | count + 1, state, offset0 => do
    let componentIndex ← readValue fmt .u8 packet offset0
    let offset1 := offset0 + 1
    match state.components.get? componentIndex.toNat with
    | none => .error DecodeErr.typeError
    | some (.relation r store) =>
      let targetId ← readValue fmt .u32 packet offset1
      let offset2 := offset1 + 4
      let (worldTargetId, state1) := mapOrCreate state targetId
      let world1 ← liftWorld
        (addComponent fuel state1.world worldEntityId [Pair r (.eid worldTargetId)])
      match deserializeRelationData fmt (store worldTargetId) worldEntityId packet offset2 with
      | none => .error DecodeErr.range
      | some (data1, offset3) =>
        let store1 := fun t => if t = worldTargetId then data1 else store t
        readSnapshotComponents fmt fuel packet worldEntityId count
          { state1 with
            world := world1,
            components := state1.components.set componentIndex.toNat (.relation r store1) }
          offset3
    | some (.plain c _) =>
      let world1 ← liftWorld (addComponent fuel state.world worldEntityId [c])
      readSnapshotComponents fmt fuel packet worldEntityId count { state with world := world1 }
        offset1

/-- The loop over the entity records of the snapshot deserializer. -/
def readSnapshotEntities (fmt : FloatFormat) (fuel : Nat) (packet : List Nat) :
    Nat → SnapState → Nat → Except DecodeErr (SnapState × Nat)
  | 0, state, offset => .ok (state, offset)
  | entityCount + 1, state, offset0 => do
    let packetEntityId ← readValue fmt .u32 packet offset0
    let offset1 := offset0 + 4
    let (worldEntityId, state1) := mapOrCreate state packetEntityId
    let componentCount ← readValue fmt .u8 packet offset1
    let offset2 := offset1 + 1
    let (state2, offset3) ←
      readSnapshotComponents fmt fuel packet worldEntityId componentCount.toNat state1 offset2
    readSnapshotEntities fmt fuel packet entityCount state2 offset3

/-- Write the stores the SoA deserializer returns back into the entries. -/
def withSoaStores : List SnapComponent → List Store → List SnapComponent
  | .plain c _ :: rest, s :: stores => .plain c s :: withSoaStores rest stores
  | .relation r store :: rest, _ :: stores => .relation r store :: withSoaStores rest stores
  | components, _ => components

/-- The function `createSnapshotDeserializer` returns, applied to a packet;
`rounds` bounds the `while` loop of the SoA deserializer. -/
def createSnapshotDeserializer (fmt : FloatFormat) (fuel rounds : Nat) (packet : List Nat)
    (state : SnapState) : Except DecodeErr SnapState := do
  let entityCount ← readValue fmt .u32 packet 0
  let (state1, offset) ← readSnapshotEntities fmt fuel packet entityCount.toNat state 4
  match createSoADeserializer fmt (packet.drop offset) (some state1.mapping) rounds
      (state1.components.map SnapComponent.soaStore) 0 with
  | none => .error DecodeErr.range
  | some stores => pure { state1 with components := withSoaStores state1.components stores }

/-- What is observed of a snapshot decoding: the outcome (0 for a return, 1
for a `RangeError`, 2 for another throw), and on a return the entities of the
world and the id mapping. -/
def snapshotOutcome (r : Except DecodeErr SnapState) : Nat × List Int × List (Int × Int) :=
  match r with
  | .ok state => (0, getAllEntities state.world, state.mapping)
  | .error DecodeErr.range => (1, [], [])
  | .error _ => (2, [], [])

/-- The bytes of a packet, `[]` when the serializer throws. -/
def packetBytes (r : Res (List Nat)) : List Nat :=
  match r with
  | .ok bytes => bytes
  | .error _ => []

/-! ## Stores in a round trip -/

/-- The value survives its wire type: an integer of the type's range, or a
number that the platform's float format keeps. -/
def Representable (fmt : FloatFormat) : WireType → Int → Prop
  | .u8, v => 0 ≤ v ∧ v < 256
  | .i8, v => -128 ≤ v ∧ v < 128
  | .u16, v => 0 ≤ v ∧ v < 65536
  | .i16, v => -32768 ≤ v ∧ v < 32768
  | .u32, v => 0 ≤ v ∧ v < 4294967296
  | .i32, v => -2147483648 ≤ v ∧ v < 2147483648
  | .f32, v => (fmt.encode32 v).length = 4 ∧ fmt.decode32 (fmt.encode32 v) = v
  | .f64, v => (fmt.encode64 v).length = 8 ∧ fmt.decode64 (fmt.encode64 v) = v

/-- The arrays of a component, in the order the serializers visit them. -/
def Store.fields : Store → List TypedStore
  | .array a => [a]
  | .struct props => props.map Prod.snd

/-- The values a component stores for `index`, field by field. -/
def Store.valuesAt (s : Store) (index : Int) : List (Option Int) :=
  s.fields.map (fun a => a.values index)

/-- Every field of the component holds, for `index`, a value that is
representable in the field's wire type. -/
def Store.HoldsAt (fmt : FloatFormat) (s : Store) (index : Int) : Prop :=
  ∀ a, a ∈ s.fields → ∃ v, a.values index = some v ∧ Representable fmt a.type v

/-- A fresh store of the same shape: the same arrays, with no element set. -/
def Store.fresh : Store → Store
  | .array a => .array { a with values := fun _ => none }
  | .struct props => .struct (props.map (fun p => (p.1, { p.2 with values := fun _ => none })))

/-- Two components of the same shape: both one array or both an object, with
the same wire types in the same order. -/
def SameShape : Store → Store → Prop
  | .array a, .array b => a.type = b.type
  | .struct ps, .struct qs => ps.map (fun p => p.2.type) = qs.map (fun p => p.2.type)
  | _, _ => False

/-! ## The removal queues of `removeEntity` -/

mutual

/-- `removeEntity(world, eid)` together with the entities its removal queues hand out:
every id shifted off the `removalQueue` of this call or of a nested call, in the order
of the shifts. -/
def removeEntityLog : Nat → World → Int → Res (World × List Int)
  | 0, world, _ => .error (Err.outOfFuel, world)
  | fuel + 1, world, eid =>
    if !isEntityIdAlive world.entityIndex eid then .ok (world, [])
    else removeEntityLoopLog fuel world [eid] []

/-- The `while (removalQueue.length > 0)` loop of `removeEntity`, with the ids shifted
off the queues. -/
def removeEntityLoopLog : Nat → World → List Int → List Int → Res (World × List Int)
  | 0, world, _, _ => .error (Err.outOfFuel, world)
  | _ + 1, world, [], _ => .ok (world, [])
  | fuel + 1, world, currentEid :: removalQueue, processedEntities =>
    if currentEid ∈ processedEntities then do
      let r ← removeEntityLoopLog fuel world removalQueue processedEntities
      pure (r.1, currentEid :: r.2)
    else do
      let processed1 := processedEntities ++ [currentEid]
      let (componentRemovalQueue, pushed, world1) ←
        if Target.eid currentEid ∈ world.entitiesWithRelations then do
          let (subjects, w) := innerQuery world [Term.comp (Pair Wildcard (.eid currentEid))]
          let (ops, pushed) ← collectRemovals w currentEid subjects
          let withRelations := setDelete w.entitiesWithRelations (.eid currentEid)
          pure (ops, pushed, { w with entitiesWithRelations := withRelations })
        else pure ([], [], world)
      let removalQueue1 := removalQueue ++ pushed
      let world2 ← componentRemovalQueue.foldlM
        (fun (w : World) op => removeComponent fuel w op.1 [op.2]) world1
      let nested ← removalQueue1.foldlM
        (fun (acc : World × List Int) eid2 => do
          let r ← removeEntityLog fuel acc.1 eid2
          pure (r.1, acc.2 ++ r.2)) (world2, [])
      let world3 := nested.1
      let world4 := world3.queries.foldl (fun w q => queryRemoveEntity w q currentEid) world3
      let world5 := { world4 with
        entityIndex := removeEntityId world4.entityIndex currentEid,
        entityComponents := mapDelete world4.entityComponents currentEid }
      let cleared := world5.entityMasks.map (fun row => setKey row currentEid 0)
      let world6 := { world5 with entityMasks := cleared }
      let r ← removeEntityLoopLog fuel world6 removalQueue1 processed1
      pure (r.1, currentEid :: (nested.2 ++ r.2))

end

/-- The component set of entity `y` holds `d`. -/
def Holds (w : World) (y : Int) (d : Component) : Prop :=
  ∃ cs, mapGet w.entityComponents y = some cs ∧ d ∈ cs

/-- A component that the exclusive branch of `addComponent` can take away again through
`removeComponent`: a pair of an exclusive relation, or a pair of `Wildcard`. -/
def Component.replaceable : Component → Bool
  | .pair r _ => r.exclusiveRelation || decide (r = Wildcard)
  | _ => false

/-- A component whose `addComponent` runs neither the exclusive branch nor the `IsA`
branch, at any depth: a component that is not a pair, a pair of `Wildcard`, or the pair
`Pair(r, Wildcard)` of a relation other than `IsA`. -/
def Component.quiet : Component → Bool
  | .pair r t => decide (r = Wildcard) || (decide (t = Target.rel Wildcard) && !decide (r = IsA))
  | _ => true

/-- From `a` to `b` the world stays well formed, the entity index stays, and every
entity keeps the components of its set that `keep` selects. -/
def Keeps (keep : Int → Component → Prop) (a b : World) : Prop :=
  WorldInv a → WorldInv b ∧ b.entityIndex = a.entityIndex ∧
    ∀ y d, Holds a y d → keep y d → Holds b y d

/-! ### Inheritance through `IsA` -/

/-- No component set of the world holds an object with a key `component`. -/
def noKeyed (w : World) : Bool :=
  w.entityComponents.all (fun p => p.2.all (fun d => decide (d.unwrap = d)))

/-- The entities reached from `p` through `IsA` targets: `p` itself, and the target of
every `IsA` pair that an entity reached from `p` has. -/
inductive IsAReachable (w : World) (p : Int) : Int → Prop where
  | base : IsAReachable w p p
  | step (y q : Int) : IsAReachable w p y → hasComponent w y (Pair IsA (.eid q)) = true →
      IsAReachable w p q

/-- The invariant and no object with a key `component` in a component set. -/
def Keyless (w : World) : Prop :=
  WorldInv w ∧ ∀ y d, Holds w y d → d.unwrap = d

/-- From `a` to `b` the invariant is kept and every member of a component set of `b` is a
member of that set in `a` or a component without a key `component` other than `Prefab`. -/
def Gains (a b : World) : Prop :=
  WorldInv a → WorldInv b ∧ ∀ y d, Holds b y d → Holds a y d ∨ (d.unwrap = d ∧ d ≠ Prefab)

/-- What a traversal of `recursivelyInherit` for the base entity `b` has done between the
state `(w, v)` and the state `(w2, v2)` of world and visited set, with `w0` the world the
components are read from: the members that are not replaceable are kept, the visited set
grows, and every entity visited in between has its components of `w0` that are neither
`Prefab` nor replaceable on `b`, and the targets of its `IsA` pairs of `w0` visited. -/
structure Inherited (w0 : World) (b : Int) (w : World) (v : List Int) (w2 : World)
    (v2 : List Int) : Prop where
  keyless : Keyless w2
  kept : ∀ y d, Holds w y d → d.replaceable = false → Holds w2 y d
  sub : ∀ y, y ∈ v → y ∈ v2
  copied : ∀ y, y ∈ v2 → y ∉ v →
    (∀ d, Holds w0 y d → d ≠ Prefab → d.replaceable = false → Holds w2 b d) ∧
    ∀ q, Holds w0 y (Pair IsA (.eid q)) → q ∈ v2

/-! ### Exclusive relations -/

/-- The component set of an entity, empty when the entity has none. -/
def componentsOf (w : World) (y : Int) : List Component :=
  (mapGet w.entityComponents y).getD []

/-- The entities that the pairs of relation `r` in the component set of `y` target, in the
order of the set: what `getRelationTargets(world, y, r)` returns for an entity that
exists. -/
def targetsIn (w : World) (y : Int) (r : Relation) : List Int :=
  relationTargetsOf (componentsOf w y) r

/-- Every entity has at most one target for every exclusive relation. -/
def ExclInv (w : World) : Prop :=
  ∀ y r, r.exclusiveRelation = true → (targetsIn w y r).length ≤ 1

/-- From `a` to `b` the invariant is kept and no list of targets of an exclusive relation
changes. -/
def SameTargets (a b : World) : Prop :=
  WorldInv a → WorldInv b ∧ ∀ y r, r.exclusiveRelation = true → targetsIn b y r = targetsIn a y r

/-- The entities and components of the calls of `addComponent` nested in
`addComponent(world, x, c)` for a component `c` whose relation is not `IsA`, the call
itself included. -/
def nestedAdds (x : Int) (c : Component) : Finset (Int × Component) :=
  match c with
  | .pair r (.eid tt) =>
    {(x, .pair r (.eid tt)), (x, .pair r (.rel Wildcard)), (x, .pair Wildcard (.eid tt)),
      (x, .pair Wildcard (.rel Wildcard)), (tt, .pair Wildcard (.eid x)),
      (tt, .pair Wildcard (.rel r)), (tt, .pair Wildcard (.rel Wildcard))}
  | .pair r (.rel tr) =>
    {(x, .pair r (.rel tr)), (x, .pair r (.rel Wildcard)), (x, .pair Wildcard (.rel tr)),
      (x, .pair Wildcard (.rel Wildcard))}
  | c => {(x, c)}

/-- The members of `s` that the world has not: the entity has not the component. -/
def missing (w : World) (s : Finset (Int × Component)) : Finset (Int × Component) :=
  s.filter (fun p => hasComponent w p.1 p.2 = false)

/-! ### Worlds in which `addComponent` of an `IsA` pair returns -/

/-- Every entity that is the target of a pair in a component set exists. -/
def targetsAlive (w : World) : Bool :=
  w.entityComponents.all (fun p => p.2.all (fun d =>
    match d with
    | .pair _ (.eid t) => entityExists w t
    | _ => true))

/-- A component that `addComponent` can be called with in a settled world: it has no key
`component`, its target exists when it is an entity, and it is a member of `U` when its
relation is `IsA`. -/
def Fits (ix : EntityIndex) (U : Finset Component) (c : Component) : Prop :=
  c.unwrap = c ∧ (∀ r tt, c = .pair r (.eid tt) → isEntityIdAlive ix tt = true) ∧
    ∀ t, c = .pair IsA t → c ∈ U

/-- A settled world: the invariant holds, the index is `ix`, and every member of a
component set fits. -/
structure Settled (ix : EntityIndex) (U : Finset Component) (w : World) : Prop where
  inv : WorldInv w
  index : w.entityIndex = ix
  fits : ∀ y d, Holds w y d → Fits ix U d

/-- The members of `U` that the entity `e` has not. -/
def isaMissing (U : Finset Component) (w : World) (e : Int) : Finset Component :=
  U.filter (fun d => hasComponent w e d = false)

/-- The entities of `E` that are not in the list. -/
def unvisited (E : Finset Int) (visited : List Int) : Finset Int :=
  E \ visited.toFinset

/-! ## Theorems: entity index -/

theorem toUint32_lt (x : Int) : toUint32 x < 4294967296 := by
  unfold toUint32
  have h1 : 0 ≤ x % 4294967296 := Int.emod_nonneg _ (by norm_num)
  have h2 : x % 4294967296 < 4294967296 := Int.emod_lt_of_pos _ (by norm_num)
  omega

theorem toUint32_natCast (n : Nat) : toUint32 (n : Int) = n % 4294967296 := by
  unfold toUint32
  omega

theorem toUint32_toInt32 (n : Nat) : toUint32 (toInt32 n) = n % 4294967296 := by
  unfold toUint32 toInt32
  split <;> omega

theorem toInt32_of_lt (n : Nat) (h : n < 2147483648) : toInt32 n = (n : Int) := by
  unfold toInt32
  have : n % 4294967296 = n := Nat.mod_eq_of_lt (by omega)
  rw [this]; simp [h]

theorem toUint32_mask (k : Nat) (h1 : 1 ≤ k) (h2 : k ≤ 31) :
    toUint32 (jsShl 1 (k : Int) - 1) = 2 ^ k - 1 := by
  interval_cases k <;> rfl

theorem shiftCount (k : Nat) (h2 : k ≤ 31) : toUint32 (k : Int) % 32 = k := by
  rw [toUint32_natCast]; omega

theorem pow_split (vb : Nat) (h2 : vb ≤ 31) : 2 ^ (32 - vb) * 2 ^ vb = 4294967296 := by
  rw [← pow_add]
  have : 32 - vb + vb = 32 := by omega
  rw [this]; norm_num

theorem getId_eq (ix : EntityIndex) (vb : Nat) (h : HasBits ix vb) (x : Int) :
    getId ix x = ((toUint32 x % 2 ^ (32 - vb) : Nat) : Int) := by
  obtain ⟨h1, h2, -, hm, -⟩ := h
  unfold getId jsAnd
  rw [hm, toUint32_mask _ (by omega) (by omega), Nat.and_pow_two_sub_one_eq_mod]
  apply toInt32_of_lt
  have hp : 2 ^ (32 - vb) ≤ 2 ^ 31 := Nat.pow_le_pow_right (by norm_num) (by omega)
  have := Nat.mod_lt (toUint32 x) (show 0 < 2 ^ (32 - vb) by positivity)
  omega

theorem div_lt_pow (vb : Nat) (h2 : vb ≤ 31) (u : Nat) (hu : u < 4294967296) :
    u / 2 ^ (32 - vb) < 2 ^ vb := by
  rw [Nat.div_lt_iff_lt_mul (by positivity)]
  rw [Nat.mul_comm, pow_split vb h2]; exact hu

theorem getVersion_eq (ix : EntityIndex) (vb : Nat) (h : HasBits ix vb) (x : Int) :
    getVersion ix x = ((toUint32 x / 2 ^ (32 - vb) : Nat) : Int) := by
  obtain ⟨h1, h2, hv, -, hs⟩ := h
  have hlt := div_lt_pow vb h2 (toUint32 x) (toUint32_lt x)
  have hp : 2 ^ vb ≤ 2 ^ 31 := Nat.pow_le_pow_right (by norm_num) h2
  unfold getVersion jsAnd jsUshr
  rw [hs, hv, shiftCount _ (by omega), toUint32_mask _ h1 h2, toUint32_natCast,
    Nat.shiftRight_eq_div_pow, Nat.and_pow_two_sub_one_eq_mod]
  rw [Nat.mod_eq_of_lt (by omega : toUint32 x / 2 ^ (32 - vb) < 4294967296),
    Nat.mod_eq_of_lt hlt]
  exact toInt32_of_lt _ (by omega)

theorem toUint32_incrementVersion (ix : EntityIndex) (vb : Nat) (h : HasBits ix vb) (x : Int) :
    toUint32 (incrementVersion ix x) =
      2 ^ (32 - vb) * ((toUint32 x / 2 ^ (32 - vb) + 1) % 2 ^ vb) + toUint32 x % 2 ^ (32 - vb) := by
  have hV := getVersion_eq ix vb h x
  have hI := getId_eq ix vb h x
  obtain ⟨h1, h2, hv, hm, hs⟩ := h
  have hp : 2 ^ vb ≤ 2 ^ 31 := Nat.pow_le_pow_right (by norm_num) h2
  have hps := pow_split vb h2
  unfold incrementVersion
  simp only []
  rw [hV]
  unfold getId at hI
  rw [hI]
  have hnv : jsAnd (((toUint32 x / 2 ^ (32 - vb) : Nat) : Int) + 1) (jsShl 1 ix.versionBits - 1)
      = (((toUint32 x / 2 ^ (32 - vb) + 1) % 2 ^ vb : Nat) : Int) := by
    unfold jsAnd
    rw [hv, toUint32_mask _ h1 h2, Nat.and_pow_two_sub_one_eq_mod]
    have e : ((toUint32 x / 2 ^ (32 - vb) : Nat) : Int) + 1 = ((toUint32 x / 2 ^ (32 - vb) + 1 : Nat) : Int) := by
      push_cast; rfl
    rw [e, toUint32_natCast]
    have hlt := div_lt_pow vb h2 (toUint32 x) (toUint32_lt x)
    rw [Nat.mod_eq_of_lt (by omega : toUint32 x / 2 ^ (32 - vb) + 1 < 4294967296)]
    apply toInt32_of_lt
    have := Nat.mod_lt (toUint32 x / 2 ^ (32 - vb) + 1) (show 0 < 2 ^ vb by positivity)
    omega
  rw [hnv]
  set nv := (toUint32 x / 2 ^ (32 - vb) + 1) % 2 ^ vb with hnvdef
  have hnvlt : nv < 2 ^ vb := Nat.mod_lt _ (by positivity)
  have hlow : toUint32 x % 2 ^ (32 - vb) < 2 ^ (32 - vb) := Nat.mod_lt _ (by positivity)
  have hprod : 2 ^ (32 - vb) * nv + toUint32 x % 2 ^ (32 - vb) < 4294967296 := by
    have : 2 ^ (32 - vb) * (nv + 1) ≤ 2 ^ (32 - vb) * 2 ^ vb := Nat.mul_le_mul_left _ hnvlt
    rw [hps] at this
    nlinarith
  unfold jsOr jsShl
  rw [hs, shiftCount _ (by omega), toUint32_natCast, toUint32_natCast, toUint32_toInt32,
    toUint32_toInt32, Nat.shiftLeft_eq]
  have hnv32 : nv % 4294967296 = nv := Nat.mod_eq_of_lt (by omega)
  have hlow32 : toUint32 x % 2 ^ (32 - vb) % 4294967296 = toUint32 x % 2 ^ (32 - vb) :=
    Nat.mod_eq_of_lt (by omega)
  have hsh : nv * 2 ^ (32 - vb) % 4294967296 = 2 ^ (32 - vb) * nv := by
    rw [Nat.mul_comm]; exact Nat.mod_eq_of_lt (by omega)
  rw [hnv32, hlow32, hsh, Nat.or_comm, ← Nat.mul_add_lt_is_or hlow]
  exact Nat.mod_eq_of_lt hprod

theorem getD_set_eq {α : Type} (l : List α) (i : Nat) (a d : α) (h : i < l.length) :
    (l.set i a).getD i d = a := by
  simp [List.getD_eq_getElem?_getD, List.getElem?_set, h]

theorem getD_set_ne {α : Type} (l : List α) (i j : Nat) (a d : α) (h : i ≠ j) :
    (l.set i a).getD j d = l.getD j d := by
  simp [List.getD_eq_getElem?_getD, List.getElem?_set, h]

theorem getD_append_left {α : Type} (l : List α) (i : Nat) (a d : α) (h : i < l.length) :
    (l ++ [a]).getD i d = l.getD i d := by
  simp [List.getD_eq_getElem?_getD, List.getElem?_append_left, h]

theorem getD_append_right {α : Type} (l : List α) (a d : α) :
    (l ++ [a]).getD l.length d = a := by
  simp [List.getD_eq_getElem?_getD]

theorem getId_incrementVersion (ix : EntityIndex) (vb : Nat) (h : HasBits ix vb) (x : Int) :
    getId ix (incrementVersion ix x) = getId ix x := by
  rw [getId_eq ix vb h, getId_eq ix vb h, toUint32_incrementVersion ix vb h]
  congr 1
  rw [Nat.mul_add_mod]
  exact Nat.mod_mod _ _

theorem getVersion_incrementVersion (ix : EntityIndex) (vb : Nat) (h : HasBits ix vb) (x : Int) :
    getVersion ix (incrementVersion ix x) = (getVersion ix x + 1) % 2 ^ vb := by
  rw [getVersion_eq ix vb h, getVersion_eq ix vb h, toUint32_incrementVersion ix vb h]
  have hpos : 0 < 2 ^ (32 - vb) := by positivity
  rw [Nat.mul_add_div hpos, Nat.div_eq_of_lt (Nat.mod_lt _ hpos), Nat.add_zero]
  push_cast
  rfl

theorem getId_of_small (ix : EntityIndex) (vb : Nat) (h : HasBits ix vb) (id : Int)
    (h0 : 0 ≤ id) (h1 : id < 2 ^ (32 - vb)) : getId ix id = id := by
  rw [getId_eq ix vb h]
  obtain ⟨n, rfl⟩ := Int.eq_ofNat_of_zero_le h0
  have hn : n < 2 ^ (32 - vb) := by exact_mod_cast h1
  have hp : 2 ^ (32 - vb) ≤ 2 ^ 31 := Nat.pow_le_pow_right (by norm_num) (by have := h.1; omega)
  rw [toUint32_natCast, Nat.mod_eq_of_lt (by omega : n < 4294967296), Nat.mod_eq_of_lt hn]

theorem getId_congr (a b : EntityIndex) (h : a.entityMask = b.entityMask) (x : Int) :
    getId a x = getId b x := by
  unfold getId; rw [h]

theorem indexInv_create (v : Bool) (vb : Int) : IndexInv (createEntityIndex v vb) [] := by
  constructor <;> simp [createEntityIndex]

theorem indexInv_distinct {ix : EntityIndex} {live : List Int} (h : IndexInv ix live)
    {i j : Nat} (hi : i < ix.dense.length) (hj : j < ix.dense.length)
    (e : ix.dense.getD i 0 = ix.dense.getD j 0) : i = j :=
  h.nodupId i j hi hj (by rw [e])

theorem indexInv_alloc {ix : EntityIndex} {live : List Int} {vb : Nat} (h : IndexInv ix live)
    (hb : HasBits ix vb) (hcap : (addEntityId ix).2.maxId < 2 ^ (32 - vb)) :
    IndexInv (addEntityId ix).2 (live ++ [(addEntityId ix).1]) := by
  unfold addEntityId at hcap ⊢
  by_cases hlt : ix.aliveCount < ix.dense.length
  · simp only [hlt, if_true] at hcap ⊢
    refine ⟨by simp; omega, ?_, ?_, ?_, ?_, h.maxId_nonneg⟩
    · intro p hp
      change p < ix.aliveCount + 1 at hp
      change setKey ix.sparse (ix.dense.getD ix.aliveCount 0) ix.aliveCount (ix.dense.getD p 0) = some p
      unfold setKey
      by_cases hpa : p = ix.aliveCount
      · subst hpa; rw [if_pos rfl]
      · have hp' : p < ix.aliveCount := by omega
        have hne : ix.dense.getD p 0 ≠ ix.dense.getD ix.aliveCount 0 := fun e =>
          hpa (indexInv_distinct h (by omega) hlt e)
        rw [if_neg hne]; exact h.sparse_dense p hp'
    · intro i j hi hj e
      exact h.nodupId i j hi hj e
    · intro i hi
      exact h.range i hi
    · intro x
      simp only [List.mem_append, List.mem_singleton, h.live_iff]
      constructor
      · rintro (⟨p, hp, rfl⟩ | rfl)
        · exact ⟨p, by omega, rfl⟩
        · exact ⟨ix.aliveCount, by omega, rfl⟩
      · rintro ⟨p, hp, rfl⟩
        by_cases hpa : p = ix.aliveCount
        · right; rw [hpa]
        · left; exact ⟨p, by omega, rfl⟩
  · simp only [hlt, if_false] at hcap ⊢
    have hlen : ix.aliveCount = ix.dense.length := by have := h.alive_le; omega
    have hnn := h.maxId_nonneg
    have hid : getId ix (ix.maxId + 1) = ix.maxId + 1 :=
      getId_of_small ix vb hb _ (by omega) hcap
    have hold : ∀ i, i < ix.dense.length → (ix.dense ++ [ix.maxId + 1]).getD i 0 = ix.dense.getD i 0 :=
      fun i hi => getD_append_left _ _ _ _ hi
    have hnew : (ix.dense ++ [ix.maxId + 1]).getD ix.dense.length 0 = ix.maxId + 1 :=
      getD_append_right _ _ _
    refine ⟨by simp; omega, ?_, ?_, ?_, ?_, by simp; omega⟩
    · intro p hp
      change p < ix.aliveCount + 1 at hp
      change setKey ix.sparse (ix.maxId + 1) ix.aliveCount ((ix.dense ++ [ix.maxId + 1]).getD p 0) = some p
      unfold setKey
      by_cases hpa : p = ix.dense.length
      · subst hpa; rw [hnew, if_pos rfl, hlen]
      · have hp' : p < ix.dense.length := by omega
        rw [hold p hp']
        have hr := (h.range p hp').2
        have hne : ix.dense.getD p 0 ≠ ix.maxId + 1 := by
          intro e
          rw [e, hid] at hr
          omega
        rw [if_neg hne]; exact h.sparse_dense p (by omega)
    · intro i j hi hj e
      change i < (ix.dense ++ [ix.maxId + 1]).length at hi
      change j < (ix.dense ++ [ix.maxId + 1]).length at hj
      change getId ix ((ix.dense ++ [ix.maxId + 1]).getD i 0)
        = getId ix ((ix.dense ++ [ix.maxId + 1]).getD j 0) at e
      simp only [List.length_append, List.length_singleton] at hi hj
      by_cases hia : i = ix.dense.length <;> by_cases hja : j = ix.dense.length
      · omega
      · rw [hia, hnew, hold j (by omega), hid] at e
        have := (h.range j (by omega)).2
        omega
      · rw [hja, hnew, hold i (by omega), hid] at e
        have := (h.range i (by omega)).2
        omega
      · rw [hold i (by omega), hold j (by omega)] at e
        exact h.nodupId i j (by omega) (by omega) e
    · intro i hi
      change i < (ix.dense ++ [ix.maxId + 1]).length at hi
      change 1 ≤ getId ix ((ix.dense ++ [ix.maxId + 1]).getD i 0)
        ∧ getId ix ((ix.dense ++ [ix.maxId + 1]).getD i 0) ≤ ix.maxId + 1
      simp only [List.length_append, List.length_singleton] at hi
      by_cases hia : i = ix.dense.length
      · rw [hia, hnew, hid]; omega
      · rw [hold i (by omega)]
        have := h.range i (by omega)
        omega
    · intro x
      change x ∈ live ++ [ix.maxId + 1] ↔
        ∃ p, p < ix.aliveCount + 1 ∧ (ix.dense ++ [ix.maxId + 1]).getD p 0 = x
      simp only [List.mem_append, List.mem_singleton, h.live_iff]
      constructor
      · rintro (⟨p, hp, rfl⟩ | rfl)
        · exact ⟨p, by omega, (hold p (by omega))⟩
        · exact ⟨ix.dense.length, by omega, hnew⟩
      · rintro ⟨p, hp, rfl⟩
        by_cases hpa : p = ix.dense.length
        · right; rw [hpa, hnew]
        · left; exact ⟨p, by omega, (hold p (by omega)).symm⟩

theorem getId_releasedEntry (ix : EntityIndex) (vb : Nat) (hb : HasBits ix vb) (x : Int) :
    getId ix (releasedEntry ix x) = getId ix x := by
  unfold releasedEntry
  split
  · exact getId_incrementVersion ix vb hb x
  · rfl

/-- What `removeEntityId` does on an id whose sparse entry is a position
below the alive boundary. -/
theorem removeEntityId_eq (ix : EntityIndex) (x : Int) (d : Nat) (hs : ix.sparse x = some d)
    (hd : d < ix.aliveCount) :
    removeEntityId ix x =
      { ix with
        sparse := setKey (setKey ix.sparse (ix.dense.getD (ix.aliveCount - 1) 0) d) x (ix.aliveCount - 1),
        dense := ((ix.dense.set d (ix.dense.getD (ix.aliveCount - 1) 0)).set (ix.aliveCount - 1) x).set
          (ix.aliveCount - 1) (releasedEntry ix x),
        aliveCount := ix.aliveCount - 1 } := by
  unfold removeEntityId releasedEntry
  rw [hs]
  simp only [ge_iff_le, Nat.not_le.mpr hd, if_false]
  cases hv : ix.versioning
  · simp [List.set_set]
  · simp

theorem indexInv_release {ix : EntityIndex} {live : List Int} {vb : Nat} (h : IndexInv ix live)
    (hb : HasBits ix vb) (x : Int) (hx : x ∈ live) :
    IndexInv (removeEntityId ix x) (live.filter (fun y => decide (y ≠ x))) := by
  obtain ⟨d, hd, hdx⟩ := (h.live_iff x).1 hx
  have hsx : ix.sparse x = some d := by rw [← hdx]; exact h.sparse_dense d hd
  have hal := h.alive_le
  rw [removeEntityId_eq ix x d hsx hd]
  set L := ix.aliveCount - 1 with hL
  set lastId := ix.dense.getD L 0 with hlast
  set dense' := ((ix.dense.set d lastId).set L x).set L (releasedEntry ix x) with hdense
  have hlen : dense'.length = ix.dense.length := by simp [hdense]
  have hgetL : dense'.getD L 0 = releasedEntry ix x := by
    rw [hdense]; exact getD_set_eq _ _ _ _ (by simp; omega)
  have hgetd : d ≠ L → dense'.getD d 0 = lastId := by
    intro hne
    rw [hdense, getD_set_ne _ _ _ _ _ (Ne.symm hne), getD_set_ne _ _ _ _ _ (Ne.symm hne)]
    exact getD_set_eq _ _ _ _ (by omega)
  have hgeto : ∀ q, q ≠ L → q ≠ d → dense'.getD q 0 = ix.dense.getD q 0 := by
    intro q h1 h2
    rw [hdense, getD_set_ne _ _ _ _ _ (Ne.symm h1), getD_set_ne _ _ _ _ _ (Ne.symm h1),
      getD_set_ne _ _ _ _ _ (Ne.symm h2)]
  have hLlt : L < ix.dense.length := by omega
  have hdlt : d < ix.dense.length := by omega
  -- the id part held at every position, after the call
  have hidpart : ∀ q, q < ix.dense.length → getId ix (dense'.getD q 0) =
      getId ix (ix.dense.getD (if q = L then d else if q = d then L else q) 0) := by
    intro q _
    by_cases h1 : q = L
    · rw [if_pos h1, h1, hgetL, getId_releasedEntry ix vb hb, hdx]
    · rw [if_neg h1]
      by_cases h2 : q = d
      · rw [if_pos h2, h2, hgetd (by omega)]
      · rw [if_neg h2, hgeto q h1 h2]
  refine ⟨by change L ≤ dense'.length; omega, ?_, ?_, ?_, ?_, h.maxId_nonneg⟩
  · intro q hq
    change q < L at hq
    change setKey (setKey ix.sparse lastId d) x L (dense'.getD q 0) = some q
    unfold setKey
    by_cases h2 : q = d
    · subst h2
      rw [hgetd (by omega)]
      have hne : lastId ≠ x := by
        intro e
        have := indexInv_distinct h hLlt hdlt (show ix.dense.getD L 0 = ix.dense.getD q 0 by rw [hdx]; exact e)
        omega
      rw [if_neg hne, if_pos rfl]
    · rw [hgeto q (by omega) h2]
      have hne1 : ix.dense.getD q 0 ≠ x := by
        intro e
        exact h2 (indexInv_distinct h (by omega) hdlt (by rw [hdx]; exact e))
      have hne2 : ix.dense.getD q 0 ≠ lastId := by
        intro e
        have := indexInv_distinct h (show q < ix.dense.length by omega) hLlt e
        omega
      rw [if_neg hne1, if_neg hne2]
      exact h.sparse_dense q (by omega)
  · intro i j hi hj e
    change i < dense'.length at hi
    change j < dense'.length at hj
    change getId ix (dense'.getD i 0) = getId ix (dense'.getD j 0) at e
    rw [hlen] at hi hj
    rw [hidpart i hi, hidpart j hj] at e
    have := h.nodupId _ _ (by split_ifs <;> omega) (by split_ifs <;> omega) e
    split_ifs at this <;> omega
  · intro i hi
    change i < dense'.length at hi
    change 1 ≤ getId ix (dense'.getD i 0) ∧ getId ix (dense'.getD i 0) ≤ ix.maxId
    rw [hlen] at hi
    rw [hidpart i hi]
    exact h.range _ (by split_ifs <;> omega)
  · intro y
    change y ∈ live.filter (fun y => decide (y ≠ x)) ↔ ∃ p, p < L ∧ dense'.getD p 0 = y
    simp only [List.mem_filter, decide_eq_true_eq, h.live_iff]
    constructor
    · rintro ⟨⟨p, hp, rfl⟩, hne⟩
      have hpd : p ≠ d := fun e => hne (by rw [e, hdx])
      by_cases hpL : p = L
      · refine ⟨d, by omega, ?_⟩
        rw [hgetd (by omega), hlast, hpL]
      · exact ⟨p, by omega, hgeto p hpL hpd⟩
    · rintro ⟨q, hq, rfl⟩
      by_cases h2 : q = d
      · subst h2
        rw [hgetd (by omega)]
        refine ⟨⟨L, by omega, rfl⟩, ?_⟩
        intro e
        have := indexInv_distinct h hLlt hdlt (show ix.dense.getD L 0 = ix.dense.getD q 0 by rw [hdx]; exact e)
        omega
      · rw [hgeto q (by omega) h2]
        refine ⟨⟨q, by omega, rfl⟩, ?_⟩
        intro e
        exact h2 (indexInv_distinct h (by omega) hdlt (by rw [hdx]; exact e))

theorem hasBits_create (v : Bool) (vb : Nat) (h1 : 1 ≤ vb) (h2 : vb ≤ 31) :
    HasBits (createEntityIndex v (vb : Int)) vb := by
  refine ⟨h1, h2, rfl, ?_, ?_⟩
  · show jsShl 1 (32 - (vb : Int)) - 1 = jsShl 1 ((32 - vb : Nat) : Int) - 1
    congr 2; omega
  · show (32 - (vb : Int)) = ((32 - vb : Nat) : Int)
    omega

theorem addEntityId_config (ix : EntityIndex) :
    (addEntityId ix).2.versioning = ix.versioning ∧ (addEntityId ix).2.versionBits = ix.versionBits ∧
    (addEntityId ix).2.entityMask = ix.entityMask ∧ (addEntityId ix).2.versionShift = ix.versionShift ∧
    ix.maxId ≤ (addEntityId ix).2.maxId := by
  unfold addEntityId
  split <;> simp

theorem removeEntityId_config (ix : EntityIndex) (x : Int) :
    (removeEntityId ix x).versioning = ix.versioning ∧ (removeEntityId ix x).versionBits = ix.versionBits ∧
    (removeEntityId ix x).entityMask = ix.entityMask ∧ (removeEntityId ix x).versionShift = ix.versionShift ∧
    (removeEntityId ix x).maxId = ix.maxId := by
  unfold removeEntityId
  split
  · simp
  · split <;> simp

theorem run_config (ix : EntityIndex) (op : IndexOp) :
    (op.run ix).versioning = ix.versioning ∧ (op.run ix).versionBits = ix.versionBits ∧
    (op.run ix).entityMask = ix.entityMask ∧ (op.run ix).versionShift = ix.versionShift ∧
    ix.maxId ≤ (op.run ix).maxId := by
  cases op with
  | alloc => exact addEntityId_config ix
  | release x =>
    have := removeEntityId_config ix x
    exact ⟨this.1, this.2.1, this.2.2.1, this.2.2.2.1, le_of_eq this.2.2.2.2.symm⟩

theorem runOps_config (ops : List IndexOp) : ∀ ix : EntityIndex,
    (runOps ix ops).versioning = ix.versioning ∧ (runOps ix ops).versionBits = ix.versionBits ∧
    (runOps ix ops).entityMask = ix.entityMask ∧ (runOps ix ops).versionShift = ix.versionShift ∧
    ix.maxId ≤ (runOps ix ops).maxId := by
  induction ops with
  | nil => intro ix; simp [runOps]
  | cons op ops ih =>
    intro ix
    have h1 := run_config ix op
    have h2 := ih (op.run ix)
    change (runOps (op.run ix) ops).versioning = _ ∧ (runOps (op.run ix) ops).versionBits = _ ∧
      (runOps (op.run ix) ops).entityMask = _ ∧ (runOps (op.run ix) ops).versionShift = _ ∧
      _ ≤ (runOps (op.run ix) ops).maxId
    refine ⟨h2.1.trans h1.1, h2.2.1.trans h1.2.1, h2.2.2.1.trans h1.2.2.1,
      h2.2.2.2.1.trans h1.2.2.2.1, le_trans h1.2.2.2.2 h2.2.2.2.2⟩

theorem hasBits_congr {a b : EntityIndex} {vb : Nat} (h : HasBits a vb)
    (e : b.versioning = a.versioning ∧ b.versionBits = a.versionBits ∧
      b.entityMask = a.entityMask ∧ b.versionShift = a.versionShift ∧ a.maxId ≤ b.maxId) :
    HasBits b vb :=
  ⟨h.1, h.2.1, e.2.1.trans h.2.2.1, e.2.2.1.trans h.2.2.2.1, e.2.2.2.1.trans h.2.2.2.2⟩

theorem removeEntityId_rejected (ix : EntityIndex) (x : Int) (h : releaseRejected ix x = true) :
    removeEntityId ix x = ix := by
  unfold releaseRejected at h
  unfold removeEntityId
  split
  · rfl
  · next d hd =>
    rw [hd] at h
    simp only [decide_eq_true_eq] at h
    rw [if_pos h]

/-- Along a call sequence whose releases are applied to outstanding ids and
that never mints more ids than the id field holds, the invariant is kept and
`liveIds` lists the alive prefix of `dense`. -/
theorem indexInv_runOps (vb : Nat) (ops : List IndexOp) : ∀ (ix : EntityIndex) (live : List Int),
    IndexInv ix live → HasBits ix vb → releasesLive ix live ops = true →
    (runOps ix ops).maxId < 2 ^ (32 - vb) →
    IndexInv (runOps ix ops) (liveIds ix live ops) := by
  induction ops with
  | nil => intro ix live h _ _ _; exact h
  | cons op ops ih =>
    intro ix live h hb hv hcap
    cases op with
    | alloc =>
      have hcfg := addEntityId_config ix
      have hmono := (runOps_config ops (addEntityId ix).2).2.2.2.2
      change (runOps (addEntityId ix).2 ops).maxId < _ at hcap
      exact ih _ _ (indexInv_alloc h hb (lt_of_le_of_lt hmono hcap)) (hasBits_congr hb hcfg) hv hcap
    | release x =>
      have hcfg := removeEntityId_config ix x
      change ((decide (x ∈ live) || releaseRejected ix x) &&
        releasesLive (removeEntityId ix x) _ ops) = true at hv
      rw [Bool.and_eq_true, Bool.or_eq_true, decide_eq_true_eq] at hv
      have hb' : HasBits (removeEntityId ix x) vb :=
        hasBits_congr hb ⟨hcfg.1, hcfg.2.1, hcfg.2.2.1, hcfg.2.2.2.1, le_of_eq hcfg.2.2.2.2.symm⟩
      by_cases hx : x ∈ live
      · exact ih _ _ (indexInv_release h hb x hx) hb' hv.2 hcap
      · have hrej : releaseRejected ix x = true := hv.1.resolve_left hx
        have hsame : removeEntityId ix x = ix := removeEntityId_rejected ix x hrej
        have hfil : live.filter (fun y => decide (y ≠ x)) = live := by
          rw [List.filter_eq_self]
          intro y hy
          simp only [decide_eq_true_eq]
          exact fun e => hx (e ▸ hy)
        have h' : IndexInv (removeEntityId ix x) (live.filter (fun y => decide (y ≠ x))) := by
          rw [hsame, hfil]; exact h
        exact ih _ _ h' hb' hv.2 hcap

theorem live_position {ix : EntityIndex} {live : List Int} (h : IndexInv ix live) (x : Int)
    (hx : x ∈ live) : ∃ d, d < ix.aliveCount ∧ ix.dense.getD d 0 = x ∧ ix.sparse x = some d := by
  obtain ⟨d, hd, hdx⟩ := (h.live_iff x).1 hx
  exact ⟨d, hd, hdx, by rw [← hdx]; exact h.sparse_dense d hd⟩

theorem addEntityId_after_remove {ix : EntityIndex} {live : List Int} (h : IndexInv ix live)
    (x : Int) (hx : x ∈ live) :
    (addEntityId (removeEntityId ix x)).1 = releasedEntry ix x := by
  obtain ⟨d, hd, -, hs⟩ := live_position h x hx
  have hal := h.alive_le
  rw [removeEntityId_eq ix x d hs hd]
  unfold addEntityId
  have hlt : ix.aliveCount - 1 <
      (((ix.dense.set d (ix.dense.getD (ix.aliveCount - 1) 0)).set (ix.aliveCount - 1) x).set
        (ix.aliveCount - 1) (releasedEntry ix x)).length := by
    simp; omega
  simp only [hlt, if_true]
  exact getD_set_eq _ _ _ _ (by simp; omega)

theorem isEntityIdAlive_sound {ix : EntityIndex} {live : List Int} (h : IndexInv ix live)
    (x : Int) (hx : isEntityIdAlive ix x = true) : x ∈ live := by
  unfold isEntityIdAlive at hx
  simp only at hx
  split at hx
  · exact absurd hx (by simp)
  · next d _ =>
    rw [Bool.and_eq_true, decide_eq_true_eq, beq_iff_eq] at hx
    refine (h.live_iff x).2 ⟨d, hx.1, ?_⟩
    rw [List.getD_eq_getElem?_getD, ← List.get?_eq_getElem?, hx.2]
    rfl

/-- Recycling along sequences without a stale release: on an index with versioning enabled
(`vb` version bits, `1 ≤ vb ≤ 31`), reached by a call sequence whose releases are of
outstanding ids (or rejected by the guard) and that stays within the capacity of the id
field, releasing an outstanding id `x` makes the next `addEntityId` return an id with the
id bits of `x` and the version of `x` plus one modulo `2 ^ vb`, hence an id different from
`x`. -/
theorem recycled_id_carries_next_version (vb : Nat) (h1 : 1 ≤ vb) (h2 : vb ≤ 31)
    (ops : List IndexOp)
    (hv : releasesLive (createEntityIndex true (vb : Int)) [] ops = true)
    (hcap : (runOps (createEntityIndex true (vb : Int)) ops).maxId < 2 ^ (32 - vb))
    (x : Int) (hx : x ∈ liveIds (createEntityIndex true (vb : Int)) [] ops) :
    getId (runOps (createEntityIndex true (vb : Int)) ops)
        (addEntityId (removeEntityId (runOps (createEntityIndex true (vb : Int)) ops) x)).1
      = getId (runOps (createEntityIndex true (vb : Int)) ops) x ∧
    getVersion (runOps (createEntityIndex true (vb : Int)) ops)
        (addEntityId (removeEntityId (runOps (createEntityIndex true (vb : Int)) ops) x)).1
      = (getVersion (runOps (createEntityIndex true (vb : Int)) ops) x + 1) % 2 ^ vb ∧
    (addEntityId (removeEntityId (runOps (createEntityIndex true (vb : Int)) ops) x)).1 ≠ x := by
  have hb0 := hasBits_create true vb h1 h2
  have hinv := indexInv_runOps vb ops _ _ (indexInv_create true vb) hb0 hv hcap
  have hcfg := runOps_config ops (createEntityIndex true (vb : Int))
  have hb := hasBits_congr hb0 hcfg
  have hver : (runOps (createEntityIndex true (vb : Int)) ops).versioning = true := hcfg.1
  rw [addEntityId_after_remove hinv x hx]
  have hre : releasedEntry (runOps (createEntityIndex true (vb : Int)) ops) x
      = incrementVersion (runOps (createEntityIndex true (vb : Int)) ops) x := by
    unfold releasedEntry; rw [hver]; rfl
  rw [hre]
  have hV := getVersion_incrementVersion _ vb hb x
  refine ⟨getId_incrementVersion _ vb hb x, hV, ?_⟩
  intro e
  rw [e, getVersion_eq _ vb hb x] at hV
  have hlt := div_lt_pow vb h2 (toUint32 x) (toUint32_lt x)
  have hpow : 2 ≤ 2 ^ vb := by
    calc 2 = 2 ^ 1 := by norm_num
      _ ≤ 2 ^ vb := Nat.pow_le_pow_right (by norm_num) h1
  have hV' : toUint32 x / 2 ^ (32 - vb) = (toUint32 x / 2 ^ (32 - vb) + 1) % 2 ^ vb := by
    exact_mod_cast hV
  by_cases hc : toUint32 x / 2 ^ (32 - vb) + 1 < 2 ^ vb
  · rw [Nat.mod_eq_of_lt hc] at hV'; omega
  · have : toUint32 x / 2 ^ (32 - vb) + 1 = 2 ^ vb := by omega
    rw [this, Nat.mod_self] at hV'; omega

theorem recycled_id_carries_next_version_witness :
    getId (runOps (createEntityIndex true ((8 : Nat) : Int)) [.alloc, .alloc, .release 1, .alloc])
        (addEntityId (removeEntityId
          (runOps (createEntityIndex true ((8 : Nat) : Int)) [.alloc, .alloc, .release 1, .alloc]) 16777217)).1
      = getId (runOps (createEntityIndex true ((8 : Nat) : Int)) [.alloc, .alloc, .release 1, .alloc]) 16777217 ∧
    getVersion (runOps (createEntityIndex true ((8 : Nat) : Int)) [.alloc, .alloc, .release 1, .alloc])
        (addEntityId (removeEntityId
          (runOps (createEntityIndex true ((8 : Nat) : Int)) [.alloc, .alloc, .release 1, .alloc]) 16777217)).1
      = (getVersion (runOps (createEntityIndex true ((8 : Nat) : Int)) [.alloc, .alloc, .release 1, .alloc])
          16777217 + 1) % 2 ^ 8 ∧
    (addEntityId (removeEntityId
      (runOps (createEntityIndex true ((8 : Nat) : Int)) [.alloc, .alloc, .release 1, .alloc]) 16777217)).1
      ≠ 16777217 :=
  recycled_id_carries_next_version 8 (by decide) (by decide) [.alloc, .alloc, .release 1, .alloc]
    (by decide) (by decide) 16777217 (by decide)

/-- Stale ids along sequences without a stale release: on an index with versioning enabled
and under the conditions of `recycled_id_carries_next_version`, `isEntityIdAlive` is false
for every id that is not outstanding; in particular for a stale id, one that was handed
out, released, and whose slot now carries another version. -/
theorem stale_id_is_not_alive (vb : Nat) (h1 : 1 ≤ vb) (h2 : vb ≤ 31)
    (ops : List IndexOp)
    (hv : releasesLive (createEntityIndex true (vb : Int)) [] ops = true)
    (hcap : (runOps (createEntityIndex true (vb : Int)) ops).maxId < 2 ^ (32 - vb))
    (x : Int) (hx : x ∉ liveIds (createEntityIndex true (vb : Int)) [] ops) :
    isEntityIdAlive (runOps (createEntityIndex true (vb : Int)) ops) x = false := by
  have hb0 := hasBits_create true vb h1 h2
  have hinv := indexInv_runOps vb ops _ _ (indexInv_create true vb) hb0 hv hcap
  cases hal : isEntityIdAlive (runOps (createEntityIndex true (vb : Int)) ops) x
  · rfl
  · exact absurd (isEntityIdAlive_sound hinv x hal) hx

theorem stale_id_is_not_alive_witness :
    isEntityIdAlive (runOps (createEntityIndex true ((8 : Nat) : Int))
      [.alloc, .alloc, .release 1, .alloc]) 1 = false :=
  stale_id_is_not_alive 8 (by decide) (by decide) [.alloc, .alloc, .release 1, .alloc]
    (by decide) (by decide) 1 (by decide)

/-- C10 (failing input): with versioning on, after `a = add, b = add, remove a, c = add,
remove b` the id `c = 16777217` is outstanding (handed out, never released) and every
release was of an outstanding id, yet `isEntityIdAlive` reports it dead: its position was
moved under the key `c` while `isEntityIdAlive` reads the key `getId c`. -/
theorem alive_id_reported_dead :
    releasesLive (createEntityIndex true 8) [] [.alloc, .alloc, .release 1, .alloc, .release 2] = true ∧
    16777217 ∈ liveIds (createEntityIndex true 8) [] [.alloc, .alloc, .release 1, .alloc, .release 2] ∧
    isEntityIdAlive (runOps (createEntityIndex true 8) [.alloc, .alloc, .release 1, .alloc, .release 2])
      16777217 = false := by
  decide

/-! ## Theorems: entity index, release of dead ids, allocation, invariants -/

/-- C11 (failing input): with versioning on, after `a = add (1), b = add (2), remove a,
c = add (16777217)` the id `a = 1` is not outstanding (it was released and its slot now
carries version 1), yet `removeEntityId(index, 1)` is not rejected: it lowers `aliveCount`
from 2 to 1 and kills `c`, which `isEntityIdAlive` reported alive before the call. -/
theorem stale_release_kills_live_id :
    (1 : Int) ∉ liveIds (createEntityIndex true 8) [] [.alloc, .alloc, .release 1, .alloc] ∧
    isEntityIdAlive (runOps (createEntityIndex true 8) [.alloc, .alloc, .release 1, .alloc]) 1 = false ∧
    (runOps (createEntityIndex true 8) [.alloc, .alloc, .release 1, .alloc]).aliveCount = 2 ∧
    isEntityIdAlive (runOps (createEntityIndex true 8) [.alloc, .alloc, .release 1, .alloc])
      16777217 = true ∧
    (removeEntityId (runOps (createEntityIndex true 8) [.alloc, .alloc, .release 1, .alloc]) 1).aliveCount
      = 1 ∧
    isEntityIdAlive
      (removeEntityId (runOps (createEntityIndex true 8) [.alloc, .alloc, .release 1, .alloc]) 1)
      16777217 = false := by
  decide

/-- C12: `addEntityId` returns `dense[aliveCount]` when `aliveCount < dense.length`, and
otherwise returns `maxId + 1`, raising `maxId` by one and the length of `dense` by one; in
both cases `aliveCount` grows by one and the returned id sits at position `aliveCount - 1`
of `dense` afterwards (`aliveCount ≤ dense.length` holds in every reachable index). -/
theorem addEntityId_returns (index : EntityIndex) (h : index.aliveCount ≤ index.dense.length) :
    (index.aliveCount < index.dense.length →
      (addEntityId index).1 = index.dense.getD index.aliveCount 0 ∧
      (addEntityId index).2.maxId = index.maxId ∧
      (addEntityId index).2.dense = index.dense) ∧
    (¬ index.aliveCount < index.dense.length →
      (addEntityId index).1 = index.maxId + 1 ∧
      (addEntityId index).2.maxId = index.maxId + 1 ∧
      (addEntityId index).2.dense.length = index.dense.length + 1) ∧
    (addEntityId index).2.aliveCount = index.aliveCount + 1 ∧
    (addEntityId index).2.dense.get? ((addEntityId index).2.aliveCount - 1)
      = some (addEntityId index).1 := by
  unfold addEntityId
  by_cases hlt : index.aliveCount < index.dense.length
  · rw [if_pos hlt]
    refine ⟨fun _ => ⟨rfl, rfl, rfl⟩, fun hn => absurd hlt hn, rfl, ?_⟩
    show index.dense.get? (index.aliveCount + 1 - 1) = some (index.dense.getD index.aliveCount 0)
    rw [Nat.add_sub_cancel, List.get?_eq_getElem?, List.getD_eq_getElem?_getD,
      List.getElem?_eq_getElem hlt]
    rfl
  · rw [if_neg hlt]
    have hlen : index.aliveCount = index.dense.length := by omega
    refine ⟨fun hn => absurd hn hlt, fun _ => ⟨rfl, rfl, ?_⟩, rfl, ?_⟩
    · show (index.dense ++ [index.maxId + 1]).length = index.dense.length + 1
      simp
    · show (index.dense ++ [index.maxId + 1]).get? (index.aliveCount + 1 - 1) = some (index.maxId + 1)
      rw [Nat.add_sub_cancel, hlen, List.get?_eq_getElem?]
      simp

theorem addEntityId_returns_witness :
    ((createEntityIndex false 8).aliveCount < (createEntityIndex false 8).dense.length →
      (addEntityId (createEntityIndex false 8)).1
        = (createEntityIndex false 8).dense.getD (createEntityIndex false 8).aliveCount 0 ∧
      (addEntityId (createEntityIndex false 8)).2.maxId = (createEntityIndex false 8).maxId ∧
      (addEntityId (createEntityIndex false 8)).2.dense = (createEntityIndex false 8).dense) ∧
    (¬ (createEntityIndex false 8).aliveCount < (createEntityIndex false 8).dense.length →
      (addEntityId (createEntityIndex false 8)).1 = (createEntityIndex false 8).maxId + 1 ∧
      (addEntityId (createEntityIndex false 8)).2.maxId = (createEntityIndex false 8).maxId + 1 ∧
      (addEntityId (createEntityIndex false 8)).2.dense.length
        = (createEntityIndex false 8).dense.length + 1) ∧
    (addEntityId (createEntityIndex false 8)).2.aliveCount = (createEntityIndex false 8).aliveCount + 1 ∧
    (addEntityId (createEntityIndex false 8)).2.dense.get?
        ((addEntityId (createEntityIndex false 8)).2.aliveCount - 1)
      = some (addEntityId (createEntityIndex false 8)).1 :=
  addEntityId_returns (createEntityIndex false 8) (by decide)

/-- The alive prefix along sequences without a stale release: on an index built by
`createEntityIndex` (versioning on or off, `1 ≤ vb ≤ 31`), after a call sequence whose
releases are of outstanding ids (or rejected by the guard) and that stays within the
capacity of the id field, every outstanding id `id` has
`sparse[id] < aliveCount` and `dense[sparse[id]] = id`, and the id bits of the first
`aliveCount` entries of `dense` are pairwise distinct. -/
theorem alive_prefix_invariant (v : Bool) (vb : Nat) (h1 : 1 ≤ vb) (h2 : vb ≤ 31)
    (ops : List IndexOp)
    (hv : releasesLive (createEntityIndex v (vb : Int)) [] ops = true)
    (hcap : (runOps (createEntityIndex v (vb : Int)) ops).maxId < 2 ^ (32 - vb)) :
    (∀ id ∈ liveIds (createEntityIndex v (vb : Int)) [] ops,
      ∃ d, (runOps (createEntityIndex v (vb : Int)) ops).sparse id = some d ∧
        d < (runOps (createEntityIndex v (vb : Int)) ops).aliveCount ∧
        (runOps (createEntityIndex v (vb : Int)) ops).dense.get? d = some id) ∧
    (∀ i j, i < (runOps (createEntityIndex v (vb : Int)) ops).aliveCount →
      j < (runOps (createEntityIndex v (vb : Int)) ops).aliveCount →
      getId (runOps (createEntityIndex v (vb : Int)) ops)
          ((runOps (createEntityIndex v (vb : Int)) ops).dense.getD i 0)
        = getId (runOps (createEntityIndex v (vb : Int)) ops)
          ((runOps (createEntityIndex v (vb : Int)) ops).dense.getD j 0) →
      i = j) := by
  have hb0 := hasBits_create v vb h1 h2
  have hinv := indexInv_runOps vb ops _ _ (indexInv_create v vb) hb0 hv hcap
  have hal := hinv.alive_le
  constructor
  · intro id hid
    obtain ⟨d, hd, hdx, hs⟩ := live_position hinv id hid
    refine ⟨d, hs, hd, ?_⟩
    rw [List.get?_eq_getElem?, List.getElem?_eq_getElem (by omega)]
    rw [List.getD_eq_getElem?_getD, List.getElem?_eq_getElem (by omega)] at hdx
    exact congrArg some hdx
  · intro i j hi hj e
    exact hinv.nodupId i j (by omega) (by omega) e

theorem alive_prefix_invariant_witness :
    (∀ id ∈ liveIds (createEntityIndex true ((8 : Nat) : Int)) [] [.alloc, .alloc, .release 1, .alloc],
      ∃ d, (runOps (createEntityIndex true ((8 : Nat) : Int)) [.alloc, .alloc, .release 1, .alloc]).sparse id
          = some d ∧
        d < (runOps (createEntityIndex true ((8 : Nat) : Int)) [.alloc, .alloc, .release 1, .alloc]).aliveCount ∧
        (runOps (createEntityIndex true ((8 : Nat) : Int)) [.alloc, .alloc, .release 1, .alloc]).dense.get? d
          = some id) ∧
    (∀ i j, i < (runOps (createEntityIndex true ((8 : Nat) : Int)) [.alloc, .alloc, .release 1, .alloc]).aliveCount →
      j < (runOps (createEntityIndex true ((8 : Nat) : Int)) [.alloc, .alloc, .release 1, .alloc]).aliveCount →
      getId (runOps (createEntityIndex true ((8 : Nat) : Int)) [.alloc, .alloc, .release 1, .alloc])
          ((runOps (createEntityIndex true ((8 : Nat) : Int)) [.alloc, .alloc, .release 1, .alloc]).dense.getD i 0)
        = getId (runOps (createEntityIndex true ((8 : Nat) : Int)) [.alloc, .alloc, .release 1, .alloc])
          ((runOps (createEntityIndex true ((8 : Nat) : Int)) [.alloc, .alloc, .release 1, .alloc]).dense.getD j 0) →
      i = j) :=
  alive_prefix_invariant true 8 (by decide) (by decide) [.alloc, .alloc, .release 1, .alloc]
    (by decide) (by decide)

/-- C8 (failing input): with versioning on (8 version bits), after `add (1), remove 1,
add (16777217), add (2), remove 16777217, add (33554433), remove 2, add (16777218),
remove 16777217, add (33554433), remove 2` (the last two releases are of ids released
before, and the guard lets them through) the id `x = 33554433` is outstanding and
`isEntityIdAlive` reports it alive, yet `removeEntityId(index, x)` is rejected by the guard
and the next `addEntityId` returns `16777218`, whose id bits are 2 while those of `x` are
1. -/
theorem recycle_returns_other_slot :
    33554433 ∈ liveIds (createEntityIndex true 8) [] [.alloc, .release 1, .alloc, .alloc,
      .release 16777217, .alloc, .release 2, .alloc, .release 16777217, .alloc, .release 2] ∧
    isEntityIdAlive (runOps (createEntityIndex true 8) [.alloc, .release 1, .alloc, .alloc,
      .release 16777217, .alloc, .release 2, .alloc, .release 16777217, .alloc, .release 2])
      33554433 = true ∧
    releaseRejected (runOps (createEntityIndex true 8) [.alloc, .release 1, .alloc, .alloc,
      .release 16777217, .alloc, .release 2, .alloc, .release 16777217, .alloc, .release 2])
      33554433 = true ∧
    (addEntityId (removeEntityId (runOps (createEntityIndex true 8) [.alloc, .release 1, .alloc,
      .alloc, .release 16777217, .alloc, .release 2, .alloc, .release 16777217, .alloc,
      .release 2]) 33554433)).1 = 16777218 ∧
    getId (createEntityIndex true 8) 16777218 = 2 ∧
    getId (createEntityIndex true 8) 33554433 = 1 := by
  decide

/-- C9 (failing input): with versioning on (8 version bits), along `add (1), remove 1,
add (16777217), add (2), remove 16777217, add (33554433), remove 2, add (16777218),
remove 16777217, add (33554433), remove 33554433, add (50331649)` the id `33554433`
(slot 1, version 2) is returned by `addEntityId`, released by the last `removeEntityId`
and its slot is handed out again under version 3, yet `isEntityIdAlive` still reports
`33554433` alive. -/
theorem released_id_reported_alive :
    (addEntityId (runOps (createEntityIndex true 8) [.alloc, .release 1, .alloc, .alloc,
      .release 16777217])).1 = 33554433 ∧
    33554433 ∉ liveIds (createEntityIndex true 8) [] [.alloc, .release 1, .alloc, .alloc,
      .release 16777217, .alloc, .release 2, .alloc, .release 16777217, .alloc,
      .release 33554433, .alloc] ∧
    (addEntityId (runOps (createEntityIndex true 8) [.alloc, .release 1, .alloc, .alloc,
      .release 16777217, .alloc, .release 2, .alloc, .release 16777217, .alloc,
      .release 33554433])).1 = 50331649 ∧
    getId (createEntityIndex true 8) 50331649 = getId (createEntityIndex true 8) 33554433 ∧
    getVersion (createEntityIndex true 8) 33554433 = 2 ∧
    getVersion (createEntityIndex true 8) 50331649 = 3 ∧
    isEntityIdAlive (runOps (createEntityIndex true 8) [.alloc, .release 1, .alloc, .alloc,
      .release 16777217, .alloc, .release 2, .alloc, .release 16777217, .alloc,
      .release 33554433, .alloc]) 33554433 = true := by
  decide

/-- C13 (failing input): with versioning on (8 version bits), after `add (1), add (2),
remove 1, add (16777217), remove 2, add (16777218), remove 1, add` (the third release is
of the id 1 released before, and the guard lets it through) `dense` is
`[16777217, 16777217]` with `aliveCount = 2`: the id bits of the alive prefix are not
pairwise distinct. -/
theorem alive_prefix_repeats_id :
    (1 : Int) ∉ liveIds (createEntityIndex true 8) [] [.alloc, .alloc, .release 1, .alloc,
      .release 2, .alloc] ∧
    releaseRejected (runOps (createEntityIndex true 8) [.alloc, .alloc, .release 1, .alloc,
      .release 2, .alloc]) 1 = false ∧
    (runOps (createEntityIndex true 8) [.alloc, .alloc, .release 1, .alloc, .release 2, .alloc,
      .release 1, .alloc]).dense = [16777217, 16777217] ∧
    (runOps (createEntityIndex true 8) [.alloc, .alloc, .release 1, .alloc, .release 2, .alloc,
      .release 1, .alloc]).aliveCount = 2 ∧
    getId (createEntityIndex true 8) 16777217 = 1 := by
  decide

/-! ## Theorems: maps, component registry -/

theorem mapGet_mapSet_same {κ ν : Type} [DecidableEq κ] (m : List (κ × ν)) (k : κ) (v : ν) :
    mapGet (mapSet m k v) k = some v := by
  induction m with
  | nil => simp [mapSet, mapGet]
  | cons p rest ih =>
    obtain ⟨k', v'⟩ := p
    by_cases h : k' = k
    · simp [mapSet, mapGet, h]
    · simp [mapSet, mapGet, h, ih]

theorem mapGet_mapSet_ne {κ ν : Type} [DecidableEq κ] (m : List (κ × ν)) (k k2 : κ) (v : ν)
    (hne : k2 ≠ k) : mapGet (mapSet m k v) k2 = mapGet m k2 := by
  induction m with
  | nil => simp [mapSet, mapGet, Ne.symm hne]
  | cons p rest ih =>
    obtain ⟨k', v'⟩ := p
    by_cases h : k' = k
    · subst h
      simp [mapSet, mapGet, Ne.symm hne]
    · by_cases h2 : k' = k2
      · subst h2
        simp [mapSet, mapGet, h]
      · simp [mapSet, mapGet, h, h2, ih]

theorem mapGet_registerComponent_same (w : World) (c : Component) :
    mapGet (registerComponent w c).2.componentMap c = some (registerComponent w c).1 := by
  unfold registerComponent
  simp only
  split <;> exact mapGet_mapSet_same _ _ _

theorem mapGet_registerComponent_ne (w : World) (c c2 : Component) (hne : c2 ≠ c) :
    mapGet (registerComponent w c).2.componentMap c2 = mapGet w.componentMap c2 := by
  unfold registerComponent
  simp only
  split <;> exact mapGet_mapSet_ne _ _ _ _ hne

theorem ensureRegistered_of_registered (w : World) (c : Component) (d : ComponentData)
    (h : mapGet w.componentMap c = some d) : ensureRegistered w c = w := by
  unfold ensureRegistered
  rw [h]

theorem ensureRegistered_of_fresh (w : World) (c : Component)
    (h : mapGet w.componentMap c = none) : ensureRegistered w c = (registerComponent w c).2 := by
  unfold ensureRegistered
  rw [h]

theorem ensureRegistered_registered (w : World) (c : Component) :
    ∃ d, mapGet (ensureRegistered w c).componentMap c = some d := by
  cases h : mapGet w.componentMap c with
  | some d => exact ⟨d, by rw [ensureRegistered_of_registered w c d h]; exact h⟩
  | none =>
    rw [ensureRegistered_of_fresh w c h]
    exact ⟨_, mapGet_registerComponent_same w c⟩

/-- C15 (failing input): `registerComponent` called a second time on the same component
does not return the existing metadata: the component that had id 0 and bitflag 1 gets id 1
and bitflag 2, `componentCount` goes from 1 to 2 and the bitflag cursor from 2 to 4; an
entity that held the component no longer has it by `hasComponent`. The function has no
`componentMap.has` check of its own; `addComponent` makes that check before it calls
`registerComponent`. -/
theorem registerComponent_twice_differs :
    (registerComponent createWorld (Component.plain 0)).1.id = 0 ∧
    (registerComponent createWorld (Component.plain 0)).1.bitflag = 1 ∧
    (registerComponent createWorld (Component.plain 0)).2.componentCount = 1 ∧
    (registerComponent (registerComponent createWorld (Component.plain 0)).2 (Component.plain 0)).1.id = 1 ∧
    (registerComponent (registerComponent createWorld (Component.plain 0)).2 (Component.plain 0)).1.bitflag = 2 ∧
    (registerComponent (registerComponent createWorld (Component.plain 0)).2
      (Component.plain 0)).2.componentCount = 2 ∧
    (registerComponent createWorld (Component.plain 0)).2.bitflag = 2 ∧
    (registerComponent (registerComponent createWorld (Component.plain 0)).2
      (Component.plain 0)).2.bitflag = 4 ∧
    hasComponent (finalWorld (runCalls 30 [.addEntity, .addComponent 1 (Component.plain 0)])) 1
      (Component.plain 0) = true ∧
    hasComponent (registerComponent (finalWorld (runCalls 30 [.addEntity,
      .addComponent 1 (Component.plain 0)])) (Component.plain 0)).2 1 (Component.plain 0)
      = false := by
  decide!

/-- Registration behind the guard of `addComponent`,
`if (!ctx.componentMap.has(component)) registerComponent(world, component)`, is idempotent:
a second guarded registration of the same component leaves the world as it is, and so the
metadata found for the component is the one the first registration stored. -/
theorem guarded_registration_idempotent (w : World) (c : Component) :
    ensureRegistered (ensureRegistered w c) c = ensureRegistered w c ∧
    mapGet (ensureRegistered (ensureRegistered w c) c).componentMap c
      = mapGet (ensureRegistered w c).componentMap c := by
  obtain ⟨d, hd⟩ := ensureRegistered_registered w c
  have h := ensureRegistered_of_registered (ensureRegistered w c) c d hd
  exact ⟨h, by rw [h]⟩

/-- C24: for an entity id that does not exist, `addComponent` and `removeComponent` throw
at their first statement and the world they leave is the world they were given. -/
theorem mutation_on_missing_entity_throws (fuel : Nat) (w : World) (eid : Int)
    (components : List Component) (h : entityExists w eid = false) :
    addComponent (fuel + 1) w eid components = .error (Err.noEntity, w) ∧
    removeComponent (fuel + 1) w eid components = .error (Err.noEntity, w) := by
  constructor
  · rw [addComponent]; simp [h]
  · rw [removeComponent]; simp [h]

theorem mutation_on_missing_entity_throws_witness :
    addComponent (0 + 1) createWorld 5 [Component.plain 0] = .error (Err.noEntity, createWorld) ∧
    removeComponent (0 + 1) createWorld 5 [Component.plain 0] = .error (Err.noEntity, createWorld) :=
  mutation_on_missing_entity_throws 0 createWorld 5 [Component.plain 0] (by decide)

/-- C1 (failing input): `query(world, [Not(A)])`, then `p = addPrefab(world)`, then
`query(world, [Not(A)])` again: the second read lists `p`, an entity that carries `Prefab`.
`addEntity` puts the new entity into every matching `Not` query before `addPrefab` adds
`Prefab`, and `addComponent` skips the query update for an entity that has `Prefab`. -/
theorem prefab_listed_by_not_query :
    (addPrefab 3 (query createWorld [Term.op .Not [Component.plain 0]]).2).toOption.map
      (fun r => (r.1, hasComponent r.2 r.1 Prefab,
        (query r.2 [Term.op .Not [Component.plain 0]]).1))
    = some (1, true, [1]) := by
  decide

/-! ## Theorems: the layout of component registrations -/

theorem regInv_createWorld : RegInv createWorld 0 where
  count := rfl
  flag := rfl
  words := rfl
  data := by intro c d h; simp [createWorld, mapGet] at h
  inj := by intro c1 c2 d1 d2 h; simp [createWorld, mapGet] at h

theorem flag_rollover (k : Nat) : 2 ^ (k % 31) * 2 ≥ 2 ^ 31 ↔ k % 31 = 30 := by
  have h31 : k % 31 < 31 := Nat.mod_lt _ (by decide)
  rw [← Nat.pow_succ]
  constructor
  · intro h
    have : 31 ≤ k % 31 + 1 := (Nat.pow_le_pow_iff_right (by decide : 1 < 2)).mp h
    omega
  · intro h
    rw [h]

theorem registerComponent_data (w : World) (c : Component) :
    (registerComponent w c).1 =
      { id := w.componentCount, generationId := w.entityMasks.length - 1,
        bitflag := w.bitflag, queries := [] } := by
  unfold registerComponent
  simp only
  split <;> rfl

theorem registerComponent_count (w : World) (c : Component) :
    (registerComponent w c).2.componentCount = w.componentCount + 1 := by
  unfold registerComponent
  simp only
  split <;> rfl

theorem registerComponent_flag (w : World) (c : Component) :
    (registerComponent w c).2.bitflag = if w.bitflag * 2 ≥ 2 ^ 31 then 1 else w.bitflag * 2 := by
  unfold registerComponent
  simp only
  split <;> rfl

theorem registerComponent_words (w : World) (c : Component) :
    (registerComponent w c).2.entityMasks.length =
      if w.bitflag * 2 ≥ 2 ^ 31 then w.entityMasks.length + 1 else w.entityMasks.length := by
  unfold registerComponent
  simp only
  split <;> simp

theorem regInv_register (w : World) (k : Nat) (c : Component) (h : RegInv w k)
    (hfresh : mapGet w.componentMap c = none) :
    RegInv (registerComponent w c).2 (k + 1) ∧
    (registerComponent w c).1.id = k ∧
    (registerComponent w c).1.generationId = k / 31 ∧
    (registerComponent w c).1.bitflag = 2 ^ (k % 31) := by
  have hd := registerComponent_data w c
  have hid : (registerComponent w c).1.id = k := by rw [hd]; exact h.count
  have hgen : (registerComponent w c).1.generationId = k / 31 := by
    rw [hd]; show w.entityMasks.length - 1 = k / 31; rw [h.words]; omega
  have hbit : (registerComponent w c).1.bitflag = 2 ^ (k % 31) := by rw [hd]; exact h.flag
  refine ⟨?_, hid, hgen, hbit⟩
  have hroll := flag_rollover k
  constructor
  · rw [registerComponent_count, h.count]
  · rw [registerComponent_flag, h.flag]
    by_cases h30 : k % 31 = 30
    · rw [if_pos (hroll.mpr h30)]
      have : (k + 1) % 31 = 0 := by omega
      rw [this]; rfl
    · rw [if_neg (fun hh => h30 (hroll.mp hh))]
      have : (k + 1) % 31 = k % 31 + 1 := by omega
      rw [this, Nat.pow_succ]
  · rw [registerComponent_words, h.flag, h.words]
    by_cases h30 : k % 31 = 30
    · rw [if_pos (hroll.mpr h30)]; omega
    · rw [if_neg (fun hh => h30 (hroll.mp hh))]; omega
  · intro c2 d hget
    by_cases hc : c2 = c
    · subst hc
      rw [mapGet_registerComponent_same] at hget
      cases hget
      rw [hid, hgen, hbit]
      exact ⟨Nat.lt_succ_self k, rfl, rfl⟩
    · rw [mapGet_registerComponent_ne w c c2 hc] at hget
      obtain ⟨h1, h2, h3⟩ := h.data c2 d hget
      exact ⟨Nat.lt_succ_of_lt h1, h2, h3⟩
  · intro c1 c2 d1 d2 h1 h2 hident
    by_cases hc1 : c1 = c
    · by_cases hc2 : c2 = c
      · rw [hc1, hc2]
      · exfalso
        rw [hc1, mapGet_registerComponent_same] at h1
        rw [mapGet_registerComponent_ne w c c2 hc2] at h2
        cases h1
        have := (h.data c2 d2 h2).1
        rw [hid] at hident
        omega
    · by_cases hc2 : c2 = c
      · exfalso
        rw [hc2, mapGet_registerComponent_same] at h2
        rw [mapGet_registerComponent_ne w c c1 hc1] at h1
        cases h2
        have := (h.data c1 d1 h1).1
        rw [hid] at hident
        omega
      · rw [mapGet_registerComponent_ne w c c1 hc1] at h1
        rw [mapGet_registerComponent_ne w c c2 hc2] at h2
        exact h.inj c1 c2 d1 d2 h1 h2 hident

/-- Registering the distinct, not yet registered components `cs` in a world
whose registry holds `k` components. -/
theorem regInv_ensureAll (cs : List Component) :
    ∀ (w : World) (k : Nat), RegInv w k → cs.Nodup →
      (∀ c, c ∈ cs → mapGet w.componentMap c = none) →
      RegInv (ensureAllRegistered w cs) (k + cs.length) ∧
      (∀ c d, mapGet w.componentMap c = some d →
        mapGet (ensureAllRegistered w cs).componentMap c = some d) ∧
      (∀ n (hn : n < cs.length), ∃ d,
        mapGet (ensureAllRegistered w cs).componentMap (cs.get ⟨n, hn⟩) = some d ∧
        d.id = k + n ∧ d.generationId = (k + n) / 31 ∧ d.bitflag = 2 ^ ((k + n) % 31)) := by
  induction cs with
  | nil =>
    intro w k h _ _
    exact ⟨h, fun _ _ hh => hh, fun n hn => absurd hn (Nat.not_lt_zero n)⟩
  | cons c rest ih =>
    intro w k h hnd hfresh
    have hc : mapGet w.componentMap c = none := hfresh c (List.mem_cons_self c rest)
    have hstep : ensureAllRegistered w (c :: rest)
        = ensureAllRegistered (registerComponent w c).2 rest := by
      unfold ensureAllRegistered
      rw [List.foldl_cons, ensureRegistered_of_fresh w c hc]
    obtain ⟨hreg, hid, hgen, hbit⟩ := regInv_register w k c h hc
    have hnd2 : rest.Nodup := (List.nodup_cons.mp hnd).2
    have hnotin : c ∉ rest := (List.nodup_cons.mp hnd).1
    have hfresh2 : ∀ c2, c2 ∈ rest → mapGet (registerComponent w c).2.componentMap c2 = none := by
      intro c2 hc2
      have hne : c2 ≠ c := fun heq => hnotin (heq ▸ hc2)
      rw [mapGet_registerComponent_ne w c c2 hne]
      exact hfresh c2 (List.mem_cons_of_mem c hc2)
    obtain ⟨hinv, hkeep, hnth⟩ := ih (registerComponent w c).2 (k + 1) hreg hnd2 hfresh2
    rw [hstep]
    refine ⟨?_, ?_, ?_⟩
    · have : k + (c :: rest).length = k + 1 + rest.length := by simp; omega
      rw [this]; exact hinv
    · intro c2 d hget
      apply hkeep
      have hne : c2 ≠ c := by
        intro heq; rw [heq, hc] at hget; cases hget
      rw [mapGet_registerComponent_ne w c c2 hne]; exact hget
    · intro n hn
      cases n with
      | zero =>
        refine ⟨(registerComponent w c).1, ?_, ?_, ?_, ?_⟩
        · exact hkeep c _ (mapGet_registerComponent_same w c)
        · simpa using hid
        · simpa using hgen
        · simpa using hbit
      | succ m =>
        have hm : m < rest.length := by simpa using hn
        obtain ⟨d, hd1, hd2, hd3, hd4⟩ := hnth m hm
        refine ⟨d, ?_, ?_, ?_, ?_⟩
        · simpa using hd1
        · omega
        · rw [hd3]; congr 1; omega
        · rw [hd4]; congr 2; omega

/-- C14: in a fresh world the `n`-th distinct component registered gets id
`n`, generation `n / 31` and bitflag `2 ^ (n % 31)`; every bitflag is below
`2 ^ 31`; two registered components with the same generation and bitflag are
the same component; after `k` registrations there are `k / 31 + 1` mask words. -/
theorem nth_registration_layout (cs : List Component) (hnd : cs.Nodup) :
    (∀ n (hn : n < cs.length), ∃ d,
      mapGet (ensureAllRegistered createWorld cs).componentMap (cs.get ⟨n, hn⟩) = some d ∧
      d.id = n ∧ d.generationId = n / 31 ∧ d.bitflag = 2 ^ (n % 31) ∧ d.bitflag < 2 ^ 31) ∧
    (∀ c1 c2 d1 d2, mapGet (ensureAllRegistered createWorld cs).componentMap c1 = some d1 →
      mapGet (ensureAllRegistered createWorld cs).componentMap c2 = some d2 →
      d1.generationId = d2.generationId → d1.bitflag = d2.bitflag → c1 = c2) ∧
    (ensureAllRegistered createWorld cs).entityMasks.length = cs.length / 31 + 1 ∧
    (ensureAllRegistered createWorld cs).componentCount = cs.length := by
  obtain ⟨hinv, _, hnth⟩ := regInv_ensureAll cs createWorld 0 regInv_createWorld hnd
    (by intro c _; rfl)
  rw [Nat.zero_add] at hinv
  refine ⟨?_, ?_, hinv.words, hinv.count⟩
  · intro n hn
    obtain ⟨d, h1, h2, h3, h4⟩ := hnth n hn
    rw [Nat.zero_add] at h2 h3 h4
    refine ⟨d, h1, h2, h3, h4, ?_⟩
    rw [h4]
    exact Nat.pow_lt_pow_right (by decide) (Nat.mod_lt _ (by decide))
  · intro c1 c2 d1 d2 h1 h2 hg hb
    obtain ⟨_, g1, b1⟩ := hinv.data c1 d1 h1
    obtain ⟨_, g2, b2⟩ := hinv.data c2 d2 h2
    apply hinv.inj c1 c2 d1 d2 h1 h2
    rw [g1, g2] at hg
    rw [b1, b2] at hb
    have hm : d1.id % 31 = d2.id % 31 := Nat.pow_right_injective (le_refl 2) hb
    have e1 := Nat.div_add_mod d1.id 31
    have e2 := Nat.div_add_mod d2.id 31
    omega

theorem nth_registration_layout_witness :
    (∀ n (hn : n < [Component.plain 0, Component.plain 1].length), ∃ d,
      mapGet (ensureAllRegistered createWorld [Component.plain 0, Component.plain 1]).componentMap
        ([Component.plain 0, Component.plain 1].get ⟨n, hn⟩) = some d ∧
      d.id = n ∧ d.generationId = n / 31 ∧ d.bitflag = 2 ^ (n % 31) ∧ d.bitflag < 2 ^ 31) ∧
    (∀ c1 c2 d1 d2,
      mapGet (ensureAllRegistered createWorld [Component.plain 0, Component.plain 1]).componentMap c1
        = some d1 →
      mapGet (ensureAllRegistered createWorld [Component.plain 0, Component.plain 1]).componentMap c2
        = some d2 →
      d1.generationId = d2.generationId → d1.bitflag = d2.bitflag → c1 = c2) ∧
    (ensureAllRegistered createWorld [Component.plain 0, Component.plain 1]).entityMasks.length
      = [Component.plain 0, Component.plain 1].length / 31 + 1 ∧
    (ensureAllRegistered createWorld [Component.plain 0, Component.plain 1]).componentCount
      = [Component.plain 0, Component.plain 1].length :=
  nth_registration_layout [Component.plain 0, Component.plain 1] (by decide)

/-! ## Theorems: observables -/

theorem mapGet_objectSpread (result : List (Nat × Int)) :
    ∀ (acc : List (Nat × Int)) (key : Nat),
      mapGet (objectSpread acc result) key = (objGet result key).orElse (fun _ => mapGet acc key) := by
  induction result with
  | nil => intro acc key; simp [objectSpread, objGet]
  | cons p rest ih =>
    intro acc key
    obtain ⟨k, v⟩ := p
    have hstep : objectSpread acc ((k, v) :: rest) = objectSpread (mapSet acc k v) rest := rfl
    rw [hstep, ih]
    cases hrest : objGet rest key with
    | some x => simp [objGet, hrest]
    | none =>
      by_cases hk : k = key
      · subst hk
        simp [objGet, hrest, mapGet_mapSet_same]
      · have hne : key ≠ k := fun h => hk h.symm
        simp [objGet, hrest, hk, mapGet_mapSet_ne _ _ _ _ hne]

theorem notify_fold (entity : Int) (ls : List Listener) :
    ∀ (acc : List (Nat × Int)) (calls : List Nat),
      let r := ls.foldl (fun (state : List (Nat × Int) × List Nat) listener =>
        ((match listener.run entity with
          | .object fields => objectSpread state.1 fields
          | .other => state.1), state.2 ++ [listener.ident])) (acc, calls)
      r.2 = calls ++ ls.map Listener.ident ∧
      ∀ key, mapGet r.1 key
        = (lastValue (ls.map (fun l => l.run entity)) key).orElse (fun _ => mapGet acc key) := by
  induction ls with
  | nil => intro acc calls; simp [lastValue]
  | cons l rest ih =>
    intro acc calls
    simp only [List.foldl_cons, List.map_cons]
    obtain ⟨h1, h2⟩ := ih (match l.run entity with
      | .object fields => objectSpread acc fields
      | .other => acc) (calls ++ [l.ident])
    refine ⟨?_, ?_⟩
    · rw [h1]; simp
    · intro key
      rw [h2 key]
      cases hrest : lastValue (rest.map (fun l => l.run entity)) key with
      | some x => simp [lastValue, hrest]
      | none =>
        cases hr : l.run entity with
        | object fields => simp [lastValue, hrest, mapGet_objectSpread]
        | other => simp [lastValue, hrest]

theorem observers_nodup (ops : List ObsOp) :
    ∀ o : Observable, (o.observers.map Listener.ident).Nodup →
      ((runObs o ops).observers.map Listener.ident).Nodup := by
  induction ops with
  | nil => intro o h; exact h
  | cons op rest ih =>
    intro o h
    apply ih
    cases op with
    | subscribe l =>
      show ((o.subscribe l).observers.map Listener.ident).Nodup
      unfold Observable.subscribe
      by_cases hin : l.ident ∈ o.observers.map Listener.ident
      · rw [if_pos hin]; exact h
      · rw [if_neg hin]
        simp only [List.map_append, List.map_cons, List.map_nil]
        exact List.Nodup.append h (List.nodup_singleton _) (by simpa using hin)
    | unsubscribe l =>
      show ((o.unsubscribe l).observers.map Listener.ident).Nodup
      unfold Observable.unsubscribe
      exact (List.Nodup.sublist (List.Sublist.map _ (List.filter_sublist _)) h)

/-- C25: on an observable reached by any sequence of `subscribe` and
unsubscribe calls, `notify(entity)` calls every listener of the set once, in
subscription order; the object it returns has, for every key, the value of
the last listener whose returned object has the key (returns that are not
objects are skipped; with no listener the object is empty); a listener
subscribed next is called last; a listener whose handle was called is not
called. -/
theorem notify_calls_and_merges (ops : List ObsOp) (entity : Int) (l : Listener) :
    ((runObs createObservable ops).notify entity).2
      = (runObs createObservable ops).observers.map Listener.ident ∧
    (((runObs createObservable ops).notify entity).2).Nodup ∧
    (∀ key, mapGet ((runObs createObservable ops).notify entity).1 key
      = lastValue ((runObs createObservable ops).observers.map (fun l => l.run entity)) key) ∧
    (createObservable.notify entity = ([], [])) ∧
    (l.ident ∉ ((runObs createObservable ops).notify entity).2 →
      (((runObs createObservable ops).subscribe l).notify entity).2
        = ((runObs createObservable ops).notify entity).2 ++ [l.ident]) ∧
    l.ident ∉ (((runObs createObservable ops).unsubscribe l).notify entity).2 := by
  have hcalls : ∀ o : Observable, (o.notify entity).2 = o.observers.map Listener.ident := by
    intro o
    have := (notify_fold entity o.observers [] []).1
    simpa [Observable.notify] using this
  refine ⟨hcalls _, ?_, ?_, rfl, ?_, ?_⟩
  · rw [hcalls]
    exact observers_nodup ops createObservable (by simp [createObservable])
  · intro key
    have := (notify_fold entity (runObs createObservable ops).observers [] []).2 key
    simp only [mapGet] at this
    cases h : lastValue ((runObs createObservable ops).observers.map (fun l => l.run entity)) key with
    | some x => rw [h] at this; simpa [Observable.notify] using this
    | none => rw [h] at this; simpa [Observable.notify] using this
  · intro hnot
    rw [hcalls] at hnot
    rw [hcalls, hcalls]
    unfold Observable.subscribe
    rw [if_neg hnot]
    simp
  · rw [hcalls]
    unfold Observable.unsubscribe
    simp

/-! ## Theorems: the code on concrete call sequences -/

/-- C4 (failing input): `T = addEntity()`, `h = addEntity()`,
`addComponent(h, ChildOf(T))`, `addComponent(h, Likes(T))`,
`removeComponent(h, Likes(T))`: `h` still holds `ChildOf(T)`, a pair of a
relation with `autoRemoveSubject`. After `removeEntity(T)` the entity `T` is
gone and `h` still exists, still holding `ChildOf(T)`. -/
theorem holder_survives_target_removal :
    (runCalls 40 [.addEntity, .addEntity, .addComponent 2 (Pair ChildOf (.eid 1)),
        .addComponent 2 (Pair Likes (.eid 1)), .removeComponent 2 (Pair Likes (.eid 1))]).toOption.map
      (fun w => ([entityExists w 1, entityExists w 2, hasComponent w 2 (Pair ChildOf (.eid 1))],
        (removeEntity 40 w 1).toOption.map
          (fun w2 => [entityExists w2 1, entityExists w2 2, hasComponent w2 2 (Pair ChildOf (.eid 1))])))
    = some ([true, true, true], some [false, true, true]) := by
  decide!

/-- C34 (failing input): after `addComponent(e, ChildOf(t))`,
`addComponent(e, Likes(t))`, `removeComponent(e, Likes(t))` the entity `e`
holds `ChildOf(t)` and does not hold the mirror `Pair(Wildcard, t)`: the
removal of `Likes(t)` removes the mirror although `ChildOf(t)` still needs it. -/
theorem mirror_lost_with_second_relation :
    (runCalls 40 [.addEntity, .addEntity, .addComponent 2 (Pair ChildOf (.eid 1)),
        .addComponent 2 (Pair Likes (.eid 1)), .removeComponent 2 (Pair Likes (.eid 1))]).toOption.map
      (fun w => (entityExists w 2, hasComponent w 2 (Pair ChildOf (.eid 1)),
        hasComponent w 2 (Pair Wildcard (.eid 1))))
    = some (true, true, false) := by
  decide!

/-- C20 (failing input): in the world after `addComponent(e, ChildOf(t))`,
`addComponent(e, Likes(t))`, `removeComponent(e, Likes(t))`, the call
`addComponent(e, ChildOf(t))` returns at the `hasComponent` test: afterwards
`e` has `ChildOf(t)` and `Pair(ChildOf, Wildcard)` and lacks `Pair(Wildcard, t)`. -/
theorem add_pair_leaves_mirror_missing :
    (runCalls 40 [.addEntity, .addEntity, .addComponent 2 (Pair ChildOf (.eid 1)),
        .addComponent 2 (Pair Likes (.eid 1)), .removeComponent 2 (Pair Likes (.eid 1)),
        .addComponent 2 (Pair ChildOf (.eid 1))]).toOption.map
      (fun w => (entityExists w 2, entityExists w 1, hasComponent w 2 (Pair ChildOf (.eid 1)),
        hasComponent w 2 (Pair ChildOf (.rel Wildcard)), hasComponent w 2 (Pair Wildcard (.eid 1))))
    = some (true, true, true, true, false) := by
  decide!

/-- C21 (failing input): `e = addEntity()`, then `addComponent(e, Likes(7))`
where no entity `7` exists. The call throws, and the world at the throw is
not the world before the call: `e` has `Likes(7)`, `Pair(Likes, Wildcard)`
and `Pair(Wildcard, 7)`, its component set has four members, and
`entitiesWithRelations` has a member. -/
theorem add_pair_throws_after_mutation :
    (runCalls 40 [.addEntity]).toOption.map
      (fun w => ([hasComponent w 1 (Pair Likes (.eid 7))],
        [w.entitiesWithRelations.length, ((mapGet w.entityComponents 1).getD []).length],
        (thrown (addComponent 40 w 1 [Pair Likes (.eid 7)])).map
          (fun p => ([decide (p.1 = Err.noEntity), hasComponent p.2 1 (Pair Likes (.eid 7)),
            hasComponent p.2 1 (Pair Likes (.rel Wildcard)),
            hasComponent p.2 1 (Pair Wildcard (.eid 7))],
            [p.2.entitiesWithRelations.length, ((mapGet p.2.entityComponents 1).getD []).length]))))
    = some ([false], [0, 0], some ([true, true, true, true], [1, 4])) := by
  decide!

/-- C33 (failing input): one entity without components. `query([And(A, B)])`
returns it, `query([A, B])` returns nothing: `registerQuery` has no branch
for an `And` term, so the query has no component and matches every entity. -/
theorem and_query_matches_everything :
    (runCalls 40 [.addEntity]).toOption.map
      (fun w => (hasComponent w 1 (comp 0), hasComponent w 1 (comp 1),
        (query w [Term.op .And [comp 0, comp 1]]).1,
        (query w [Term.comp (comp 0), Term.comp (comp 1)]).1))
    = some (false, false, [1], []) := by
  decide!

/-- C32 (failing input): entity 1 holds the components `comp 0 .. comp 30`,
which fill generation 0; `comp 31` is registered next and falls in
generation 1. The entity has `comp 0`, and `query([Or(comp 0, comp 31)])`
does not list it, while `query([Or(comp 0, comp 1)])` does. -/
theorem or_query_across_generations :
    (runCalls 40 (.addEntity :: (List.range 31).map (fun n => Call.addComponent 1 (comp n)))).toOption.map
      (fun w => (entityExists w 1, hasComponent w 1 Prefab, hasComponent w 1 (comp 0),
        (query w [Term.op .Or [comp 0, comp 31]]).1,
        (query w [Term.op .Or [comp 0, comp 1]]).1))
    = some (true, false, true, [], [1]) := by
  decide!

/-- C18 (failing input): `query([Not(A)])`, `p = addPrefab()`,
`addComponent(p, A)`: `p` is in the live set of the query and is not queued
in `toRemove`, and `p` does not satisfy the match predicate of the query. -/
theorem live_set_member_fails_predicate :
    (runCalls 40 [.query [Term.op .Not [comp 0]], .addPrefab, .addComponent 1 (comp 0)]).toOption.map
      (fun w => (getQuery w 0).map
        (fun q => (q.sparseSet.has 1, q.toRemove.has 1, queryCheckEntity w q 1)))
    = some (some (true, false, false)) := by
  decide!

/-! ## Theorems: query observables -/

/-- C26 (failing input): `e = addEntity()`, `addComponent(e, A)`,
`observe(world, onAdd(Or(A, B)), cb)`, `addComponent(e, B)`. When the
callback is subscribed, `e` is a member of the query, not queued for removal,
and `addObservable.notify` has been called once (by `registerQuery`). The
call `addComponent(e, B)` calls `addObservable.notify(e)` again, so `cb` is
invoked, although `e` was a member that matched before the call and is one after it. -/
theorem on_add_fires_for_member :
    (runCalls 40 [.addEntity, .addComponent 1 (comp 0)]).toOption.map
      (fun w =>
        (memberState (observe w [Term.op .Or [comp 0, comp 1]]).2
          (observe w [Term.op .Or [comp 0, comp 1]]).1 1,
        (addComponent 40 (observe w [Term.op .Or [comp 0, comp 1]]).2 1 [comp 1]).toOption.map
          (fun w2 => memberState w2 (observe w [Term.op .Or [comp 0, comp 1]]).1 1)))
    = some ([[1, 0, 1], [1], []], some [[1, 0, 1], [1, 1], []]) := by
  decide!

/-! ## Theorems: sparse sets -/

theorem nodup_get?_inj {l : List Int} (h : l.Nodup) {i j : Nat} {v : Int}
    (hi : l.get? i = some v) (hj : l.get? j = some v) : i = j := by
  have hil : i < l.length := by
    by_contra hc
    rw [List.get?_eq_none.mpr (Nat.le_of_not_lt hc)] at hi
    cases hi
  have hjl : j < l.length := by
    by_contra hc
    rw [List.get?_eq_none.mpr (Nat.le_of_not_lt hc)] at hj
    cases hj
  rw [List.get?_eq_get hil] at hi
  rw [List.get?_eq_get hjl] at hj
  have := (List.Nodup.get_inj_iff h).mp (by
    rw [Option.some.inj hi, Option.some.inj hj] : l.get ⟨i, hil⟩ = l.get ⟨j, hjl⟩)
  exact Fin.mk.inj this

theorem set_eq_map_replace (w : Int) :
    ∀ (l : List Int) (i : Nat) (v : Int), l.Nodup → l.get? i = some v →
      l.set i w = l.map (fun x => if x = v then w else x) := by
  intro l
  induction l with
  | nil => intro i v _ h; simp at h
  | cons a rest ih =>
    intro i v hnd h
    have hnotin : a ∉ rest := (List.nodup_cons.mp hnd).1
    have hrest : rest.Nodup := (List.nodup_cons.mp hnd).2
    cases i with
    | zero =>
      simp only [List.get?_cons_zero, Option.some.injEq] at h
      subst h
      simp only [List.set_cons_zero, List.map_cons, if_true]
      congr 1
      symm
      have : ∀ x ∈ rest, (fun x => if x = a then w else x) x = id x := by
        intro x hx
        have : x ≠ a := fun hxa => hnotin (hxa ▸ hx)
        simp [this]
      rw [List.map_congr_left this, List.map_id]
    | succ n =>
      simp only [List.get?_cons_succ] at h
      have hv : v ∈ rest := List.get?_mem h
      have hav : a ≠ v := fun hav => hnotin (hav ▸ hv)
      simp only [List.set_cons_succ, List.map_cons, if_neg hav]
      rw [ih n v hrest h]

theorem take_succ_set (x : Int) : ∀ (l : List Int) (n : Nat), n < l.length →
    (l.set n x).take (n + 1) = l.take n ++ [x] := by
  intro l
  induction l with
  | nil => intro n h; simp at h
  | cons a rest ih =>
    intro n h
    cases n with
    | zero => simp
    | succ m =>
      have hm : m < rest.length := by simpa using h
      simp only [List.set_cons_succ, List.take_succ_cons, List.cons_append]
      rw [ih m hm]

theorem take_set_lt (x : Int) : ∀ (l : List Int) (n i : Nat),
    (l.set i x).take n = (l.take n).set i x := by
  intro l
  induction l with
  | nil => intro n i; simp
  | cons a rest ih =>
    intro n i
    cases n with
    | zero => simp
    | succ m =>
      cases i with
      | zero => simp
      | succ k => simp [ih m k]

theorem take_set_ge (x : Int) (l : List Int) (n i : Nat) (h : n ≤ i) :
    (l.set i x).take n = l.take n := by
  rw [take_set_lt]
  apply List.set_eq_of_length_le
  rw [List.length_take]
  exact le_trans (Nat.min_le_left _ _) h

/-- What swap-removal leaves of a list without repetition. -/
theorem swapRemove_spec (d : List Int) (v : Int) (hnd : d.Nodup) :
    (swapRemove d v).Nodup ∧ ∀ x, x ∈ swapRemove d v ↔ (x ∈ d ∧ x ≠ v) := by
  unfold swapRemove
  cases hlast : d.getLast? with
  | none =>
    have : d = [] := List.getLast?_eq_none_iff.mp hlast
    subst this
    simp
  | some last =>
    have hd : d.dropLast ++ [last] = d := List.dropLast_append_getLast? last hlast
    simp only
    by_cases hv : v ∈ d
    · rw [if_pos hv]
      have hnd2 : (d.dropLast ++ [last]).Nodup := by rw [hd]; exact hnd
      have hinit : d.dropLast.Nodup := (List.nodup_append.mp hnd2).1
      have hlastnot : last ∉ d.dropLast := by
        intro hin
        exact (List.nodup_append.mp hnd2).2.2 hin (List.mem_singleton_self last) 
      by_cases hlv : last = v
      · rw [if_pos hlv]
        refine ⟨hinit, ?_⟩
        intro x
        constructor
        · intro hx
          refine ⟨?_, ?_⟩
          · rw [← hd]; exact List.mem_append_left _ hx
          · intro hxv; rw [hxv, ← hlv] at hx; exact hlastnot hx
        · rintro ⟨hx, hxv⟩
          rw [← hd] at hx
          rcases List.mem_append.mp hx with h1 | h1
          · exact h1
          · exfalso; rw [List.mem_singleton] at h1; exact hxv (h1.trans hlv)
      · rw [if_neg hlv]
        have hvinit : v ∈ d.dropLast := by
          rw [← hd] at hv
          rcases List.mem_append.mp hv with h1 | h1
          · exact h1
          · exfalso; rw [List.mem_singleton] at h1; exact hlv h1.symm
        refine ⟨?_, ?_⟩
        · apply List.Nodup.map_on _ hinit
          intro x hx y hy hxy
          by_cases hxv : x = v
          · by_cases hyv : y = v
            · rw [hxv, hyv]
            · exfalso
              simp only [hxv, hyv, if_true, if_false] at hxy
              exact hlastnot (hxy ▸ hy)
          · by_cases hyv : y = v
            · exfalso
              simp only [hxv, hyv, if_true, if_false] at hxy
              exact hlastnot (hxy ▸ hx)
            · simpa [hxv, hyv] using hxy
        · intro x
          rw [List.mem_map]
          constructor
          · rintro ⟨y, hy, hyx⟩
            by_cases hyv : y = v
            · simp only [hyv, if_true] at hyx
              subst hyx
              refine ⟨?_, hlv⟩
              rw [← hd]; exact List.mem_append_right _ (List.mem_singleton_self _)
            · simp only [hyv, if_false] at hyx
              subst hyx
              refine ⟨?_, hyv⟩
              rw [← hd]; exact List.mem_append_left _ hy
          · rintro ⟨hx, hxv⟩
            rw [← hd] at hx
            rcases List.mem_append.mp hx with h1 | h1
            · exact ⟨x, h1, by simp [hxv]⟩
            · rw [List.mem_singleton] at h1
              exact ⟨v, hvinit, by simp [h1]⟩
    · rw [if_neg hv]
      refine ⟨hnd, ?_⟩
      intro x
      constructor
      · intro hx; exact ⟨hx, fun hxv => hv (hxv ▸ hx)⟩
      · intro h; exact h.1

/-! ## Theorems: the set of `createSparseSet` -/

theorem sparseInv_create : SparseInv createSparseSet := by
  refine ⟨List.nodup_nil, ?_⟩
  intro i v h
  simp [createSparseSet] at h

theorem sparse_has_iff (s : SparseSet) (h : SparseInv s) (v : Int) :
    s.has v = true ↔ v ∈ s.dense := by
  unfold SparseSet.has
  constructor
  · intro hv
    cases hs : s.sparse v with
    | none => rw [hs] at hv; cases hv
    | some i =>
      rw [hs] at hv
      have : s.dense.get? i = some v := by simpa using hv
      exact List.get?_mem this
  · intro hv
    obtain ⟨i, hi⟩ := List.get?_of_mem hv
    rw [h.2 i v hi]
    have hi2 : s.dense[i]? = some v := by simpa using hi
    simp [hi2]

theorem sparse_add (s : SparseSet) (h : SparseInv s) (v : Int) :
    SparseInv (s.add v) ∧
    (s.add v).dense = if v ∈ s.dense then s.dense else s.dense ++ [v] := by
  unfold SparseSet.add
  by_cases hv : v ∈ s.dense
  · rw [if_pos ((sparse_has_iff s h v).mpr hv), if_pos hv]
    exact ⟨h, rfl⟩
  · have hhas : ¬ (s.has v = true) := fun hh => hv ((sparse_has_iff s h v).mp hh)
    rw [if_neg hhas, if_neg hv]
    refine ⟨⟨?_, ?_⟩, rfl⟩
    · exact List.Nodup.append h.1 (List.nodup_singleton v) (by simpa using hv)
    · intro i x hx
      simp only [List.get?_eq_getElem?] at hx
      by_cases hi : i < s.dense.length
      · rw [List.getElem?_append_left hi] at hx
        have hxmem : x ∈ s.dense := List.getElem?_mem hx
        have hxv : x ≠ v := fun hxv => hv (hxv ▸ hxmem)
        show setKey s.sparse v s.dense.length x = some i
        unfold setKey
        rw [if_neg hxv]
        exact h.2 i x (by simpa using hx)
      · rw [List.getElem?_append_right (Nat.le_of_not_lt hi)] at hx
        have hz : i - s.dense.length = 0 := by
          by_contra hne
          have : [v][i - s.dense.length]? = none := by
            apply List.getElem?_eq_none
            simp; omega
          rw [this] at hx; cases hx
        rw [hz] at hx
        simp only [List.getElem?_cons_zero, Option.some.injEq] at hx
        subst hx
        show setKey s.sparse v s.dense.length v = some i
        unfold setKey
        rw [if_pos rfl]
        congr 1
        omega

theorem getElem?_dropLast_some (d : List Int) (i : Nat) (x : Int)
    (h : d.dropLast[i]? = some x) : d[i]? = some x ∧ i + 1 < d.length := by
  have hi : i < d.dropLast.length := by
    by_contra hc
    rw [List.getElem?_eq_none (Nat.le_of_not_lt hc)] at h
    cases h
  have hi2 := hi
  rw [List.length_dropLast] at hi2
  refine ⟨?_, by omega⟩
  cases hl : d.getLast? with
  | none =>
    have : d = [] := List.getLast?_eq_none_iff.mp hl
    subst this
    simp at h
  | some last =>
    have hd : d.dropLast ++ [last] = d := List.dropLast_append_getLast? last hl
    rw [← hd, List.getElem?_append_left hi]
    exact h

theorem sparse_remove (s : SparseSet) (h : SparseInv s) (v : Int) :
    SparseInv (s.remove v) ∧ (s.remove v).dense = swapRemove s.dense v := by
  unfold SparseSet.remove swapRemove
  by_cases hv : v ∈ s.dense
  · have hhas : s.has v = true := (sparse_has_iff s h v).mpr hv
    obtain ⟨idx, hidx⟩ := List.get?_of_mem hv
    have hsp : s.sparse v = some idx := h.2 idx v hidx
    have hne : s.dense ≠ [] := List.ne_nil_of_mem hv
    obtain ⟨last, hlast⟩ : ∃ last, s.dense.getLast? = some last := by
      cases hl : s.dense.getLast? with
      | none => exact absurd (List.getLast?_eq_none_iff.mp hl) hne
      | some l => exact ⟨l, rfl⟩
    have hd : s.dense.dropLast ++ [last] = s.dense := List.dropLast_append_getLast? last hlast
    have hnd2 : (s.dense.dropLast ++ [last]).Nodup := by rw [hd]; exact h.1
    have hinit : s.dense.dropLast.Nodup := (List.nodup_append.mp hnd2).1
    have hlastnot : last ∉ s.dense.dropLast := by
      intro hin
      exact (List.nodup_append.mp hnd2).2.2 hin (List.mem_singleton_self last)
    simp only [hhas, Bool.not_true, hsp, hlast, if_pos hv]
    by_cases hlv : last = v
    · simp only [hlv, ne_eq, not_true_eq_false, if_false, if_true, Bool.false_eq_true]
      refine ⟨⟨?_, ?_⟩, trivial⟩
      · exact hinit
      · intro i x hx
        simp only [List.get?_eq_getElem?] at hx
        exact h.2 i x (by simpa using (getElem?_dropLast_some _ _ _ hx).1)
    · have hvinit : s.dense.dropLast.get? idx = some v := by
        simp only [List.get?_eq_getElem?] at hidx ⊢
        have hlt : idx < s.dense.length := by
          by_contra hc
          rw [List.getElem?_eq_none (Nat.le_of_not_lt hc)] at hidx
          cases hidx
        have hidx2 := hidx
        rw [← hd] at hidx2
        by_cases hi : idx < s.dense.dropLast.length
        · rw [List.getElem?_append_left hi] at hidx2; exact hidx2
        · exfalso
          rw [List.getElem?_append_right (Nat.le_of_not_lt hi)] at hidx2
          have hz : idx - s.dense.dropLast.length = 0 := by
            rw [List.length_dropLast] at hi ⊢; omega
          rw [hz] at hidx2
          simp only [List.getElem?_cons_zero, Option.some.injEq] at hidx2
          exact hlv hidx2
      simp only [ne_eq, hlv, not_false_eq_true, if_true, if_false, Bool.false_eq_true]
      have hset := set_eq_map_replace last s.dense.dropLast idx v hinit hvinit
      refine ⟨⟨?_, ?_⟩, hset⟩
      · show (s.dense.dropLast.set idx last).Nodup
        rw [hset]
        have := (swapRemove_spec s.dense v h.1).1
        unfold swapRemove at this
        simpa [hlast, hv, hlv] using this
      · intro i x hx
        show setKey s.sparse last idx x = some i
        have hx2 : (s.dense.dropLast.set idx last)[i]? = some x := by
          simpa [List.get?_eq_getElem?] using hx
        rw [List.getElem?_set] at hx2
        by_cases hii : idx = i
        · rw [if_pos hii] at hx2
          split at hx2
          · simp only [Option.some.injEq] at hx2
            subst hx2
            unfold setKey
            rw [if_pos rfl, hii]
          · cases hx2
        · rw [if_neg hii] at hx2
          have hxmem : x ∈ s.dense.dropLast := List.getElem?_mem hx2
          have hxl : x ≠ last := fun hxl => hlastnot (hxl ▸ hxmem)
          unfold setKey
          rw [if_neg hxl]
          exact h.2 i x (by simpa using (getElem?_dropLast_some _ _ _ hx2).1)
  · have hhas : ¬ (s.has v = true) := fun hh => hv ((sparse_has_iff s h v).mp hh)
    have hhas2 : s.has v = false := by simpa using hhas
    simp only [hhas2, Bool.not_false, if_true, if_neg hv]
    refine ⟨h, ?_⟩
    cases s.dense.getLast? <;> rfl

/-! ## Theorems: the set of `createUint32SparseSet` -/

theorem getElem?_take_some (l : List Int) (n i : Nat) (x : Int) :
    (l.take n)[i]? = some x ↔ (i < n ∧ l[i]? = some x) := by
  rw [List.getElem?_take]
  constructor
  · intro h
    split at h
    · exact ⟨by assumption, h⟩
    · cases h
  · rintro ⟨h1, h2⟩
    rw [if_pos h1]; exact h2

theorem toUint32_cast (v : Int) (h0 : 0 ≤ v) (h1 : v < 4294967296) :
    ((toUint32 v : Nat) : Int) = v := by
  unfold toUint32
  rw [Int.emod_eq_of_lt h0 h1]
  exact Int.toNat_of_nonneg h0

theorem swapRemove_of_not_mem (d : List Int) (v : Int) (h : v ∉ d) : swapRemove d v = d := by
  unfold swapRemove
  cases d.getLast? with
  | none => rfl
  | some last => simp only; rw [if_neg h]

theorem bufferedInv_create (capacity : Nat) (h : 1 ≤ capacity) :
    BufferedInv (createUint32SparseSet capacity) := by
  refine ⟨by simpa [createUint32SparseSet] using h, by simp [createUint32SparseSet], ?_, ?_, ?_, ?_⟩
  · simp [Uint32SparseSet.view, createUint32SparseSet]
  · intro i v hv
    simp [Uint32SparseSet.view, createUint32SparseSet] at hv
  · intro v _; rfl
  · simp [createUint32SparseSet]

theorem buffered_view_length (u : Uint32SparseSet) (h : BufferedInv u) :
    u.view.length = u.length := by
  unfold Uint32SparseSet.view
  rw [List.length_take]
  exact Nat.min_eq_left h.2.1

theorem buffered_has_iff (u : Uint32SparseSet) (h : BufferedInv u) (v : Int) :
    u.has v = true ↔ v ∈ u.view := by
  unfold Uint32SparseSet.has
  constructor
  · intro hv
    simp only [Bool.and_eq_true, decide_eq_true_eq] at hv
    cases hs : u.sparse v with
    | none => rw [hs] at hv; exact absurd hv.2 (by simp)
    | some i =>
      rw [hs] at hv
      simp only [Bool.and_eq_true, decide_eq_true_eq, beq_iff_eq] at hv
      have h1 : u.dense[i]? = some v := by simpa using hv.2.2
      have h2 : u.view[i]? = some v := (getElem?_take_some _ _ _ _).mpr ⟨hv.2.1, h1⟩
      exact List.getElem?_mem h2
  · intro hv
    obtain ⟨i, hi⟩ := List.get?_of_mem hv
    obtain ⟨h1, _, _, h4⟩ := h.2.2.2.1 i v hi
    have hi2 : u.view[i]? = some v := by simpa using hi
    obtain ⟨h5, h6⟩ := (getElem?_take_some _ _ _ _).mp hi2
    rw [h1]
    simp [h4, h5, h6]

theorem arrayLengthAfterSet_ge (n : Nat) (key : Int) : n ≤ arrayLengthAfterSet n key := by
  unfold arrayLengthAfterSet
  split
  · exact Nat.le_max_left _ _
  · exact le_refl n

theorem arrayLengthAfterSet_gt (n : Nat) (key : Int) (h0 : 0 ≤ key) (h1 : key < 4294967295) :
    key < (arrayLengthAfterSet n key : Int) := by
  unfold arrayLengthAfterSet
  rw [if_pos ⟨h0, h1⟩]
  have : key.toNat + 1 ≤ max n (key.toNat + 1) := Nat.le_max_right _ _
  have h2 : (key.toNat : Int) = key := Int.toNat_of_nonneg h0
  omega

theorem arrayLengthAfterSet_le (n : Nat) (key : Int) (hn : n ≤ 4294967295)
    (h1 : key < 4294967295) : arrayLengthAfterSet n key ≤ 4294967295 := by
  unfold arrayLengthAfterSet
  split
  · rename_i hk
    have h2 : (key.toNat : Int) = key := Int.toNat_of_nonneg hk.1
    apply Nat.max_le.mpr
    constructor
    · exact hn
    · omega
  · exact hn

theorem buffered_add (u : Uint32SparseSet) (h : BufferedInv u) (v : Int)
    (h0 : 0 ≤ v) (h1 : v < 4294967295) :
    BufferedInv (u.add v) ∧
    (u.add v).view = if v ∈ u.view then u.view else u.view ++ [v] := by
  unfold Uint32SparseSet.add
  by_cases hv : v ∈ u.view
  · rw [if_pos ((buffered_has_iff u h v).mpr hv), if_pos hv]
    exact ⟨h, rfl⟩
  · have hhas : ¬ (u.has v = true) := fun hh => hv ((buffered_has_iff u h v).mp hh)
    rw [if_neg hhas, if_neg hv]
    obtain ⟨hcap, hlen, hnd, hent, hneg, hsl⟩ := h
    have hcast : ((toUint32 v : Nat) : Int) = v := toUint32_cast v h0 (by omega)
    rw [hcast]
    have hvl : u.view.length = u.length := buffered_view_length u ⟨hcap, hlen, hnd, hent, hneg, hsl⟩
    obtain ⟨dense1, hd1, hd1len, hd1take⟩ : ∃ dense1,
        dense1 = (if u.length ≥ u.dense.length then u.dense ++ List.replicate u.dense.length 0
          else u.dense) ∧ u.length < dense1.length ∧ dense1.take u.length = u.view := by
      refine ⟨_, rfl, ?_, ?_⟩
      · split
        · simp; omega
        · omega
      · split
        · exact List.take_append_of_le_length hlen
        · rfl
    rw [← hd1]
    have hview : (dense1.set u.length v).take (u.length + 1) = u.view ++ [v] := by
      rw [take_succ_set v dense1 u.length hd1len, hd1take]
    refine ⟨⟨?_, ?_, ?_, ?_, ?_, ?_⟩, hview⟩
    · show 1 ≤ (dense1.set u.length v).length
      rw [List.length_set]; omega
    · show u.length + 1 ≤ (dense1.set u.length v).length
      rw [List.length_set]; omega
    · show ((dense1.set u.length v).take (u.length + 1)).Nodup
      rw [hview]
      exact List.Nodup.append hnd (List.nodup_singleton v) (by simpa using hv)
    · intro i x hx
      have hx2 : (u.view ++ [v])[i]? = some x := by
        have : ((dense1.set u.length v).take (u.length + 1))[i]? = some x := by simpa using hx
        rw [hview] at this; exact this
      show setKey u.sparse v u.length x = some i ∧ 0 ≤ x ∧ x < 4294967295 ∧
        x < (arrayLengthAfterSet u.sparseLength v : Int)
      by_cases hi : i < u.view.length
      · rw [List.getElem?_append_left hi] at hx2
        have hxmem : x ∈ u.view := List.getElem?_mem hx2
        have hxv : x ≠ v := fun hxv => hv (hxv ▸ hxmem)
        obtain ⟨e1, e2, e3, e4⟩ := hent i x (by simpa using hx2)
        refine ⟨?_, e2, e3, ?_⟩
        · unfold setKey; rw [if_neg hxv]; exact e1
        · have := arrayLengthAfterSet_ge u.sparseLength v
          omega
      · rw [List.getElem?_append_right (Nat.le_of_not_lt hi)] at hx2
        have hz : i - u.view.length = 0 := by
          by_contra hne
          have : [v][i - u.view.length]? = none := by
            apply List.getElem?_eq_none
            simp; omega
          rw [this] at hx2; cases hx2
        rw [hz] at hx2
        simp only [List.getElem?_cons_zero, Option.some.injEq] at hx2
        subst hx2
        refine ⟨?_, h0, h1, arrayLengthAfterSet_gt _ _ h0 h1⟩
        unfold setKey
        rw [if_pos rfl]
        congr 1
        omega
    · intro x hx
      show setKey u.sparse v u.length x = none
      unfold setKey
      rw [if_neg (by omega)]
      exact hneg x hx
    · exact arrayLengthAfterSet_le _ _ hsl h1

theorem buffered_remove (u : Uint32SparseSet) (h : BufferedInv u) (v : Int) :
    BufferedInv (u.remove v) ∧ (u.remove v).view = swapRemove u.view v := by
  unfold Uint32SparseSet.remove
  by_cases hv : v ∈ u.view
  · have hhas : u.has v = true := (buffered_has_iff u h v).mpr hv
    have hvl : u.view.length = u.length := buffered_view_length u h
    obtain ⟨hcap, hlen, hnd, hent, hneg, hsl⟩ := h
    obtain ⟨idx, hidx⟩ := List.get?_of_mem hv
    have hidx2 : u.view[idx]? = some v := by simpa using hidx
    obtain ⟨hsp, hv0, hv1, hvsl⟩ := hent idx v hidx
    obtain ⟨hidxlt, hdidx⟩ := (getElem?_take_some _ _ _ _).mp hidx2
    have hpos : 1 ≤ u.length := by omega
    have hne : u.view ≠ [] := List.ne_nil_of_mem hv
    obtain ⟨last, hlast⟩ : ∃ last, u.view.getLast? = some last := by
      cases hl : u.view.getLast? with
      | none => exact absurd (List.getLast?_eq_none_iff.mp hl) hne
      | some l => exact ⟨l, rfl⟩
    have hlastview : u.view[u.length - 1]? = some last := by
      rw [List.getLast?_eq_getElem?, hvl] at hlast; exact hlast
    obtain ⟨_, hdlast⟩ := (getElem?_take_some _ _ _ _).mp hlastview
    have hdlast2 : u.dense.get? (u.length - 1) = some last := by simpa using hdlast
    obtain ⟨_, hl0, hl1, hlsl⟩ := hent (u.length - 1) last (by simpa using hlastview)
    have hd : u.view.dropLast ++ [last] = u.view := List.dropLast_append_getLast? last hlast
    have hdrop : u.view.dropLast = u.dense.take (u.length - 1) := by
      rw [List.dropLast_eq_take, hvl]
      unfold Uint32SparseSet.view
      rw [List.take_take]
      congr 1
      omega
    have hnd2 : (u.view.dropLast ++ [last]).Nodup := by rw [hd]; exact hnd
    have hinit : u.view.dropLast.Nodup := (List.nodup_append.mp hnd2).1
    have hlastnot : last ∉ u.view.dropLast := by
      intro hin
      exact (List.nodup_append.mp hnd2).2.2 hin (List.mem_singleton_self last)
    have hspec := swapRemove_spec u.view v hnd
    simp only [hhas, Bool.not_true, Bool.false_eq_true, if_false, hsp, hdlast2]
    have hview : (u.dense.set idx last).take (u.length - 1) = swapRemove u.view v := by
      rw [take_set_lt, ← hdrop]
      unfold swapRemove
      simp only [hlast, if_pos hv]
      by_cases hlv : last = v
      · rw [if_pos hlv]
        have hidxeq : idx = u.length - 1 :=
          nodup_get?_inj hnd hidx (by rw [← hlv]; simpa using hlastview)
        apply List.set_eq_of_length_le
        rw [List.length_dropLast, hvl, hidxeq]
      · rw [if_neg hlv]
        apply set_eq_map_replace last _ idx v hinit
        have hidxne : idx ≠ u.length - 1 := by
          intro heq
          rw [heq, hlastview] at hidx2
          exact hlv (Option.some.inj hidx2)
        rw [hdrop]
        simp only [List.get?_eq_getElem?]
        exact (getElem?_take_some _ _ _ _).mpr ⟨by omega, hdidx⟩
    refine ⟨⟨?_, ?_, ?_, ?_, ?_, ?_⟩, hview⟩
    · show 1 ≤ (u.dense.set idx last).length
      rw [List.length_set]; exact hcap
    · show u.length - 1 ≤ (u.dense.set idx last).length
      rw [List.length_set]; omega
    · show ((u.dense.set idx last).take (u.length - 1)).Nodup
      rw [hview]; exact hspec.1
    · intro i x hx
      have hx2 : ((u.dense.set idx last).take (u.length - 1))[i]? = some x := by simpa using hx
      show setKey u.sparse last idx x = some i ∧ 0 ≤ x ∧ x < 4294967295 ∧
        x < (arrayLengthAfterSet u.sparseLength last : Int)
      have hge := arrayLengthAfterSet_ge u.sparseLength last
      rw [take_set_lt, ← hdrop, List.getElem?_set] at hx2
      by_cases hii : idx = i
      · rw [if_pos hii] at hx2
        split at hx2
        · simp only [Option.some.injEq] at hx2
          subst hx2
          refine ⟨?_, hl0, hl1, by omega⟩
          unfold setKey
          rw [if_pos rfl, hii]
        · cases hx2
      · rw [if_neg hii] at hx2
        have hxmem : x ∈ u.view.dropLast := List.getElem?_mem hx2
        have hxl : x ≠ last := fun hxl => hlastnot (hxl ▸ hxmem)
        obtain ⟨e1, e2, e3, e4⟩ := hent i x
          (by simpa using (getElem?_dropLast_some _ _ _ hx2).1)
        refine ⟨?_, e2, e3, by omega⟩
        unfold setKey
        rw [if_neg hxl]
        exact e1
    · intro x hx
      show setKey u.sparse last idx x = none
      unfold setKey
      rw [if_neg (by omega)]
      exact hneg x hx
    · exact arrayLengthAfterSet_le _ _ hsl hl1
  · have hhas : ¬ (u.has v = true) := fun hh => hv ((buffered_has_iff u h v).mp hh)
    have hhas2 : u.has v = false := by simpa using hhas
    simp only [hhas2, Bool.not_false, if_true]
    exact ⟨h, (swapRemove_of_not_mem _ _ hv).symm⟩

theorem sparse_sets_step (ops : List SetOp) :
    ∀ (s : SparseSet) (u : Uint32SparseSet) (m : Int → Bool),
      SparseInv s → BufferedInv u → u.view = s.dense →
      (∀ x, x ∈ s.dense ↔ m x = true) →
      (∀ op, op ∈ ops → 0 ≤ op.val ∧ op.val < 4294967295) →
      SparseInv (ops.foldl SetOp.run s) ∧ BufferedInv (ops.foldl SetOp.runBuffered u) ∧
      (ops.foldl SetOp.runBuffered u).view = (ops.foldl SetOp.run s).dense ∧
      ∀ x, x ∈ (ops.foldl SetOp.run s).dense ↔ lastCallAdds x (m x) ops = true := by
  induction ops with
  | nil =>
    intro s u m hs hu hview hm _
    exact ⟨hs, hu, hview, hm⟩
  | cons op rest ih =>
    intro s u m hs hu hview hm hops
    have hrest : ∀ op2, op2 ∈ rest → 0 ≤ op2.val ∧ op2.val < 4294967295 :=
      fun op2 h2 => hops op2 (List.mem_cons_of_mem op h2)
    have hop := hops op (List.mem_cons_self op rest)
    simp only [List.foldl_cons]
    cases op with
    | add a =>
      obtain ⟨hs1, hd1⟩ := sparse_add s hs a
      obtain ⟨hu1, hv1⟩ := buffered_add u hu a hop.1 hop.2
      have hview1 : (u.add a).view = (s.add a).dense := by rw [hv1, hd1, hview]
      have hm1 : ∀ x, x ∈ (s.add a).dense ↔ (if a = x then true else m x) = true := by
        intro x
        rw [hd1]
        by_cases hax : a = x
        · subst hax
          simp only [if_true]
          by_cases hin : a ∈ s.dense
          · simp [hin]
          · simp [hin]
        · rw [if_neg hax]
          by_cases hin : a ∈ s.dense
          · rw [if_pos hin]; exact hm x
          · rw [if_neg hin, List.mem_append, List.mem_singleton]
            constructor
            · rintro (h1 | h1)
              · exact (hm x).mp h1
              · exact absurd h1.symm hax
            · intro h1; exact Or.inl ((hm x).mpr h1)
      have := ih (s.add a) (u.add a) (fun x => if a = x then true else m x) hs1 hu1 hview1 hm1 hrest
      exact this
    | remove a =>
      obtain ⟨hs1, hd1⟩ := sparse_remove s hs a
      obtain ⟨hu1, hv1⟩ := buffered_remove u hu a
      have hview1 : (u.remove a).view = (s.remove a).dense := by rw [hv1, hd1, hview]
      have hm1 : ∀ x, x ∈ (s.remove a).dense ↔ (if a = x then false else m x) = true := by
        intro x
        rw [hd1, (swapRemove_spec s.dense a hs.1).2 x]
        by_cases hax : a = x
        · subst hax; simp
        · rw [if_neg hax]
          constructor
          · intro h1; exact (hm x).mp h1.1
          · intro h1; exact ⟨(hm x).mpr h1, fun hxa => hax hxa.symm⟩
      have := ih (s.remove a) (u.remove a) (fun x => if a = x then false else m x)
        hs1 hu1 hview1 hm1 hrest
      exact this

/-- C31 (counterexample): `add(4294967296)` on both sets. The set of
`createSparseSet` has the value and lists it; the set of
`createUint32SparseSet` does not have it and its `dense` is `[0]`: the typed
array keeps the value modulo `2^32` and the key is not an index of `sparse`. -/
theorem buffered_set_loses_large_value :
    (createSparseSet.add 4294967296).has 4294967296 = true ∧
    (createSparseSet.add 4294967296).dense = [4294967296] ∧
    ((createUint32SparseSet 1000).add 4294967296).has 4294967296 = false ∧
    ((createUint32SparseSet 1000).add 4294967296).view = [0] ∧
    lastCallAdds 4294967296 false [SetOp.add 4294967296] = true := by
  decide!

/-- C31 (amended): for a buffered set created with a capacity of at least
one and any sequence of `add` / `remove` calls on integers from `0` to
`2^32 - 2`: in both sets `has(v)` is true iff the last call concerning `v`
was `add(v)`; `dense` has no repetition and lists exactly those values; and
the `dense` of the buffered set is the `dense` of the plain set. -/
theorem sparse_sets_track_last_call (capacity : Nat) (hcap : 1 ≤ capacity) (ops : List SetOp)
    (hops : ∀ op, op ∈ ops → 0 ≤ op.val ∧ op.val < 4294967295) (v : Int) :
    (ops.foldl SetOp.run createSparseSet).has v = lastCallAdds v false ops ∧
    (ops.foldl SetOp.runBuffered (createUint32SparseSet capacity)).has v
      = lastCallAdds v false ops ∧
    (ops.foldl SetOp.run createSparseSet).dense.Nodup ∧
    (v ∈ (ops.foldl SetOp.run createSparseSet).dense ↔ lastCallAdds v false ops = true) ∧
    (ops.foldl SetOp.runBuffered (createUint32SparseSet capacity)).view
      = (ops.foldl SetOp.run createSparseSet).dense := by
  obtain ⟨hs, hu, hview, hm⟩ := sparse_sets_step ops createSparseSet
    (createUint32SparseSet capacity) (fun _ => false) sparseInv_create
    (bufferedInv_create capacity hcap) rfl (by intro x; simp [createSparseSet]) hops
  have hmv := hm v
  simp only at hmv
  refine ⟨?_, ?_, hs.1, hmv, hview⟩
  · have h1 := sparse_has_iff _ hs v
    cases hb : lastCallAdds v false ops with
    | true => exact h1.mpr (hmv.mpr hb)
    | false =>
      cases hh : (ops.foldl SetOp.run createSparseSet).has v with
      | false => rfl
      | true => rw [hmv.mp (h1.mp hh)] at hb; cases hb
  · have h1 := buffered_has_iff _ hu v
    rw [hview] at h1
    cases hb : lastCallAdds v false ops with
    | true => exact h1.mpr (hmv.mpr hb)
    | false =>
      cases hh : (ops.foldl SetOp.runBuffered (createUint32SparseSet capacity)).has v with
      | false => rfl
      | true => rw [hmv.mp (h1.mp hh)] at hb; cases hb

theorem sparse_sets_track_last_call_witness :
    ([SetOp.add 5, SetOp.add 7, SetOp.remove 5].foldl SetOp.run createSparseSet).has 7
      = lastCallAdds 7 false [SetOp.add 5, SetOp.add 7, SetOp.remove 5] ∧
    ([SetOp.add 5, SetOp.add 7, SetOp.remove 5].foldl SetOp.runBuffered
      (createUint32SparseSet 1)).has 7
      = lastCallAdds 7 false [SetOp.add 5, SetOp.add 7, SetOp.remove 5] ∧
    ([SetOp.add 5, SetOp.add 7, SetOp.remove 5].foldl SetOp.run createSparseSet).dense.Nodup ∧
    (7 ∈ ([SetOp.add 5, SetOp.add 7, SetOp.remove 5].foldl SetOp.run createSparseSet).dense ↔
      lastCallAdds 7 false [SetOp.add 5, SetOp.add 7, SetOp.remove 5] = true) ∧
    ([SetOp.add 5, SetOp.add 7, SetOp.remove 5].foldl SetOp.runBuffered
      (createUint32SparseSet 1)).view
      = ([SetOp.add 5, SetOp.add 7, SetOp.remove 5].foldl SetOp.run createSparseSet).dense :=
  sparse_sets_track_last_call 1 (by decide) [SetOp.add 5, SetOp.add 7, SetOp.remove 5]
    (by decide) 7

/-! ## Theorems: serializers -/

theorem bytesBE_length (n : Nat) (x : Int) : (bytesBE n x).length = n := by
  induction n with
  | zero => rfl
  | succ k ih => simp [bytesBE, ih]

theorem foldl_append_eq_flatten {α β : Type} (f : α → List β) (l : List α) :
    ∀ init : List β, l.foldl (fun acc a => acc ++ f a) init = init ++ (l.map f).flatten := by
  induction l with
  | nil => intro init; simp
  | cons a rest ih => intro init; simp [ih]

/-- The record of a queue entry, field by field. -/
theorem writeQueueEntry_layout (fmt : FloatFormat) (entry : QueueEntry) :
    writeQueueEntry fmt entry =
      bytesBE 4 entry.entityId ++ [entry.type.code] ++
      (if 2 ≤ entry.type.code ∧ entry.type.code ≤ 5 then bytesBE 1 entry.componentId else []) ++
      (if entry.type.code = 4 ∨ entry.type.code = 5 then bytesBE 4 (entry.targetId.getD 0)
        else []) ++
      (if entry.type.code = 4 then
        (match entry.relationData with
         | some data => serializeRelationData2 fmt data entry.entityId
         | none => [])
        else []) := by
  obtain ⟨eid, type, cid, tid, data⟩ := entry
  cases type <;>
    simp [writeQueueEntry, encodeValue, WireType.size, OperationType.code, bytesBE]
  cases data with
  | none => simp
  | some d =>
    cases d <;> simp [serializeRelationData2]

/-- C28: the packet of a flush is the concatenation, in queue order, of the
records of the queued entries; a record is the big-endian `u32` entity id,
the `u8` operation code, the `u8` component index for the codes 2 to 5, the
big-endian `u32` target id for the codes 4 and 5, and the relation payload
for the code 4; so the records of `AddEntity` / `RemoveEntity` have 5 bytes,
those of `AddComponent` / `RemoveComponent` 6 and those of `RemoveRelation`
10, and the length of the packet is the sum of the record lengths. -/
theorem flush_is_concatenation_of_records (fmt : FloatFormat) (queue : List QueueEntry) :
    flushQueue fmt queue = (queue.map (writeQueueEntry fmt)).flatten ∧
    (∀ entry : QueueEntry, writeQueueEntry fmt entry =
      bytesBE 4 entry.entityId ++ [entry.type.code] ++
      (if 2 ≤ entry.type.code ∧ entry.type.code ≤ 5 then bytesBE 1 entry.componentId else []) ++
      (if entry.type.code = 4 ∨ entry.type.code = 5 then bytesBE 4 (entry.targetId.getD 0)
        else []) ++
      (if entry.type.code = 4 then
        (match entry.relationData with
         | some data => serializeRelationData2 fmt data entry.entityId
         | none => [])
        else [])) ∧
    (∀ entry : QueueEntry,
      (entry.type = .AddEntity ∨ entry.type = .RemoveEntity →
        (writeQueueEntry fmt entry).length = 5) ∧
      (entry.type = .AddComponent ∨ entry.type = .RemoveComponent →
        (writeQueueEntry fmt entry).length = 6) ∧
      (entry.type = .RemoveRelation → (writeQueueEntry fmt entry).length = 10)) ∧
    (flushQueue fmt queue).length = ((queue.map (writeQueueEntry fmt)).map List.length).sum := by
  have hjoin : flushQueue fmt queue = (queue.map (writeQueueEntry fmt)).flatten := by
    unfold flushQueue
    rw [foldl_append_eq_flatten]
    rfl
  refine ⟨hjoin, writeQueueEntry_layout fmt, ?_, ?_⟩
  · intro entry
    rw [writeQueueEntry_layout]
    refine ⟨?_, ?_, ?_⟩
    · rintro (h | h) <;> simp [h, OperationType.code, bytesBE_length]
    · rintro (h | h) <;> simp [h, OperationType.code, bytesBE_length]
    · intro h; simp [h, OperationType.code, bytesBE_length]
  · rw [hjoin, List.length_flatten]

/-- C27 (failing input): two stores with the fields `x` (value 1) and `y`
(value 2) of type `u8` at index 5, declared as `{x, y}` and as `{y, x}`. The
serializer writes the fields in the order of `Object.keys`: the bytes after
the index are `1, 2` for the first store and `2, 1` for the second. -/
theorem soa_fields_in_declaration_order (fmt : FloatFormat) :
    createComponentSerializer fmt
      (.struct [([120], { type := .u8, values := fun i => if i = 5 then some 1 else none }),
        ([121], { type := .u8, values := fun i => if i = 5 then some 2 else none })]) 5
      = [0, 0, 0, 5, 1, 2] ∧
    createComponentSerializer fmt
      (.struct [([121], { type := .u8, values := fun i => if i = 5 then some 2 else none }),
        ([120], { type := .u8, values := fun i => if i = 5 then some 1 else none })]) 5
      = [0, 0, 0, 5, 2, 1] ∧
    sortBy stringLe [[121], [120]] = [[120], [121]] := by
  refine ⟨?_, ?_, ?_⟩ <;> rfl

/-- C35 (failing input): an array-backed relation store with no value for
entity 1. `serializeRelationData` writes no byte, and
`deserializeRelationData` consumes eight; the same for the copies of the
observer codec, and for a struct store whose `u8` field has no value (no
byte written, one consumed). -/
theorem relation_payload_sizes_differ (fmt : FloatFormat) :
    (serializeRelationData fmt (.array (fun _ => none)) 1).length = 0 ∧
    (deserializeRelationData fmt (.array (fun _ => none)) 1 [0, 0, 0, 0, 0, 0, 0, 0, 9] 0).map
      Prod.snd = some 8 ∧
    (serializeRelationData2 fmt (.array (fun _ => none)) 1).length = 0 ∧
    (deserializeRelationData2 fmt (.array (fun _ => none)) 1 [0, 0, 0, 0, 0, 0, 0, 0, 9] 0).map
      Prod.snd = some 8 ∧
    (serializeRelationData fmt
      (.struct [([120], { type := .u8, values := fun _ => none })]) 1).length = 0 ∧
    (deserializeRelationData fmt
      (.struct [([120], { type := .u8, values := fun _ => none })]) 1 [7, 9] 0).map
      Prod.snd = some 1 := by
  refine ⟨?_, ?_, ?_, ?_, ?_, ?_⟩ <;> rfl

/-- C29 (failing input): the packet of the queue `AddRelation(7, component
0, target 8)` with a one-byte payload, `AddEntity(9)`, decoded into an empty
world with an empty mapping. Packet id 7 is not in the mapping, so the first
record is skipped, but its payload byte is not: the next record is read one
byte early, as entity 83886080 with operation 0, and the read that follows
throws a `RangeError`. Decoding the packet of `AddEntity(9)` alone returns
with entity 1 created and `9 -> 1` in the mapping. -/
theorem skipped_relation_record_shifts_offset :
    flushQueue plainFloats
      [{ entityId := 7, type := .AddRelation, componentId := 0, targetId := some 8,
         relationData := some (.struct
           [([120], { type := .u8, values := fun i => if i = 7 then some 5 else none })]) },
       { entityId := 9, type := .AddEntity, componentId := -1, targetId := none,
         relationData := none }]
      = [0, 0, 0, 7, 4, 0, 0, 0, 0, 8, 5, 0, 0, 0, 9, 0] ∧
    decodeOutcome (createObserverDeserializer plainFloats 40 (comp 0)
      [0, 0, 0, 7, 4, 0, 0, 0, 0, 8, 5, 0, 0, 0, 9, 0] 16
      { world := createWorld, mapping := [],
        components := [.relation Likes (fun _ => .struct
          [([120], { type := .u8, values := fun _ => none })])] } 0)
      = (1, [], []) ∧
    decodeOutcome (createObserverDeserializer plainFloats 40 (comp 0)
      [0, 0, 0, 9, 0] 16
      { world := createWorld, mapping := [],
        components := [.relation Likes (fun _ => .struct
          [([120], { type := .u8, values := fun _ => none })])] } 0)
      = (0, [1], [(9, 1)]) := by
  decide!

/-! ## Theorems: what the component calls are made of -/

theorem reach_trans {a b c : World} (h1 : Reach a b) (h2 : Reach b c) : Reach a c := by
  induction h2 with
  | refl => exact h1
  | step w1 w2 _ hp ih => exact Reach.step _ _ _ ih hp

theorem reach_prim {a b : World} (h : Prim a b) : Reach a b :=
  Reach.step _ _ _ (Reach.refl a) h

theorem setQuery_entityIndex (w : World) (q : Nat) (query : Query) :
    (setQuery w q query).entityIndex = w.entityIndex := rfl

theorem queryRemoveEntity_entityIndex (w : World) (q : Nat) (eid : Int) :
    (queryRemoveEntity w q eid).entityIndex = w.entityIndex := by
  unfold queryRemoveEntity
  split
  · rfl
  · simp only
    split <;> rfl

theorem updateQueryFor_entityIndex (w : World) (eid : Int) (q : Nat) :
    (updateQueryFor w eid q).entityIndex = w.entityIndex := by
  unfold updateQueryFor
  split
  · rfl
  · simp only
    split
    · rfl
    · rw [queryRemoveEntity_entityIndex]; rfl

theorem foldl_updateQueryFor_entityIndex (eid : Int) (qs : List Nat) :
    ∀ w : World, (qs.foldl (fun w q => updateQueryFor w eid q) w).entityIndex = w.entityIndex := by
  induction qs with
  | nil => intro w; rfl
  | cons q rest ih => intro w; rw [List.foldl_cons, ih, updateQueryFor_entityIndex]

theorem ensureRegistered_entityIndex (w : World) (c : Component) :
    (ensureRegistered w c).entityIndex = w.entityIndex := by
  unfold ensureRegistered
  split
  · rfl
  · unfold registerComponent
    simp only
    split <;> rfl

theorem setMaskWord_entityIndex (w : World) (g : Nat) (eid : Int) (v : Nat) :
    (setMaskWord w g eid v).entityIndex = w.entityIndex := by
  unfold setMaskWord
  split <;> rfl

theorem attach_entityIndex (w : World) (eid : Int) (c : Component) (w1 : World) (b : Bool)
    (h : attach w eid c = .ok (w1, b)) : w1.entityIndex = w.entityIndex := by
  unfold attach at h
  simp only at h
  split at h
  · cases h; exact ensureRegistered_entityIndex w c
  · split at h
    · cases h
    · rename_i data hdata
      unfold entityComponentsAdd at h
      split at h
      · cases h
      · simp only [Except.map] at h
        cases h
        show (if _ then _ else _ : World).entityIndex = _
        split
        · rw [foldl_updateQueryFor_entityIndex, setMaskWord_entityIndex,
            ensureRegistered_entityIndex]
        · rw [setMaskWord_entityIndex, ensureRegistered_entityIndex]

theorem detach_entityIndex (w : World) (eid : Int) (c : Component) (w1 : World)
    (h : detach w eid c = .ok w1) : w1.entityIndex = w.entityIndex := by
  unfold detach at h
  split at h
  · cases h
  · simp only at h
    unfold entityComponentsDelete at h
    split at h
    · cases h
    · cases h
      show (List.foldl _ _ _ : World).entityIndex = _
      rw [foldl_updateQueryFor_entityIndex, setMaskWord_entityIndex]

theorem prim_entityIndex {a b : World} (h : Prim a b) : b.entityIndex = a.entityIndex := by
  cases h with
  | attach eid c _ b _ hat => exact attach_entityIndex _ _ _ _ _ hat
  | detach eid c _ _ _ hdt => exact detach_entityIndex _ _ _ _ hdt
  | relations s => rfl

theorem reach_entityIndex {a b : World} (h : Reach a b) : b.entityIndex = a.entityIndex := by
  induction h with
  | refl => rfl
  | step w1 w2 _ hp ih => rw [prim_entityIndex hp, ih]

theorem reach_entityExists {a b : World} (h : Reach a b) (eid : Int) :
    entityExists b eid = entityExists a eid := by
  unfold entityExists
  rw [reach_entityIndex h]

theorem bind_ok_inv {ε α β : Type} (x : Except ε α) (f : α → Except ε β) (b : β)
    (h : (x >>= f) = .ok b) : ∃ a, x = .ok a ∧ f a = .ok b := by
  cases x with
  | error e => cases h
  | ok a => exact ⟨a, rfl, h⟩

theorem foldlM_reach {α : Type} (f : World → α → Res World) (Q : World → Prop)
    (hstep : ∀ w a w', Q w → f w a = .ok w' → Reach w w')
    (hQ : ∀ w w', Reach w w' → Q w → Q w') :
    ∀ (l : List α) (w w' : World), Q w → l.foldlM f w = .ok w' → Reach w w' := by
  intro l
  induction l with
  | nil =>
    intro w w' _ h
    simp only [List.foldlM_nil, pure, Except.pure] at h
    cases h
    exact Reach.refl w
  | cons a rest ih =>
    intro w w' hq h
    rw [List.foldlM_cons] at h
    obtain ⟨w1, hw1, h2⟩ := bind_ok_inv _ _ _ h
    have r1 := hstep w a w1 hq hw1
    exact reach_trans r1 (ih w1 w' (hQ w w1 r1 hq) h2)

theorem exists_of_reach {a b : World} (h : Reach a b) (eid : Int)
    (he : entityExists a eid = true) : entityExists b eid = true := by
  rw [reach_entityExists h]; exact he

/-- `removeComponent` is made of elementary mutations. -/
theorem reach_removeComponent (fuel : Nat) :
    (∀ w eid cs w', removeComponent fuel w eid cs = .ok w' → Reach w w') ∧
    (∀ w eid c w', entityExists w eid = true → removeComponentEach fuel w eid c = .ok w' →
      Reach w w') := by
  induction fuel with
  | zero =>
    constructor
    · intro w eid cs w' h; rw [removeComponent] at h; cases h
    · intro w eid c w' _ h; rw [removeComponentEach] at h; cases h
  | succ n ih =>
    obtain ⟨ih1, ih2⟩ := ih
    constructor
    · intro w eid cs w' h
      rw [removeComponent] at h
      split at h
      · cases h
      · rename_i hex
        have hex2 : entityExists w eid = true := by simpa using hex
        exact foldlM_reach (fun w c => removeComponentEach n w eid c)
          (fun w => entityExists w eid = true)
          (fun w a w' hq hh => ih2 w eid a w' hq hh)
          (fun w w' hr hq => exists_of_reach hr eid hq) cs w w' hex2 h
    · intro w eid c w' hex h
      rw [removeComponentEach] at h
      split at h
      · cases h; exact Reach.refl w
      · rename_i hhas
        have hhas2 : hasComponent w eid c = true := by simpa using hhas
        obtain ⟨w1, hd, h2⟩ := bind_ok_inv _ _ _ h
        have r1 : Reach w w1 := reach_prim (Prim.detach w eid c w1 hex hhas2 hd)
        split at h2
        · rename_i relation target
          obtain ⟨w2, hr2, h3⟩ := bind_ok_inv _ _ _ h2
          have r2 : Reach w1 w2 := ih1 _ _ _ _ hr2
          obtain ⟨targets, _, h4⟩ := bind_ok_inv _ _ _ h3
          split at h4
          · exact reach_trans r1 (reach_trans r2 (ih1 _ _ _ _ h4))
          · cases h4; exact reach_trans r1 r2
        · cases h2; exact r1

theorem foldlM_reach_state {σ α : Type} (proj : σ → World) (f : σ → α → Res σ)
    (hstep : ∀ s a s', f s a = .ok s' → Reach (proj s) (proj s')) :
    ∀ (l : List α) (s s' : σ), l.foldlM f s = .ok s' → Reach (proj s) (proj s') := by
  intro l
  induction l with
  | nil =>
    intro s s' h
    simp only [List.foldlM_nil, pure, Except.pure] at h
    cases h
    exact Reach.refl _
  | cons a rest ih =>
    intro s s' h
    rw [List.foldlM_cons] at h
    obtain ⟨s1, hs1, h2⟩ := bind_ok_inv _ _ _ h
    exact reach_trans (hstep s a s1 hs1) (ih s1 s' h2)

/-- `addComponent` is made of elementary mutations. -/
theorem reach_addComponent (fuel : Nat) :
    (∀ w eid cs w', addComponent fuel w eid cs = .ok w' → Reach w w') ∧
    (∀ w eid c w', entityExists w eid = true → addComponentEach fuel w eid c = .ok w' →
      Reach w w') ∧
    (∀ w baseEid inheritedEid visited r,
      recursivelyInherit fuel w baseEid inheritedEid visited = .ok r → Reach w r.1) := by
  induction fuel with
  | zero =>
    refine ⟨?_, ?_, ?_⟩
    · intro w eid cs w' h; rw [addComponent] at h; cases h
    · intro w eid c w' _ h; rw [addComponentEach] at h; cases h
    · intro w b i v r h; rw [recursivelyInherit] at h; cases h
  | succ n ih =>
    obtain ⟨ih1, ih2, ih3⟩ := ih
    refine ⟨?_, ?_, ?_⟩
    · intro w eid cs w' h
      rw [addComponent] at h
      split at h
      · cases h
      · rename_i hex
        have hex2 : entityExists w eid = true := by simpa using hex
        exact foldlM_reach (fun w c => addComponentEach n w eid c)
          (fun w => entityExists w eid = true)
          (fun w a w' hq hh => ih2 w eid a w' hq hh)
          (fun w w' hr hq => exists_of_reach hr eid hq) cs w w' hex2 h
    · intro w eid c w' hex h
      rw [addComponentEach] at h
      obtain ⟨⟨w1, attached⟩, hat, h2⟩ := bind_ok_inv _ _ _ h
      have r1 : Reach w w1 := reach_prim (Prim.attach w eid c.unwrap w1 attached hex hat)
      have hS : ∀ (x : World) (s : List Target), Reach x { x with entitiesWithRelations := s } :=
        fun x s => reach_prim (Prim.relations x s)
      have hIsA : ∀ (relation : Relation) (y z : World),
          (if relation = IsA then do
              let inheritedTargets ← getRelationTargets y eid IsA
              let r ← inheritedTargets.foldlM
                (fun (w : World) inherited => do
                  let r ← recursivelyInherit n w eid inherited []
                  pure r.1) y
              pure r
            else pure y) = Except.ok z → Reach y z := by
        intro relation y z hh
        split at hh
        · obtain ⟨targets, _, h9⟩ := bind_ok_inv _ _ _ hh
          obtain ⟨wr, hwr, h10⟩ := bind_ok_inv _ _ _ h9
          simp only [pure, Except.pure] at h10
          cases h10
          refine foldlM_reach _ (fun _ => True) ?_ (fun _ _ _ _ => trivial) targets y _ trivial hwr
          intro wx a wy _ hh2
          obtain ⟨r, hr, h11⟩ := bind_ok_inv _ _ _ hh2
          simp only [pure, Except.pure] at h11
          cases h11
          exact ih3 _ _ _ _ _ hr
        · simp only [pure, Except.pure] at hh
          cases hh; exact Reach.refl _
      have hExcl : ∀ (relation : Relation) (target : Target) (y z : World),
          (do
            let world6 ←
              if relation.exclusiveRelation = true ∧ target ≠ .rel Wildcard then do
                let targets ← getRelationTargets y eid relation
                match targets.head? with
                | some oldTarget =>
                  if Target.eid oldTarget ≠ target then
                    removeComponent n y eid [Pair relation (.eid oldTarget)]
                  else pure y
                | none => pure y
              else pure y
            if relation = IsA then do
              let inheritedTargets ← getRelationTargets world6 eid IsA
              let r ← inheritedTargets.foldlM
                (fun (w : World) inherited => do
                  let r ← recursivelyInherit n w eid inherited []
                  pure r.1) world6
              pure r
            else pure world6) = Except.ok z → Reach y z := by
        intro relation target y z hh
        dsimp only at hh
        split at hh
        · obtain ⟨targets, _, h9⟩ := bind_ok_inv _ _ _ hh
          split at h9
          · split at h9
            · obtain ⟨y2, hy2, h10⟩ := bind_ok_inv _ _ _ h9
              exact reach_trans ((reach_removeComponent n).1 _ _ _ _ hy2) (hIsA _ _ _ h10)
            · exact hIsA _ _ _ h9
          · exact hIsA _ _ _ h9
        · exact hIsA _ _ _ hh
      simp only at h2
      split at h2
      · cases h2; exact r1
      · split at h2
        · rename_i relation target
          obtain ⟨w2, hw2, h3⟩ := bind_ok_inv _ _ _ h2
          have r2 : Reach w1 w2 := ih1 _ _ _ _ hw2
          obtain ⟨w3, hw3, h4⟩ := bind_ok_inv _ _ _ h3
          have r3 : Reach w2 w3 := ih1 _ _ _ _ hw3
          split at h4
          · obtain ⟨wa, hwa, h6⟩ := bind_ok_inv _ _ _ h4
            obtain ⟨wb, hwb, h7⟩ := bind_ok_inv _ _ _ h6
            have r4 := hExcl _ _ _ _ h7
            exact reach_trans r1 (reach_trans r2 (reach_trans r3 (reach_trans (ih1 _ _ _ _ hwa)
              (reach_trans (ih1 _ _ _ _ hwb) (reach_trans (hS _ _) (reach_trans (hS _ _) r4))))))
          · have r4 := hExcl _ _ _ _ h4
            exact reach_trans r1 (reach_trans r2 (reach_trans r3 (reach_trans (hS _ _) r4)))
        · simp only [pure, Except.pure] at h2
          cases h2; exact r1

    · intro w b i v r h
      rw [recursivelyInherit] at h
      split at h
      · cases h; exact Reach.refl _
      · obtain ⟨w1, hw1, h2⟩ := bind_ok_inv _ _ _ h
        have r1 : Reach w w1 := ih1 _ _ _ _ hw1
        obtain ⟨components, _, h3⟩ := bind_ok_inv _ _ _ h2
        obtain ⟨w2, hw2, h4⟩ := bind_ok_inv _ _ _ h3
        have r2 : Reach w1 w2 := by
          refine foldlM_reach _ (fun _ => True) ?_ (fun _ _ _ _ => trivial) components w1 w2
            trivial hw2
          intro wx a wy _ hh
          simp only at hh
          split at hh
          · simp only [pure, Except.pure] at hh
            cases hh; exact Reach.refl _
          · split at hh
            · exact ih1 _ _ _ _ hh
            · simp only [pure, Except.pure] at hh
              cases hh; exact Reach.refl _
        obtain ⟨parents, _, h5⟩ := bind_ok_inv _ _ _ h4
        have r3 := foldlM_reach_state (fun (s : World × List Int) => s.1)
          (fun (acc : World × List Int) parentEid =>
            recursivelyInherit n acc.1 b parentEid acc.2)
          (fun s a s' hh => ih3 _ _ _ _ _ hh) parents _ _ h5
        exact reach_trans r1 (reach_trans r2 r3)

/-! ## Theorems: the entity index of a world -/

theorem mem_take_iff (l : List Int) (n : Nat) (v : Int) :
    v ∈ l.take n ↔ ∃ p, p < n ∧ l[p]? = some v := by
  constructor
  · intro h
    obtain ⟨p, hp⟩ := List.getElem?_of_mem h
    exact ⟨p, (getElem?_take_some l n p v).mp hp⟩
  · rintro ⟨p, hp, hv⟩
    exact List.getElem?_mem ((getElem?_take_some l n p v).mpr ⟨hp, hv⟩)

theorem indexPlain_create : IndexPlain (createEntityIndex false 8) := by
  refine ⟨rfl, hasBits_create false 8 (by decide) (by decide), ?_, ?_, ?_, ?_⟩
  · simp [createEntityIndex]
  · intro p v h; simp [createEntityIndex] at h
  · intro v p h; simp [createEntityIndex] at h
  · simp [createEntityIndex]

theorem indexPlain_inj {ix : EntityIndex} (h : IndexPlain ix) {p q : Nat} {v : Int}
    (hp : ix.dense[p]? = some v) (hq : ix.dense[q]? = some v) : p = q := by
  have h1 := (h.2.2.2.1 p v hp).1
  have h2 := (h.2.2.2.1 q v hq).1
  rw [h1] at h2
  exact Option.some.inj h2

theorem alive_iff {ix : EntityIndex} (h : IndexPlain ix) (hcap : ix.maxId < 16777216) (v : Int) :
    isEntityIdAlive ix v = true ↔ v ∈ aliveIds ix := by
  unfold aliveIds
  rw [mem_take_iff]
  unfold isEntityIdAlive
  constructor
  · intro hv
    simp only at hv
    split at hv
    · cases hv
    · rename_i d hd
      simp only [Bool.and_eq_true, decide_eq_true_eq, beq_iff_eq] at hv
      exact ⟨d, hv.1, by simpa using hv.2⟩
  · rintro ⟨p, hp, hv⟩
    obtain ⟨hs, h1, h2⟩ := h.2.2.2.1 p v hv
    have hg : getId ix v = v := getId_of_small ix 8 h.2.1 v (by omega) (by
      have : (2 : Int) ^ (32 - 8) = 16777216 := by norm_num
      rw [this]; omega)
    simp only [hg, hs, Bool.and_eq_true, decide_eq_true_eq, beq_iff_eq]
    exact ⟨hp, by simpa using hv⟩

/-- What `addEntityId` does to the index of a world. -/
theorem indexPlain_alloc {ix : EntityIndex} (h : IndexPlain ix) :
    IndexPlain (addEntityId ix).2 ∧
    (∀ v, v ∈ aliveIds (addEntityId ix).2 ↔ (v ∈ aliveIds ix ∨ v = (addEntityId ix).1)) ∧
    (addEntityId ix).1 ∉ aliveIds ix := by
  obtain ⟨hv, hb, hle, hfwd, hbwd, hmax⟩ := h
  have hcfg := addEntityId_config ix
  have hb2 : HasBits (addEntityId ix).2 8 := by
    obtain ⟨b1, b2, b3, b4, b5⟩ := hb
    exact ⟨b1, b2, by rw [hcfg.2.1]; exact b3, by rw [hcfg.2.2.1]; exact b4,
      by rw [hcfg.2.2.2.1]; exact b5⟩
  unfold aliveIds
  simp only [mem_take_iff]
  unfold addEntityId at hb2 ⊢
  by_cases hlt : ix.aliveCount < ix.dense.length
  · simp only [hlt, if_true] at hb2 ⊢
    have hid : ix.dense[ix.aliveCount]? = some (ix.dense.getD ix.aliveCount 0) := by
      rw [List.getD_eq_getElem?_getD, List.getElem?_eq_getElem hlt]; rfl
    obtain ⟨hs0, h10, h20⟩ := hfwd _ _ hid
    refine ⟨⟨hv, hb2, ?_, ?_, ?_, hmax⟩, ?_, ?_⟩
    · show ix.aliveCount + 1 ≤ ix.dense.length
      omega
    · intro p v hp
      obtain ⟨hs, h1, h2⟩ := hfwd p v hp
      refine ⟨?_, h1, h2⟩
      show setKey ix.sparse (ix.dense.getD ix.aliveCount 0) ix.aliveCount v = some p
      unfold setKey
      by_cases hvid : v = ix.dense.getD ix.aliveCount 0
      · rw [if_pos hvid]
        rw [hvid, hs0] at hs
        exact hs
      · rw [if_neg hvid]; exact hs
    · intro v p hp
      change setKey ix.sparse (ix.dense.getD ix.aliveCount 0) ix.aliveCount v = some p at hp
      unfold setKey at hp
      by_cases hvid : v = ix.dense.getD ix.aliveCount 0
      · rw [if_pos hvid] at hp
        rw [hvid, ← Option.some.inj hp]; exact hid
      · rw [if_neg hvid] at hp; exact hbwd v p hp
    · intro v
      show (∃ p, p < ix.aliveCount + 1 ∧ ix.dense[p]? = some v) ↔ _
      constructor
      · rintro ⟨p, hp, hpv⟩
        by_cases hpa : p = ix.aliveCount
        · right; rw [hpa, hid] at hpv; exact (Option.some.inj hpv).symm
        · left; exact ⟨p, by omega, hpv⟩
      · rintro (⟨p, hp, hpv⟩ | hvid)
        · exact ⟨p, by omega, hpv⟩
        · exact ⟨ix.aliveCount, by omega, by rw [hvid]; exact hid⟩
    · rintro ⟨p, hp, hpv⟩
      have := indexPlain_inj ⟨hv, hb, hle, hfwd, hbwd, hmax⟩ hpv hid
      omega
  · simp only [hlt, if_false] at hb2 ⊢
    have hlen : ix.aliveCount = ix.dense.length := by omega
    refine ⟨⟨hv, hb2, ?_, ?_, ?_, ?_⟩, ?_, ?_⟩
    · show ix.aliveCount + 1 ≤ (ix.dense ++ [ix.maxId + 1]).length
      simp; omega
    · intro p v hp
      change (ix.dense ++ [ix.maxId + 1])[p]? = some v at hp
      show setKey ix.sparse (ix.maxId + 1) ix.aliveCount v = some p ∧ 1 ≤ v ∧ v ≤ ix.maxId + 1
      by_cases hpl : p < ix.dense.length
      · rw [List.getElem?_append_left hpl] at hp
        obtain ⟨hs, h1, h2⟩ := hfwd p v hp
        refine ⟨?_, h1, by omega⟩
        unfold setKey
        rw [if_neg (by omega)]; exact hs
      · rw [List.getElem?_append_right (Nat.le_of_not_lt hpl)] at hp
        have hz : p - ix.dense.length = 0 := by
          by_contra hne
          have : [ix.maxId + 1][p - ix.dense.length]? = none := by
            apply List.getElem?_eq_none
            simp; omega
          rw [this] at hp; cases hp
        rw [hz] at hp
        simp only [List.getElem?_cons_zero, Option.some.injEq] at hp
        subst hp
        refine ⟨?_, by omega, le_refl _⟩
        unfold setKey
        rw [if_pos rfl]
        congr 1; omega
    · intro v p hp
      change setKey ix.sparse (ix.maxId + 1) ix.aliveCount v = some p at hp
      show (ix.dense ++ [ix.maxId + 1])[p]? = some v
      unfold setKey at hp
      by_cases hvid : v = ix.maxId + 1
      · rw [if_pos hvid] at hp
        rw [← Option.some.inj hp, hlen, hvid]
        simp
      · rw [if_neg hvid] at hp
        have := hbwd v p hp
        have hpl : p < ix.dense.length := by
          by_contra hc
          rw [List.getElem?_eq_none (Nat.le_of_not_lt hc)] at this
          cases this
        rw [List.getElem?_append_left hpl]; exact this
    · show 0 ≤ ix.maxId + 1
      omega
    · intro v
      show (∃ p, p < ix.aliveCount + 1 ∧ (ix.dense ++ [ix.maxId + 1])[p]? = some v) ↔ _
      constructor
      · rintro ⟨p, hp, hpv⟩
        by_cases hpa : p = ix.aliveCount
        · right
          rw [hpa, hlen] at hpv
          simp at hpv
          exact hpv.symm
        · left
          refine ⟨p, by omega, ?_⟩
          rw [List.getElem?_append_left (by omega)] at hpv
          exact hpv
      · rintro (⟨p, hp, hpv⟩ | hvid)
        · refine ⟨p, by omega, ?_⟩
          rw [List.getElem?_append_left (by omega)]
          exact hpv
        · refine ⟨ix.aliveCount, by omega, ?_⟩
          rw [hvid, hlen]; simp
    · rintro ⟨p, hp, hpv⟩
      have := (hfwd p _ hpv).2.2
      omega

/-- What `removeEntityId` does to the index of a world, for any id. -/
theorem indexPlain_release {ix : EntityIndex} (h : IndexPlain ix) (x : Int) :
    IndexPlain (removeEntityId ix x) ∧
    (∀ v, v ∈ aliveIds (removeEntityId ix x) ↔ (v ∈ aliveIds ix ∧ v ≠ x)) := by
  have hinj := @indexPlain_inj ix h
  obtain ⟨hv, hb, hle, hfwd, hbwd, hmax⟩ := h
  by_cases hrej : releaseRejected ix x = true
  · rw [removeEntityId_rejected ix x hrej]
    refine ⟨⟨hv, hb, hle, hfwd, hbwd, hmax⟩, ?_⟩
    intro v
    constructor
    · intro hvin
      refine ⟨hvin, ?_⟩
      intro hvx
      unfold aliveIds at hvin
      rw [mem_take_iff] at hvin
      obtain ⟨p, hp, hpv⟩ := hvin
      have hs := (hfwd p v hpv).1
      unfold releaseRejected at hrej
      rw [← hvx, hs] at hrej
      simp only [decide_eq_true_eq] at hrej
      omega
    · intro hh; exact hh.1
  · obtain ⟨d, hsx, hd⟩ : ∃ d, ix.sparse x = some d ∧ d < ix.aliveCount := by
      unfold releaseRejected at hrej
      cases hs : ix.sparse x with
      | none => rw [hs] at hrej; exact absurd rfl hrej
      | some d =>
        rw [hs] at hrej
        simp only [decide_eq_true_eq] at hrej
        exact ⟨d, rfl, by omega⟩
    have hcfg := removeEntityId_config ix x
    have hb2 : HasBits (removeEntityId ix x) 8 := by
      obtain ⟨b1, b2, b3, b4, b5⟩ := hb
      exact ⟨b1, b2, by rw [hcfg.2.1]; exact b3, by rw [hcfg.2.2.1]; exact b4,
        by rw [hcfg.2.2.2.1]; exact b5⟩
    have hre : releasedEntry ix x = x := by unfold releasedEntry; rw [hv]; rfl
    rw [removeEntityId_eq ix x d hsx hd, hre] at hb2 ⊢
    have hdx : ix.dense[d]? = some x := hbwd x d hsx
    have hLlt : ix.aliveCount - 1 < ix.dense.length := by omega
    have hlast : ix.dense[ix.aliveCount - 1]? = some (ix.dense.getD (ix.aliveCount - 1) 0) := by
      rw [List.getD_eq_getElem?_getD, List.getElem?_eq_getElem hLlt]; rfl
    generalize hlastdef : ix.dense.getD (ix.aliveCount - 1) 0 = last at hlast hb2 ⊢
    generalize hLdef : ix.aliveCount - 1 = L at hlast hLlt hb2 ⊢
    have hdL : d ≤ L := by omega
    have hget : ∀ p, (((ix.dense.set d last).set L x).set L x)[p]? =
        if p = L then some x else if p = d then some last else ix.dense[p]? := by
      intro p
      rw [List.set_set, List.getElem?_set, List.getElem?_set]
      by_cases hpL : p = L
      · subst hpL
        simp [hLlt]
      · have hLp : ¬ L = p := fun hh => hpL hh.symm
        rw [if_neg hLp, if_neg hpL]
        by_cases hpd : p = d
        · subst hpd
          have : p < ix.dense.length := by omega
          simp [this]
        · have hdp : ¬ d = p := fun hh => hpd hh.symm
          rw [if_neg hdp, if_neg hpd]
    have hxlast : d ≠ L → x ≠ last := by
      intro hne hxl
      rw [← hxl] at hlast
      exact hne (hinj hdx hlast)
    refine ⟨⟨hv, hb2, ?_, ?_, ?_, hmax⟩, ?_⟩
    · show L ≤ (((ix.dense.set d last).set L x).set L x).length
      simp only [List.length_set]; omega
    · intro p v hp
      change (((ix.dense.set d last).set L x).set L x)[p]? = some v at hp
      show setKey (setKey ix.sparse last d) x L v = some p ∧ 1 ≤ v ∧ v ≤ ix.maxId
      rw [hget] at hp
      by_cases hpL : p = L
      · rw [if_pos hpL] at hp
        have hvx : v = x := (Option.some.inj hp).symm
        refine ⟨?_, by rw [hvx]; exact (hfwd d x hdx).2.1, by rw [hvx]; exact (hfwd d x hdx).2.2⟩
        unfold setKey
        rw [if_pos hvx, hpL]
      · rw [if_neg hpL] at hp
        by_cases hpd : p = d
        · rw [if_pos hpd] at hp
          have hvl : v = last := (Option.some.inj hp).symm
          have hdL2 : d ≠ L := fun hh => hpL (hpd.trans hh)
          refine ⟨?_, by rw [hvl]; exact (hfwd L last hlast).2.1,
            by rw [hvl]; exact (hfwd L last hlast).2.2⟩
          unfold setKey
          rw [if_neg (by rw [hvl]; exact fun hh => hxlast hdL2 hh.symm), if_pos hvl, hpd]
        · rw [if_neg hpd] at hp
          obtain ⟨hs, h1, h2⟩ := hfwd p v hp
          refine ⟨?_, h1, h2⟩
          have hvx : v ≠ x := fun hh => hpd (hinj hp (hh ▸ hdx))
          have hvl : v ≠ last := fun hh => hpL (hinj hp (hh ▸ hlast))
          unfold setKey
          rw [if_neg hvx, if_neg hvl]; exact hs
    · intro v p hp
      change setKey (setKey ix.sparse last d) x L v = some p at hp
      show (((ix.dense.set d last).set L x).set L x)[p]? = some v
      rw [hget]
      unfold setKey at hp
      by_cases hvx : v = x
      · rw [if_pos hvx] at hp
        rw [if_pos (Option.some.inj hp).symm, hvx]
      · rw [if_neg hvx] at hp
        by_cases hvl : v = last
        · rw [if_pos hvl] at hp
          have hpd : p = d := (Option.some.inj hp).symm
          have hdL2 : d ≠ L := by
            intro hh
            rw [hh] at hdx
            rw [hdx] at hlast
            exact hvx (hvl.trans (Option.some.inj hlast).symm)
          rw [if_neg (by rw [hpd]; exact hdL2), if_pos hpd, hvl]
        · rw [if_neg hvl] at hp
          have hpv := hbwd v p hp
          have hpL : p ≠ L := fun hh => hvl (by rw [hh, hlast] at hpv; exact (Option.some.inj hpv).symm)
          have hpd : p ≠ d := fun hh => hvx (by rw [hh, hdx] at hpv; exact (Option.some.inj hpv).symm)
          rw [if_neg hpL, if_neg hpd]; exact hpv
    · intro v
      unfold aliveIds
      rw [mem_take_iff, mem_take_iff]
      show (∃ p, p < L ∧ (((ix.dense.set d last).set L x).set L x)[p]? = some v) ↔ _
      constructor
      · rintro ⟨p, hp, hpv⟩
        rw [hget] at hpv
        have hpL : p ≠ L := by omega
        rw [if_neg hpL] at hpv
        by_cases hpd : p = d
        · rw [if_pos hpd] at hpv
          have hvl : v = last := (Option.some.inj hpv).symm
          have hdL2 : d ≠ L := fun hh => hpL (hpd.trans hh)
          refine ⟨⟨L, by omega, by rw [hvl]; exact hlast⟩, ?_⟩
          rw [hvl]; exact fun hh => hxlast hdL2 hh.symm
        · rw [if_neg hpd] at hpv
          exact ⟨⟨p, by omega, hpv⟩, fun hh => hpd (hinj hpv (hh ▸ hdx))⟩
      · rintro ⟨⟨p, hp, hpv⟩, hvx⟩
        have hpd : p ≠ d := fun hh => hvx (by rw [hh, hdx] at hpv; exact (Option.some.inj hpv).symm)
        by_cases hpL : p = L
        · have hvl : v = last := by rw [hpL, hlast] at hpv; exact (Option.some.inj hpv).symm
          refine ⟨d, by omega, ?_⟩
          rw [hget, if_neg (by omega), if_pos rfl, hvl]
        · refine ⟨p, by omega, ?_⟩
          rw [hget, if_neg hpL, if_neg hpd]; exact hpv

/-! ## Theorems: masks and bits -/

theorem and_two_pow_eq_iff (m k : Nat) : (m &&& 2 ^ k == 2 ^ k) = m.testBit k := by
  cases hb : m.testBit k with
  | true =>
    rw [beq_iff_eq]
    apply Nat.eq_of_testBit_eq
    intro j
    rw [Nat.testBit_and, Nat.testBit_two_pow]
    by_cases hkj : k = j
    · subst hkj; simp [hb]
    · simp [hkj]
  | false =>
    rw [beq_eq_false_iff_ne]
    intro heq
    have := congrArg (fun n => Nat.testBit n k) heq
    simp only [Nat.testBit_and, Nat.testBit_two_pow, hb] at this
    simp at this

theorem testBit_or_two_pow (m k j : Nat) :
    (m ||| 2 ^ k).testBit j = (m.testBit j || decide (k = j)) := by
  rw [Nat.testBit_or, Nat.testBit_two_pow]

theorem testBit_clear (m k j : Nat) (hk : k < 32) :
    (m &&& (4294967295 ^^^ 2 ^ k)).testBit j = (m.testBit j && decide (j < 32) && !decide (k = j)) := by
  have h32 : (4294967295 : Nat) = 2 ^ 32 - 1 := by norm_num
  rw [Nat.testBit_and, Nat.testBit_xor, h32, Nat.testBit_two_pow_sub_one, Nat.testBit_two_pow]
  by_cases hkj : k = j
  · subst hkj
    simp [hk]
  · simp [hkj]

theorem maskWord_congr {a b : World} (h : a.entityMasks = b.entityMasks) (g : Nat) (e : Int) :
    maskWord a g e = maskWord b g e := by
  unfold maskWord
  rw [h]

theorem hasComponent_iff (w : World) (e : Int) (c : Component) :
    hasComponent w e c = true ↔
      ∃ d, mapGet w.componentMap c = some d ∧
        (maskWord w d.generationId e &&& d.bitflag == d.bitflag) = true := by
  unfold hasComponent
  cases h : mapGet w.componentMap c with
  | none => simp
  | some d => simp

theorem hasComponent_congr {a b : World} (hm : a.entityMasks = b.entityMasks)
    (hc : ∀ c, (mapGet a.componentMap c).map ComponentData.layout
      = (mapGet b.componentMap c).map ComponentData.layout) (e : Int) (c : Component) :
    hasComponent a e c = hasComponent b e c := by
  unfold hasComponent
  have h := hc c
  cases ha : mapGet a.componentMap c with
  | none =>
    rw [ha] at h
    cases hb : mapGet b.componentMap c with
    | none => rfl
    | some d => rw [hb] at h; cases h
  | some d =>
    rw [ha] at h
    cases hb : mapGet b.componentMap c with
    | none => rw [hb] at h; cases h
    | some d2 =>
      rw [hb] at h
      simp only [Option.map_some', Option.some.injEq, ComponentData.layout, Prod.mk.injEq] at h
      simp only [h.2.1, h.2.2, maskWord_congr hm]

theorem sameCore_symm {a b : World} (h : SameCore a b) : SameCore b a :=
  ⟨h.1.symm, h.2.1.symm, h.2.2.1.symm, h.2.2.2.1.symm, h.2.2.2.2.1.symm,
    fun c => (h.2.2.2.2.2 c).symm⟩

theorem sameCore_trans {a b c : World} (h1 : SameCore a b) (h2 : SameCore b c) : SameCore a c :=
  ⟨h1.1.trans h2.1, h1.2.1.trans h2.2.1, h1.2.2.1.trans h2.2.2.1, h1.2.2.2.1.trans h2.2.2.2.1,
    h1.2.2.2.2.1.trans h2.2.2.2.2.1, fun x => (h1.2.2.2.2.2 x).trans (h2.2.2.2.2.2 x)⟩

theorem sameCore_refl (a : World) : SameCore a a :=
  ⟨rfl, rfl, rfl, rfl, rfl, fun _ => rfl⟩

theorem regInv_congr {a b : World} (h : SameCore a b) (k : Nat) (hr : RegInv a k) : RegInv b k := by
  obtain ⟨_, hm, _, hf, hcnt, hc⟩ := h
  have key : ∀ c d, mapGet b.componentMap c = some d →
      ∃ d0, mapGet a.componentMap c = some d0 ∧ d0.layout = d.layout := by
    intro c d hd
    have := hc c
    rw [hd] at this
    cases ha : mapGet a.componentMap c with
    | none => rw [ha] at this; cases this
    | some d0 =>
      rw [ha] at this
      exact ⟨d0, rfl, Option.some.inj this⟩
  constructor
  · rw [← hcnt]; exact hr.count
  · rw [← hf]; exact hr.flag
  · rw [← hm]; exact hr.words
  · intro c d hd
    obtain ⟨d0, h0, hl⟩ := key c d hd
    simp only [ComponentData.layout, Prod.mk.injEq] at hl
    have := hr.data c d0 h0
    rw [hl.1, hl.2.1, hl.2.2] at this
    exact this
  · intro c1 c2 d1 d2 h1 h2 hid
    obtain ⟨e1, he1, hl1⟩ := key c1 d1 h1
    obtain ⟨e2, he2, hl2⟩ := key c2 d2 h2
    simp only [ComponentData.layout, Prod.mk.injEq] at hl1 hl2
    exact hr.inj c1 c2 e1 e2 he1 he2 (by rw [hl1.1, hl2.1]; exact hid)

theorem worldInv_congr {a b : World} (h : SameCore a b) (hi : WorldInv a) : WorldInv b := by
  have hreg := regInv_congr h _ hi.reg
  obtain ⟨hix, hm, hec, hf, hcnt, hc⟩ := h
  have hhas : ∀ e c, hasComponent a e c = hasComponent b e c := hasComponent_congr hm hc
  constructor
  · rw [← hix]; exact hi.index
  · rw [← hix]; exact hi.cap
  · rw [← hcnt]; exact hreg
  · intro e
    unfold entityExists
    rw [← hec, ← hix]
    exact hi.keys e
  · intro e cs hcs
    rw [← hec] at hcs
    obtain ⟨h1, h2⟩ := hi.sets e cs hcs
    exact ⟨h1, fun c hcin => by rw [← hhas]; exact h2 c hcin⟩
  · intro e g k hb
    rw [← maskWord_congr hm] at hb
    obtain ⟨c, d, cs, h1, h2, h3, h4, h5⟩ := hi.bits e g k hb
    have := hc c
    rw [h1] at this
    cases hbm : mapGet b.componentMap c with
    | none => rw [hbm] at this; cases this
    | some d2 =>
      rw [hbm] at this
      have hl := Option.some.inj this
      simp only [ComponentData.layout, Prod.mk.injEq] at hl
      exact ⟨c, d2, cs, hbm, by rw [← hl.2.1]; exact h2, by rw [← hl.1]; exact h3,
        by rw [← hec]; exact h4, h5⟩

theorem mem_setAdd {κ : Type} [DecidableEq κ] (s : List κ) (x y : κ) :
    y ∈ setAdd s x ↔ (y ∈ s ∨ y = x) := by
  unfold setAdd
  by_cases h : x ∈ s
  · rw [if_pos h]
    constructor
    · intro hy; exact Or.inl hy
    · rintro (hy | hy)
      · exact hy
      · rw [hy]; exact h
  · rw [if_neg h]
    simp

theorem nodup_setAdd {κ : Type} [DecidableEq κ] (s : List κ) (x : κ) (h : s.Nodup) :
    (setAdd s x).Nodup := by
  unfold setAdd
  by_cases hx : x ∈ s
  · rw [if_pos hx]; exact h
  · rw [if_neg hx]
    exact List.Nodup.append h (List.nodup_singleton x) (by simpa using hx)

theorem mem_setDelete {κ : Type} [DecidableEq κ] (s : List κ) (x y : κ) :
    y ∈ setDelete s x ↔ (y ∈ s ∧ y ≠ x) := by
  unfold setDelete
  simp

theorem nodup_setDelete {κ : Type} [DecidableEq κ] (s : List κ) (x : κ) (h : s.Nodup) :
    (setDelete s x).Nodup := by
  unfold setDelete
  exact List.Nodup.filter _ h

theorem mapGet_mapDelete {κ ν : Type} [DecidableEq κ] (m : List (κ × ν)) (k k2 : κ) :
    mapGet (mapDelete m k) k2 = if k2 = k then none else mapGet m k2 := by
  unfold mapDelete
  induction m with
  | nil => simp [mapGet]
  | cons p rest ih =>
    obtain ⟨k3, v3⟩ := p
    by_cases h : k3 = k
    · rw [List.filter_cons_of_neg (by simp [h]), ih]
      by_cases h2 : k2 = k
      · rw [if_pos h2, if_pos h2]
      · rw [if_neg h2, if_neg h2]
        have h32 : ¬ k3 = k2 := fun hh => h2 (hh ▸ h)
        simp only [mapGet, if_neg h32]
    · rw [List.filter_cons_of_pos (by simp [h])]
      simp only [mapGet]
      by_cases h32 : k3 = k2
      · rw [if_pos h32, if_neg (fun hh => h (h32.trans hh)), if_pos h32]
      · rw [if_neg h32, ih, if_neg h32]

theorem mapGet_mapDelete_same {κ ν : Type} [DecidableEq κ] (m : List (κ × ν)) (k : κ) :
    mapGet (mapDelete m k) k = none := by
  rw [mapGet_mapDelete, if_pos rfl]

theorem mapGet_mapDelete_ne {κ ν : Type} [DecidableEq κ] (m : List (κ × ν)) (k k2 : κ)
    (hne : k2 ≠ k) : mapGet (mapDelete m k) k2 = mapGet m k2 := by
  rw [mapGet_mapDelete, if_neg hne]

theorem mem_keys_iff {κ ν : Type} [DecidableEq κ] (m : List (κ × ν)) (k : κ) :
    k ∈ m.map Prod.fst ↔ ∃ v, mapGet m k = some v := by
  induction m with
  | nil => simp [mapGet]
  | cons p rest ih =>
    obtain ⟨k2, v2⟩ := p
    by_cases h : k2 = k
    · simp [mapGet, h]
    · have hne : k ≠ k2 := fun hh => h hh.symm
      simp [mapGet, h, hne, ih]

theorem maskWord_setMaskWord (w : World) (g0 : Nat) (e0 : Int) (v : Nat)
    (hg : g0 < w.entityMasks.length) (g : Nat) (e : Int) :
    maskWord (setMaskWord w g0 e0 v) g e = if g = g0 ∧ e = e0 then v else maskWord w g e := by
  unfold setMaskWord
  have hrow : w.entityMasks.get? g0 = some (w.entityMasks.get ⟨g0, hg⟩) := List.get?_eq_get hg
  rw [hrow]
  unfold maskWord
  simp only [List.get?_eq_getElem?] at hrow ⊢
  rw [List.getElem?_set]
  by_cases hgg : g0 = g
  · subst hgg
    rw [if_pos rfl, if_pos hg, hrow]
    simp only [true_and]
    unfold setKey
    by_cases he : e = e0
    · rw [if_pos he, if_pos he]; rfl
    · rw [if_neg he, if_neg he]
  · rw [if_neg hgg, if_neg (fun hh => hgg hh.1.symm)]

theorem setMaskWord_fields (w : World) (g : Nat) (e : Int) (v : Nat) :
    (setMaskWord w g e v).entityIndex = w.entityIndex ∧
    (setMaskWord w g e v).entityComponents = w.entityComponents ∧
    (setMaskWord w g e v).componentMap = w.componentMap ∧
    (setMaskWord w g e v).componentCount = w.componentCount ∧
    (setMaskWord w g e v).bitflag = w.bitflag ∧
    (setMaskWord w g e v).entityMasks.length = w.entityMasks.length ∧
    (setMaskWord w g e v).queryStore = w.queryStore ∧
    (setMaskWord w g e v).dirtyQueries = w.dirtyQueries ∧
    (setMaskWord w g e v).entitiesWithRelations = w.entitiesWithRelations := by
  unfold setMaskWord
  split <;> simp

theorem hasComponent_testBit {w : World} {k : Nat} (hreg : RegInv w k) (e : Int) (c : Component) :
    hasComponent w e c = true ↔
      ∃ d, mapGet w.componentMap c = some d ∧
        (maskWord w d.generationId e).testBit (d.id % 31) = true := by
  rw [hasComponent_iff]
  constructor
  · rintro ⟨d, hd, hb⟩
    refine ⟨d, hd, ?_⟩
    rw [(hreg.data c d hd).2.2, and_two_pow_eq_iff] at hb
    exact hb
  · rintro ⟨d, hd, hb⟩
    refine ⟨d, hd, ?_⟩
    rw [(hreg.data c d hd).2.2, and_two_pow_eq_iff]
    exact hb

theorem regInv_gen_lt {w : World} {k : Nat} (hreg : RegInv w k) (c : Component)
    (d : ComponentData) (hd : mapGet w.componentMap c = some d) :
    d.generationId < w.entityMasks.length := by
  obtain ⟨h1, h2, _⟩ := hreg.data c d hd
  rw [hreg.words, h2]
  have : d.id / 31 ≤ k / 31 := Nat.div_le_div_right (le_of_lt h1)
  omega

theorem regInv_same_slot {w : World} {k : Nat} (hreg : RegInv w k) (c1 c2 : Component)
    (d1 d2 : ComponentData) (h1 : mapGet w.componentMap c1 = some d1)
    (h2 : mapGet w.componentMap c2 = some d2) (hg : d1.generationId = d2.generationId)
    (hk : d1.id % 31 = d2.id % 31) : c1 = c2 := by
  apply hreg.inj c1 c2 d1 d2 h1 h2
  have g1 := (hreg.data c1 d1 h1).2.1
  have g2 := (hreg.data c2 d2 h2).2.1
  rw [g1, g2] at hg
  have e1 := Nat.div_add_mod d1.id 31
  have e2 := Nat.div_add_mod d2.id 31
  omega

/-! ## Theorems: the invariant of a world under the component calls -/

theorem registerComponent_fields (w : World) (c : Component) :
    (registerComponent w c).2.entityIndex = w.entityIndex ∧
    (registerComponent w c).2.entityComponents = w.entityComponents ∧
    (registerComponent w c).2.queryStore = w.queryStore ∧
    (registerComponent w c).2.dirtyQueries = w.dirtyQueries ∧
    (registerComponent w c).2.entitiesWithRelations = w.entitiesWithRelations := by
  unfold registerComponent
  simp only
  split <;> simp

theorem maskWord_registerComponent (w : World) (c : Component) (g : Nat) (e : Int) :
    maskWord (registerComponent w c).2 g e = maskWord w g e := by
  unfold registerComponent
  simp only
  split
  · unfold maskWord
    simp only [List.get?_eq_getElem?]
    by_cases hg : g < w.entityMasks.length
    · rw [List.getElem?_append_left hg]
    · rw [List.getElem?_append_right (Nat.le_of_not_lt hg),
        List.getElem?_eq_none (Nat.le_of_not_lt hg)]
      by_cases hz : g - w.entityMasks.length = 0
      · rw [hz]; rfl
      · have : [fun (_ : Int) => (none : Option Nat)][g - w.entityMasks.length]? = none := by
          apply List.getElem?_eq_none
          simp; omega
        rw [this]
  · rfl

theorem maskWord_ensureRegistered (w : World) (c : Component) (g : Nat) (e : Int) :
    maskWord (ensureRegistered w c) g e = maskWord w g e := by
  unfold ensureRegistered
  split
  · rfl
  · exact maskWord_registerComponent w c g e

theorem ensureRegistered_fields (w : World) (c : Component) :
    (ensureRegistered w c).entityIndex = w.entityIndex ∧
    (ensureRegistered w c).entityComponents = w.entityComponents ∧
    (ensureRegistered w c).queryStore = w.queryStore ∧
    (ensureRegistered w c).dirtyQueries = w.dirtyQueries ∧
    (ensureRegistered w c).entitiesWithRelations = w.entitiesWithRelations := by
  unfold ensureRegistered
  split
  · exact ⟨rfl, rfl, rfl, rfl, rfl⟩
  · exact registerComponent_fields w c

theorem mapGet_ensureRegistered_of_some (w : World) (c c2 : Component) (d : ComponentData)
    (h : mapGet w.componentMap c2 = some d) :
    mapGet (ensureRegistered w c).componentMap c2 = some d := by
  cases hc : mapGet w.componentMap c with
  | some d0 => rw [ensureRegistered_of_registered w c d0 hc]; exact h
  | none =>
    rw [ensureRegistered_of_fresh w c hc]
    have hne : c2 ≠ c := by
      intro heq; rw [heq, hc] at h; cases h
    rw [mapGet_registerComponent_ne w c c2 hne]; exact h

theorem hasComponent_ensureRegistered_of_true (w : World) (c : Component) (e : Int)
    (c2 : Component) (h : hasComponent w e c2 = true) :
    hasComponent (ensureRegistered w c) e c2 = true := by
  rw [hasComponent_iff] at h ⊢
  obtain ⟨d, hd, hb⟩ := h
  exact ⟨d, mapGet_ensureRegistered_of_some w c c2 d hd, by
    rw [maskWord_ensureRegistered]; exact hb⟩

theorem regInv_ensureRegistered (w : World) (c : Component) (h : RegInv w w.componentCount) :
    RegInv (ensureRegistered w c) (ensureRegistered w c).componentCount := by
  cases hc : mapGet w.componentMap c with
  | some d0 => rw [ensureRegistered_of_registered w c d0 hc]; exact h
  | none =>
    rw [ensureRegistered_of_fresh w c hc]
    have h1 := (regInv_register w w.componentCount c h hc).1
    rw [registerComponent_count]
    exact h1

/-- Registration keeps the invariant of a world. -/
theorem worldInv_ensureRegistered (w : World) (c : Component) (h : WorldInv w) :
    WorldInv (ensureRegistered w c) := by
  obtain ⟨f1, f2, _, _, _⟩ := ensureRegistered_fields w c
  constructor
  · rw [f1]; exact h.index
  · rw [f1]; exact h.cap
  · exact regInv_ensureRegistered w c h.reg
  · intro e
    unfold entityExists
    rw [f1, f2]
    exact h.keys e
  · intro e cs hcs
    rw [f2] at hcs
    obtain ⟨h1, h2⟩ := h.sets e cs hcs
    exact ⟨h1, fun c2 hc2 => hasComponent_ensureRegistered_of_true w c e c2 (h2 c2 hc2)⟩
  · intro e g k hb
    rw [maskWord_ensureRegistered] at hb
    obtain ⟨c2, d, cs, h1, h2, h3, h4, h5⟩ := h.bits e g k hb
    exact ⟨c2, d, cs, mapGet_ensureRegistered_of_some w c c2 d h1, h2, h3, by rw [f2]; exact h4, h5⟩

theorem regInv_of_fields {w w2 : World} (h : RegInv w w.componentCount)
    (hcm : w2.componentMap = w.componentMap) (hcnt : w2.componentCount = w.componentCount)
    (hfl : w2.bitflag = w.bitflag) (hlen : w2.entityMasks.length = w.entityMasks.length) :
    RegInv w2 w2.componentCount := by
  constructor
  · rfl
  · rw [hfl, hcnt]; exact h.flag
  · rw [hlen, hcnt]; exact h.words
  · intro c d hd
    rw [hcm] at hd
    rw [hcnt]; exact h.data c d hd
  · intro c1 c2 d1 d2 h1 h2 hid
    rw [hcm] at h1 h2
    exact h.inj c1 c2 d1 d2 h1 h2 hid

/-- Setting the bit of a registered component on an entity that exists and
adding the component to its set keeps the invariant. -/
theorem worldInv_setBit (w w2 : World) (e : Int) (c : Component) (d : ComponentData)
    (cs : List Component) (h : WorldInv w) (hd : mapGet w.componentMap c = some d)
    (hcs : mapGet w.entityComponents e = some cs)
    (hix : w2.entityIndex = w.entityIndex) (hcm : w2.componentMap = w.componentMap)
    (hcnt : w2.componentCount = w.componentCount) (hfl : w2.bitflag = w.bitflag)
    (hmasks : w2.entityMasks = (setMaskWord w d.generationId e
      (maskWord w d.generationId e ||| d.bitflag)).entityMasks)
    (hec : w2.entityComponents = mapSet w.entityComponents e (setAdd cs c)) : WorldInv w2 := by
  have hglt := regInv_gen_lt h.reg c d hd
  have hflag := (h.reg.data c d hd).2.2
  have hlen : w2.entityMasks.length = w.entityMasks.length := by
    rw [hmasks]; exact (setMaskWord_fields _ _ _ _).2.2.2.2.2.1
  have hreg2 : RegInv w2 w2.componentCount := regInv_of_fields h.reg hcm hcnt hfl hlen
  have hmw : ∀ g e2, maskWord w2 g e2 =
      if g = d.generationId ∧ e2 = e then maskWord w d.generationId e ||| 2 ^ (d.id % 31)
      else maskWord w g e2 := by
    intro g e2
    rw [maskWord_congr hmasks, maskWord_setMaskWord w _ _ _ hglt, hflag]
  have hkeep : ∀ e2 c2, hasComponent w e2 c2 = true → hasComponent w2 e2 c2 = true := by
    intro e2 c2 hh
    obtain ⟨d2, hd2, hb⟩ := (hasComponent_testBit h.reg e2 c2).mp hh
    refine (hasComponent_testBit hreg2 e2 c2).mpr ⟨d2, by rw [hcm]; exact hd2, ?_⟩
    rw [hmw]
    by_cases hge : d2.generationId = d.generationId ∧ e2 = e
    · rw [if_pos hge, testBit_or_two_pow]
      rw [hge.1, hge.2] at hb
      rw [hb]; rfl
    · rw [if_neg hge]; exact hb
  have hnew : hasComponent w2 e c = true := by
    refine (hasComponent_testBit hreg2 e c).mpr ⟨d, by rw [hcm]; exact hd, ?_⟩
    rw [hmw, if_pos ⟨rfl, rfl⟩, testBit_or_two_pow]
    simp
  constructor
  · rw [hix]; exact h.index
  · rw [hix]; exact h.cap
  · exact hreg2
  · intro e2
    unfold entityExists
    rw [hix, hec]
    by_cases he : e2 = e
    · subst he
      rw [mapGet_mapSet_same]
      constructor
      · intro _; exact (h.keys e2).mp ⟨cs, hcs⟩
      · intro _; exact ⟨_, rfl⟩
    · rw [mapGet_mapSet_ne _ _ _ _ he]
      exact h.keys e2
  · intro e2 cs2 hcs2
    rw [hec] at hcs2
    by_cases he : e2 = e
    · subst he
      rw [mapGet_mapSet_same] at hcs2
      cases hcs2
      refine ⟨nodup_setAdd cs c (h.sets e2 cs hcs).1, ?_⟩
      intro c2 hc2
      rcases (mem_setAdd cs c c2).mp hc2 with hin | heq
      · exact hkeep e2 c2 ((h.sets e2 cs hcs).2 c2 hin)
      · rw [heq]; exact hnew
    · rw [mapGet_mapSet_ne _ _ _ _ he] at hcs2
      obtain ⟨h1, h2⟩ := h.sets e2 cs2 hcs2
      exact ⟨h1, fun c2 hc2 => hkeep e2 c2 (h2 c2 hc2)⟩
  · intro e2 g k hb
    rw [hmw] at hb
    have hold : (maskWord w g e2).testBit k = true →
        ∃ c2 d2 cs2, mapGet w2.componentMap c2 = some d2 ∧ d2.generationId = g ∧
          d2.id % 31 = k ∧ mapGet w2.entityComponents e2 = some cs2 ∧ c2 ∈ cs2 := by
      intro hb2
      obtain ⟨c2, d2, cs2, h1, h2, h3, h4, h5⟩ := h.bits e2 g k hb2
      by_cases he : e2 = e
      · subst he
        rw [hcs] at h4
        cases h4
        exact ⟨c2, d2, setAdd cs c, by rw [hcm]; exact h1, h2, h3,
          by rw [hec, mapGet_mapSet_same], (mem_setAdd cs c c2).mpr (Or.inl h5)⟩
      · exact ⟨c2, d2, cs2, by rw [hcm]; exact h1, h2, h3,
          by rw [hec, mapGet_mapSet_ne _ _ _ _ he]; exact h4, h5⟩
    by_cases hge : g = d.generationId ∧ e2 = e
    · rw [if_pos hge, testBit_or_two_pow] at hb
      cases hbo : (maskWord w d.generationId e).testBit k with
      | true =>
        apply hold
        rw [hge.1, hge.2]; exact hbo
      | false =>
        rw [hbo] at hb
        simp only [Bool.false_or, decide_eq_true_eq] at hb
        exact ⟨c, d, setAdd cs c, by rw [hcm]; exact hd, hge.1.symm, hb,
          by rw [hec, hge.2, mapGet_mapSet_same], (mem_setAdd cs c c).mpr (Or.inr rfl)⟩
    · rw [if_neg hge] at hb
      exact hold hb

/-- Clearing the bit of a component an entity has and deleting the component
from its set keeps the invariant. -/
theorem worldInv_clearBit (w w2 : World) (e : Int) (c : Component) (d : ComponentData)
    (cs : List Component) (h : WorldInv w) (hd : mapGet w.componentMap c = some d)
    (hcs : mapGet w.entityComponents e = some cs)
    (hix : w2.entityIndex = w.entityIndex) (hcm : w2.componentMap = w.componentMap)
    (hcnt : w2.componentCount = w.componentCount) (hfl : w2.bitflag = w.bitflag)
    (hmasks : w2.entityMasks = (setMaskWord w d.generationId e
      (maskWord w d.generationId e &&& (4294967295 ^^^ d.bitflag))).entityMasks)
    (hec : w2.entityComponents = mapSet w.entityComponents e (setDelete cs c)) : WorldInv w2 := by
  have hglt := regInv_gen_lt h.reg c d hd
  have hflag := (h.reg.data c d hd).2.2
  have hk32 : d.id % 31 < 32 := by
    have := Nat.mod_lt d.id (by decide : 31 > 0)
    omega
  have hlen : w2.entityMasks.length = w.entityMasks.length := by
    rw [hmasks]; exact (setMaskWord_fields _ _ _ _).2.2.2.2.2.1
  have hreg2 : RegInv w2 w2.componentCount := regInv_of_fields h.reg hcm hcnt hfl hlen
  have hmw : ∀ g e2, maskWord w2 g e2 =
      if g = d.generationId ∧ e2 = e then
        maskWord w d.generationId e &&& (4294967295 ^^^ 2 ^ (d.id % 31))
      else maskWord w g e2 := by
    intro g e2
    rw [maskWord_congr hmasks, maskWord_setMaskWord w _ _ _ hglt, hflag]
  have hkeep : ∀ e2 c2, (e2 = e → c2 ≠ c) → hasComponent w e2 c2 = true →
      hasComponent w2 e2 c2 = true := by
    intro e2 c2 hne hh
    obtain ⟨d2, hd2, hb⟩ := (hasComponent_testBit h.reg e2 c2).mp hh
    refine (hasComponent_testBit hreg2 e2 c2).mpr ⟨d2, by rw [hcm]; exact hd2, ?_⟩
    rw [hmw]
    by_cases hge : d2.generationId = d.generationId ∧ e2 = e
    · rw [if_pos hge, testBit_clear _ _ _ hk32]
      rw [hge.1, hge.2] at hb
      rw [hb]
      have hk2 : d2.id % 31 < 32 := by
        have := Nat.mod_lt d2.id (by decide : 31 > 0)
        omega
      have hkne : d.id % 31 ≠ d2.id % 31 := by
        intro hk
        exact hne hge.2 (regInv_same_slot h.reg c2 c d2 d hd2 hd hge.1 hk.symm)
      simp [hk2, hkne]
    · rw [if_neg hge]; exact hb
  constructor
  · rw [hix]; exact h.index
  · rw [hix]; exact h.cap
  · exact hreg2
  · intro e2
    unfold entityExists
    rw [hix, hec]
    by_cases he : e2 = e
    · subst he
      rw [mapGet_mapSet_same]
      constructor
      · intro _; exact (h.keys e2).mp ⟨cs, hcs⟩
      · intro _; exact ⟨_, rfl⟩
    · rw [mapGet_mapSet_ne _ _ _ _ he]
      exact h.keys e2
  · intro e2 cs2 hcs2
    rw [hec] at hcs2
    by_cases he : e2 = e
    · subst he
      rw [mapGet_mapSet_same] at hcs2
      cases hcs2
      refine ⟨nodup_setDelete cs c (h.sets e2 cs hcs).1, ?_⟩
      intro c2 hc2
      obtain ⟨hin, hne⟩ := (mem_setDelete cs c c2).mp hc2
      exact hkeep e2 c2 (fun _ => hne) ((h.sets e2 cs hcs).2 c2 hin)
    · rw [mapGet_mapSet_ne _ _ _ _ he] at hcs2
      obtain ⟨h1, h2⟩ := h.sets e2 cs2 hcs2
      exact ⟨h1, fun c2 hc2 => hkeep e2 c2 (fun hh => absurd hh he) (h2 c2 hc2)⟩
  · intro e2 g k hb
    rw [hmw] at hb
    by_cases hge : g = d.generationId ∧ e2 = e
    · rw [if_pos hge, testBit_clear _ _ _ hk32] at hb
      simp only [Bool.and_eq_true, decide_eq_true_eq, Bool.not_eq_true', decide_eq_false_iff_not]
        at hb
      obtain ⟨⟨hb1, _⟩, hkne⟩ := hb
      obtain ⟨c2, d2, cs2, h1, h2, h3, h4, h5⟩ := h.bits e d.generationId k hb1
      rw [hcs] at h4
      cases h4
      have hc2 : c2 ≠ c := by
        intro heq
        rw [heq, hd] at h1
        cases h1
        exact hkne h3
      exact ⟨c2, d2, setDelete cs c, by rw [hcm]; exact h1, by rw [hge.1]; exact h2, h3,
        by rw [hec, hge.2, mapGet_mapSet_same], (mem_setDelete cs c c2).mpr ⟨h5, hc2⟩⟩
    · rw [if_neg hge] at hb
      obtain ⟨c2, d2, cs2, h1, h2, h3, h4, h5⟩ := h.bits e2 g k hb
      by_cases he : e2 = e
      · subst he
        rw [hcs] at h4
        cases h4
        have hc2 : c2 ≠ c := by
          intro heq
          rw [heq, hd] at h1
          cases h1
          exact hge ⟨h2.symm, rfl⟩
        exact ⟨c2, d2, setDelete cs c, by rw [hcm]; exact h1, h2, h3,
          by rw [hec, mapGet_mapSet_same], (mem_setDelete cs c c2).mpr ⟨h5, hc2⟩⟩
      · exact ⟨c2, d2, cs2, by rw [hcm]; exact h1, h2, h3,
          by rw [hec, mapGet_mapSet_ne _ _ _ _ he]; exact h4, h5⟩

theorem queryRemoveEntity_frame (w : World) (q : Nat) (eid : Int) :
    ∃ qs dq, queryRemoveEntity w q eid = { w with queryStore := qs, dirtyQueries := dq } := by
  unfold queryRemoveEntity
  split
  · exact ⟨w.queryStore, w.dirtyQueries, rfl⟩
  · simp only
    split
    · exact ⟨w.queryStore, w.dirtyQueries, rfl⟩
    · exact ⟨_, _, rfl⟩

theorem updateQueryFor_frame (w : World) (eid : Int) (q : Nat) :
    ∃ qs dq, updateQueryFor w eid q = { w with queryStore := qs, dirtyQueries := dq } := by
  unfold updateQueryFor
  split
  · exact ⟨w.queryStore, w.dirtyQueries, rfl⟩
  · simp only
    split
    · exact ⟨_, w.dirtyQueries, rfl⟩
    · obtain ⟨qs, dq, h⟩ := queryRemoveEntity_frame (setQuery w q _) q eid
      exact ⟨qs, dq, by rw [h]; rfl⟩

theorem foldl_updateQueryFor_frame (eid : Int) (queries : List Nat) :
    ∀ w : World, ∃ qs dq, queries.foldl (fun w q => updateQueryFor w eid q) w
      = { w with queryStore := qs, dirtyQueries := dq } := by
  induction queries with
  | nil => intro w; exact ⟨w.queryStore, w.dirtyQueries, rfl⟩
  | cons q rest ih =>
    intro w
    obtain ⟨qs1, dq1, h1⟩ := updateQueryFor_frame w eid q
    obtain ⟨qs2, dq2, h2⟩ := ih (updateQueryFor w eid q)
    rw [List.foldl_cons, h2, h1]
    exact ⟨qs2, dq2, rfl⟩

theorem setMaskWord_frame (w : World) (g : Nat) (e : Int) (v : Nat) :
    setMaskWord w g e v = { w with entityMasks := (setMaskWord w g e v).entityMasks } := by
  unfold setMaskWord
  split <;> rfl

/-- What `attach` leaves behind, field by field. -/
theorem attach_fields (w : World) (eid : Int) (c : Component) (w1 : World) (b : Bool)
    (h : attach w eid c = .ok (w1, b)) :
    (b = false ∧ hasComponent (ensureRegistered w c) eid c = true ∧ w1 = ensureRegistered w c) ∨
    (b = true ∧ hasComponent (ensureRegistered w c) eid c = false ∧
      ∃ d cs qs dq, mapGet (ensureRegistered w c).componentMap c = some d ∧
        mapGet (ensureRegistered w c).entityComponents eid = some cs ∧
        w1 = { ensureRegistered w c with
          entityMasks := (setMaskWord (ensureRegistered w c) d.generationId eid
            (maskWord (ensureRegistered w c) d.generationId eid ||| d.bitflag)).entityMasks,
          entityComponents := mapSet (ensureRegistered w c).entityComponents eid (setAdd cs c),
          queryStore := qs, dirtyQueries := dq }) := by
  unfold attach at h
  simp only at h
  split at h
  · rename_i hhas
    cases h
    exact Or.inl ⟨rfl, hhas, rfl⟩
  · rename_i hhas
    right
    split at h
    · cases h
    · rename_i d hd
      have hframe := setMaskWord_frame (ensureRegistered w c) d.generationId eid
        (maskWord (ensureRegistered w c) d.generationId eid ||| d.bitflag)
      generalize hM : (setMaskWord (ensureRegistered w c) d.generationId eid
        (maskWord (ensureRegistered w c) d.generationId eid ||| d.bitflag)).entityMasks = M
        at hframe
      rw [hframe] at h
      generalize hw0 : ensureRegistered w c = w0 at h hd hhas hM hframe
      obtain ⟨qs, dq, hw3⟩ : ∃ qs dq,
          (if (!hasComponent { w0 with entityMasks := M } eid Prefab) = true then
            d.queries.foldl (fun w q => updateQueryFor w eid q) { w0 with entityMasks := M }
            else { w0 with entityMasks := M })
            = { w0 with entityMasks := M, queryStore := qs, dirtyQueries := dq } := by
        split
        · obtain ⟨qs, dq, hq⟩ := foldl_updateQueryFor_frame eid d.queries
            { w0 with entityMasks := M }
          exact ⟨qs, dq, hq⟩
        · exact ⟨_, _, rfl⟩
      rw [hw3] at h
      unfold entityComponentsAdd at h
      simp only at h
      split at h
      · cases h
      · rename_i cs hcs
        simp only [Except.map] at h
        cases h
        subst hM
        exact ⟨rfl, by simpa using hhas, d, cs, qs, dq, hd, hcs, rfl⟩

/-- What `detach` leaves behind, field by field. -/
theorem detach_fields (w : World) (eid : Int) (c : Component) (w1 : World)
    (h : detach w eid c = .ok w1) :
    ∃ d cs qs dq, mapGet w.componentMap c = some d ∧ mapGet w.entityComponents eid = some cs ∧
      w1 = { w with
        entityMasks := (setMaskWord w d.generationId eid
          (maskWord w d.generationId eid &&& (4294967295 ^^^ d.bitflag))).entityMasks,
        entityComponents := mapSet w.entityComponents eid (setDelete cs c),
        queryStore := qs, dirtyQueries := dq } := by
  unfold detach at h
  split at h
  · cases h
  · rename_i d hd
    simp only at h
    have hframe := setMaskWord_frame w d.generationId eid
      (maskWord w d.generationId eid &&& (4294967295 ^^^ d.bitflag))
    generalize hM : (setMaskWord w d.generationId eid
      (maskWord w d.generationId eid &&& (4294967295 ^^^ d.bitflag))).entityMasks = M at hframe
    rw [hframe] at h
    obtain ⟨qs, dq, hw3⟩ := foldl_updateQueryFor_frame eid d.queries { w with entityMasks := M }
    rw [hw3] at h
    unfold entityComponentsDelete at h
    simp only at h
    split at h
    · cases h
    · rename_i cs hcs
      cases h
      subst hM
      exact ⟨d, cs, qs, dq, hd, hcs, rfl⟩

/-- An elementary mutation keeps the invariant of a world. -/
theorem worldInv_prim {a b : World} (hp : Prim a b) (h : WorldInv a) : WorldInv b := by
  cases hp with
  | attach eid c _ flag hex hat =>
    have h0 := worldInv_ensureRegistered a c h
    rcases attach_fields a eid c b flag hat with ⟨_, _, hw⟩ | ⟨_, _, d, cs, qs, dq, hd, hcs, hw⟩
    · rw [hw]; exact h0
    · rw [hw]
      exact worldInv_setBit (ensureRegistered a c) _ eid c d cs h0 hd hcs rfl rfl rfl rfl rfl rfl
  | detach eid c _ hex hhas hdt =>
    obtain ⟨d, cs, qs, dq, hd, hcs, hw⟩ := detach_fields a eid c b hdt
    rw [hw]
    exact worldInv_clearBit a _ eid c d cs h hd hcs rfl rfl rfl rfl rfl rfl
  | relations s =>
    exact @worldInv_congr a _ ⟨rfl, rfl, rfl, rfl, rfl, fun _ => rfl⟩ h

theorem worldInv_reach {a b : World} (hr : Reach a b) (h : WorldInv a) : WorldInv b := by
  induction hr with
  | refl => exact h
  | step w1 w2 _ hp ih => exact worldInv_prim hp ih

/-! ## Theorems: the invariant of a world under `addEntity` and `removeEntity` -/

theorem entityExists_iff {w : World} (h : WorldInv w) (e : Int) :
    entityExists w e = true ↔ e ∈ aliveIds w.entityIndex :=
  alive_iff h.index h.cap e

theorem maskWord_eraseEntity (w : World) (eid : Int) (g : Nat) (e : Int) :
    maskWord (eraseEntity w eid) g e = if e = eid then 0 else maskWord w g e := by
  unfold maskWord eraseEntity
  simp only [List.get?_eq_getElem?, List.getElem?_map]
  cases hrow : w.entityMasks[g]? with
  | none => simp
  | some row =>
    simp only [Option.map_some']
    unfold setKey
    by_cases he : e = eid
    · rw [if_pos he, if_pos he]; rfl
    · rw [if_neg he, if_neg he]

/-- Erasing an entity, alive or not, keeps the invariant. -/
theorem worldInv_eraseEntity (w : World) (eid : Int) (h : WorldInv w) :
    WorldInv (eraseEntity w eid) := by
  obtain ⟨hix2, hmem⟩ := indexPlain_release h.index eid
  have hcap2 : (removeEntityId w.entityIndex eid).maxId < 16777216 := by
    rw [(removeEntityId_config w.entityIndex eid).2.2.2.2]; exact h.cap
  have hreg2 : RegInv (eraseEntity w eid) (eraseEntity w eid).componentCount :=
    regInv_of_fields h.reg rfl rfl rfl (by simp [eraseEntity])
  have hex : ∀ e, entityExists (eraseEntity w eid) e = true ↔
      (entityExists w e = true ∧ e ≠ eid) := by
    intro e
    rw [entityExists_iff h e, ← hmem e]
    exact alive_iff hix2 hcap2 e
  have hhas : ∀ e c, e ≠ eid → hasComponent (eraseEntity w eid) e c = hasComponent w e c := by
    intro e c he
    unfold hasComponent
    show (match mapGet w.componentMap c with
      | none => false
      | some d => (maskWord (eraseEntity w eid) d.generationId e &&& d.bitflag == d.bitflag)) = _
    cases mapGet w.componentMap c with
    | none => rfl
    | some d => simp only [maskWord_eraseEntity, if_neg he]
  constructor
  · exact hix2
  · exact hcap2
  · exact hreg2
  · intro e
    show (∃ cs, mapGet (mapDelete w.entityComponents eid) e = some cs) ↔ _
    rw [hex e, mapGet_mapDelete]
    by_cases he : e = eid
    · rw [if_pos he]
      constructor
      · rintro ⟨cs, hcs⟩; cases hcs
      · rintro ⟨_, hne⟩; exact absurd he hne
    · rw [if_neg he]
      constructor
      · intro hh; exact ⟨(h.keys e).mp hh, he⟩
      · intro hh; exact (h.keys e).mpr hh.1
  · intro e cs hcs
    change mapGet (mapDelete w.entityComponents eid) e = some cs at hcs
    rw [mapGet_mapDelete] at hcs
    by_cases he : e = eid
    · rw [if_pos he] at hcs; cases hcs
    · rw [if_neg he] at hcs
      obtain ⟨h1, h2⟩ := h.sets e cs hcs
      exact ⟨h1, fun c hc => by rw [hhas e c he]; exact h2 c hc⟩
  · intro e g k hb
    rw [maskWord_eraseEntity] at hb
    by_cases he : e = eid
    · rw [if_pos he] at hb; simp at hb
    · rw [if_neg he] at hb
      obtain ⟨c, d, cs, h1, h2, h3, h4, h5⟩ := h.bits e g k hb
      refine ⟨c, d, cs, h1, h2, h3, ?_, h5⟩
      show mapGet (mapDelete w.entityComponents eid) e = some cs
      rw [mapGet_mapDelete, if_neg he]; exact h4

theorem notQueries_fold_frame (eid : Int) (qs : List Nat) :
    ∀ w0 : World, ∃ qstore,
      qs.foldl (fun (w : World) q =>
        match getQuery w q with
        | none => w
        | some query =>
          if queryCheckEntity w query eid then setQuery w q (queryAddEntity query eid) else w) w0
        = { w0 with queryStore := qstore } := by
  induction qs with
  | nil => intro w0; exact ⟨w0.queryStore, rfl⟩
  | cons q rest ih =>
    intro w0
    rw [List.foldl_cons]
    have hstep : ∃ qstore, (match getQuery w0 q with
        | none => w0
        | some query =>
          if queryCheckEntity w0 query eid then setQuery w0 q (queryAddEntity query eid) else w0)
        = { w0 with queryStore := qstore } := by
      split
      · exact ⟨w0.queryStore, rfl⟩
      · split
        · exact ⟨_, rfl⟩
        · exact ⟨w0.queryStore, rfl⟩
    obtain ⟨q1, h1⟩ := hstep
    rw [h1]
    obtain ⟨q2, h2⟩ := ih { w0 with queryStore := q1 }
    exact ⟨q2, by rw [h2]⟩

theorem addEntity_frame (w : World) :
    ∃ qs, (addEntity w).2 = { w with
      entityIndex := (addEntityId w.entityIndex).2,
      queryStore := qs,
      entityComponents := mapSet w.entityComponents (addEntityId w.entityIndex).1 [] } ∧
      (addEntity w).1 = (addEntityId w.entityIndex).1 := by
  unfold addEntity
  obtain ⟨qs, hq⟩ := notQueries_fold_frame (addEntityId w.entityIndex).1 w.notQueries
    { w with entityIndex := (addEntityId w.entityIndex).2 }
  refine ⟨qs, ?_, rfl⟩
  show ({ (w.notQueries.foldl (fun (w1 : World) q =>
      match getQuery w1 q with
      | none => w1
      | some query =>
        if queryCheckEntity w1 query (addEntityId w.entityIndex).1 then
          setQuery w1 q (queryAddEntity query (addEntityId w.entityIndex).1) else w1)
      { w with entityIndex := (addEntityId w.entityIndex).2 }) with
    entityComponents := mapSet (w.notQueries.foldl (fun (w1 : World) q =>
      match getQuery w1 q with
      | none => w1
      | some query =>
        if queryCheckEntity w1 query (addEntityId w.entityIndex).1 then
          setQuery w1 q (queryAddEntity query (addEntityId w.entityIndex).1) else w1)
      { w with entityIndex := (addEntityId w.entityIndex).2 }).entityComponents
      (addEntityId w.entityIndex).1 [] } : World) = _
  rw [hq]

/-- `addEntity` keeps the invariant while the index has room. -/
theorem worldInv_addEntity (w : World) (h : WorldInv w)
    (hcap : (addEntity w).2.entityIndex.maxId < 16777216) : WorldInv (addEntity w).2 := by
  obtain ⟨qs, hw, _⟩ := addEntity_frame w
  rw [hw] at hcap ⊢
  change (addEntityId w.entityIndex).2.maxId < 16777216 at hcap
  obtain ⟨hix2, hmem, hfresh⟩ := indexPlain_alloc h.index
  generalize hid : (addEntityId w.entityIndex).1 = id at hmem hfresh ⊢
  generalize hixn : (addEntityId w.entityIndex).2 = ix2 at hmem hix2 hcap ⊢
  have hdead : entityExists w id = false := by
    cases hh : entityExists w id with
    | false => rfl
    | true => exact absurd ((entityExists_iff h id).mp hh) hfresh
  have hnone : mapGet w.entityComponents id = none := by
    cases hh : mapGet w.entityComponents id with
    | none => rfl
    | some cs =>
      have := (h.keys id).mp ⟨cs, hh⟩
      rw [hdead] at this; cases this
  have hreg2 := @regInv_of_fields w
    { w with entityIndex := ix2, queryStore := qs, entityComponents := mapSet w.entityComponents id [] }
    h.reg rfl rfl rfl rfl
  constructor
  · exact hix2
  · exact hcap
  · exact hreg2
  · intro e
    show (∃ cs, mapGet (mapSet w.entityComponents id []) e = some cs) ↔
      isEntityIdAlive ix2 e = true
    rw [alive_iff hix2 hcap e, hmem e, ← entityExists_iff h e]
    by_cases he : e = id
    · subst he
      rw [mapGet_mapSet_same]
      constructor
      · intro _; exact Or.inr rfl
      · intro _; exact ⟨_, rfl⟩
    · rw [mapGet_mapSet_ne _ _ _ _ he]
      constructor
      · intro hh; exact Or.inl ((h.keys e).mp hh)
      · rintro (hh | hh)
        · exact (h.keys e).mpr hh
        · exact absurd hh he
  · intro e cs hcs
    change mapGet (mapSet w.entityComponents id []) e = some cs at hcs
    by_cases he : e = id
    · subst he
      rw [mapGet_mapSet_same] at hcs
      cases hcs
      exact ⟨List.nodup_nil, fun c hc => absurd hc (List.not_mem_nil c)⟩
    · rw [mapGet_mapSet_ne _ _ _ _ he] at hcs
      exact h.sets e cs hcs
  · intro e g k hb
    change (maskWord w g e).testBit k = true at hb
    obtain ⟨c, d, cs, h1, h2, h3, h4, h5⟩ := h.bits e g k hb
    have he : e ≠ id := by
      intro heq
      rw [heq, hnone] at h4
      cases h4
    refine ⟨c, d, cs, h1, h2, h3, ?_, h5⟩
    show mapGet (mapSet w.entityComponents id []) e = some cs
    rw [mapGet_mapSet_ne _ _ _ _ he]; exact h4

/-! ## Theorems: steps of the interface calls -/

theorem run_trans {a b c : World} (h1 : Run a b) (h2 : Run b c) : Run a c := by
  induction h2 with
  | refl => exact h1
  | step w1 w2 _ hs ih => exact Run.step _ _ _ ih hs

theorem run_step {a b : World} (h : Step a b) : Run a b := Run.step _ _ _ (Run.refl a) h

theorem run_of_reach {a b : World} (h : Reach a b) : Run a b := by
  induction h with
  | refl => exact Run.refl _
  | step w1 w2 _ hp ih => exact Run.step _ _ _ ih (Step.prim _ _ hp)

theorem run_same {a b : World} (h : SameCore a b) : Run a b := run_step (Step.same a b h)

theorem step_maxId {a b : World} (h : Step a b) :
    a.entityIndex.maxId ≤ b.entityIndex.maxId := by
  cases h with
  | prim => rename_i hp; rw [prim_entityIndex hp]
  | register c => rw [ensureRegistered_entityIndex]
  | same => rename_i hs; rw [hs.1]
  | erase eid =>
    show _ ≤ (removeEntityId a.entityIndex eid).maxId
    rw [(removeEntityId_config a.entityIndex eid).2.2.2.2]
  | spawn =>
    obtain ⟨qs, hw, _⟩ := addEntity_frame a
    rw [hw]
    exact (addEntityId_config a.entityIndex).2.2.2.2

/-- A step keeps the invariant while the index has room. -/
theorem worldInv_step {a b : World} (hs : Step a b) (h : WorldInv a)
    (hcap : b.entityIndex.maxId < 16777216) : WorldInv b := by
  cases hs with
  | prim => rename_i hp; exact worldInv_prim hp h
  | register c => exact worldInv_ensureRegistered a c h
  | same => rename_i hs; exact worldInv_congr hs h
  | erase eid => exact worldInv_eraseEntity a eid h
  | spawn => exact worldInv_addEntity a h hcap

theorem worldInv_run {a b : World} (hr : Run a b) (h : WorldInv a)
    (hcap : b.entityIndex.maxId < 16777216) : WorldInv b := by
  induction hr with
  | refl => exact h
  | step w1 w2 _ hs ih =>
    have hcap1 : w1.entityIndex.maxId < 16777216 := lt_of_le_of_lt (step_maxId hs) hcap
    exact worldInv_step hs (ih hcap1) hcap

theorem worldInv_createWorld : WorldInv createWorld := by
  constructor
  · exact indexPlain_create
  · show (0 : Int) < 16777216
    decide
  · exact regInv_createWorld
  · intro e
    constructor
    · rintro ⟨cs, hcs⟩
      simp [createWorld, mapGet] at hcs
    · intro hh
      have : entityExists createWorld e = false := by
        unfold entityExists isEntityIdAlive createWorld createEntityIndex
        simp
      rw [this] at hh; cases hh
  · intro e cs hcs
    simp [createWorld, mapGet] at hcs
  · intro e g k hb
    have : maskWord createWorld g e = 0 := by
      unfold maskWord createWorld
      cases g with
      | zero => rfl
      | succ n => rfl
    rw [this] at hb
    simp at hb

theorem run_ensureRegistered_right {a b : World} (c : Component) (h : Run a b) :
    Run a (ensureRegistered b c) := Run.step _ _ _ h (Step.register b c)

theorem run_ensureAll_right {a : World} (cs : List Component) :
    ∀ b : World, Run a b → Run a (ensureAllRegistered b cs) := by
  unfold ensureAllRegistered
  induction cs with
  | nil => intro b h; exact h
  | cons c rest ih =>
    intro b h
    rw [List.foldl_cons]
    exact ih _ (run_ensureRegistered_right c h)

theorem run_same_right {a b c : World} (h : Run a b) (hs : SameCore b c) : Run a c :=
  Run.step _ _ _ h (Step.same b c hs)

theorem run_termToString (w : World) (t : Term) : Run w (termToString w t).2 := by
  cases t with
  | comp c => exact run_ensureRegistered_right c (Run.refl w)
  | op type terms =>
    unfold termToString
    simp only
    have hfold : ∀ (cs : List Component) (acc : List Nat × World), Run w acc.2 →
        Run w (cs.foldl (fun (acc : List Nat × World) (c : Component) =>
          (acc.1 ++ [componentId (ensureRegistered acc.2 c) c], ensureRegistered acc.2 c)) acc).2 := by
      intro cs
      induction cs with
      | nil => intro acc h; exact h
      | cons c rest ih =>
        intro acc h
        rw [List.foldl_cons]
        exact ih _ (run_ensureRegistered_right c h)
    exact hfold terms ([], w) (Run.refl w)

theorem run_queryHash (w : World) (terms : List Term) : Run w (queryHash w terms).2 := by
  unfold queryHash
  simp only
  have hfold : ∀ (ts : List Term) (acc : List (List Nat) × World), Run w acc.2 →
      Run w (ts.foldl (fun (acc : List (List Nat) × World) (t : Term) =>
        (acc.1 ++ [(termToString acc.2 t).1], (termToString acc.2 t).2)) acc).2 := by
    intro ts
    induction ts with
    | nil => intro acc h; exact h
    | cons t rest ih =>
      intro acc h
      rw [List.foldl_cons]
      exact ih _ (run_trans h (run_termToString acc.2 t))
  exact hfold terms ([], w) (Run.refl w)

theorem sameCore_addQueryToComponent (w : World) (q : Nat) (c : Component) :
    SameCore w (addQueryToComponent w q c) := by
  unfold addQueryToComponent
  cases hc : mapGet w.componentMap c with
  | none => exact sameCore_refl w
  | some data =>
    refine ⟨rfl, rfl, rfl, rfl, rfl, ?_⟩
    intro c2
    show _ = (mapGet (mapSet w.componentMap c _) c2).map ComponentData.layout
    by_cases h2 : c2 = c
    · subst h2
      rw [mapGet_mapSet_same, hc]
      rfl
    · rw [mapGet_mapSet_ne _ _ _ _ h2]

theorem run_addQuery_fold_right {a : World} (q : Nat) (cs : List Component) :
    ∀ b : World, Run a b → Run a (cs.foldl (fun w c => addQueryToComponent w q c) b) := by
  induction cs with
  | nil => intro b h; exact h
  | cons c rest ih =>
    intro b h
    rw [List.foldl_cons]
    exact ih _ (run_same_right h (sameCore_addQueryToComponent b q c))

theorem run_register_terms_right {a : World} (terms : List Term) :
    ∀ b : World, Run a b → Run a (terms.foldl (fun (w : World) t =>
      match t with
      | .comp c => ensureRegistered w c
      | .op .Not cs => ensureAllRegistered w cs
      | .op .Or cs => ensureAllRegistered w cs
      | .op .And _ => w) b) := by
  induction terms with
  | nil => intro b h; exact h
  | cons t rest ih =>
    intro b h
    rw [List.foldl_cons]
    apply ih
    cases t with
    | comp c => exact run_ensureRegistered_right c h
    | op type cs =>
      cases type with
      | Or => exact run_ensureAll_right cs b h
      | And => exact h
      | Not => exact run_ensureAll_right cs b h

theorem run_setQuery_right {a b : World} (q : Nat) (query : Query) (h : Run a b) :
    Run a (setQuery b q query) :=
  run_same_right h ⟨rfl, rfl, rfl, rfl, rfl, fun _ => rfl⟩

theorem run_notQueries_right {a b : World} (cond : Prop) [Decidable cond] (n : List Nat)
    (h : Run a b) : Run a (if cond then { b with notQueries := n } else b) := by
  split
  · exact run_same_right h ⟨rfl, rfl, rfl, rfl, rfl, fun _ => rfl⟩
  · exact h

theorem run_queryFields_right {a b : World} (qs : List Query) (q1 : List Nat)
    (q2 : List (List Nat × Nat)) (h : Run a b) :
    Run a { b with queryStore := qs, queries := q1, queriesHashMap := q2 } :=
  run_same_right h ⟨rfl, rfl, rfl, rfl, rfl, fun _ => rfl⟩

theorem run_registerQuery (w : World) (terms : List Term) : Run w (registerQuery w terms).2 := by
  unfold registerQuery
  have h1 := run_queryHash w terms
  generalize queryHash w terms = r at h1
  obtain ⟨hash, world1⟩ := r
  simp only at h1 ⊢
  apply run_setQuery_right
  apply run_notQueries_right
  apply run_addQuery_fold_right
  apply run_queryFields_right
  apply run_register_terms_right
  exact h1

theorem run_innerQueryObject (w : World) (terms : List Term) :
    Run w (innerQueryObject w terms).2 := by
  unfold innerQueryObject
  have h1 := run_queryHash w terms
  generalize queryHash w terms = r at h1
  obtain ⟨hash, world1⟩ := r
  simp only at h1 ⊢
  split
  · exact h1
  · exact run_trans h1 (run_registerQuery world1 terms)

theorem run_innerQuery (w : World) (terms : List Term) : Run w (innerQuery w terms).2 := by
  unfold innerQuery
  have h1 := run_innerQueryObject w terms
  generalize innerQueryObject w terms = r at h1
  obtain ⟨q, world1⟩ := r
  exact h1

theorem sameCore_queryRemoveEntity (w : World) (q : Nat) (eid : Int) :
    SameCore w (queryRemoveEntity w q eid) := by
  obtain ⟨qs, dq, h⟩ := queryRemoveEntity_frame w q eid
  rw [h]
  exact ⟨rfl, rfl, rfl, rfl, rfl, fun _ => rfl⟩

theorem run_queryRemove_fold_right {a : World} (eid : Int) (qs : List Nat) :
    ∀ b : World, Run a b → Run a (qs.foldl (fun w q => queryRemoveEntity w q eid) b) := by
  induction qs with
  | nil => intro b h; exact h
  | cons q rest ih =>
    intro b h
    rw [List.foldl_cons]
    exact ih _ (run_same_right h (sameCore_queryRemoveEntity b q eid))

theorem run_commitRemovals (w : World) : Run w (commitRemovals w) := by
  unfold commitRemovals
  split
  · exact Run.refl w
  · simp only
    have hfold : ∀ (qs : List Nat) (b : World), Run w b →
        Run w (qs.foldl (fun (w : World) q =>
          match getQuery w q with
          | none => w
          | some query => setQuery w q (queryCommitRemovals query)) b) := by
      intro qs
      induction qs with
      | nil => intro b h; exact h
      | cons q rest ih =>
        intro b h
        rw [List.foldl_cons]
        apply ih
        split
        · exact h
        · exact run_setQuery_right _ _ h
    exact run_same_right (hfold w.dirtyQueries w (Run.refl w))
      ⟨rfl, rfl, rfl, rfl, rfl, fun _ => rfl⟩

theorem run_query (w : World) (terms : List Term) : Run w (query w terms).2 := by
  unfold query
  exact run_trans (run_commitRemovals w) (run_innerQuery _ terms)

theorem foldlM_run {α : Type} (f : World → α → Res World)
    (hstep : ∀ w a w', f w a = .ok w' → Run w w') :
    ∀ (l : List α) (w w' : World), l.foldlM f w = .ok w' → Run w w' := by
  intro l
  induction l with
  | nil =>
    intro w w' h
    cases h
    exact Run.refl _
  | cons a rest ih =>
    intro w w' h
    rw [List.foldlM_cons] at h
    obtain ⟨w1, h1, h2⟩ := bind_ok_inv _ _ _ h
    exact run_trans (hstep _ _ _ h1) (ih _ _ h2)

theorem run_removeEntity (fuel : Nat) :
    (∀ w eid w', removeEntity fuel w eid = .ok w' → Run w w') ∧
    (∀ w queue processed w', removeEntityLoop fuel w queue processed = .ok w' → Run w w') := by
  induction fuel with
  | zero =>
    constructor
    · intro w eid w' h
      rw [removeEntity] at h
      cases h
    · intro w queue processed w' h
      rw [removeEntityLoop] at h
      cases h
  | succ fuel ih =>
    constructor
    · intro w eid w' h
      rw [removeEntity] at h
      split at h
      · cases h
        exact Run.refl _
      · exact ih.2 _ _ _ _ h
    · intro w queue processed w' h
      cases queue with
      | nil =>
        rw [removeEntityLoop] at h
        cases h
        exact Run.refl _
      | cons currentEid removalQueue =>
        rw [removeEntityLoop] at h
        split at h
        · exact ih.2 _ _ _ _ h
        · have htail : ∀ (ops : List (Int × Component)) (pushed : List Int) (world1 : World),
              (do
                let world2 ← ops.foldlM
                  (fun (w : World) (op : Int × Component) =>
                    removeComponent fuel w op.1 [op.2]) world1
                let world3 ← (removalQueue ++ pushed).foldlM
                  (fun (w : World) eid2 => removeEntity fuel w eid2) world2
                removeEntityLoop fuel
                  (eraseEntity (world3.queries.foldl
                    (fun w q => queryRemoveEntity w q currentEid) world3) currentEid)
                  (removalQueue ++ pushed) (processed ++ [currentEid])) = .ok w' →
              Run world1 w' := by
            intro ops pushed world1 hh
            obtain ⟨world2, h1, hh⟩ := bind_ok_inv _ _ _ hh
            obtain ⟨world3, h2, hh⟩ := bind_ok_inv _ _ _ hh
            have r1 : Run world1 world2 :=
              foldlM_run _ (fun a op b hab =>
                run_of_reach ((reach_removeComponent fuel).1 a op.1 [op.2] b hab)) _ _ _ h1
            have r2 : Run world2 world3 :=
              foldlM_run _ (fun a e b hab => ih.1 a e b hab) _ _ _ h2
            have r3 : Run world2 (world3.queries.foldl
                (fun w q => queryRemoveEntity w q currentEid) world3) :=
              run_queryRemove_fold_right currentEid world3.queries world3 r2
            exact run_trans r1 (run_trans (Run.step _ _ _ r3 (Step.erase _ currentEid))
              (ih.2 _ _ _ _ hh))
          dsimp only at h
          split at h
          · have hq := run_innerQuery w [Term.comp (Pair Wildcard (Target.eid currentEid))]
            generalize innerQuery w [Term.comp (Pair Wildcard (Target.eid currentEid))] = iq
              at h hq
            obtain ⟨subjects, w1⟩ := iq
            dsimp only at h hq
            obtain ⟨r, h1, h2⟩ := bind_ok_inv _ _ _ h
            obtain ⟨ops, pushed⟩ := r
            have hrel := Run.step _ _ _ hq (Step.prim _ _ (Prim.relations w1
              (setDelete w1.entitiesWithRelations (Target.eid currentEid))))
            exact run_trans hrel (htail ops pushed _ h2)
          · exact htail [] [] w h

theorem returns_eq (r : Res World) (h : returns r = true) : r = .ok (finalWorld r) := by
  cases r with
  | ok w => rfl
  | error e => cases h

theorem run_call (fuel : Nat) (w : World) (c : Call) (w' : World)
    (h : Call.run fuel w c = .ok w') : Run w w' := by
  cases c with
  | addEntity =>
    cases h
    exact run_step (Step.spawn w)
  | addPrefab =>
    unfold Call.run addPrefab at h
    dsimp only at h
    cases h2 : addComponent fuel (addEntity w).2 (addEntity w).1 [Prefab] with
    | error e => rw [h2] at h; cases h
    | ok w2 =>
      rw [h2] at h
      cases h
      exact run_trans (run_step (Step.spawn w))
        (run_of_reach ((reach_addComponent fuel).1 _ _ _ _ h2))
  | addComponent eid component =>
    exact run_of_reach ((reach_addComponent fuel).1 _ _ _ _ h)
  | removeComponent eid component =>
    exact run_of_reach ((reach_removeComponent fuel).1 _ _ _ _ h)
  | removeEntity eid => exact (run_removeEntity fuel).1 _ _ _ h
  | query terms =>
    cases h
    exact run_query w terms
  | commitRemovals =>
    cases h
    exact run_commitRemovals w

theorem run_runCalls (fuel : Nat) (calls : List Call) (w : World)
    (h : runCalls fuel calls = .ok w) : Run createWorld w :=
  foldlM_run (Call.run fuel) (run_call fuel) calls createWorld w h

theorem worldInv_runCalls (fuel : Nat) (calls : List Call) (w : World)
    (h : runCalls fuel calls = .ok w) (hcap : w.entityIndex.maxId < 16777216) : WorldInv w :=
  worldInv_run (run_runCalls fuel calls w h) worldInv_createWorld hcap

theorem worldInv_agree {w : World} (h : WorldInv w) :
    (∀ e, e ∈ getAllEntities w ↔ entityExists w e = true) ∧
    (∀ e, entityExists w e = true → ∃ cs, getEntityComponents w e = .ok cs ∧
      ∀ c, c ∈ cs ↔ hasComponent w e c = true) ∧
    (∀ e g, entityExists w e = false → maskWord w g e = 0) := by
  refine ⟨?_, ?_, ?_⟩
  · intro e
    unfold getAllEntities
    rw [mem_keys_iff]
    exact h.keys e
  · intro e he
    obtain ⟨cs, hcs⟩ := (h.keys e).2 he
    refine ⟨cs, ?_, ?_⟩
    · unfold getEntityComponents
      have he2 : isEntityIdAlive w.entityIndex e = true := he
      simp [he2, hcs]
    · intro c
      constructor
      · exact (h.sets e cs hcs).2 c
      · intro hc
        obtain ⟨d, hd, hbit⟩ := (hasComponent_testBit h.reg e c).1 hc
        obtain ⟨c2, d2, cs2, hd2, hg, hk, hcs2, hmem⟩ := h.bits e _ _ hbit
        have hcc : c2 = c := regInv_same_slot h.reg c2 c d2 d hd2 hd hg hk
        rw [hcs] at hcs2
        cases hcs2
        rw [← hcc]
        exact hmem
  · intro e g he
    apply Nat.eq_of_testBit_eq
    intro k
    rw [Nat.zero_testBit]
    cases hb : (maskWord w g e).testBit k with
    | false => rfl
    | true =>
      obtain ⟨c2, d2, cs2, _, _, _, hcs2, _⟩ := h.bits e g k hb
      have := (h.keys e).1 ⟨cs2, hcs2⟩
      rw [he] at this
      cases this

/-- C36: after a sequence of `addEntity`, `addPrefab`, `addComponent`, `removeComponent`,
`removeEntity`, `query` and `commitRemovals` calls on a fresh world that returns, with
fewer than `2^24` ids handed out: `getAllEntities` lists exactly the ids that exist; for
every entity that exists `getEntityComponents` returns a set that holds a component if and
only if `hasComponent` is true for it; and every mask word of an id that does not exist
(a removed entity in particular) is `0`. -/
theorem component_sets_agree_with_masks (fuel : Nat) (calls : List Call) (w : World)
    (hrun : runCalls fuel calls = .ok w) (hcap : w.entityIndex.maxId < 16777216) :
    (∀ e, e ∈ getAllEntities w ↔ entityExists w e = true) ∧
    (∀ e, entityExists w e = true → ∃ cs, getEntityComponents w e = .ok cs ∧
      ∀ c, c ∈ cs ↔ hasComponent w e c = true) ∧
    (∀ e g, entityExists w e = false → maskWord w g e = 0) :=
  worldInv_agree (worldInv_runCalls fuel calls w hrun hcap)

theorem component_sets_agree_with_masks_witness :
    returns (runCalls 30 [.addEntity, .addEntity, .addComponent 2 (Pair ChildOf (.eid 1)),
      .addComponent 1 (comp 0), .removeComponent 1 (comp 0), .removeEntity 1]) = true ∧
    ((∀ e, e ∈ getAllEntities (finalWorld (runCalls 30 [.addEntity, .addEntity,
        .addComponent 2 (Pair ChildOf (.eid 1)), .addComponent 1 (comp 0),
        .removeComponent 1 (comp 0), .removeEntity 1])) ↔
      entityExists (finalWorld (runCalls 30 [.addEntity, .addEntity,
        .addComponent 2 (Pair ChildOf (.eid 1)), .addComponent 1 (comp 0),
        .removeComponent 1 (comp 0), .removeEntity 1])) e = true) ∧
    (∀ e, entityExists (finalWorld (runCalls 30 [.addEntity, .addEntity,
        .addComponent 2 (Pair ChildOf (.eid 1)), .addComponent 1 (comp 0),
        .removeComponent 1 (comp 0), .removeEntity 1])) e = true →
      ∃ cs, getEntityComponents (finalWorld (runCalls 30 [.addEntity, .addEntity,
        .addComponent 2 (Pair ChildOf (.eid 1)), .addComponent 1 (comp 0),
        .removeComponent 1 (comp 0), .removeEntity 1])) e = .ok cs ∧
      ∀ c, c ∈ cs ↔ hasComponent (finalWorld (runCalls 30 [.addEntity, .addEntity,
        .addComponent 2 (Pair ChildOf (.eid 1)), .addComponent 1 (comp 0),
        .removeComponent 1 (comp 0), .removeEntity 1])) e c = true) ∧
    (∀ e g, entityExists (finalWorld (runCalls 30 [.addEntity, .addEntity,
        .addComponent 2 (Pair ChildOf (.eid 1)), .addComponent 1 (comp 0),
        .removeComponent 1 (comp 0), .removeEntity 1])) e = false →
      maskWord (finalWorld (runCalls 30 [.addEntity, .addEntity,
        .addComponent 2 (Pair ChildOf (.eid 1)), .addComponent 1 (comp 0),
        .removeComponent 1 (comp 0), .removeEntity 1])) g e = 0)) :=
  ⟨by decide!, component_sets_agree_with_masks 30 _ _ (returns_eq _ (by decide!)) (by decide!)⟩

/-! ## Presence of a component after `addComponent` and `removeComponent` -/

theorem hasComponent_iff_mem {w : World} (h : WorldInv w) (e : Int) (cs : List Component)
    (hcs : mapGet w.entityComponents e = some cs) (d : Component) :
    hasComponent w e d = true ↔ d ∈ cs := by
  have he : entityExists w e = true := (h.keys e).1 ⟨cs, hcs⟩
  obtain ⟨cs2, hget, hiff⟩ := (worldInv_agree h).2.1 e he
  unfold getEntityComponents at hget
  have he2 : isEntityIdAlive w.entityIndex e = true := he
  simp only [he2, hcs] at hget
  cases hget
  exact (hiff d).symm

theorem attach_ok (w : World) (e : Int) (c : Component) (h : WorldInv w)
    (he : entityExists w e = true) : ∃ w1 b, attach w e c = .ok (w1, b) := by
  obtain ⟨cs, hcs⟩ := (h.keys e).2 he
  obtain ⟨f1, f2, _, _, _⟩ := ensureRegistered_fields w c
  unfold attach
  simp only
  split
  · exact ⟨_, _, rfl⟩
  · split
    · rename_i hnone
      obtain ⟨d, hd⟩ := ensureRegistered_registered w c
      rw [hd] at hnone
      cases hnone
    · rename_i d hd
      have hec : ∀ w3 : World, w3.entityComponents = w.entityComponents →
          ∃ w1 b, (entityComponentsAdd w3 e c).map (fun w => (w, true)) = .ok (w1, b) := by
        intro w3 h3
        unfold entityComponentsAdd
        rw [h3, hcs]
        exact ⟨_, _, rfl⟩
      have hsm := setMaskWord_frame (ensureRegistered w c) d.generationId e
        (maskWord (ensureRegistered w c) d.generationId e ||| d.bitflag)
      split
      · obtain ⟨qs, dq, hq⟩ := foldl_updateQueryFor_frame e d.queries
          (setMaskWord (ensureRegistered w c) d.generationId e
            (maskWord (ensureRegistered w c) d.generationId e ||| d.bitflag))
        apply hec
        rw [hq, hsm]
        exact f2
      · apply hec
        rw [hsm]
        exact f2

theorem detach_ok (w : World) (e : Int) (c : Component) (h : WorldInv w)
    (he : entityExists w e = true) (hc : hasComponent w e c = true) :
    ∃ w1, detach w e c = .ok w1 := by
  obtain ⟨cs, hcs⟩ := (h.keys e).2 he
  obtain ⟨d, hd, _⟩ := (hasComponent_iff w e c).1 hc
  unfold detach
  rw [hd]
  simp only
  have hsm := setMaskWord_frame w d.generationId e
    (maskWord w d.generationId e &&& (4294967295 ^^^ d.bitflag))
  obtain ⟨qs, dq, hq⟩ := foldl_updateQueryFor_frame e d.queries
    (setMaskWord w d.generationId e (maskWord w d.generationId e &&& (4294967295 ^^^ d.bitflag)))
  unfold entityComponentsDelete
  have : (List.foldl (fun w q => updateQueryFor w e q)
      (setMaskWord w d.generationId e (maskWord w d.generationId e &&& (4294967295 ^^^ d.bitflag)))
      d.queries).entityComponents = w.entityComponents := by
    rw [hq, hsm]
  rw [this, hcs]
  exact ⟨_, rfl⟩

theorem attach_presence (w : World) (e : Int) (c : Component) (h : WorldInv w)
    (he : entityExists w e = true) (w1 : World) (b : Bool) (hat : attach w e c = .ok (w1, b)) :
    hasComponent w1 e c = true ∧ ∀ d, d ≠ c → hasComponent w1 e d = hasComponent w e d := by
  have h1 : WorldInv w1 := worldInv_prim (Prim.attach w e c w1 b he hat) h
  obtain ⟨cs, hcs⟩ := (h.keys e).2 he
  obtain ⟨_, f2, _, _, _⟩ := ensureRegistered_fields w c
  rcases attach_fields w e c w1 b hat with ⟨_, hhas, hw⟩ | ⟨_, _, d0, cs0, qs, dq, hd0, hcs0, hw⟩
  · have hcs1 : mapGet w1.entityComponents e = some cs := by rw [hw, f2]; exact hcs
    refine ⟨by rw [hw]; exact hhas, ?_⟩
    intro d _
    rw [Bool.eq_iff_iff, hasComponent_iff_mem h1 e cs hcs1, hasComponent_iff_mem h e cs hcs]
  · rw [f2, hcs] at hcs0
    cases hcs0
    have hcs1 : mapGet w1.entityComponents e = some (setAdd cs c) := by
      rw [hw]
      exact mapGet_mapSet_same _ _ _
    refine ⟨?_, ?_⟩
    · rw [hasComponent_iff_mem h1 e _ hcs1, mem_setAdd]
      exact Or.inr rfl
    · intro d hne
      rw [Bool.eq_iff_iff, hasComponent_iff_mem h1 e _ hcs1, hasComponent_iff_mem h e cs hcs,
        mem_setAdd]
      constructor
      · rintro (hm | hm)
        · exact hm
        · exact absurd hm hne
      · exact Or.inl

theorem detach_presence (w : World) (e : Int) (c : Component) (h : WorldInv w)
    (he : entityExists w e = true) (hc : hasComponent w e c = true) (w1 : World)
    (hdt : detach w e c = .ok w1) :
    hasComponent w1 e c = false ∧ ∀ d, d ≠ c → hasComponent w1 e d = hasComponent w e d := by
  have h1 : WorldInv w1 := worldInv_prim (Prim.detach w e c w1 he hc hdt) h
  obtain ⟨cs, hcs⟩ := (h.keys e).2 he
  obtain ⟨d0, cs0, qs, dq, hd0, hcs0, hw⟩ := detach_fields w e c w1 hdt
  rw [hcs] at hcs0
  cases hcs0
  have hcs1 : mapGet w1.entityComponents e = some (setDelete cs c) := by
    rw [hw]
    exact mapGet_mapSet_same _ _ _
  refine ⟨?_, ?_⟩
  · rw [Bool.eq_false_iff]
    intro hh
    rw [hasComponent_iff_mem h1 e _ hcs1, mem_setDelete] at hh
    exact hh.2 rfl
  · intro d hne
    rw [Bool.eq_iff_iff, hasComponent_iff_mem h1 e _ hcs1, hasComponent_iff_mem h e cs hcs,
      mem_setDelete]
    constructor
    · exact fun hm => hm.1
    · exact fun hm => ⟨hm, hne⟩

theorem unwrap_not_pair (c : Component) (hc : c.unwrap.isPairComponent = false) :
    c.isPairComponent = false := by
  cases c with
  | pair r t => exact hc
  | plain n => rfl
  | prefab => rfl
  | fn r => rfl
  | keyed n c2 => rfl

theorem addComponent_plain (fuel : Nat) (w : World) (e : Int) (c : Component)
    (he : entityExists w e = true) (hc : c.unwrap.isPairComponent = false) (w1 : World) (b : Bool)
    (hat : attach w e c.unwrap = .ok (w1, b)) : addComponent (fuel + 2) w e [c] = .ok w1 := by
  rw [addComponent]
  simp only [he, Bool.not_true, Bool.false_eq_true, ↓reduceIte, List.foldlM_cons,
    List.foldlM_nil]
  rw [addComponentEach]
  simp only [hat, bind, Except.bind]
  generalize c.unwrap = cu at hc
  cases cu with
  | pair r t => cases hc
  | plain n => cases b <;> rfl
  | prefab => cases b <;> rfl
  | fn r => cases b <;> rfl
  | keyed n c2 => cases b <;> rfl

theorem removeComponent_plain (fuel : Nat) (w : World) (e : Int) (c : Component)
    (he : entityExists w e = true) (hc : c.isPairComponent = false) :
    removeComponent (fuel + 2) w e [c] =
      if hasComponent w e c then detach w e c else .ok w := by
  rw [removeComponent]
  simp only [he, Bool.not_true, Bool.false_eq_true, ↓reduceIte, List.foldlM_cons,
    List.foldlM_nil]
  rw [removeComponentEach]
  cases hh : hasComponent w e c with
  | false => rfl
  | true =>
    simp only [Bool.not_true, Bool.false_eq_true, ↓reduceIte]
    cases hd : detach w e c with
    | error err => rfl
    | ok w1 =>
      cases c with
      | pair r t => cases hc
      | plain n => rfl
      | prefab => rfl
      | fn r => rfl
      | keyed n c2 => rfl


/-! ## Sorting -/

theorem insertSorted_eq_orderedInsert {α : Type} (le : α → α → Bool) (x : α) (l : List α) :
    insertSorted le x l = List.orderedInsert (fun a b => le a b = true) x l := by
  induction l with
  | nil => rfl
  | cons y ys ih =>
    unfold insertSorted
    rw [List.orderedInsert]
    split
    · rfl
    · rw [ih]

theorem sortBy_eq_insertionSort {α : Type} (le : α → α → Bool) (l : List α) :
    sortBy le l = List.insertionSort (fun a b => le a b = true) l := by
  unfold sortBy
  induction l with
  | nil => rfl
  | cons x xs ih =>
    rw [List.foldr_cons, ih, insertSorted_eq_orderedInsert]
    rfl

theorem sortBy_perm {α : Type} (le : α → α → Bool)
    (htotal : ∀ a b, le a b = true ∨ le b a = true)
    (htrans : ∀ a b c, le a b = true → le b c = true → le a c = true)
    (hanti : ∀ a b, le a b = true → le b a = true → a = b)
    {l l2 : List α} (h : l.Perm l2) : sortBy le l = sortBy le l2 := by
  rw [sortBy_eq_insertionSort, sortBy_eq_insertionSort]
  haveI : IsTotal α (fun a b => le a b = true) := ⟨htotal⟩
  haveI : IsTrans α (fun a b => le a b = true) := ⟨htrans⟩
  haveI : IsAntisymm α (fun a b => le a b = true) := ⟨hanti⟩
  apply List.eq_of_perm_of_sorted _ (List.sorted_insertionSort _ l)
    (List.sorted_insertionSort _ l2)
  exact ((List.perm_insertionSort _ l).trans h).trans (List.perm_insertionSort _ l2).symm

theorem sortBy_nat_perm {l l2 : List Nat} (h : l.Perm l2) :
    sortBy (fun a b => decide (a ≤ b)) l = sortBy (fun a b => decide (a ≤ b)) l2 := by
  apply sortBy_perm _ _ _ _ h
  · intro a b
    simp only [decide_eq_true_eq]
    exact Nat.le_total a b
  · intro a b c
    simp only [decide_eq_true_eq]
    exact Nat.le_trans
  · intro a b
    simp only [decide_eq_true_eq]
    exact Nat.le_antisymm

theorem stringLe_total : ∀ a b : List Nat, stringLe a b = true ∨ stringLe b a = true := by
  intro a
  induction a with
  | nil => intro b; left; unfold stringLe; rfl
  | cons x xs ih =>
    intro b
    cases b with
    | nil => right; unfold stringLe; rfl
    | cons y ys =>
      rw [stringLe, stringLe]
      by_cases h1 : x < y
      · left; simp [h1]
      · by_cases h2 : y < x
        · right; simp [h2]
        · simp only [h1, h2, ↓reduceIte]
          exact ih ys

theorem stringLe_trans : ∀ a b c : List Nat, stringLe a b = true → stringLe b c = true →
    stringLe a c = true := by
  intro a
  induction a with
  | nil => intro b c _ _; unfold stringLe; rfl
  | cons x xs ih =>
    intro b c hab hbc
    cases b with
    | nil => rw [stringLe] at hab; cases hab
    | cons y ys =>
      cases c with
      | nil => rw [stringLe] at hbc; cases hbc
      | cons z zs =>
        rw [stringLe] at hab hbc ⊢
        by_cases h1 : x < y
        · by_cases h2 : y < z
          · have : x < z := Nat.lt_trans h1 h2
            simp [this]
          · by_cases h3 : z < y
            · simp [h2, h3] at hbc
            · have hyz : y = z := by omega
              subst hyz
              simp [h1]
        · by_cases h1b : y < x
          · simp [h1, h1b] at hab
          · have hxy : x = y := by omega
            subst hxy
            simp only [h1, ↓reduceIte] at hab
            by_cases h2 : x < z
            · simp [h2]
            · by_cases h3 : z < x
              · simp [h2, h3] at hbc
              · simp only [h2, h3, ↓reduceIte] at hbc ⊢
                exact ih ys zs hab hbc

theorem stringLe_antisymm : ∀ a b : List Nat, stringLe a b = true → stringLe b a = true →
    a = b := by
  intro a
  induction a with
  | nil =>
    intro b _ hba
    cases b with
    | nil => rfl
    | cons y ys => rw [stringLe] at hba; cases hba
  | cons x xs ih =>
    intro b hab hba
    cases b with
    | nil => rw [stringLe] at hab; cases hab
    | cons y ys =>
      rw [stringLe] at hab hba
      by_cases h1 : x < y
      · have h2 : ¬ y < x := by omega
        simp [h1, h2] at hba
      · by_cases h2 : y < x
        · simp [h1, h2] at hab
        · have hxy : x = y := by omega
          subst hxy
          simp only [h1, ↓reduceIte] at hab hba
          rw [ih ys hab hba]

theorem sortBy_string_perm {l l2 : List (List Nat)} (h : l.Perm l2) :
    sortBy stringLe l = sortBy stringLe l2 :=
  sortBy_perm stringLe stringLe_total stringLe_trans stringLe_antisymm h

/-! ## The signature of a term list -/

theorem idExt_refl (w : World) : IdExt w w := fun _ d h => ⟨d, h, rfl⟩

theorem idExt_trans {a b c : World} (h1 : IdExt a b) (h2 : IdExt b c) : IdExt a c := by
  intro x d hd
  obtain ⟨d2, hd2, e2⟩ := h1 x d hd
  obtain ⟨d3, hd3, e3⟩ := h2 x d2 hd2
  exact ⟨d3, hd3, by rw [e3, e2]⟩

theorem idExt_ensureRegistered (w : World) (c : Component) : IdExt w (ensureRegistered w c) :=
  fun x d hd => ⟨d, mapGet_ensureRegistered_of_some w c x d hd, rfl⟩

theorem registered_idExt {a b : World} (h : IdExt a b) {c : Component} (hc : Registered a c) :
    Registered b c := by
  obtain ⟨d, hd⟩ := hc
  obtain ⟨d2, hd2, _⟩ := h c d hd
  exact ⟨d2, hd2⟩

theorem componentId_idExt {a b : World} (h : IdExt a b) {c : Component} (hc : Registered a c) :
    componentId b c = componentId a c := by
  obtain ⟨d, hd⟩ := hc
  obtain ⟨d2, hd2, e⟩ := h c d hd
  unfold componentId
  rw [hd, hd2]
  exact e

theorem ensureRegistered_of_mem (w : World) (c : Component) (hc : Registered w c) :
    ensureRegistered w c = w := by
  obtain ⟨d, hd⟩ := hc
  exact ensureRegistered_of_registered w c d hd

theorem opFold_spec (cs : List Component) :
    ∀ acc : List Nat × World,
      IdExt acc.2 (cs.foldl (fun (acc : List Nat × World) (c : Component) =>
        (acc.1 ++ [componentId (ensureRegistered acc.2 c) c], ensureRegistered acc.2 c)) acc).2 ∧
      (∀ c, c ∈ cs → Registered (cs.foldl (fun (acc : List Nat × World) (c : Component) =>
        (acc.1 ++ [componentId (ensureRegistered acc.2 c) c], ensureRegistered acc.2 c)) acc).2 c) ∧
      (∀ w2, IdExt (cs.foldl (fun (acc : List Nat × World) (c : Component) =>
        (acc.1 ++ [componentId (ensureRegistered acc.2 c) c], ensureRegistered acc.2 c)) acc).2 w2 →
        (cs.foldl (fun (acc : List Nat × World) (c : Component) =>
          (acc.1 ++ [componentId (ensureRegistered acc.2 c) c], ensureRegistered acc.2 c)) acc).1
          = acc.1 ++ cs.map (componentId w2)) ∧
      ((∀ c, c ∈ cs → Registered acc.2 c) →
        (cs.foldl (fun (acc : List Nat × World) (c : Component) =>
          (acc.1 ++ [componentId (ensureRegistered acc.2 c) c], ensureRegistered acc.2 c)) acc).2
          = acc.2) := by
  induction cs with
  | nil =>
    intro acc
    refine ⟨idExt_refl _, ?_, ?_, fun _ => rfl⟩
    · intro c hc
      exact absurd hc (List.not_mem_nil _)
    · intro w2 _
      rw [List.foldl_nil, List.map_nil, List.append_nil]
  | cons c rest ih =>
    intro acc
    rw [List.foldl_cons]
    obtain ⟨h1, h2, h3, h4⟩ := ih (acc.1 ++ [componentId (ensureRegistered acc.2 c) c],
      ensureRegistered acc.2 c)
    have hreg : Registered (ensureRegistered acc.2 c) c := ensureRegistered_registered acc.2 c
    refine ⟨idExt_trans (idExt_ensureRegistered acc.2 c) h1, ?_, ?_, ?_⟩
    · intro x hx
      rcases List.mem_cons.1 hx with hx | hx
      · rw [hx]; exact registered_idExt h1 hreg
      · exact h2 x hx
    · intro w2 hw2
      rw [h3 w2 hw2, List.map_cons, componentId_idExt (idExt_trans h1 hw2) hreg]
      simp
    · intro hall
      have hc := ensureRegistered_of_mem acc.2 c (hall c (List.mem_cons_self _ _))
      rw [h4 (by
        intro x hx
        show Registered (ensureRegistered acc.2 c) x
        rw [hc]
        exact hall x (List.mem_cons_of_mem _ hx))]
      exact hc

theorem termToString_spec (w : World) (t : Term) :
    IdExt w (termToString w t).2 ∧
    (∀ c, c ∈ t.componentsOf → Registered (termToString w t).2 c) ∧
    (∀ w2, IdExt (termToString w t).2 w2 → (termToString w t).1 = termSignature w2 t) ∧
    ((∀ c, c ∈ t.componentsOf → Registered w c) → (termToString w t).2 = w) := by
  cases t with
  | comp c =>
    have hreg : Registered (ensureRegistered w c) c := ensureRegistered_registered w c
    refine ⟨idExt_ensureRegistered w c, ?_, ?_, ?_⟩
    · intro x hx
      cases List.mem_singleton.1 hx
      exact hreg
    · intro w2 hw2
      have hw3 : IdExt (ensureRegistered w c) w2 := hw2
      show numberToString (componentId (ensureRegistered w c) c) = numberToString (componentId w2 c)
      rw [componentId_idExt hw3 hreg]
    · intro hall
      exact ensureRegistered_of_mem w c (hall c (List.mem_singleton.2 rfl))
  | op type cs =>
    obtain ⟨h1, h2, h3, h4⟩ := opFold_spec cs ([], w)
    refine ⟨h1, h2, ?_, h4⟩
    intro w2 hw2
    have := h3 w2 hw2
    unfold termToString termSignature
    simp only
    rw [this]
    simp

theorem hashFold_spec (terms : List Term) :
    ∀ acc : List (List Nat) × World,
      IdExt acc.2 (terms.foldl (fun (acc : List (List Nat) × World) (t : Term) =>
        (acc.1 ++ [(termToString acc.2 t).1], (termToString acc.2 t).2)) acc).2 ∧
      (∀ t, t ∈ terms → ∀ c, c ∈ t.componentsOf →
        Registered (terms.foldl (fun (acc : List (List Nat) × World) (t : Term) =>
          (acc.1 ++ [(termToString acc.2 t).1], (termToString acc.2 t).2)) acc).2 c) ∧
      (∀ w2, IdExt (terms.foldl (fun (acc : List (List Nat) × World) (t : Term) =>
          (acc.1 ++ [(termToString acc.2 t).1], (termToString acc.2 t).2)) acc).2 w2 →
        (terms.foldl (fun (acc : List (List Nat) × World) (t : Term) =>
          (acc.1 ++ [(termToString acc.2 t).1], (termToString acc.2 t).2)) acc).1
          = acc.1 ++ terms.map (termSignature w2)) ∧
      ((∀ t, t ∈ terms → ∀ c, c ∈ t.componentsOf → Registered acc.2 c) →
        (terms.foldl (fun (acc : List (List Nat) × World) (t : Term) =>
          (acc.1 ++ [(termToString acc.2 t).1], (termToString acc.2 t).2)) acc).2 = acc.2) := by
  induction terms with
  | nil =>
    intro acc
    refine ⟨idExt_refl _, ?_, ?_, fun _ => rfl⟩
    · intro t ht
      exact absurd ht (List.not_mem_nil _)
    · intro w2 _
      rw [List.foldl_nil, List.map_nil, List.append_nil]
  | cons t rest ih =>
    intro acc
    rw [List.foldl_cons]
    obtain ⟨h1, h2, h3, h4⟩ := ih (acc.1 ++ [(termToString acc.2 t).1], (termToString acc.2 t).2)
    obtain ⟨g1, g2, g3, g4⟩ := termToString_spec acc.2 t
    refine ⟨idExt_trans g1 h1, ?_, ?_, ?_⟩
    · intro x hx c hc
      rcases List.mem_cons.1 hx with hx | hx
      · rw [hx] at hc; exact registered_idExt h1 (g2 c hc)
      · exact h2 x hx c hc
    · intro w2 hw2
      rw [h3 w2 hw2, List.map_cons, g3 w2 (idExt_trans h1 hw2)]
      simp
    · intro hall
      have ht := g4 (hall t (List.mem_cons_self _ _))
      rw [h4 (by
        intro x hx c hc
        show Registered (termToString acc.2 t).2 c
        rw [ht]
        exact hall x (List.mem_cons_of_mem _ hx) c hc)]
      exact ht

theorem queryHash_spec (w : World) (terms : List Term) :
    IdExt w (queryHash w terms).2 ∧
    (∀ t, t ∈ terms → ∀ c, c ∈ t.componentsOf → Registered (queryHash w terms).2 c) ∧
    (∀ w2, IdExt (queryHash w terms).2 w2 →
      (queryHash w terms).1 = joinStrings [45] (sortBy stringLe (terms.map (termSignature w2)))) ∧
    ((∀ t, t ∈ terms → ∀ c, c ∈ t.componentsOf → Registered w c) →
      (queryHash w terms).2 = w) := by
  obtain ⟨h1, h2, h3, h4⟩ := hashFold_spec terms ([], w)
  refine ⟨h1, h2, ?_, h4⟩
  intro w2 hw2
  have := h3 w2 hw2
  unfold queryHash
  simp only
  rw [this]
  simp

theorem termSignature_perm (w : World) {t t2 : Term} (h : TermPerm t t2) :
    termSignature w t = termSignature w t2 := by
  cases h with
  | comp c => rfl
  | op type cs cs2 hp =>
    simp only [termSignature]
    rw [sortBy_nat_perm (hp.map (componentId w))]

theorem componentsOf_perm {t t2 : Term} (h : TermPerm t t2) (c : Component) :
    c ∈ t2.componentsOf ↔ c ∈ t.componentsOf := by
  cases h with
  | comp c => rfl
  | op type cs cs2 hp => exact hp.mem_iff.symm

theorem termsPerm_signatures (w : World) {terms terms2 : List Term}
    (h : TermsPerm terms terms2) :
    (terms.map (termSignature w)).Perm (terms2.map (termSignature w)) := by
  obtain ⟨mid, hf, hp⟩ := h
  have hmap : terms.map (termSignature w) = mid.map (termSignature w) := by
    clear hp
    induction hf with
    | nil => rfl
    | cons hab _ ih => rw [List.map_cons, List.map_cons, termSignature_perm w hab, ih]
  rw [hmap]
  exact hp.map _

theorem termsPerm_components {terms terms2 : List Term} (h : TermsPerm terms terms2)
    (t2 : Term) (ht2 : t2 ∈ terms2) (c : Component) (hc : c ∈ t2.componentsOf) :
    ∃ t, t ∈ terms ∧ c ∈ t.componentsOf := by
  obtain ⟨mid, hf, hp⟩ := h
  have hmid : t2 ∈ mid := hp.mem_iff.2 ht2
  clear hp ht2
  induction hf with
  | nil => cases hmid
  | cons hab _ ih =>
    rcases List.mem_cons.1 hmid with hm | hm
    · rw [hm] at hc
      exact ⟨_, List.mem_cons_self _ _, (componentsOf_perm hab c).1 hc⟩
    · obtain ⟨t, ht, hct⟩ := ih hm
      exact ⟨t, List.mem_cons_of_mem _ ht, hct⟩

theorem queryHash_perm_of_ext (w w1 : World) (terms terms2 : List Term)
    (hp : TermsPerm terms terms2) (hext : IdExt (queryHash w terms).2 w1) :
    queryHash w1 terms2 = ((queryHash w terms).1, w1) := by
  obtain ⟨_, h2, h3, _⟩ := queryHash_spec w terms
  obtain ⟨_, _, g3, g4⟩ := queryHash_spec w1 terms2
  have hall : ∀ t, t ∈ terms2 → ∀ c, c ∈ t.componentsOf → Registered w1 c := by
    intro t2 ht2 c hc
    obtain ⟨t, ht, hct⟩ := termsPerm_components hp t2 ht2 c hc
    exact registered_idExt hext (h2 t ht c hct)
  have hw := g4 hall
  have hs := g3 w1 (by rw [hw]; exact idExt_refl _)
  rw [h3 w1 hext, sortBy_string_perm (termsPerm_signatures w1 hp)]
  exact Prod.ext hs hw

theorem idExt_of_componentMap {a b : World} (h : b.componentMap = a.componentMap) : IdExt a b :=
  fun _ d hd => ⟨d, by rw [h]; exact hd, rfl⟩

theorem idExt_step {a b : World} (hs : Step a b) : IdExt a b := by
  cases hs with
  | prim =>
    rename_i hp
    cases hp with
    | attach eid c _ flag hex hat =>
      rcases attach_fields a eid c b flag hat with ⟨_, _, hw⟩ | ⟨_, _, d, cs, qs, dq, _, _, hw⟩
      · rw [hw]; exact idExt_ensureRegistered a c
      · rw [hw]; exact idExt_trans (idExt_ensureRegistered a c) (idExt_of_componentMap rfl)
    | detach eid c _ hex hhas hdt =>
      obtain ⟨d, cs, qs, dq, _, _, hw⟩ := detach_fields a eid c b hdt
      rw [hw]; exact idExt_of_componentMap rfl
    | relations s => exact idExt_of_componentMap rfl
  | register c => exact idExt_ensureRegistered a c
  | same =>
    rename_i hsame
    intro c d hd
    have := hsame.2.2.2.2.2 c
    rw [hd] at this
    cases hb : mapGet b.componentMap c with
    | none => rw [hb] at this; cases this
    | some d2 =>
      rw [hb] at this
      simp only [Option.map_some', Option.some.injEq, ComponentData.layout, Prod.mk.injEq] at this
      exact ⟨d2, rfl, this.1.symm⟩
  | erase eid => exact idExt_of_componentMap rfl
  | spawn =>
    obtain ⟨qs, hq, _⟩ := addEntity_frame a
    rw [hq]
    exact idExt_of_componentMap rfl

theorem idExt_run {a b : World} (h : Run a b) : IdExt a b := by
  induction h with
  | refl => exact idExt_refl _
  | step w1 w2 _ hs ih => exact idExt_trans ih (idExt_step hs)

theorem addQueryToComponent_hashMap (w : World) (q : Nat) (c : Component) :
    (addQueryToComponent w q c).queriesHashMap = w.queriesHashMap := by
  unfold addQueryToComponent
  split <;> rfl

theorem foldl_addQuery_hashMap (q : Nat) (cs : List Component) :
    ∀ w : World, (cs.foldl (fun w c => addQueryToComponent w q c) w).queriesHashMap
      = w.queriesHashMap := by
  induction cs with
  | nil => intro w; rfl
  | cons c rest ih =>
    intro w
    rw [List.foldl_cons, ih, addQueryToComponent_hashMap]

theorem notQueries_hashMap (w : World) (cond : Prop) [Decidable cond] (n : List Nat) :
    (if cond then { w with notQueries := n } else w).queriesHashMap = w.queriesHashMap := by
  split <;> rfl

theorem registerQuery_hashMap (w : World) (terms : List Term) :
    mapGet (registerQuery w terms).2.queriesHashMap (queryHash w terms).1
      = some (registerQuery w terms).1 := by
  unfold registerQuery
  generalize queryHash w terms = r
  obtain ⟨hash, world1⟩ := r
  simp only
  show mapGet (setQuery _ _ _).queriesHashMap hash = _
  unfold setQuery
  simp only
  rw [notQueries_hashMap, foldl_addQuery_hashMap]
  exact mapGet_mapSet_same _ _ _

theorem termsPerm_refl (terms : List Term) : TermsPerm terms terms := by
  refine ⟨terms, ?_, List.Perm.refl _⟩
  induction terms with
  | nil => exact List.Forall₂.nil
  | cons t rest ih =>
    refine List.Forall₂.cons ?_ ih
    cases t with
    | comp c => exact TermPerm.comp c
    | op type cs => exact TermPerm.op type cs cs (List.Perm.refl _)

theorem queryHash_idempotent (w : World) (terms : List Term) :
    queryHash (queryHash w terms).2 terms = queryHash w terms :=
  queryHash_perm_of_ext w _ terms terms (termsPerm_refl terms) (idExt_refl _)

theorem innerQueryObject_spec (w : World) (terms : List Term) :
    mapGet (innerQueryObject w terms).2.queriesHashMap (queryHash w terms).1
      = some (innerQueryObject w terms).1 ∧
    IdExt (queryHash w terms).2 (innerQueryObject w terms).2 := by
  unfold innerQueryObject
  have hidem := queryHash_idempotent w terms
  generalize queryHash w terms = r at hidem
  obtain ⟨hash, world1⟩ := r
  simp only at hidem ⊢
  split
  · rename_i q hq
    exact ⟨hq, idExt_refl _⟩
  · refine ⟨?_, idExt_run (run_registerQuery world1 terms)⟩
    have := registerQuery_hashMap world1 terms
    rw [hidem] at this
    exact this

/-- C16: a second `queryHash` call in the same world, on a term list that differs from
the first only in the order of the terms and in the order of the components inside the
operator terms, returns the signature of the first call and registers nothing; and
`innerQuery` on the reordered list resolves to the query object of the first call. -/
theorem reordered_terms_same_signature (w : World) (terms terms2 : List Term)
    (hp : TermsPerm terms terms2) :
    queryHash (queryHash w terms).2 terms2 = queryHash w terms ∧
    innerQueryObject (innerQueryObject w terms).2 terms2 = innerQueryObject w terms := by
  constructor
  · exact queryHash_perm_of_ext w _ terms terms2 hp (idExt_refl _)
  · obtain ⟨h1, h2⟩ := innerQueryObject_spec w terms
    have hq := queryHash_perm_of_ext w _ terms terms2 hp h2
    generalize innerQueryObject w terms = r at h1 h2 hq
    obtain ⟨q, w2⟩ := r
    simp only at h1 h2 hq
    unfold innerQueryObject
    rw [hq]
    simp only
    rw [h1]

theorem reordered_terms_same_signature_witness :
    queryHash (queryHash createWorld [.comp (comp 0), .op .Or [comp 1, comp 2]]).2
        [.op .Or [comp 2, comp 1], .comp (comp 0)]
      = queryHash createWorld [.comp (comp 0), .op .Or [comp 1, comp 2]] ∧
    innerQueryObject (innerQueryObject createWorld [.comp (comp 0), .op .Or [comp 1, comp 2]]).2
        [.op .Or [comp 2, comp 1], .comp (comp 0)]
      = innerQueryObject createWorld [.comp (comp 0), .op .Or [comp 1, comp 2]] :=
  reordered_terms_same_signature createWorld [.comp (comp 0), .op .Or [comp 1, comp 2]]
    [.op .Or [comp 2, comp 1], .comp (comp 0)]
    ⟨[.comp (comp 0), .op .Or [comp 2, comp 1]],
      List.Forall₂.cons (TermPerm.comp _)
        (List.Forall₂.cons (TermPerm.op _ _ _ (List.Perm.swap _ _ _)) List.Forall₂.nil),
      List.Perm.swap _ _ _⟩

/-! ## What `registerQuery` leaves unchanged -/

theorem ensureAll_preserves (P : World → Prop)
    (hreg : ∀ w c, P w → P (ensureRegistered w c)) (cs : List Component) :
    ∀ b : World, P b → P (ensureAllRegistered b cs) := by
  unfold ensureAllRegistered
  induction cs with
  | nil => intro b h; exact h
  | cons c rest ih =>
    intro b h
    rw [List.foldl_cons]
    exact ih _ (hreg b c h)

theorem termToString_preserves (P : World → Prop)
    (hreg : ∀ w c, P w → P (ensureRegistered w c)) (w : World) (t : Term) (h : P w) :
    P (termToString w t).2 := by
  cases t with
  | comp c => exact hreg w c h
  | op type terms =>
    unfold termToString
    simp only
    have hfold : ∀ (cs : List Component) (acc : List Nat × World), P acc.2 →
        P (cs.foldl (fun (acc : List Nat × World) (c : Component) =>
          (acc.1 ++ [componentId (ensureRegistered acc.2 c) c], ensureRegistered acc.2 c)) acc).2 := by
      intro cs
      induction cs with
      | nil => intro acc h; exact h
      | cons c rest ih =>
        intro acc h
        rw [List.foldl_cons]
        exact ih _ (hreg _ c h)
    exact hfold terms ([], w) h

theorem queryHash_preserves (P : World → Prop)
    (hreg : ∀ w c, P w → P (ensureRegistered w c)) (w : World) (terms : List Term) (h : P w) :
    P (queryHash w terms).2 := by
  unfold queryHash
  simp only
  have hfold : ∀ (ts : List Term) (acc : List (List Nat) × World), P acc.2 →
      P (ts.foldl (fun (acc : List (List Nat) × World) (t : Term) =>
        (acc.1 ++ [(termToString acc.2 t).1], (termToString acc.2 t).2)) acc).2 := by
    intro ts
    induction ts with
    | nil => intro acc h; exact h
    | cons t rest ih =>
      intro acc h
      rw [List.foldl_cons]
      exact ih _ (termToString_preserves P hreg acc.2 t h)
  exact hfold terms ([], w) h

theorem addQuery_fold_preserves (P : World → Prop) (hsame : ∀ a b, SameCore a b → P a → P b)
    (q : Nat) (cs : List Component) :
    ∀ b : World, P b → P (cs.foldl (fun w c => addQueryToComponent w q c) b) := by
  induction cs with
  | nil => intro b h; exact h
  | cons c rest ih =>
    intro b h
    rw [List.foldl_cons]
    exact ih _ (hsame _ _ (sameCore_addQueryToComponent b q c) h)

theorem register_terms_preserves (P : World → Prop)
    (hreg : ∀ w c, P w → P (ensureRegistered w c)) (terms : List Term) :
    ∀ b : World, P b → P (terms.foldl (fun (w : World) t =>
      match t with
      | .comp c => ensureRegistered w c
      | .op .Not cs => ensureAllRegistered w cs
      | .op .Or cs => ensureAllRegistered w cs
      | .op .And _ => w) b) := by
  induction terms with
  | nil => intro b h; exact h
  | cons t rest ih =>
    intro b h
    rw [List.foldl_cons]
    apply ih
    cases t with
    | comp c => exact hreg b c h
    | op type cs =>
      cases type with
      | Or => exact ensureAll_preserves P hreg cs b h
      | And => exact h
      | Not => exact ensureAll_preserves P hreg cs b h

/-- The world `registerQuery` seeds the new query in: everything up to the scan
of the alive entities. -/
theorem registerQuery_preserves (P : World → Prop)
    (hreg : ∀ w c, P w → P (ensureRegistered w c))
    (hsame : ∀ a b, SameCore a b → P a → P b) (w : World) (terms : List Term) (h : P w) :
    P (registerQuery w terms).2 := by
  unfold registerQuery
  have h1 := queryHash_preserves P hreg w terms h
  generalize queryHash w terms = r at h1
  obtain ⟨hash, world1⟩ := r
  simp only at h1 ⊢
  have hset : ∀ (b : World) (q : Nat) (query : Query), P b → P (setQuery b q query) :=
    fun b q query hb => hsame b _ ⟨rfl, rfl, rfl, rfl, rfl, fun _ => rfl⟩ hb
  have hnot : ∀ (b : World) (cond : Prop) [Decidable cond] (n : List Nat), P b →
      P (if cond then { b with notQueries := n } else b) := by
    intro b cond _ n hb
    split
    · exact hsame b _ ⟨rfl, rfl, rfl, rfl, rfl, fun _ => rfl⟩ hb
    · exact hb
  have hfields : ∀ (b : World) (qs : List Query) (q1 : List Nat) (q2 : List (List Nat × Nat)),
      P b → P { b with queryStore := qs, queries := q1, queriesHashMap := q2 } :=
    fun b qs q1 q2 hb => hsame b _ ⟨rfl, rfl, rfl, rfl, rfl, fun _ => rfl⟩ hb
  apply hset
  apply hnot
  apply addQuery_fold_preserves P hsame
  apply hfields
  exact register_terms_preserves P hreg terms world1 h1

theorem registerQuery_entityIndex (w : World) (terms : List Term) :
    (registerQuery w terms).2.entityIndex = w.entityIndex :=
  registerQuery_preserves (fun b => b.entityIndex = w.entityIndex)
    (fun b c hb => by
      show (ensureRegistered b c).entityIndex = w.entityIndex
      rw [ensureRegistered_entityIndex]; exact hb)
    (fun a b hs ha => by
      show b.entityIndex = w.entityIndex
      rw [← hs.1]; exact ha) w terms rfl

theorem registerQuery_maskWord (w : World) (terms : List Term) (g : Nat) (e : Int) :
    maskWord (registerQuery w terms).2 g e = maskWord w g e :=
  registerQuery_preserves (fun b => maskWord b g e = maskWord w g e)
    (fun b c hb => by
      show maskWord (ensureRegistered b c) g e = maskWord w g e
      rw [maskWord_ensureRegistered]; exact hb)
    (fun a b hs ha => by
      show maskWord b g e = maskWord w g e
      rw [← ha]
      unfold maskWord
      rw [hs.2.1]) w terms rfl

/-! ## The scan of `registerQuery` -/

theorem queryCheckEntity_congr (w : World) (a b : Query) (e : Int)
    (h1 : a.generations = b.generations) (h2 : a.masks = b.masks)
    (h3 : a.notMasks = b.notMasks) (h4 : a.orMasks = b.orMasks) :
    queryCheckEntity w a e = queryCheckEntity w b e := by
  unfold queryCheckEntity
  rw [h1, h2, h3, h4]

theorem remove_createSparseSet (eid : Int) : createSparseSet.remove eid = createSparseSet := rfl

theorem seed_fold (w5 : World) (query2 : Query) (rest : List Int) :
    ∀ (pre : List Int) (s : Query), (pre ++ rest).Nodup →
      SparseInv s.sparseSet →
      s.sparseSet.dense = pre.filter (fun e =>
        !hasComponent w5 e Prefab && queryCheckEntity w5 query2 e) →
      s.toRemove = createSparseSet → s.generations = query2.generations →
      s.masks = query2.masks → s.notMasks = query2.notMasks → s.orMasks = query2.orMasks →
      SparseInv (rest.foldl (fun (query : Query) eid =>
          if hasComponent w5 eid Prefab then query
          else if queryCheckEntity w5 query eid then queryAddEntity query eid
          else query) s).sparseSet ∧
      (rest.foldl (fun (query : Query) eid =>
          if hasComponent w5 eid Prefab then query
          else if queryCheckEntity w5 query eid then queryAddEntity query eid
          else query) s).sparseSet.dense = (pre ++ rest).filter (fun e =>
        !hasComponent w5 e Prefab && queryCheckEntity w5 query2 e) ∧
      (rest.foldl (fun (query : Query) eid =>
          if hasComponent w5 eid Prefab then query
          else if queryCheckEntity w5 query eid then queryAddEntity query eid
          else query) s).toRemove = createSparseSet ∧
      (∀ e, queryCheckEntity w5 (rest.foldl (fun (query : Query) eid =>
          if hasComponent w5 eid Prefab then query
          else if queryCheckEntity w5 query eid then queryAddEntity query eid
          else query) s) e = queryCheckEntity w5 query2 e) := by
  induction rest with
  | nil =>
    intro pre s _ hinv hd htr hg hm hn ho
    rw [List.foldl_nil, List.append_nil]
    exact ⟨hinv, hd, htr, fun e => queryCheckEntity_congr w5 s query2 e hg hm hn ho⟩
  | cons x rest ih =>
    intro pre s hnd hinv hd htr hg hm hn ho
    rw [List.foldl_cons]
    have hnd2 : ((pre ++ [x]) ++ rest).Nodup := by
      rw [List.append_assoc]; exact hnd
    have hxpre : x ∉ pre := by
      intro hx
      rw [List.nodup_append] at hnd
      exact hnd.2.2 hx (List.mem_cons_self _ _)
    have hcheck := queryCheckEntity_congr w5 s query2 x hg hm hn ho
    have happ : (pre ++ x :: rest) = (pre ++ [x]) ++ rest := by simp
    rw [happ]
    by_cases hp : hasComponent w5 x Prefab = true
    · rw [if_pos hp]
      apply ih (pre ++ [x]) s hnd2 hinv _ htr hg hm hn ho
      rw [List.filter_append, hd]
      simp [hp]
    · rw [if_neg hp]
      by_cases hc : queryCheckEntity w5 s x = true
      · rw [if_pos hc]
        have hxd : x ∉ s.sparseSet.dense := by
          rw [hd]
          intro hx
          exact hxpre (List.mem_filter.1 hx).1
        obtain ⟨hinv2, hd2⟩ := sparse_add s.sparseSet hinv x
        rw [if_neg hxd] at hd2
        apply ih (pre ++ [x]) (queryAddEntity s x) hnd2 hinv2 _ _ hg hm hn ho
        · show (s.sparseSet.add x).dense = _
          rw [hd2, List.filter_append, hd]
          rw [hcheck] at hc
          simp [hp, hc]
        · show s.toRemove.remove x = createSparseSet
          rw [htr]
          rfl
      · rw [if_neg hc]
        apply ih (pre ++ [x]) s hnd2 hinv _ htr hg hm hn ho
        rw [List.filter_append, hd]
        rw [hcheck] at hc
        simp [hc]

theorem indexPlain_dense_nodup {ix : EntityIndex} (h : IndexPlain ix) : ix.dense.Nodup := by
  rw [List.nodup_iff_getElem?_ne_getElem?]
  intro i j hij hj heq
  have hi : i < ix.dense.length := by omega
  have h1 : ix.dense[i]? = some ix.dense[i] := List.getElem?_eq_getElem hi
  have h2 : ix.dense[j]? = some ix.dense[i] := by rw [← heq]; exact h1
  have := indexPlain_inj h h1 h2
  omega

theorem aliveIds_nodup {ix : EntityIndex} (h : IndexPlain ix) : (aliveIds ix).Nodup :=
  List.Nodup.sublist (List.take_sublist _ _) (indexPlain_dense_nodup h)

theorem addQueryToComponent_queryStore (w : World) (q : Nat) (c : Component) :
    (addQueryToComponent w q c).queryStore = w.queryStore := by
  unfold addQueryToComponent
  split <;> rfl

theorem foldl_addQuery_queryStore (q : Nat) (cs : List Component) :
    ∀ w : World, (cs.foldl (fun w c => addQueryToComponent w q c) w).queryStore
      = w.queryStore := by
  induction cs with
  | nil => intro w; rfl
  | cons c rest ih =>
    intro w
    rw [List.foldl_cons, ih, addQueryToComponent_queryStore]

theorem notQueries_queryStore (w : World) (cond : Prop) [Decidable cond] (n : List Nat) :
    (if cond then { w with notQueries := n } else w).queryStore = w.queryStore := by
  split <;> rfl

/-- The shape of the result of `registerQuery`: a world `w5`, the fresh query `query2` at
the last position of its store, and the scan of the alive entities written back. -/
theorem registerQuery_shape (w : World) (terms : List Term) :
    ∃ (w5 : World) (query2 : Query) (store : List Query) (seeded : Query),
      w5.queryStore = store ++ [query2] ∧
      query2.sparseSet = createSparseSet ∧ query2.toRemove = createSparseSet ∧
      seeded = (aliveIds w5.entityIndex).foldl (fun (query : Query) eid =>
          if hasComponent w5 eid Prefab then query
          else if queryCheckEntity w5 query eid then queryAddEntity query eid
          else query) query2 ∧
      registerQuery w terms = (store.length, setQuery w5 store.length seeded) := by
  unfold registerQuery
  generalize queryHash w terms = r
  obtain ⟨hash, world1⟩ := r
  simp only
  refine ⟨_, _, _, _, ?_, ?_, ?_, rfl, rfl⟩
  · rw [notQueries_queryStore, foldl_addQuery_queryStore]
  · rfl
  · rfl

/-- C17: in a world left by a sequence of calls (fewer than `2^24` ids handed out),
`registerQuery(world, terms)` leaves a new query whose live set (`dense`) lists, each
once, exactly the entities that exist, do not have `Prefab` and satisfy
`queryCheckEntity`; `has` agrees with `dense`; and its `toRemove` buffer is empty. -/
theorem registerQuery_seeds_live_set (f : Nat) (calls : List Call) (w : World)
    (terms : List Term) (hrun : runCalls f calls = .ok w)
    (hcap : w.entityIndex.maxId < 16777216) :
    ∃ query, getQuery (registerQuery w terms).2 (registerQuery w terms).1 = some query ∧
      query.sparseSet.dense.Nodup ∧
      (∀ e, e ∈ query.sparseSet.dense ↔
        (entityExists (registerQuery w terms).2 e = true ∧
          hasComponent (registerQuery w terms).2 e Prefab = false ∧
          queryCheckEntity (registerQuery w terms).2 query e = true)) ∧
      (∀ e, query.sparseSet.has e = true ↔ e ∈ query.sparseSet.dense) ∧
      query.toRemove.dense = [] ∧ (∀ e, query.toRemove.has e = false) := by
  have hinv := worldInv_runCalls f calls w hrun hcap
  have hix := registerQuery_entityIndex w terms
  obtain ⟨w5, query2, store, seeded, hstore, hss, htr, hseed, hreg⟩ := registerQuery_shape w terms
  rw [hreg] at hix ⊢
  have hix5 : w5.entityIndex = w.entityIndex := hix
  have hplain : IndexPlain w5.entityIndex := by rw [hix5]; exact hinv.index
  have hcap5 : w5.entityIndex.maxId < 16777216 := by rw [hix5]; exact hcap
  obtain ⟨s1, s2, s3, s4⟩ := seed_fold w5 query2 (aliveIds w5.entityIndex) [] query2
    (by rw [List.nil_append]; exact aliveIds_nodup hplain)
    (by rw [hss]; exact sparseInv_create) (by rw [hss]; rfl) htr rfl rfl rfl rfl
  rw [List.nil_append] at s2
  rw [← hseed] at s1 s2 s3 s4
  refine ⟨seeded, ?_, ?_, ?_, ?_, ?_, ?_⟩
  · show (w5.queryStore.set store.length seeded).get? store.length = some seeded
    rw [hstore]
    simp
  · rw [s2]
    exact List.Nodup.filter _ (aliveIds_nodup hplain)
  · intro e
    rw [s2, List.mem_filter]
    have halive : entityExists (setQuery w5 store.length seeded) e = true ↔
        e ∈ aliveIds w5.entityIndex := alive_iff hplain hcap5 e
    have hq : queryCheckEntity (setQuery w5 store.length seeded) seeded e
        = queryCheckEntity w5 query2 e := s4 e
    have hp : hasComponent (setQuery w5 store.length seeded) e Prefab
        = hasComponent w5 e Prefab := rfl
    show _ ↔ (entityExists (setQuery w5 store.length seeded) e = true ∧
      hasComponent (setQuery w5 store.length seeded) e Prefab = false ∧
      queryCheckEntity (setQuery w5 store.length seeded) seeded e = true)
    rw [halive, hq, hp]
    simp
  · intro e
    exact sparse_has_iff _ s1 e
  · rw [s3]; rfl
  · intro e
    rw [s3]; rfl

theorem registerQuery_seeds_live_set_witness :
    returns (runCalls 30 [.addEntity, .addEntity, .addComponent 1 (comp 0)]) = true ∧
    ∃ query,
      getQuery (registerQuery (finalWorld (runCalls 30 [.addEntity, .addEntity,
          .addComponent 1 (comp 0)])) [.comp (comp 0)]).2
        (registerQuery (finalWorld (runCalls 30 [.addEntity, .addEntity,
          .addComponent 1 (comp 0)])) [.comp (comp 0)]).1 = some query ∧
      query.sparseSet.dense.Nodup ∧
      (∀ e, e ∈ query.sparseSet.dense ↔
        (entityExists (registerQuery (finalWorld (runCalls 30 [.addEntity, .addEntity,
            .addComponent 1 (comp 0)])) [.comp (comp 0)]).2 e = true ∧
          hasComponent (registerQuery (finalWorld (runCalls 30 [.addEntity, .addEntity,
            .addComponent 1 (comp 0)])) [.comp (comp 0)]).2 e Prefab = false ∧
          queryCheckEntity (registerQuery (finalWorld (runCalls 30 [.addEntity, .addEntity,
            .addComponent 1 (comp 0)])) [.comp (comp 0)]).2 query e = true)) ∧
      (∀ e, query.sparseSet.has e = true ↔ e ∈ query.sparseSet.dense) ∧
      query.toRemove.dense = [] ∧ (∀ e, query.toRemove.has e = false) :=
  ⟨by decide!, registerQuery_seeds_live_set 30 [.addEntity, .addEntity, .addComponent 1 (comp 0)]
    _ [.comp (comp 0)] (returns_eq _ (by decide!)) (by decide!)⟩

/-! ## The sets of a query -/

theorem swapRemove_nonempty (d : List Int) (v : Int) (hnd : d.Nodup)
    (h : swapRemove d v ≠ []) : d ≠ [] := by
  intro hd
  apply h
  have := (swapRemove_spec d v hnd).2
  apply List.eq_nil_iff_forall_not_mem.2
  intro x hx
  have hx2 := ((this x).1 hx).1
  rw [hd] at hx2
  exact absurd hx2 (List.not_mem_nil _)

theorem queryOk_unqueue (query : Query) (e : Int) (h : QueryOk query) :
    QueryOk { query with toRemove := query.toRemove.remove e } ∧
    ((query.toRemove.remove e).dense ≠ [] → query.toRemove.dense ≠ []) ∧
    e ∉ (query.toRemove.remove e).dense := by
  obtain ⟨h1, h2, h3⟩ := h
  obtain ⟨r1, r2⟩ := sparse_remove query.toRemove h2 e
  have hspec := swapRemove_spec query.toRemove.dense e h2.1
  refine ⟨⟨h1, r1, ?_⟩, ?_, ?_⟩
  · intro x hx
    have hx2 : x ∈ (query.toRemove.remove e).dense := hx
    rw [r2] at hx2
    exact h3 x ((hspec.2 x).1 hx2).1
  · intro hne
    rw [r2] at hne
    exact swapRemove_nonempty _ _ h2.1 hne
  · intro hx
    rw [r2] at hx
    exact ((hspec.2 e).1 hx).2 rfl

theorem queryOk_queryAddEntity (query : Query) (e : Int) (h : QueryOk query) :
    QueryOk (queryAddEntity query e) ∧
    ((queryAddEntity query e).toRemove.dense ≠ [] → query.toRemove.dense ≠ []) := by
  obtain ⟨⟨u1, u2, u3⟩, u4, _⟩ := queryOk_unqueue query e h
  obtain ⟨a1, a2⟩ := sparse_add query.sparseSet h.1 e
  refine ⟨⟨a1, u2, ?_⟩, u4⟩
  intro x hx
  have hx2 := u3 x hx
  show x ∈ (query.sparseSet.add e).dense
  rw [a2]
  split
  · exact hx2
  · exact List.mem_append_left _ hx2

theorem queryOk_queue (query : Query) (e : Int) (notified : List Int) (h : QueryOk query)
    (hhas : query.sparseSet.has e = true) :
    QueryOk { query with toRemove := query.toRemove.add e, removeNotified := notified } := by
  obtain ⟨h1, h2, h3⟩ := h
  obtain ⟨a1, a2⟩ := sparse_add query.toRemove h2 e
  refine ⟨h1, a1, ?_⟩
  intro x hx
  have hx2 : x ∈ (query.toRemove.add e).dense := hx
  rw [a2] at hx2
  split at hx2
  · exact h3 x hx2
  · rcases List.mem_append.1 hx2 with hm | hm
    · exact h3 x hm
    · rw [List.mem_singleton.1 hm]
      exact (sparse_has_iff _ h1 e).1 hhas

theorem remove_fold_spec (l : List Int) :
    ∀ s : SparseSet, SparseInv s →
      SparseInv (l.foldl (fun (s : SparseSet) eid => s.remove eid) s) ∧
      ∀ e, e ∈ (l.foldl (fun (s : SparseSet) eid => s.remove eid) s).dense ↔
        (e ∈ s.dense ∧ e ∉ l) := by
  induction l with
  | nil => intro s h; exact ⟨h, fun e => by simp⟩
  | cons x rest ih =>
    intro s h
    rw [List.foldl_cons]
    obtain ⟨r1, r2⟩ := sparse_remove s h x
    obtain ⟨i1, i2⟩ := ih (s.remove x) r1
    refine ⟨i1, ?_⟩
    intro e
    rw [i2 e, r2, (swapRemove_spec s.dense x h.1).2 e]
    simp only [List.mem_cons, not_or]
    constructor
    · rintro ⟨⟨a, b⟩, c⟩; exact ⟨a, b, c⟩
    · rintro ⟨a, b, c⟩; exact ⟨⟨a, b⟩, c⟩

theorem reset_has (s : SparseSet) (e : Int) : s.reset.has e = false := by
  unfold SparseSet.has SparseSet.reset
  simp only
  split
  · rfl
  · simp

theorem queryOk_commit (query : Query) (h : QueryOk query) :
    QueryOk (queryCommitRemovals query) ∧ Committed query (queryCommitRemovals query) := by
  obtain ⟨h1, h2, h3⟩ := h
  obtain ⟨f1, f2⟩ := remove_fold_spec query.toRemove.dense query.sparseSet h1
  have hreset : SparseInv query.toRemove.reset := by
    refine ⟨List.nodup_nil, ?_⟩
    intro i v hv
    simp [SparseSet.reset] at hv
  refine ⟨⟨f1, hreset, ?_⟩, f2, ?_, rfl, fun e => reset_has _ e⟩
  · intro e he
    exact absurd he (List.not_mem_nil _)
  · intro e
    have hl : (queryCommitRemovals query).sparseSet.has e = true ↔
        e ∈ (query.toRemove.dense.foldl (fun (s : SparseSet) eid => s.remove eid)
          query.sparseSet).dense := sparse_has_iff _ f1 e
    rw [hl, f2 e, sparse_has_iff _ h1 e, ← Bool.not_eq_true, sparse_has_iff _ h2 e]

theorem getQuery_setQuery (w : World) (q : Nat) (x : Query) (q2 : Nat) :
    getQuery (setQuery w q x) q2 =
      if q2 = q ∧ q < w.queryStore.length then some x else getQuery w q2 := by
  unfold getQuery setQuery
  simp only [List.get?_eq_getElem?]
  by_cases h : q2 = q
  · subst h
    by_cases hl : q2 < w.queryStore.length
    · rw [if_pos ⟨rfl, hl⟩, List.getElem?_set_eq_of_lt]
      exact hl
    · rw [if_neg (fun hh => hl hh.2)]
      have hl2 : w.queryStore.length ≤ q2 := Nat.le_of_not_lt hl
      rw [List.getElem?_eq_none (by rw [List.length_set]; exact hl2),
        List.getElem?_eq_none hl2]
  · rw [if_neg (fun hh => h hh.1), List.getElem?_set_ne (Ne.symm h)]

theorem querySetsInv_setQuery (w : World) (q : Nat) (x : Query) (h : QuerySetsInv w)
    (hx : QueryOk x) (hd : x.toRemove.dense ≠ [] → q ∈ w.dirtyQueries) :
    QuerySetsInv (setQuery w q x) := by
  intro q2 query hq
  rw [getQuery_setQuery] at hq
  split at hq
  · rename_i hc
    cases hq
    rw [hc.1]
    exact ⟨hx, hd⟩
  · exact h q2 query hq

theorem querySetsInv_frame {w w2 : World} (h : QuerySetsInv w)
    (hs : w2.queryStore = w.queryStore)
    (hd : ∀ q, q ∈ w.dirtyQueries → q ∈ w2.dirtyQueries) : QuerySetsInv w2 := by
  intro q query hq
  have hq2 : getQuery w q = some query := by
    unfold getQuery at hq ⊢
    rw [← hs]; exact hq
  obtain ⟨a, b⟩ := h q query hq2
  exact ⟨a, fun hne => hd q (b hne)⟩

theorem querySetsInv_queryRemoveEntity (w : World) (q : Nat) (eid : Int) (h : QuerySetsInv w) :
    QuerySetsInv (queryRemoveEntity w q eid) := by
  unfold queryRemoveEntity
  cases hq : getQuery w q with
  | none => exact h
  | some query =>
    simp only
    obtain ⟨hok, _⟩ := h q query hq
    split
    · exact h
    · rename_i hcond
      have hhas : query.sparseSet.has eid = true := by
        cases hh : query.sparseSet.has eid with
        | true => rfl
        | false => rw [hh] at hcond; simp at hcond
      have hw1 : QuerySetsInv { w with dirtyQueries := setAdd w.dirtyQueries q } :=
        querySetsInv_frame h rfl (fun x hx => (mem_setAdd _ _ _).2 (Or.inl hx))
      apply querySetsInv_setQuery _ _ _ hw1 (queryOk_queue query eid _ hok hhas)
      intro _
      exact (mem_setAdd _ _ _).2 (Or.inr rfl)

theorem querySetsInv_updateQueryFor (w : World) (eid : Int) (q : Nat) (h : QuerySetsInv w) :
    QuerySetsInv (updateQueryFor w eid q) := by
  unfold updateQueryFor
  cases hq : getQuery w q with
  | none => exact h
  | some query =>
    simp only
    obtain ⟨hok, hdirty⟩ := h q query hq
    obtain ⟨u1, u2, _⟩ := queryOk_unqueue query eid hok
    have hw1 : QuerySetsInv (setQuery w q { query with toRemove := query.toRemove.remove eid }) :=
      querySetsInv_setQuery w q _ h u1 (fun hne => hdirty (u2 hne))
    split
    · obtain ⟨a1, a2⟩ := queryOk_queryAddEntity
        { query with toRemove := query.toRemove.remove eid } eid u1
      apply querySetsInv_setQuery _ _ _ hw1 a1
      intro hne
      exact hdirty (u2 (a2 hne))
    · exact querySetsInv_queryRemoveEntity _ q eid hw1

theorem querySetsInv_updateFold (eid : Int) (qs : List Nat) :
    ∀ w : World, QuerySetsInv w →
      QuerySetsInv (qs.foldl (fun w q => updateQueryFor w eid q) w) := by
  induction qs with
  | nil => intro w h; exact h
  | cons q rest ih =>
    intro w h
    rw [List.foldl_cons]
    exact ih _ (querySetsInv_updateQueryFor w eid q h)

/-! ## The sets of the queries along the steps -/

theorem querySetsInv_attach (w : World) (e : Int) (c : Component) (w1 : World) (b : Bool)
    (hat : attach w e c = .ok (w1, b)) (h : QuerySetsInv w) : QuerySetsInv w1 := by
  obtain ⟨_, _, f3, f4, _⟩ := ensureRegistered_fields w c
  have h0 : QuerySetsInv (ensureRegistered w c) :=
    querySetsInv_frame h f3 (fun q hq => by rw [f4]; exact hq)
  unfold attach at hat
  simp only at hat
  split at hat
  · cases hat
    exact h0
  · split at hat
    · cases hat
    · rename_i d hd
      have h2 : QuerySetsInv (setMaskWord (ensureRegistered w c) d.generationId e
          (maskWord (ensureRegistered w c) d.generationId e ||| d.bitflag)) := by
        rw [setMaskWord_frame]
        exact querySetsInv_frame h0 rfl (fun q hq => hq)
      have h3 : QuerySetsInv (if (!hasComponent (setMaskWord (ensureRegistered w c) d.generationId e
            (maskWord (ensureRegistered w c) d.generationId e ||| d.bitflag)) e Prefab) = true then
          d.queries.foldl (fun w q => updateQueryFor w e q)
            (setMaskWord (ensureRegistered w c) d.generationId e
              (maskWord (ensureRegistered w c) d.generationId e ||| d.bitflag))
          else setMaskWord (ensureRegistered w c) d.generationId e
            (maskWord (ensureRegistered w c) d.generationId e ||| d.bitflag)) := by
        split
        · exact querySetsInv_updateFold e d.queries _ h2
        · exact h2
      revert hat
      generalize (if (!hasComponent (setMaskWord (ensureRegistered w c) d.generationId e
            (maskWord (ensureRegistered w c) d.generationId e ||| d.bitflag)) e Prefab) = true then
          d.queries.foldl (fun w q => updateQueryFor w e q)
            (setMaskWord (ensureRegistered w c) d.generationId e
              (maskWord (ensureRegistered w c) d.generationId e ||| d.bitflag))
          else setMaskWord (ensureRegistered w c) d.generationId e
            (maskWord (ensureRegistered w c) d.generationId e ||| d.bitflag)) = w3 at h3
      intro hat
      unfold entityComponentsAdd at hat
      split at hat
      · cases hat
      · cases hat
        exact querySetsInv_frame h3 rfl (fun q hq => hq)

theorem querySetsInv_detach (w : World) (e : Int) (c : Component) (w1 : World)
    (hdt : detach w e c = .ok w1) (h : QuerySetsInv w) : QuerySetsInv w1 := by
  unfold detach at hdt
  split at hdt
  · cases hdt
  · rename_i d hd
    simp only at hdt
    have h2 : QuerySetsInv (setMaskWord w d.generationId e
        (maskWord w d.generationId e &&& (4294967295 ^^^ d.bitflag))) := by
      rw [setMaskWord_frame]
      exact querySetsInv_frame h rfl (fun q hq => hq)
    have h3 := querySetsInv_updateFold e d.queries _ h2
    revert hdt
    generalize d.queries.foldl (fun w q => updateQueryFor w e q)
      (setMaskWord w d.generationId e
        (maskWord w d.generationId e &&& (4294967295 ^^^ d.bitflag))) = w3 at h3
    intro hdt
    unfold entityComponentsDelete at hdt
    split at hdt
    · cases hdt
    · cases hdt
      exact querySetsInv_frame h3 rfl (fun q hq => hq)

theorem querySetsInv_prim {a b : World} (hp : Prim a b) (h : QuerySetsInv a) :
    QuerySetsInv b := by
  cases hp with
  | attach eid c _ flag hex hat => exact querySetsInv_attach a eid c b flag hat h
  | detach eid c _ hex hhas hdt => exact querySetsInv_detach a eid c b hdt h
  | relations s => exact querySetsInv_frame h rfl (fun q hq => hq)

theorem querySetsInv_removeFold (eid : Int) (qs : List Nat) :
    ∀ w : World, QuerySetsInv w →
      QuerySetsInv (qs.foldl (fun w q => queryRemoveEntity w q eid) w) := by
  induction qs with
  | nil => intro w h; exact h
  | cons q rest ih =>
    intro w h
    rw [List.foldl_cons]
    exact ih _ (querySetsInv_queryRemoveEntity w q eid h)

theorem querySetsInv_notFold (eid : Int) (qs : List Nat) :
    ∀ w0 : World, QuerySetsInv w0 →
      QuerySetsInv (qs.foldl (fun (w1 : World) q =>
        match getQuery w1 q with
        | none => w1
        | some query =>
          if queryCheckEntity w1 query eid then setQuery w1 q (queryAddEntity query eid)
          else w1) w0) := by
  induction qs with
  | nil => intro w0 h0; exact h0
  | cons q rest ih =>
    intro w0 h0
    rw [List.foldl_cons]
    apply ih
    cases hq : getQuery w0 q with
    | none => exact h0
    | some query =>
      simp only
      split
      · obtain ⟨hok, hdirty⟩ := h0 q query hq
        obtain ⟨a1, a2⟩ := queryOk_queryAddEntity query eid hok
        exact querySetsInv_setQuery w0 q _ h0 a1 (fun hne => hdirty (a2 hne))
      · exact h0

theorem querySetsInv_addEntity (w : World) (h : QuerySetsInv w) :
    QuerySetsInv (addEntity w).2 := by
  unfold addEntity
  simp only
  have h1 : QuerySetsInv { w with entityIndex := (addEntityId w.entityIndex).2 } :=
    querySetsInv_frame h rfl (fun q hq => hq)
  exact querySetsInv_frame
    (querySetsInv_notFold (addEntityId w.entityIndex).1 w.notQueries _ h1) rfl (fun q hq => hq)

theorem committed_trans {a b c : Query} (h1 : Committed a b) (h2 : Committed b c) :
    Committed a c := by
  obtain ⟨a1, a2, a3, a4⟩ := h1
  obtain ⟨b1, b2, b3, b4⟩ := h2
  refine ⟨?_, ?_, b3, b4⟩
  · intro e
    rw [b1 e, a3, a1 e]
    simp
  · intro e
    rw [b2 e, a4 e, a2 e]
    simp

theorem committed_of_empty (query : Query) (h : QueryOk query)
    (he : query.toRemove.dense = []) : Committed query query := by
  have hhas : ∀ e, query.toRemove.has e = false := by
    intro e
    rw [← Bool.not_eq_true, sparse_has_iff _ h.2.1 e, he]
    exact List.not_mem_nil _
  refine ⟨?_, ?_, he, hhas⟩
  · intro e
    rw [he]
    simp
  · intro e
    rw [hhas e]
    simp

theorem commit_fold (l : List Nat) :
    ∀ w : World, (∀ q query, getQuery w q = some query → QueryOk query) →
      (∀ q query, getQuery w q = some query →
        ∃ query2, getQuery (l.foldl (fun (w : World) q =>
            match getQuery w q with
            | none => w
            | some query => setQuery w q (queryCommitRemovals query)) w) q = some query2 ∧
          QueryOk query2 ∧ ((q ∈ l ∧ Committed query query2) ∨ (q ∉ l ∧ query2 = query))) ∧
      (∀ q, getQuery w q = none → getQuery (l.foldl (fun (w : World) q =>
            match getQuery w q with
            | none => w
            | some query => setQuery w q (queryCommitRemovals query)) w) q = none) := by
  induction l with
  | nil =>
    intro w hok
    refine ⟨?_, fun q hq => hq⟩
    intro q query hq
    exact ⟨query, hq, hok q query hq, Or.inr ⟨List.not_mem_nil _, rfl⟩⟩
  | cons q0 rest ih =>
    intro w hok
    rw [List.foldl_cons]
    cases hq0 : getQuery w q0 with
    | none =>
      simp only
      obtain ⟨i1, i2⟩ := ih w hok
      refine ⟨?_, i2⟩
      intro q query hq
      obtain ⟨query2, g1, g2, g3⟩ := i1 q query hq
      refine ⟨query2, g1, g2, ?_⟩
      rcases g3 with ⟨m, c⟩ | ⟨m, c⟩
      · exact Or.inl ⟨List.mem_cons_of_mem _ m, c⟩
      · refine Or.inr ⟨?_, c⟩
        intro hm
        rcases List.mem_cons.1 hm with hm | hm
        · rw [hm, hq0] at hq; cases hq
        · exact m hm
    | some query0 =>
      simp only
      have hlt : q0 < w.queryStore.length := by
        unfold getQuery at hq0
        rw [List.get?_eq_getElem?] at hq0
        exact (List.getElem?_eq_some_iff.1 hq0).1
      obtain ⟨c1, c2⟩ := queryOk_commit query0 (hok q0 query0 hq0)
      have hok1 : ∀ q query, getQuery (setQuery w q0 (queryCommitRemovals query0)) q = some query →
          QueryOk query := by
        intro q query hq
        rw [getQuery_setQuery] at hq
        split at hq
        · cases hq; exact c1
        · exact hok q query hq
      obtain ⟨i1, i2⟩ := ih _ hok1
      constructor
      · intro q query hq
        by_cases hqq : q = q0
        · subst hqq
          rw [hq0] at hq
          cases hq
          have hq1 : getQuery (setQuery w q (queryCommitRemovals query0)) q
              = some (queryCommitRemovals query0) := by
            rw [getQuery_setQuery, if_pos ⟨rfl, hlt⟩]
          obtain ⟨query2, g1, g2, g3⟩ := i1 q _ hq1
          refine ⟨query2, g1, g2, Or.inl ⟨List.mem_cons_self _ _, ?_⟩⟩
          rcases g3 with ⟨_, c⟩ | ⟨_, c⟩
          · exact committed_trans c2 c
          · rw [c]; exact c2
        · have hq1 : getQuery (setQuery w q0 (queryCommitRemovals query0)) q = some query := by
            rw [getQuery_setQuery, if_neg (fun hh => hqq hh.1)]
            exact hq
          obtain ⟨query2, g1, g2, g3⟩ := i1 q _ hq1
          refine ⟨query2, g1, g2, ?_⟩
          rcases g3 with ⟨m, c⟩ | ⟨m, c⟩
          · exact Or.inl ⟨List.mem_cons_of_mem _ m, c⟩
          · refine Or.inr ⟨?_, c⟩
            intro hm
            rcases List.mem_cons.1 hm with hm | hm
            · exact hqq hm
            · exact m hm
      · intro q hq
        apply i2
        rw [getQuery_setQuery]
        split
        · rename_i hc
          rw [hc.1, hq0] at hq
          cases hq
        · exact hq

theorem commit_fold_dirty (l : List Nat) :
    ∀ w : World, (l.foldl (fun (w : World) q =>
        match getQuery w q with
        | none => w
        | some query => setQuery w q (queryCommitRemovals query)) w).queryStore.length
      = w.queryStore.length := by
  induction l with
  | nil => intro w; rfl
  | cons q0 rest ih =>
    intro w
    rw [List.foldl_cons, ih]
    split
    · rfl
    · unfold setQuery
      simp

/-- What `commitRemovals` does to the queries of a world whose query sets are well formed. -/
theorem commitRemovals_spec (w : World) (h : QuerySetsInv w) :
    (∀ q query, getQuery w q = some query →
      ∃ query2, getQuery (commitRemovals w) q = some query2 ∧ QueryOk query2 ∧
        Committed query query2) ∧
    (∀ q, getQuery w q = none → getQuery (commitRemovals w) q = none) ∧
    (commitRemovals w).dirtyQueries = [] := by
  unfold commitRemovals
  split
  · rename_i hlen
    have hd : w.dirtyQueries = [] := List.length_eq_zero.1 hlen
    refine ⟨?_, fun q hq => hq, hd⟩
    intro q query hq
    obtain ⟨hok, hdirty⟩ := h q query hq
    have hempty : query.toRemove.dense = [] := by
      by_contra hne
      have := hdirty hne
      rw [hd] at this
      exact absurd this (List.not_mem_nil _)
    exact ⟨query, hq, hok, committed_of_empty query hok hempty⟩
  · simp only
    obtain ⟨f1, f2⟩ := commit_fold w.dirtyQueries w (fun q query hq => (h q query hq).1)
    refine ⟨?_, f2, trivial⟩
    intro q query hq
    obtain ⟨query2, g1, g2, g3⟩ := f1 q query hq
    refine ⟨query2, g1, g2, ?_⟩
    rcases g3 with ⟨_, c⟩ | ⟨m, c⟩
    · exact c
    · rw [c]
      obtain ⟨hok, hdirty⟩ := h q query hq
      apply committed_of_empty query hok
      by_contra hne
      exact m (hdirty hne)

theorem querySetsInv_commitRemovals (w : World) (h : QuerySetsInv w) :
    QuerySetsInv (commitRemovals w) := by
  obtain ⟨s1, s2, s3⟩ := commitRemovals_spec w h
  intro q query2 hq2
  cases hq : getQuery w q with
  | none => rw [s2 q hq] at hq2; cases hq2
  | some query =>
    obtain ⟨query3, g1, g2, g3⟩ := s1 q query hq
    rw [g1] at hq2
    cases hq2
    exact ⟨g2, fun hne => absurd g3.2.2.1 hne⟩

/-! ## The query sets along call sequences -/

theorem registerQuery_store (w : World) (terms : List Term) :
    ∃ (w5 : World) (query2 seeded : Query),
      w5.queryStore = w.queryStore ++ [query2] ∧ w5.dirtyQueries = w.dirtyQueries ∧
      query2.sparseSet = createSparseSet ∧ query2.toRemove = createSparseSet ∧
      seeded = (aliveIds w5.entityIndex).foldl (fun (query : Query) eid =>
          if hasComponent w5 eid Prefab then query
          else if queryCheckEntity w5 query eid then queryAddEntity query eid
          else query) query2 ∧
      registerQuery w terms = (w.queryStore.length, setQuery w5 w.queryStore.length seeded) := by
  have hreg : ∀ (b : World) (c : Component),
      (b.queryStore = w.queryStore ∧ b.dirtyQueries = w.dirtyQueries) →
      ((ensureRegistered b c).queryStore = w.queryStore ∧
        (ensureRegistered b c).dirtyQueries = w.dirtyQueries) := by
    intro b c hb
    obtain ⟨_, _, f3, f4, _⟩ := ensureRegistered_fields b c
    rw [f3, f4]
    exact hb
  have h1 := queryHash_preserves
    (fun b => b.queryStore = w.queryStore ∧ b.dirtyQueries = w.dirtyQueries) hreg w terms
    ⟨rfl, rfl⟩
  unfold registerQuery
  generalize queryHash w terms = r at h1
  obtain ⟨hash, world1⟩ := r
  have h2 := register_terms_preserves
    (fun b => b.queryStore = w.queryStore ∧ b.dirtyQueries = w.dirtyQueries) hreg terms world1 h1
  simp only at h2 ⊢
  have haux : ∀ (a b : Nat) (w5 : World) (s : Query), a = b →
      (a, setQuery w5 a s) = (b, setQuery w5 b s) := by
    intro a b w5 s hab
    rw [hab]
  refine ⟨_, _, _, ?_, ?_, ?_, ?_, rfl, haux _ _ _ _ (congrArg List.length h2.1)⟩
  · rw [notQueries_queryStore, foldl_addQuery_queryStore]
    exact congrArg (fun l => l ++ [_]) h2.1
  · have hd : ∀ (q : Nat) (cs : List Component) (b : World),
        (cs.foldl (fun w c => addQueryToComponent w q c) b).dirtyQueries = b.dirtyQueries := by
      intro q cs
      induction cs with
      | nil => intro b; rfl
      | cons c rest ih =>
        intro b
        rw [List.foldl_cons, ih]
        unfold addQueryToComponent
        split <;> rfl
    split
    · exact (hd _ _ _).trans h2.2
    · exact (hd _ _ _).trans h2.2
  · rfl
  · rfl

theorem seed_fold_ok (w5 : World) (l : List Int) :
    ∀ s : Query, QueryOk s → s.toRemove.dense = [] →
      QueryOk (l.foldl (fun (query : Query) eid =>
          if hasComponent w5 eid Prefab then query
          else if queryCheckEntity w5 query eid then queryAddEntity query eid
          else query) s) ∧
      (l.foldl (fun (query : Query) eid =>
          if hasComponent w5 eid Prefab then query
          else if queryCheckEntity w5 query eid then queryAddEntity query eid
          else query) s).toRemove.dense = [] := by
  induction l with
  | nil => intro s h he; exact ⟨h, he⟩
  | cons x rest ih =>
    intro s h he
    rw [List.foldl_cons]
    split
    · exact ih s h he
    · split
      · obtain ⟨a1, a2⟩ := queryOk_queryAddEntity s x h
        apply ih _ a1
        by_contra hne
        exact a2 hne he
      · exact ih s h he

theorem querySetsInv_registerQuery (w : World) (terms : List Term) (h : QuerySetsInv w) :
    QuerySetsInv (registerQuery w terms).2 := by
  obtain ⟨w5, query2, seeded, hstore, hdirty, hss, htr, hseed, hreg⟩ := registerQuery_store w terms
  rw [hreg]
  have hok2 : QueryOk query2 := by
    refine ⟨by rw [hss]; exact sparseInv_create, by rw [htr]; exact sparseInv_create, ?_⟩
    intro e he
    rw [htr] at he
    exact absurd he (List.not_mem_nil _)
  have he2 : query2.toRemove.dense = [] := by rw [htr]; rfl
  have h5 : QuerySetsInv w5 := by
    intro q query hq
    unfold getQuery at hq
    rw [hstore, List.get?_eq_getElem?] at hq
    by_cases hlt : q < w.queryStore.length
    · rw [List.getElem?_append_left hlt] at hq
      have hq2 : getQuery w q = some query := by
        unfold getQuery
        rw [List.get?_eq_getElem?]
        exact hq
      obtain ⟨a, b⟩ := h q query hq2
      exact ⟨a, fun hne => by rw [hdirty]; exact b hne⟩
    · rw [List.getElem?_append_right (Nat.le_of_not_lt hlt)] at hq
      have hmem := List.getElem?_mem hq
      rw [List.mem_singleton] at hmem
      rw [hmem]
      exact ⟨hok2, fun hne => absurd he2 hne⟩
  obtain ⟨s1, s2⟩ := seed_fold_ok w5 (aliveIds w5.entityIndex) query2 hok2 he2
  rw [← hseed] at s1 s2
  exact querySetsInv_setQuery w5 _ seeded h5 s1 (fun hne => absurd s2 hne)

theorem querySetsInv_qstep {a b : World} (hs : QStep a b) (h : QuerySetsInv a) :
    QuerySetsInv b := by
  cases hs with
  | prim => rename_i hp; exact querySetsInv_prim hp h
  | register c =>
    obtain ⟨_, _, f3, f4, _⟩ := ensureRegistered_fields a c
    exact querySetsInv_frame h f3 (fun q hq => by rw [f4]; exact hq)
  | newQuery terms => exact querySetsInv_registerQuery a terms h
  | commit => exact querySetsInv_commitRemovals a h
  | remove eid =>
    exact querySetsInv_frame (querySetsInv_removeFold eid a.queries a h) rfl (fun q hq => hq)
  | spawn => exact querySetsInv_addEntity a h

theorem querySetsInv_qrun {a b : World} (hr : QRun a b) (h : QuerySetsInv a) :
    QuerySetsInv b := by
  induction hr with
  | refl => exact h
  | step w1 w2 _ hs ih => exact querySetsInv_qstep hs ih

theorem qrun_trans {a b c : World} (h1 : QRun a b) (h2 : QRun b c) : QRun a c := by
  induction h2 with
  | refl => exact h1
  | step w1 w2 _ hs ih => exact QRun.step _ _ _ ih hs

theorem qrun_step {a b : World} (h : QStep a b) : QRun a b := QRun.step _ _ _ (QRun.refl a) h

theorem qrun_of_reach {a b : World} (h : Reach a b) : QRun a b := by
  induction h with
  | refl => exact QRun.refl _
  | step w1 w2 _ hp ih => exact QRun.step _ _ _ ih (QStep.prim _ _ hp)

theorem qrun_queryHash (w : World) (terms : List Term) : QRun w (queryHash w terms).2 :=
  queryHash_preserves (fun b => QRun w b)
    (fun b c hb => QRun.step _ _ _ hb (QStep.register b c)) w terms (QRun.refl w)

theorem qrun_innerQueryObject (w : World) (terms : List Term) :
    QRun w (innerQueryObject w terms).2 := by
  unfold innerQueryObject
  have h1 := qrun_queryHash w terms
  generalize queryHash w terms = r at h1
  obtain ⟨hash, world1⟩ := r
  simp only at h1 ⊢
  split
  · exact h1
  · exact QRun.step _ _ _ h1 (QStep.newQuery world1 terms)

theorem qrun_innerQuery (w : World) (terms : List Term) : QRun w (innerQuery w terms).2 := by
  unfold innerQuery
  have h1 := qrun_innerQueryObject w terms
  generalize innerQueryObject w terms = r at h1
  obtain ⟨q, world1⟩ := r
  exact h1

theorem qrun_query (w : World) (terms : List Term) : QRun w (query w terms).2 := by
  unfold query
  exact qrun_trans (qrun_step (QStep.commit w)) (qrun_innerQuery _ terms)

theorem foldlM_qrun {α : Type} (f : World → α → Res World)
    (hstep : ∀ w a w', f w a = .ok w' → QRun w w') :
    ∀ (l : List α) (w w' : World), l.foldlM f w = .ok w' → QRun w w' := by
  intro l
  induction l with
  | nil =>
    intro w w' h
    cases h
    exact QRun.refl _
  | cons a rest ih =>
    intro w w' h
    rw [List.foldlM_cons] at h
    obtain ⟨w1, h1, h2⟩ := bind_ok_inv _ _ _ h
    exact qrun_trans (hstep _ _ _ h1) (ih _ _ h2)

theorem qrun_removeEntity (fuel : Nat) :
    (∀ w eid w', removeEntity fuel w eid = .ok w' → QRun w w') ∧
    (∀ w queue processed w', removeEntityLoop fuel w queue processed = .ok w' → QRun w w') := by
  induction fuel with
  | zero =>
    constructor
    · intro w eid w' h
      rw [removeEntity] at h
      cases h
    · intro w queue processed w' h
      rw [removeEntityLoop] at h
      cases h
  | succ fuel ih =>
    constructor
    · intro w eid w' h
      rw [removeEntity] at h
      split at h
      · cases h
        exact QRun.refl _
      · exact ih.2 _ _ _ _ h
    · intro w queue processed w' h
      cases queue with
      | nil =>
        rw [removeEntityLoop] at h
        cases h
        exact QRun.refl _
      | cons currentEid removalQueue =>
        rw [removeEntityLoop] at h
        split at h
        · exact ih.2 _ _ _ _ h
        · have htail : ∀ (ops : List (Int × Component)) (pushed : List Int) (world1 : World),
              (do
                let world2 ← ops.foldlM
                  (fun (w : World) (op : Int × Component) =>
                    removeComponent fuel w op.1 [op.2]) world1
                let world3 ← (removalQueue ++ pushed).foldlM
                  (fun (w : World) eid2 => removeEntity fuel w eid2) world2
                removeEntityLoop fuel
                  (eraseEntity (world3.queries.foldl
                    (fun w q => queryRemoveEntity w q currentEid) world3) currentEid)
                  (removalQueue ++ pushed) (processed ++ [currentEid])) = .ok w' →
              QRun world1 w' := by
            intro ops pushed world1 hh
            obtain ⟨world2, h1, hh⟩ := bind_ok_inv _ _ _ hh
            obtain ⟨world3, h2, hh⟩ := bind_ok_inv _ _ _ hh
            have r1 : QRun world1 world2 :=
              foldlM_qrun _ (fun a op b hab =>
                qrun_of_reach ((reach_removeComponent fuel).1 a op.1 [op.2] b hab)) _ _ _ h1
            have r2 : QRun world2 world3 :=
              foldlM_qrun _ (fun a e b hab => ih.1 a e b hab) _ _ _ h2
            exact qrun_trans r1 (qrun_trans (QRun.step _ _ _ r2 (QStep.remove _ currentEid))
              (ih.2 _ _ _ _ hh))
          dsimp only at h
          split at h
          · have hq := qrun_innerQuery w [Term.comp (Pair Wildcard (Target.eid currentEid))]
            generalize innerQuery w [Term.comp (Pair Wildcard (Target.eid currentEid))] = iq
              at h hq
            obtain ⟨subjects, w1⟩ := iq
            dsimp only at h hq
            obtain ⟨r, h1, h2⟩ := bind_ok_inv _ _ _ h
            obtain ⟨ops, pushed⟩ := r
            have hrel := QRun.step _ _ _ hq (QStep.prim _ _ (Prim.relations w1
              (setDelete w1.entitiesWithRelations (Target.eid currentEid))))
            exact qrun_trans hrel (htail ops pushed _ h2)
          · exact htail [] [] w h

theorem qrun_call (fuel : Nat) (w : World) (c : Call) (w' : World)
    (h : Call.run fuel w c = .ok w') : QRun w w' := by
  cases c with
  | addEntity =>
    cases h
    exact qrun_step (QStep.spawn w)
  | addPrefab =>
    unfold Call.run addPrefab at h
    dsimp only at h
    cases h2 : addComponent fuel (addEntity w).2 (addEntity w).1 [Prefab] with
    | error e => rw [h2] at h; cases h
    | ok w2 =>
      rw [h2] at h
      cases h
      exact qrun_trans (qrun_step (QStep.spawn w))
        (qrun_of_reach ((reach_addComponent fuel).1 _ _ _ _ h2))
  | addComponent eid component =>
    exact qrun_of_reach ((reach_addComponent fuel).1 _ _ _ _ h)
  | removeComponent eid component =>
    exact qrun_of_reach ((reach_removeComponent fuel).1 _ _ _ _ h)
  | removeEntity eid => exact (qrun_removeEntity fuel).1 _ _ _ h
  | query terms =>
    cases h
    exact qrun_query w terms
  | commitRemovals =>
    cases h
    exact qrun_step (QStep.commit w)

theorem qrun_runCalls (fuel : Nat) (calls : List Call) (w : World)
    (h : runCalls fuel calls = .ok w) : QRun createWorld w :=
  foldlM_qrun (Call.run fuel) (qrun_call fuel) calls createWorld w h

theorem querySetsInv_createWorld : QuerySetsInv createWorld := by
  intro q query hq
  cases hq

theorem querySetsInv_runCalls (fuel : Nat) (calls : List Call) (w : World)
    (h : runCalls fuel calls = .ok w) : QuerySetsInv w :=
  querySetsInv_qrun (qrun_runCalls fuel calls w h) querySetsInv_createWorld

/-- C19: in a world left by a sequence of calls, `commitRemovals` leaves at every
position a query whose live set lost exactly the entities that were queued in its
`toRemove` buffer (every other member is kept) and whose `toRemove` buffer is empty; it
leaves `dirtyQueries` empty; and `query(world, terms)` is `innerQuery` on the world
`commitRemovals` leaves. -/
theorem commitRemovals_drains_queues (fuel : Nat) (calls : List Call) (w : World)
    (hrun : runCalls fuel calls = .ok w) :
    (∀ q before, getQuery w q = some before →
      ∃ after, getQuery (commitRemovals w) q = some after ∧
        (∀ e, e ∈ after.sparseSet.dense ↔
          (e ∈ before.sparseSet.dense ∧ e ∉ before.toRemove.dense)) ∧
        (∀ e, after.sparseSet.has e = true ↔
          (before.sparseSet.has e = true ∧ before.toRemove.has e = false)) ∧
        after.toRemove.dense = [] ∧ (∀ e, after.toRemove.has e = false)) ∧
    (∀ q, getQuery w q = none → getQuery (commitRemovals w) q = none) ∧
    (commitRemovals w).dirtyQueries = [] ∧
    (∀ terms, query w terms = innerQuery (commitRemovals w) terms) := by
  obtain ⟨s1, s2, s3⟩ := commitRemovals_spec w (querySetsInv_runCalls fuel calls w hrun)
  refine ⟨?_, s2, s3, fun terms => rfl⟩
  intro q before hq
  obtain ⟨after, g1, _, g3⟩ := s1 q before hq
  exact ⟨after, g1, g3⟩

theorem commitRemovals_drains_queues_witness :
    returns (runCalls 30 [.addEntity, .addComponent 1 (comp 0), .query [.comp (comp 0)],
      .removeComponent 1 (comp 0)]) = true ∧
    ((∀ q before, getQuery (finalWorld (runCalls 30 [.addEntity, .addComponent 1 (comp 0),
        .query [.comp (comp 0)], .removeComponent 1 (comp 0)])) q = some before →
      ∃ after, getQuery (commitRemovals (finalWorld (runCalls 30 [.addEntity,
          .addComponent 1 (comp 0), .query [.comp (comp 0)], .removeComponent 1 (comp 0)]))) q
          = some after ∧
        (∀ e, e ∈ after.sparseSet.dense ↔
          (e ∈ before.sparseSet.dense ∧ e ∉ before.toRemove.dense)) ∧
        (∀ e, after.sparseSet.has e = true ↔
          (before.sparseSet.has e = true ∧ before.toRemove.has e = false)) ∧
        after.toRemove.dense = [] ∧ (∀ e, after.toRemove.has e = false)) ∧
    (∀ q, getQuery (finalWorld (runCalls 30 [.addEntity, .addComponent 1 (comp 0),
        .query [.comp (comp 0)], .removeComponent 1 (comp 0)])) q = none →
      getQuery (commitRemovals (finalWorld (runCalls 30 [.addEntity,
        .addComponent 1 (comp 0), .query [.comp (comp 0)], .removeComponent 1 (comp 0)]))) q
        = none) ∧
    (commitRemovals (finalWorld (runCalls 30 [.addEntity, .addComponent 1 (comp 0),
      .query [.comp (comp 0)], .removeComponent 1 (comp 0)]))).dirtyQueries = [] ∧
    (∀ terms, query (finalWorld (runCalls 30 [.addEntity, .addComponent 1 (comp 0),
        .query [.comp (comp 0)], .removeComponent 1 (comp 0)])) terms
      = innerQuery (commitRemovals (finalWorld (runCalls 30 [.addEntity,
        .addComponent 1 (comp 0), .query [.comp (comp 0)], .removeComponent 1 (comp 0)])))
        terms)) :=
  ⟨by decide!, commitRemovals_drains_queues 30 [.addEntity, .addComponent 1 (comp 0),
    .query [.comp (comp 0)], .removeComponent 1 (comp 0)] _ (returns_eq _ (by decide!))⟩

/-! ## Big-endian bytes -/

theorem emod_mul_split (x a b : Int) (ha : 0 < a) (hb : 0 < b) :
    x % (a * b) = x % a + a * (x / a % b) := by
  have h1 : x = a * (x / a) + x % a := (Int.ediv_add_emod x a).symm
  have h2 : x / a = b * (x / a / b) + x / a % b := (Int.ediv_add_emod (x / a) b).symm
  have hr0 : 0 ≤ x % a := Int.emod_nonneg x (ne_of_gt ha)
  have hr1 : x % a < a := Int.emod_lt_of_pos x ha
  have hq0 : 0 ≤ x / a % b := Int.emod_nonneg _ (ne_of_gt hb)
  have hq1 : x / a % b < b := Int.emod_lt_of_pos _ hb
  have hx : x = (x % a + a * (x / a % b)) + (a * b) * (x / a / b) := by
    calc x = a * (x / a) + x % a := h1
      _ = a * (b * (x / a / b) + x / a % b) + x % a := by rw [← h2]
      _ = (x % a + a * (x / a % b)) + (a * b) * (x / a / b) := by ring
  have hlt : x % a + a * (x / a % b) < a * b := by nlinarith
  have hge : 0 ≤ x % a + a * (x / a % b) := by positivity
  calc x % (a * b) = ((x % a + a * (x / a % b)) + (a * b) * (x / a / b)) % (a * b) := by
        rw [← hx]
    _ = (x % a + a * (x / a % b)) % (a * b) := Int.add_mul_emod_self_left _ _ _
    _ = x % a + a * (x / a % b) := Int.emod_eq_of_lt hge hlt

theorem readBE_cons (b : Nat) (rest : List Nat) :
    readBE (b :: rest) = b * 256 ^ rest.length + readBE rest := by
  unfold readBE
  have h : ∀ (l : List Nat) (acc : Nat),
      l.foldl (fun acc b => acc * 256 + b) acc
        = acc * 256 ^ l.length + l.foldl (fun acc b => acc * 256 + b) 0 := by
    intro l
    induction l with
    | nil => intro acc; simp
    | cons c cs ih =>
      intro acc
      rw [List.foldl_cons, List.foldl_cons, ih (acc * 256 + c), ih (0 * 256 + c)]
      simp only [List.length_cons, pow_succ]
      ring
  rw [List.foldl_cons, h rest (0 * 256 + b)]
  simp

theorem readBE_bytesBE (n : Nat) (x : Int) :
    (readBE (bytesBE n x) : Int) = x % 256 ^ n := by
  induction n with
  | zero =>
    simp [bytesBE, readBE, Int.emod_one]
  | succ k ih =>
    rw [bytesBE, readBE_cons, bytesBE_length]
    push_cast
    rw [ih]
    have hd : 0 ≤ x / 256 ^ k % 256 := Int.emod_nonneg _ (by decide)
    rw [Int.toNat_of_nonneg hd, pow_succ, emod_mul_split x (256 ^ k) 256 (by positivity) (by decide)]
    ring

theorem readBytes_append (pre bytes post : List Nat) :
    readBytes (pre ++ bytes ++ post) pre.length bytes.length = some bytes := by
  unfold readBytes
  rw [if_pos (by simp)]
  simp

theorem decode_encode (fmt : FloatFormat) (type : WireType) (v : Int)
    (h : Representable fmt type v) :
    decodeValue fmt type (encodeValue fmt type (some v)) = v ∧
    (encodeValue fmt type (some v)).length = type.size := by
  cases type with
  | u8 =>
    have hb := readBE_bytesBE 1 v
    obtain ⟨h0, h1⟩ := h
    refine ⟨?_, bytesBE_length _ _⟩
    show ((readBE (bytesBE 1 v) : Nat) : Int) = v
    rw [hb]
    omega
  | u16 =>
    have hb := readBE_bytesBE 2 v
    obtain ⟨h0, h1⟩ := h
    refine ⟨?_, bytesBE_length _ _⟩
    show ((readBE (bytesBE 2 v) : Nat) : Int) = v
    rw [hb]
    omega
  | u32 =>
    have hb := readBE_bytesBE 4 v
    obtain ⟨h0, h1⟩ := h
    refine ⟨?_, bytesBE_length _ _⟩
    show ((readBE (bytesBE 4 v) : Nat) : Int) = v
    rw [hb]
    omega
  | i8 =>
    have hb := readBE_bytesBE 1 v
    obtain ⟨h0, h1⟩ := h
    refine ⟨?_, bytesBE_length _ _⟩
    show (if readBE (bytesBE 1 v) < 128 then ((readBE (bytesBE 1 v) : Nat) : Int)
      else ((readBE (bytesBE 1 v) : Nat) : Int) - 256) = v
    split <;> omega
  | i16 =>
    have hb := readBE_bytesBE 2 v
    obtain ⟨h0, h1⟩ := h
    refine ⟨?_, bytesBE_length _ _⟩
    show (if readBE (bytesBE 2 v) < 32768 then ((readBE (bytesBE 2 v) : Nat) : Int)
      else ((readBE (bytesBE 2 v) : Nat) : Int) - 65536) = v
    split <;> omega
  | i32 =>
    have hb := readBE_bytesBE 4 v
    obtain ⟨h0, h1⟩ := h
    refine ⟨?_, bytesBE_length _ _⟩
    show (if readBE (bytesBE 4 v) < 2147483648 then ((readBE (bytesBE 4 v) : Nat) : Int)
      else ((readBE (bytesBE 4 v) : Nat) : Int) - 4294967296) = v
    split <;> omega
  | f32 => exact ⟨h.2, h.1⟩
  | f64 => exact ⟨h.2, h.1⟩

/-! ## Round trip of the SoA serializers -/

theorem readProps_spec (fmt : FloatFormat) (i : Int) :
    ∀ (ps qs done : List (List Nat × TypedStore)) (pre post : List Nat),
      ps.map (fun p => p.2.type) = qs.map (fun p => p.2.type) →
      (∀ p, p ∈ ps → ∃ v, p.2.values i = some v ∧ Representable fmt p.2.type v) →
      ∃ qs2, readProps fmt
          (pre ++ (ps.map (fun p => encodeValue fmt p.2.type (p.2.values i))).flatten ++ post)
          i done qs pre.length
          = some (done ++ qs2,
              pre.length + (ps.map (fun p => encodeValue fmt p.2.type (p.2.values i))).flatten.length) ∧
        qs2.map (fun p => p.2.type) = qs.map (fun p => p.2.type) ∧
        qs2.map (fun q => q.2.values i) = ps.map (fun p => p.2.values i) ∧
        ∀ j, j ≠ i → qs2.map (fun q => q.2.values j) = qs.map (fun q => q.2.values j) := by
  intro ps
  induction ps with
  | nil =>
    intro qs done pre post hty _
    cases qs with
    | nil =>
      refine ⟨[], ?_, rfl, rfl, fun j _ => rfl⟩
      simp [readProps]
    | cons q qs2 => cases hty
  | cons p ps ih =>
    intro qs done pre post hty hval
    cases qs with
    | nil => cases hty
    | cons q qs2 =>
      simp only [List.map_cons, List.cons.injEq] at hty
      obtain ⟨hpq, hty2⟩ := hty
      obtain ⟨v, hv, hrep⟩ := hval p (List.mem_cons_self _ _)
      obtain ⟨hdec, hlen⟩ := decode_encode fmt p.2.type v hrep
      have hpacket : pre ++ ((p :: ps).map
            (fun p => encodeValue fmt p.2.type (p.2.values i))).flatten ++ post
          = (pre ++ encodeValue fmt p.2.type (some v)) ++
            (ps.map (fun p => encodeValue fmt p.2.type (p.2.values i))).flatten ++ post := by
        rw [List.map_cons, List.flatten_cons, hv]
        simp only [List.append_assoc]
      have hread : readBytes (pre ++ ((p :: ps).map
            (fun p => encodeValue fmt p.2.type (p.2.values i))).flatten ++ post)
            pre.length q.2.type.size = some (encodeValue fmt p.2.type (some v)) := by
        rw [hpacket, ← hpq, ← hlen, List.append_assoc]
        exact readBytes_append pre _ _
      obtain ⟨qs3, r1, r2, r3, r4⟩ := ih qs2
        (done ++ [(q.1, { q.2 with values := setKey q.2.values i v })])
        (pre ++ encodeValue fmt p.2.type (some v)) post hty2
        (fun x hx => hval x (List.mem_cons_of_mem _ hx))
      refine ⟨(q.1, { q.2 with values := setKey q.2.values i v }) :: qs3, ?_, ?_, ?_, ?_⟩
      · rw [readProps, hread]
        simp only
        have hdec2 : decodeValue fmt q.2.type (encodeValue fmt p.2.type (some v)) = v := by
          rw [← hpq]; exact hdec
        rw [hdec2, hpacket]
        have hoff : pre.length + q.2.type.size
            = (pre ++ encodeValue fmt p.2.type (some v)).length := by
          rw [List.length_append, hlen, hpq]
        rw [hoff]
        refine r1.trans ?_
        simp only [List.append_assoc, List.singleton_append, List.length_append,
          List.map_cons, List.flatten_cons, hv, Option.some.injEq, Prod.mk.injEq, true_and]
        omega
      · simp only [List.map_cons, r2]
      · simp only [List.map_cons, r3, hv]
        simp [setKey]
      · intro j hj
        simp only [List.map_cons, r4 j hj]
        simp [setKey, hj]

theorem componentSerializer_struct (fmt : FloatFormat) (ps : List (List Nat × TypedStore))
    (i : Int) :
    createComponentSerializer fmt (.struct ps) i
      = encodeValue fmt .u32 (some i) ++
        (ps.map (fun p => encodeValue fmt p.2.type (p.2.values i))).flatten := by
  unfold createComponentSerializer
  exact foldl_append_eq_flatten (fun p => encodeValue fmt p.2.type (p.2.values i)) ps _

theorem componentDeserializer_spec (fmt : FloatFormat) (c t : Store) (i : Int)
    (pre post : List Nat) (hshape : SameShape c t) (hi : 0 ≤ i ∧ i < 4294967296)
    (hval : c.HoldsAt fmt i) :
    ∃ t2, createComponentDeserializer fmt t
        (pre ++ createComponentSerializer fmt c i ++ post) pre.length none
        = some (t2, (createComponentSerializer fmt c i).length) ∧
      SameShape c t2 ∧ t2.valuesAt i = c.valuesAt i ∧
      ∀ j, j ≠ i → t2.valuesAt j = t.valuesAt j := by
  obtain ⟨hidec, hilen⟩ := decode_encode fmt .u32 i hi
  have hilen4 : (encodeValue fmt .u32 (some i)).length = 4 := hilen
  cases c with
  | array a =>
    cases t with
    | struct qs => cases hshape
    | array b =>
      have hab : a.type = b.type := hshape
      obtain ⟨v, hv, hrep⟩ := hval a (List.mem_singleton.2 rfl)
      obtain ⟨hdec, hlen⟩ := decode_encode fmt a.type v hrep
      have hser : createComponentSerializer fmt (.array a) i
          = encodeValue fmt .u32 (some i) ++ encodeValue fmt a.type (some v) := by
        show encodeValue fmt .u32 (some i) ++ encodeValue fmt a.type (a.values i) = _
        rw [hv]
      have hr1 : readBytes (pre ++ createComponentSerializer fmt (.array a) i ++ post)
          pre.length 4 = some (encodeValue fmt .u32 (some i)) := by
        rw [hser, ← hilen4]
        have := readBytes_append pre (encodeValue fmt .u32 (some i))
          (encodeValue fmt a.type (some v) ++ post)
        simpa only [List.append_assoc] using this
      have hr2 : readBytes (pre ++ createComponentSerializer fmt (.array a) i ++ post)
          (pre.length + 4) b.type.size = some (encodeValue fmt a.type (some v)) := by
        rw [hser, ← hab, ← hlen, ← hilen4, ← List.length_append]
        have := readBytes_append (pre ++ encodeValue fmt .u32 (some i))
          (encodeValue fmt a.type (some v)) post
        simpa only [List.append_assoc] using this
      refine ⟨.array { b with values := setKey b.values i v }, ?_, hab, ?_, ?_⟩
      · unfold createComponentDeserializer
        rw [hr1]
        simp only
        rw [hidec]
        simp only [mapIndex]
        rw [hr2]
        simp only
        rw [← hab, hdec, hser, List.length_append, hilen4, hlen]
      · simp [Store.valuesAt, Store.fields, setKey, hv]
      · intro j hj
        simp [Store.valuesAt, Store.fields, setKey, hj]
  | struct ps =>
    cases t with
    | array b => cases hshape
    | struct qs =>
      have hty : ps.map (fun p => p.2.type) = qs.map (fun p => p.2.type) := hshape
      have hser := componentSerializer_struct fmt ps i
      have hr1 : readBytes (pre ++ createComponentSerializer fmt (.struct ps) i ++ post)
          pre.length 4 = some (encodeValue fmt .u32 (some i)) := by
        rw [hser, ← hilen4]
        have := readBytes_append pre (encodeValue fmt .u32 (some i))
          ((ps.map (fun p => encodeValue fmt p.2.type (p.2.values i))).flatten ++ post)
        simpa only [List.append_assoc] using this
      have hvals : ∀ p, p ∈ ps → ∃ v, p.2.values i = some v ∧ Representable fmt p.2.type v := by
        intro p hp
        exact hval p.2 (List.mem_map.2 ⟨p, hp, rfl⟩)
      obtain ⟨qs2, r1, r2, r3, r4⟩ := readProps_spec fmt i ps qs []
        (pre ++ encodeValue fmt .u32 (some i)) post hty hvals
      refine ⟨.struct qs2, ?_, (hty.trans r2.symm : ps.map (fun p => p.2.type) = _), ?_, ?_⟩
      · unfold createComponentDeserializer
        rw [hr1]
        simp only
        rw [hidec]
        simp only [mapIndex]
        have hoff : pre.length + 4 = (pre ++ encodeValue fmt .u32 (some i)).length := by
          rw [List.length_append, hilen4]
        have hpk : pre ++ createComponentSerializer fmt (.struct ps) i ++ post
            = pre ++ encodeValue fmt .u32 (some i) ++
              (ps.map (fun p => encodeValue fmt p.2.type (p.2.values i))).flatten ++ post := by
          rw [hser]
          simp only [List.append_assoc]
        rw [hoff, hpk, r1]
        simp only [List.nil_append, List.length_append, hser, Option.some.injEq, Prod.mk.injEq,
          true_and]
        omega
      · simp only [Store.valuesAt, Store.fields, List.map_map]
        exact r3
      · intro j hj
        simp only [Store.valuesAt, Store.fields, List.map_map]
        exact r4 j hj

theorem componentSerializer_length_pos (fmt : FloatFormat) (c : Store) (i : Int)
    (hi : 0 ≤ i ∧ i < 4294967296) : 0 < (createComponentSerializer fmt c i).length := by
  have h4 : (encodeValue fmt .u32 (some i)).length = 4 := (decode_encode fmt .u32 i hi).2
  cases c with
  | array a =>
    show 0 < (encodeValue fmt .u32 (some i) ++ encodeValue fmt a.type (a.values i)).length
    rw [List.length_append, h4]
    omega
  | struct ps =>
    rw [componentSerializer_struct, List.length_append, h4]
    omega

theorem readComponents_spec (fmt : FloatFormat) (i : Int) (hi : 0 ≤ i ∧ i < 4294967296) :
    ∀ (cs ts done : List Store) (pre post : List Nat),
      List.Forall₂ SameShape cs ts → (∀ c, c ∈ cs → c.HoldsAt fmt i) →
      ∃ ts2, readComponents fmt
          (pre ++ (cs.map (fun c => createComponentSerializer fmt c i)).flatten ++ post)
          none done ts pre.length
          = some (done ++ ts2,
              pre.length + (cs.map (fun c => createComponentSerializer fmt c i)).flatten.length) ∧
        List.Forall₂ SameShape cs ts2 ∧
        ts2.map (fun s => s.valuesAt i) = cs.map (fun s => s.valuesAt i) ∧
        ∀ j, j ≠ i → ts2.map (fun s => s.valuesAt j) = ts.map (fun s => s.valuesAt j) := by
  intro cs
  induction cs with
  | nil =>
    intro ts done pre post hsh _
    cases hsh
    refine ⟨[], ?_, List.Forall₂.nil, rfl, fun j _ => rfl⟩
    simp [readComponents]
  | cons c cs ih =>
    intro ts done pre post hsh hval
    cases hsh with
    | cons hct hrest =>
      rename_i t ts1
      have hpk : pre ++ ((c :: cs).map (fun c => createComponentSerializer fmt c i)).flatten ++ post
          = pre ++ createComponentSerializer fmt c i ++
            ((cs.map (fun c => createComponentSerializer fmt c i)).flatten ++ post) := by
        simp only [List.map_cons, List.flatten_cons, List.append_assoc]
      obtain ⟨t2, d1, d2, d3, d4⟩ := componentDeserializer_spec fmt c t i pre
        ((cs.map (fun c => createComponentSerializer fmt c i)).flatten ++ post) hct hi
        (hval c (List.mem_cons_self _ _))
      obtain ⟨ts3, r1, r2, r3, r4⟩ := ih ts1 (done ++ [t2])
        (pre ++ createComponentSerializer fmt c i) post hrest
        (fun x hx => hval x (List.mem_cons_of_mem _ hx))
      refine ⟨t2 :: ts3, ?_, List.Forall₂.cons d2 r2, ?_, ?_⟩
      · rw [readComponents, hpk, d1]
        simp only
        have hoff : pre.length + (createComponentSerializer fmt c i).length
            = (pre ++ createComponentSerializer fmt c i).length := by
          rw [List.length_append]
        rw [hoff]
        have hpk2 : pre ++ createComponentSerializer fmt c i ++
            ((cs.map (fun c => createComponentSerializer fmt c i)).flatten ++ post)
            = pre ++ createComponentSerializer fmt c i ++
              (cs.map (fun c => createComponentSerializer fmt c i)).flatten ++ post := by
          simp only [List.append_assoc]
        rw [hpk2]
        refine r1.trans ?_
        simp only [List.append_assoc, List.singleton_append, List.length_append,
          List.map_cons, List.flatten_cons, Option.some.injEq, Prod.mk.injEq, true_and]
        omega
      · simp only [List.map_cons, r3, d3]
      · intro j hj
        simp only [List.map_cons, r4 j hj, d4 j hj]

theorem soaSerializer_flatten (fmt : FloatFormat) (components : List Store)
    (indices : List Int) :
    createSoASerializer fmt components indices
      = (indices.map (fun i =>
          (components.map (fun c => createComponentSerializer fmt c i)).flatten)).flatten := by
  unfold createSoASerializer
  have hinner : ∀ (packet : List Nat) (index : Int),
      components.foldl (fun packet component =>
        packet ++ createComponentSerializer fmt component index) packet
      = packet ++ (components.map (fun c => createComponentSerializer fmt c index)).flatten :=
    fun packet index =>
      foldl_append_eq_flatten (fun c => createComponentSerializer fmt c index) components packet
  simp only [hinner]
  rw [foldl_append_eq_flatten]
  simp

theorem soaDeserializer_spec (fmt : FloatFormat) (c0 : Store) (cs0 : List Store) :
    ∀ (indices : List Int) (ts : List Store) (pre : List Nat),
      List.Forall₂ SameShape (c0 :: cs0) ts →
      (∀ i, i ∈ indices → 0 ≤ i ∧ i < 4294967296) →
      (∀ c, c ∈ c0 :: cs0 → ∀ i, i ∈ indices → c.HoldsAt fmt i) →
      ∃ result, createSoADeserializer fmt
          (pre ++ (indices.map (fun i =>
            ((c0 :: cs0).map (fun c => createComponentSerializer fmt c i)).flatten)).flatten)
          none indices.length ts pre.length = some result ∧
        List.Forall₂ SameShape (c0 :: cs0) result ∧
        (∀ i, i ∈ indices →
          result.map (fun s => s.valuesAt i) = (c0 :: cs0).map (fun s => s.valuesAt i)) ∧
        (∀ j, j ∉ indices →
          result.map (fun s => s.valuesAt j) = ts.map (fun s => s.valuesAt j)) := by
  intro indices
  induction indices with
  | nil =>
    intro ts pre hsh _ _
    refine ⟨ts, ?_, hsh, fun i hi => absurd hi (List.not_mem_nil _), fun j _ => rfl⟩
    simp [createSoADeserializer]
  | cons i rest ih =>
    intro ts pre hsh hidx hval
    have hi := hidx i (List.mem_cons_self _ _)
    obtain ⟨ts2, r1, r2, r3, r4⟩ := readComponents_spec fmt i hi (c0 :: cs0) ts [] pre
      ((rest.map (fun i =>
        ((c0 :: cs0).map (fun c => createComponentSerializer fmt c i)).flatten)).flatten) hsh
      (fun c hc => hval c hc i (List.mem_cons_self _ _))
    obtain ⟨result, s1, s2, s3, s4⟩ := ih ts2
      (pre ++ ((c0 :: cs0).map (fun c => createComponentSerializer fmt c i)).flatten) r2
      (fun x hx => hidx x (List.mem_cons_of_mem _ hx))
      (fun c hc x hx => hval c hc x (List.mem_cons_of_mem _ hx))
    have hpos : 0 < (((c0 :: cs0).map (fun c => createComponentSerializer fmt c i)).flatten).length := by
      rw [List.map_cons, List.flatten_cons, List.length_append]
      have := componentSerializer_length_pos fmt c0 i hi
      omega
    have hpk : pre ++ (((i :: rest).map (fun i =>
          ((c0 :: cs0).map (fun c => createComponentSerializer fmt c i)).flatten)).flatten)
        = pre ++ ((c0 :: cs0).map (fun c => createComponentSerializer fmt c i)).flatten ++
          (rest.map (fun i =>
            ((c0 :: cs0).map (fun c => createComponentSerializer fmt c i)).flatten)).flatten := by
      rw [List.map_cons, List.flatten_cons, List.append_assoc]
    refine ⟨result, ?_, s2, ?_, ?_⟩
    · rw [List.length_cons, createSoADeserializer, hpk]
      rw [if_pos (by simp only [List.length_append]; omega), r1]
      simp only [List.nil_append]
      rw [← List.length_append]
      exact s1
    · intro x hx
      by_cases hxr : x ∈ rest
      · exact s3 x hxr
      · have hxi : x = i := by
          rcases List.mem_cons.1 hx with h | h
          · exact h
          · exact absurd h hxr
        rw [hxi] at hxr ⊢
        rw [s4 i hxr, r3]
    · intro j hj
      have hj1 : j ≠ i := fun h => hj (h ▸ List.mem_cons_self _ _)
      have hj2 : j ∉ rest := fun h => hj (List.mem_cons_of_mem _ h)
      rw [s4 j hj2, r4 j hj1]

theorem sameShape_fresh (c : Store) : SameShape c c.fresh := by
  cases c with
  | array a => rfl
  | struct ps =>
    show ps.map (fun p => p.2.type)
      = (ps.map (fun (p : List Nat × TypedStore) =>
          (p.1, ({ p.2 with values := fun _ => none } : TypedStore)))).map (fun p => p.2.type)
    rw [List.map_map]
    rfl

/-- C7: for every list of entity indices below `2^32` and every list of components (each
one array or an object of arrays) whose fields hold, for the listed indices, values that
are representable in their wire type, the deserializer of `createSoADeserializer` built
over fresh stores of the same shape reads the packet of `createSoASerializer` to its end
and leaves, for every listed index and every field, the value the source store holds. -/
theorem soa_round_trip (fmt : FloatFormat) (components : List Store) (indices : List Int)
    (hidx : ∀ i, i ∈ indices → 0 ≤ i ∧ i < 4294967296)
    (hval : ∀ c, c ∈ components → ∀ i, i ∈ indices → c.HoldsAt fmt i) :
    ∃ result, createSoADeserializer fmt (createSoASerializer fmt components indices) none
        indices.length (components.map Store.fresh) 0 = some result ∧
      ∀ i, i ∈ indices →
        result.map (fun s => s.valuesAt i) = components.map (fun s => s.valuesAt i) := by
  rw [soaSerializer_flatten]
  cases components with
  | nil =>
    refine ⟨[], ?_, fun i _ => rfl⟩
    have hempty : (indices.map (fun i =>
        (([] : List Store).map (fun c => createComponentSerializer fmt c i)).flatten)).flatten
        = [] := by
      induction indices with
      | nil => rfl
      | cons i rest ih =>
        rw [List.map_cons, List.flatten_cons]
        exact ih (fun x hx => hidx x (List.mem_cons_of_mem _ hx))
          (fun c hc => absurd hc (List.not_mem_nil _))
    rw [hempty]
    cases indices <;> simp [createSoADeserializer]
  | cons c0 cs0 =>
    have hsh : List.Forall₂ SameShape (c0 :: cs0) ((c0 :: cs0).map Store.fresh) := by
      rw [List.forall₂_map_right_iff]
      exact List.forall₂_same.2 (fun c _ => sameShape_fresh c)
    obtain ⟨result, s1, _, s3, _⟩ := soaDeserializer_spec fmt c0 cs0 indices _ [] hsh hidx hval
    exact ⟨result, by simpa using s1, s3⟩

theorem soa_round_trip_witness :
    ∃ result, createSoADeserializer plainFloats
        (createSoASerializer plainFloats
          [Store.struct [([120], { type := .i16, values := fun k => if k = 5 then some (-3) else none }),
            ([121], { type := .u8, values := fun k => if k = 5 then some 2 else none })]] [5])
        none [(5 : Int)].length
        ([Store.struct [([120], { type := .i16, values := fun k => if k = 5 then some (-3) else none }),
          ([121], { type := .u8, values := fun k => if k = 5 then some 2 else none })]].map
            Store.fresh) 0 = some result ∧
      ∀ i, i ∈ [(5 : Int)] →
        result.map (fun s => s.valuesAt i)
          = [Store.struct [([120], { type := .i16, values := fun k => if k = 5 then some (-3) else none }),
            ([121], { type := .u8, values := fun k => if k = 5 then some 2 else none })]].map
              (fun s => s.valuesAt i) :=
  soa_round_trip plainFloats _ [5]
    (by
      intro i hi
      rw [List.mem_singleton] at hi
      subst hi
      decide)
    (by
      intro c hc i hi
      rw [List.mem_singleton] at hc hi
      subst hc hi
      intro a ha
      simp only [Store.fields, List.map_cons, List.map_nil, List.mem_cons, List.mem_singleton,
        List.not_mem_nil, or_false] at ha
      rcases ha with h | h
      · subst h
        exact ⟨-3, rfl, (by decide : (-32768 : Int) ≤ -3 ∧ (-3 : Int) < 32768)⟩
      · subst h
        exact ⟨2, rfl, (by decide : (0 : Int) ≤ 2 ∧ (2 : Int) < 256)⟩)

/-! ## Replay of an observer packet -/

theorem record_addEntity (fmt : FloatFormat) (fuel : Nat) (tag : Component) (packet : List Nat)
    (state : DecodeState) (offset : Nat) (p : Int) (w2 : World)
    (h1 : readValue fmt .u32 packet offset = .ok p)
    (h2 : readValue fmt .u8 packet (offset + 4) = .ok 0)
    (h3 : mapGet state.mapping p = none)
    (h4 : addComponent fuel (addEntity state.world).2 (addEntity state.world).1 [tag] = .ok w2) :
    readObserverRecord fmt fuel tag packet state offset
      = .ok ({ state with world := w2, mapping := mapSet state.mapping p (addEntity state.world).1 },
          offset + 4 + 1) := by
  unfold readObserverRecord
  simp [h1, h2, h3, h4, bind, Except.bind, pure, Except.pure, liftWorld]

theorem record_addComponent (fmt : FloatFormat) (fuel : Nat) (tag : Component)
    (packet : List Nat) (state : DecodeState) (offset : Nat) (p x eid : Int)
    (c : NetComponent) (w2 : World)
    (h1 : readValue fmt .u32 packet offset = .ok p)
    (h2 : readValue fmt .u8 packet (offset + 4) = .ok 2)
    (h3 : readValue fmt .u8 packet (offset + 4 + 1) = .ok x)
    (hx : 0 ≤ x)
    (h4 : mapGet state.mapping p = some eid)
    (h5 : entityExists state.world eid = true)
    (h6 : state.components.get? x.toNat = some c)
    (h7 : addComponent fuel state.world eid [c.component] = .ok w2) :
    readObserverRecord fmt fuel tag packet state offset
      = .ok ({ state with world := w2 }, offset + 4 + 1 + 1) := by
  unfold readObserverRecord
  have hx2 : ¬ x < 0 := not_lt.2 hx
  have h6b : state.components[x.toNat]? = some c := by
    rw [← List.get?_eq_getElem?]; exact h6
  simp [h1, h2, h3, h4, h5, h6b, h7, hx2, bind, Except.bind, pure, Except.pure, liftWorld]

theorem record_removeComponent (fmt : FloatFormat) (fuel : Nat) (tag : Component)
    (packet : List Nat) (state : DecodeState) (offset : Nat) (p x eid : Int)
    (c : NetComponent) (w2 : World)
    (h1 : readValue fmt .u32 packet offset = .ok p)
    (h2 : readValue fmt .u8 packet (offset + 4) = .ok 3)
    (h3 : readValue fmt .u8 packet (offset + 4 + 1) = .ok x)
    (hx : 0 ≤ x)
    (h4 : mapGet state.mapping p = some eid)
    (h5 : entityExists state.world eid = true)
    (h6 : state.components.get? x.toNat = some c)
    (h7 : removeComponent fuel state.world eid [c.component] = .ok w2) :
    readObserverRecord fmt fuel tag packet state offset
      = .ok ({ state with world := w2 }, offset + 4 + 1 + 1) := by
  unfold readObserverRecord
  have hx2 : ¬ x < 0 := not_lt.2 hx
  have h6b : state.components[x.toNat]? = some c := by
    rw [← List.get?_eq_getElem?]; exact h6
  simp [h1, h2, h3, h4, h5, h6b, h7, hx2, bind, Except.bind, pure, Except.pure, liftWorld]

theorem record_removeEntity (fmt : FloatFormat) (fuel : Nat) (tag : Component)
    (packet : List Nat) (state : DecodeState) (offset : Nat) (p eid : Int) (w2 : World)
    (h1 : readValue fmt .u32 packet offset = .ok p)
    (h2 : readValue fmt .u8 packet (offset + 4) = .ok 1)
    (h4 : mapGet state.mapping p = some eid)
    (h5 : entityExists state.world eid = true)
    (h7 : removeEntity fuel state.world eid = .ok w2) :
    readObserverRecord fmt fuel tag packet state offset
      = .ok ({ state with world := w2, mapping := mapDelete state.mapping p }, offset + 4 + 1) := by
  unfold readObserverRecord
  simp [h1, h2, h4, h5, h7, bind, Except.bind, pure, Except.pure, liftWorld]

theorem readValue_at (fmt : FloatFormat) (type : WireType) (v : Int) (pre post : List Nat)
    (k : Nat) (hk : pre.length = k) (hrep : Representable fmt type v) :
    readValue fmt type (pre ++ encodeValue fmt type (some v) ++ post) k = .ok v := by
  obtain ⟨hdec, hlen⟩ := decode_encode fmt type v hrep
  unfold readValue
  rw [← hk, ← hlen, readBytes_append]
  simp only
  rw [hdec]

theorem registerComponent_queries (w : World) (c : Component) :
    (registerComponent w c).2.queries = w.queries := by
  unfold registerComponent
  simp only
  split <;> rfl

theorem ensureRegistered_queries (w : World) (c : Component) :
    (ensureRegistered w c).queries = w.queries := by
  unfold ensureRegistered
  split
  · rfl
  · exact registerComponent_queries w c

theorem attach_quiet (w : World) (e : Int) (c : Component) (w1 : World) (b : Bool)
    (hat : attach w e c = .ok (w1, b)) :
    w1.queries = w.queries ∧ w1.entitiesWithRelations = w.entitiesWithRelations := by
  obtain ⟨_, _, _, _, f5⟩ := ensureRegistered_fields w c
  have f6 := ensureRegistered_queries w c
  rcases attach_fields w e c w1 b hat with ⟨_, _, hw⟩ | ⟨_, _, d, cs, qs, dq, _, _, hw⟩
  · rw [hw]; exact ⟨f6, f5⟩
  · rw [hw]; exact ⟨f6, f5⟩

theorem detach_quiet (w : World) (e : Int) (c : Component) (w1 : World)
    (hdt : detach w e c = .ok w1) :
    w1.queries = w.queries ∧ w1.entitiesWithRelations = w.entitiesWithRelations := by
  obtain ⟨d, cs, qs, dq, _, _, hw⟩ := detach_fields w e c w1 hdt
  rw [hw]
  exact ⟨rfl, rfl⟩

/-- `addComponent` and `removeComponent` of a component that is not a pair and does not
wrap one under a key `component`, on an entity that exists in a well-formed world: both
return, and they keep the entity index, the registered queries and
`entitiesWithRelations`. -/
theorem plain_calls_quiet (fuel : Nat) (w : World) (e : Int) (c : Component) (h : WorldInv w)
    (he : entityExists w e = true) (hcu : c.unwrap.isPairComponent = false) :
    (∃ wa, addComponent (fuel + 2) w e [c] = .ok wa ∧ WorldInv wa ∧
      wa.entityIndex = w.entityIndex ∧ wa.queries = w.queries ∧
      wa.entitiesWithRelations = w.entitiesWithRelations) ∧
    (∃ wr, removeComponent (fuel + 2) w e [c] = .ok wr ∧ WorldInv wr ∧
      wr.entityIndex = w.entityIndex ∧ wr.queries = w.queries ∧
      wr.entitiesWithRelations = w.entitiesWithRelations) := by
  have hc : c.isPairComponent = false := unwrap_not_pair c hcu
  constructor
  · obtain ⟨wa, b, hat⟩ := attach_ok w e c.unwrap h he
    have hp := Prim.attach w e c.unwrap wa b he hat
    obtain ⟨q1, q2⟩ := attach_quiet w e c.unwrap wa b hat
    exact ⟨wa, addComponent_plain fuel w e c he hcu wa b hat, worldInv_prim hp h,
      prim_entityIndex hp, q1, q2⟩
  · have hrem := removeComponent_plain fuel w e c he hc
    cases hh : hasComponent w e c with
    | false =>
      rw [hh] at hrem
      exact ⟨w, hrem, h, rfl, rfl, rfl⟩
    | true =>
      rw [hh] at hrem
      simp only [↓reduceIte] at hrem
      obtain ⟨wr, hdt⟩ := detach_ok w e c h he hh
      have hp := Prim.detach w e c wr he hh hdt
      obtain ⟨q1, q2⟩ := detach_quiet w e c wr hdt
      exact ⟨wr, by rw [hrem]; exact hdt, worldInv_prim hp h, prim_entityIndex hp, q1, q2⟩

theorem removeEntity_simple (fuel : Nat) (w : World) (e : Int)
    (halive : entityExists w e = true) (hq : w.queries = [])
    (hr : w.entitiesWithRelations = []) :
    removeEntity (fuel + 3) w e = .ok (eraseEntity w e) := by
  have ha2 : isEntityIdAlive w.entityIndex e = true := halive
  rw [removeEntity]
  simp only [ha2, Bool.not_true, Bool.false_eq_true, ↓reduceIte]
  rw [removeEntityLoop]
  simp only [List.not_mem_nil, ↓reduceIte, hr, List.nil_append, List.append_nil]
  simp only [pure, Except.pure, bind, Except.bind, List.foldlM_nil, hq, List.foldl_nil]
  rw [removeEntityLoop]
  unfold eraseEntity
  rw [hq]

theorem enc32_length (fmt : FloatFormat) (v : Int) :
    (encodeValue fmt .u32 (some v)).length = 4 := bytesBE_length _ _

theorem enc8_length (fmt : FloatFormat) (v : Int) :
    (encodeValue fmt .u8 (some v)).length = 1 := bytesBE_length _ _

theorem loop_step (fmt : FloatFormat) (fuel : Nat) (tag : Component) (packet : List Nat)
    (rounds : Nat) (state s1 : DecodeState) (offset o1 : Nat) (hlt : offset < packet.length)
    (h : readObserverRecord fmt fuel tag packet state offset = .ok (s1, o1)) :
    createObserverDeserializer fmt fuel tag packet (rounds + 1) state offset
      = createObserverDeserializer fmt fuel tag packet rounds s1 o1 := by
  rw [createObserverDeserializer, if_pos hlt, h]

theorem loop_end (fmt : FloatFormat) (fuel : Nat) (tag : Component) (packet : List Nat)
    (rounds : Nat) (state : DecodeState) (offset : Nat) (hge : ¬ offset < packet.length) :
    createObserverDeserializer fmt fuel tag packet rounds state offset = .ok state := by
  cases rounds with
  | zero => rw [createObserverDeserializer, if_neg hge]
  | succ r => rw [createObserverDeserializer, if_neg hge]

/-- The packet of the four records, segment by segment, and what the reads at the
offsets of its fields return. -/
theorem replay_packet (fmt : FloatFormat) (p x : Int) (hp : 0 ≤ p ∧ p < 4294967296)
    (hx : 0 ≤ x ∧ x < 256) :
    (flushQueue fmt
      [{ entityId := p, type := .AddEntity, componentId := -1, targetId := none, relationData := none },
        { entityId := p, type := .AddComponent, componentId := x, targetId := none, relationData := none },
        { entityId := p, type := .RemoveComponent, componentId := x, targetId := none, relationData := none },
        { entityId := p, type := .RemoveEntity, componentId := -1, targetId := none, relationData := none }]).length = 22 ∧
    readValue fmt .u32 (flushQueue fmt
      [{ entityId := p, type := .AddEntity, componentId := -1, targetId := none, relationData := none },
        { entityId := p, type := .AddComponent, componentId := x, targetId := none, relationData := none },
        { entityId := p, type := .RemoveComponent, componentId := x, targetId := none, relationData := none },
        { entityId := p, type := .RemoveEntity, componentId := -1, targetId := none, relationData := none }]) 0 = .ok p ∧
    readValue fmt .u8 (flushQueue fmt
      [{ entityId := p, type := .AddEntity, componentId := -1, targetId := none, relationData := none },
        { entityId := p, type := .AddComponent, componentId := x, targetId := none, relationData := none },
        { entityId := p, type := .RemoveComponent, componentId := x, targetId := none, relationData := none },
        { entityId := p, type := .RemoveEntity, componentId := -1, targetId := none, relationData := none }]) 4 = .ok 0 ∧
    readValue fmt .u32 (flushQueue fmt
      [{ entityId := p, type := .AddEntity, componentId := -1, targetId := none, relationData := none },
        { entityId := p, type := .AddComponent, componentId := x, targetId := none, relationData := none },
        { entityId := p, type := .RemoveComponent, componentId := x, targetId := none, relationData := none },
        { entityId := p, type := .RemoveEntity, componentId := -1, targetId := none, relationData := none }]) 5 = .ok p ∧
    readValue fmt .u8 (flushQueue fmt
      [{ entityId := p, type := .AddEntity, componentId := -1, targetId := none, relationData := none },
        { entityId := p, type := .AddComponent, componentId := x, targetId := none, relationData := none },
        { entityId := p, type := .RemoveComponent, componentId := x, targetId := none, relationData := none },
        { entityId := p, type := .RemoveEntity, componentId := -1, targetId := none, relationData := none }]) 9 = .ok 2 ∧
    readValue fmt .u8 (flushQueue fmt
      [{ entityId := p, type := .AddEntity, componentId := -1, targetId := none, relationData := none },
        { entityId := p, type := .AddComponent, componentId := x, targetId := none, relationData := none },
        { entityId := p, type := .RemoveComponent, componentId := x, targetId := none, relationData := none },
        { entityId := p, type := .RemoveEntity, componentId := -1, targetId := none, relationData := none }]) 10 = .ok x ∧
    readValue fmt .u32 (flushQueue fmt
      [{ entityId := p, type := .AddEntity, componentId := -1, targetId := none, relationData := none },
        { entityId := p, type := .AddComponent, componentId := x, targetId := none, relationData := none },
        { entityId := p, type := .RemoveComponent, componentId := x, targetId := none, relationData := none },
        { entityId := p, type := .RemoveEntity, componentId := -1, targetId := none, relationData := none }]) 11 = .ok p ∧
    readValue fmt .u8 (flushQueue fmt
      [{ entityId := p, type := .AddEntity, componentId := -1, targetId := none, relationData := none },
        { entityId := p, type := .AddComponent, componentId := x, targetId := none, relationData := none },
        { entityId := p, type := .RemoveComponent, componentId := x, targetId := none, relationData := none },
        { entityId := p, type := .RemoveEntity, componentId := -1, targetId := none, relationData := none }]) 15 = .ok 3 ∧
    readValue fmt .u8 (flushQueue fmt
      [{ entityId := p, type := .AddEntity, componentId := -1, targetId := none, relationData := none },
        { entityId := p, type := .AddComponent, componentId := x, targetId := none, relationData := none },
        { entityId := p, type := .RemoveComponent, componentId := x, targetId := none, relationData := none },
        { entityId := p, type := .RemoveEntity, componentId := -1, targetId := none, relationData := none }]) 16 = .ok x ∧
    readValue fmt .u32 (flushQueue fmt
      [{ entityId := p, type := .AddEntity, componentId := -1, targetId := none, relationData := none },
        { entityId := p, type := .AddComponent, componentId := x, targetId := none, relationData := none },
        { entityId := p, type := .RemoveComponent, componentId := x, targetId := none, relationData := none },
        { entityId := p, type := .RemoveEntity, componentId := -1, targetId := none, relationData := none }]) 17 = .ok p ∧
    readValue fmt .u8 (flushQueue fmt
      [{ entityId := p, type := .AddEntity, componentId := -1, targetId := none, relationData := none },
        { entityId := p, type := .AddComponent, componentId := x, targetId := none, relationData := none },
        { entityId := p, type := .RemoveComponent, componentId := x, targetId := none, relationData := none },
        { entityId := p, type := .RemoveEntity, componentId := -1, targetId := none, relationData := none }]) 21 = .ok 1 := by
  have hpk : flushQueue fmt
      [{ entityId := p, type := .AddEntity, componentId := -1, targetId := none, relationData := none },
        { entityId := p, type := .AddComponent, componentId := x, targetId := none, relationData := none },
        { entityId := p, type := .RemoveComponent, componentId := x, targetId := none, relationData := none },
        { entityId := p, type := .RemoveEntity, componentId := -1, targetId := none, relationData := none }]
      = encodeValue fmt .u32 (some p) ++ (encodeValue fmt .u8 (some 0) ++ (encodeValue fmt .u32 (some p) ++ (encodeValue fmt .u8 (some 2) ++ (encodeValue fmt .u8 (some x) ++ (encodeValue fmt .u32 (some p) ++ (encodeValue fmt .u8 (some 3) ++ (encodeValue fmt .u8 (some x) ++ (encodeValue fmt .u32 (some p) ++ (encodeValue fmt .u8 (some 1)))))))))) := by
    simp [flushQueue, writeQueueEntry, OperationType.code]
  rw [hpk]
  have r0 : Representable fmt .u8 0 := by constructor <;> decide
  have r1 : Representable fmt .u8 1 := by constructor <;> decide
  have r2 : Representable fmt .u8 2 := by constructor <;> decide
  have r3 : Representable fmt .u8 3 := by constructor <;> decide
  have rp : Representable fmt .u32 p := hp
  have rx : Representable fmt .u8 x := hx
  refine ⟨by simp [enc32_length, enc8_length], ?_, ?_, ?_, ?_, ?_, ?_, ?_, ?_, ?_, ?_⟩
  · have h := readValue_at fmt .u32 p [] (encodeValue fmt .u8 (some 0) ++ encodeValue fmt .u32 (some p) ++ encodeValue fmt .u8 (some 2) ++ encodeValue fmt .u8 (some x) ++ encodeValue fmt .u32 (some p) ++ encodeValue fmt .u8 (some 3) ++ encodeValue fmt .u8 (some x) ++ encodeValue fmt .u32 (some p) ++ encodeValue fmt .u8 (some 1)) 0
      (by simp [enc32_length, enc8_length]) rp
    simpa only [List.append_assoc, List.nil_append, List.append_nil] using h
  · have h := readValue_at fmt .u8 0 (encodeValue fmt .u32 (some p)) (encodeValue fmt .u32 (some p) ++ encodeValue fmt .u8 (some 2) ++ encodeValue fmt .u8 (some x) ++ encodeValue fmt .u32 (some p) ++ encodeValue fmt .u8 (some 3) ++ encodeValue fmt .u8 (some x) ++ encodeValue fmt .u32 (some p) ++ encodeValue fmt .u8 (some 1)) 4
      (by simp [enc32_length, enc8_length]) r0
    simpa only [List.append_assoc, List.nil_append, List.append_nil] using h
  · have h := readValue_at fmt .u32 p (encodeValue fmt .u32 (some p) ++ encodeValue fmt .u8 (some 0)) (encodeValue fmt .u8 (some 2) ++ encodeValue fmt .u8 (some x) ++ encodeValue fmt .u32 (some p) ++ encodeValue fmt .u8 (some 3) ++ encodeValue fmt .u8 (some x) ++ encodeValue fmt .u32 (some p) ++ encodeValue fmt .u8 (some 1)) 5
      (by simp [enc32_length, enc8_length]) rp
    simpa only [List.append_assoc, List.nil_append, List.append_nil] using h
  · have h := readValue_at fmt .u8 2 (encodeValue fmt .u32 (some p) ++ encodeValue fmt .u8 (some 0) ++ encodeValue fmt .u32 (some p)) (encodeValue fmt .u8 (some x) ++ encodeValue fmt .u32 (some p) ++ encodeValue fmt .u8 (some 3) ++ encodeValue fmt .u8 (some x) ++ encodeValue fmt .u32 (some p) ++ encodeValue fmt .u8 (some 1)) 9
      (by simp [enc32_length, enc8_length]) r2
    simpa only [List.append_assoc, List.nil_append, List.append_nil] using h
  · have h := readValue_at fmt .u8 x (encodeValue fmt .u32 (some p) ++ encodeValue fmt .u8 (some 0) ++ encodeValue fmt .u32 (some p) ++ encodeValue fmt .u8 (some 2)) (encodeValue fmt .u32 (some p) ++ encodeValue fmt .u8 (some 3) ++ encodeValue fmt .u8 (some x) ++ encodeValue fmt .u32 (some p) ++ encodeValue fmt .u8 (some 1)) 10
      (by simp [enc32_length, enc8_length]) rx
    simpa only [List.append_assoc, List.nil_append, List.append_nil] using h
  · have h := readValue_at fmt .u32 p (encodeValue fmt .u32 (some p) ++ encodeValue fmt .u8 (some 0) ++ encodeValue fmt .u32 (some p) ++ encodeValue fmt .u8 (some 2) ++ encodeValue fmt .u8 (some x)) (encodeValue fmt .u8 (some 3) ++ encodeValue fmt .u8 (some x) ++ encodeValue fmt .u32 (some p) ++ encodeValue fmt .u8 (some 1)) 11
      (by simp [enc32_length, enc8_length]) rp
    simpa only [List.append_assoc, List.nil_append, List.append_nil] using h
  · have h := readValue_at fmt .u8 3 (encodeValue fmt .u32 (some p) ++ encodeValue fmt .u8 (some 0) ++ encodeValue fmt .u32 (some p) ++ encodeValue fmt .u8 (some 2) ++ encodeValue fmt .u8 (some x) ++ encodeValue fmt .u32 (some p)) (encodeValue fmt .u8 (some x) ++ encodeValue fmt .u32 (some p) ++ encodeValue fmt .u8 (some 1)) 15
      (by simp [enc32_length, enc8_length]) r3
    simpa only [List.append_assoc, List.nil_append, List.append_nil] using h
  · have h := readValue_at fmt .u8 x (encodeValue fmt .u32 (some p) ++ encodeValue fmt .u8 (some 0) ++ encodeValue fmt .u32 (some p) ++ encodeValue fmt .u8 (some 2) ++ encodeValue fmt .u8 (some x) ++ encodeValue fmt .u32 (some p) ++ encodeValue fmt .u8 (some 3)) (encodeValue fmt .u32 (some p) ++ encodeValue fmt .u8 (some 1)) 16
      (by simp [enc32_length, enc8_length]) rx
    simpa only [List.append_assoc, List.nil_append, List.append_nil] using h
  · have h := readValue_at fmt .u32 p (encodeValue fmt .u32 (some p) ++ encodeValue fmt .u8 (some 0) ++ encodeValue fmt .u32 (some p) ++ encodeValue fmt .u8 (some 2) ++ encodeValue fmt .u8 (some x) ++ encodeValue fmt .u32 (some p) ++ encodeValue fmt .u8 (some 3) ++ encodeValue fmt .u8 (some x)) (encodeValue fmt .u8 (some 1)) 17
      (by simp [enc32_length, enc8_length]) rp
    simpa only [List.append_assoc, List.nil_append, List.append_nil] using h
  · have h := readValue_at fmt .u8 1 (encodeValue fmt .u32 (some p) ++ encodeValue fmt .u8 (some 0) ++ encodeValue fmt .u32 (some p) ++ encodeValue fmt .u8 (some 2) ++ encodeValue fmt .u8 (some x) ++ encodeValue fmt .u32 (some p) ++ encodeValue fmt .u8 (some 3) ++ encodeValue fmt .u8 (some x) ++ encodeValue fmt .u32 (some p)) [] 21
      (by simp [enc32_length, enc8_length]) r1
    simpa only [List.append_assoc, List.nil_append, List.append_nil] using h

theorem no_entity_after_erase (w : World) (h : WorldInv w)
    (hix : w.entityIndex = (addEntity createWorld).2.entityIndex) :
    (∀ e, entityExists (eraseEntity w 1) e = false) ∧ getAllEntities (eraseEntity w 1) = [] := by
  have hinv := worldInv_eraseEntity w 1 h
  have hnone : ∀ e, entityExists (eraseEntity w 1) e = false := by
    intro e
    rw [← Bool.not_eq_true, entityExists_iff hinv]
    show e ∉ aliveIds (removeEntityId w.entityIndex 1)
    rw [hix]
    intro hmem
    have hnil : aliveIds (removeEntityId (addEntity createWorld).2.entityIndex 1) = [] := by
      decide
    rw [hnil] at hmem
    exact absurd hmem (List.not_mem_nil _)
  refine ⟨hnone, ?_⟩
  apply List.eq_nil_iff_forall_not_mem.2
  intro e he
  have := ((worldInv_agree hinv).1 e).1 he
  rw [hnone e] at this
  cases this

/-- C6: for a packet id `p` below `2^32`, a component index `x` of the component list
(below 256) whose component is not a pair, and a tag that is not a pair (neither of them
an object that holds a pair under a key `component`): the deserializer
of `createObserverDeserializer`, on an empty world and an empty mapping, reads the packet
of the records `AddEntity(p)`, `AddComponent(p, x)`, `RemoveComponent(p, x)`,
`RemoveEntity(p)` to its end and returns; no entity exists in the world it leaves,
`getAllEntities` is empty and the id mapping is empty. -/
theorem observer_replay_leaves_empty_world (fmt : FloatFormat) (fuel : Nat) (tag : Component)
    (components : List NetComponent) (p x : Int) (c : NetComponent)
    (hp : 0 ≤ p ∧ p < 4294967296) (hx : 0 ≤ x ∧ x < 256)
    (hc : components.get? x.toNat = some c) (htag : tag.unwrap.isPairComponent = false)
    (hcp : c.component.unwrap.isPairComponent = false) :
    ∃ state, createObserverDeserializer fmt (fuel + 3) tag
        (flushQueue fmt
          [{ entityId := p, type := .AddEntity, componentId := -1, targetId := none, relationData := none },
            { entityId := p, type := .AddComponent, componentId := x, targetId := none, relationData := none },
            { entityId := p, type := .RemoveComponent, componentId := x, targetId := none, relationData := none },
            { entityId := p, type := .RemoveEntity, componentId := -1, targetId := none, relationData := none }])
        4 { world := createWorld, mapping := [], components := components } 0 = .ok state ∧
      (∀ e, entityExists state.world e = false) ∧ getAllEntities state.world = [] ∧
      state.mapping = [] := by
  obtain ⟨hlen, a0, a1, b0, b1, b2, c0, c1, c2, d0, d1⟩ := replay_packet fmt p x hp hx
  have hw1 : WorldInv (addEntity createWorld).2 :=
    worldInv_addEntity createWorld worldInv_createWorld (by decide)
  have he1 : entityExists (addEntity createWorld).2 1 = true := by decide
  have hid : (addEntity createWorld).1 = 1 := by decide
  obtain ⟨⟨wa, ha, hia, hxa, hqa, hra⟩, _⟩ :=
    plain_calls_quiet (fuel + 1) (addEntity createWorld).2 1 tag hw1 he1 htag
  have hea : entityExists wa 1 = true := by
    unfold entityExists at he1 ⊢
    rw [hxa]; exact he1
  obtain ⟨⟨wb, hb, hib, hxb, hqb, hrb⟩, _⟩ :=
    plain_calls_quiet (fuel + 1) wa 1 c.component hia hea hcp
  have heb : entityExists wb 1 = true := by
    unfold entityExists at hea ⊢
    rw [hxb]; exact hea
  obtain ⟨_, ⟨wc, hcc, hic, hxc, hqc, hrc⟩⟩ :=
    plain_calls_quiet (fuel + 1) wb 1 c.component hib heb hcp
  have hec : entityExists wc 1 = true := by
    unfold entityExists at heb ⊢
    rw [hxc]; exact heb
  have hqueries : wc.queries = [] := by rw [hqc, hqb, hqa]; rfl
  have hrels : wc.entitiesWithRelations = [] := by rw [hrc, hrb, hra]; rfl
  have hrem := removeEntity_simple fuel wc 1 hec hqueries hrels
  have hixc : wc.entityIndex = (addEntity createWorld).2.entityIndex := by rw [hxc, hxb, hxa]
  obtain ⟨hnone, hall⟩ := no_entity_after_erase wc hic hixc
  have s1 := record_addEntity fmt (fuel + 3) tag _
    { world := createWorld, mapping := [], components := components } 0 p wa a0 a1 rfl
    (by rw [hid]; exact ha)
  have hm1 : mapGet (mapSet ([] : List (Int × Int)) p (addEntity createWorld).1) p = some 1 := by
    rw [mapGet_mapSet_same, hid]
  have s2 := record_addComponent fmt (fuel + 3) tag _
    { world := wa, mapping := mapSet [] p (addEntity createWorld).1, components := components }
    (0 + 4 + 1) p x 1 c wb b0 b1 b2 hx.1 hm1 hea hc hb
  have s3 := record_removeComponent fmt (fuel + 3) tag _
    { world := wb, mapping := mapSet [] p (addEntity createWorld).1, components := components }
    (0 + 4 + 1 + 4 + 1 + 1) p x 1 c wc c0 c1 c2 hx.1 hm1 heb hc hcc
  have s4 := record_removeEntity fmt (fuel + 3) tag _
    { world := wc, mapping := mapSet [] p (addEntity createWorld).1, components := components }
    (0 + 4 + 1 + 4 + 1 + 1 + 4 + 1 + 1) p 1 (eraseEntity wc 1) d0 d1 hm1 hec hrem
  refine ⟨{ world := eraseEntity wc 1, mapping := mapDelete (mapSet [] p (addEntity createWorld).1) p, components := components }, ?_, hnone, hall, ?_⟩
  · rw [loop_step fmt (fuel + 3) tag _ 3 _ _ 0 _ (by rw [hlen]; decide) s1]
    rw [loop_step fmt (fuel + 3) tag _ 2 _ _ (0 + 4 + 1) _ (by rw [hlen]; decide) s2]
    rw [loop_step fmt (fuel + 3) tag _ 1 _ _ (0 + 4 + 1 + 4 + 1 + 1) _ (by rw [hlen]; decide) s3]
    rw [loop_step fmt (fuel + 3) tag _ 0 _ _ (0 + 4 + 1 + 4 + 1 + 1 + 4 + 1 + 1) _
      (by rw [hlen]; decide) s4]
    exact loop_end fmt (fuel + 3) tag _ 0 _ _ (by rw [hlen]; decide)
  · show mapDelete (mapSet [] p (addEntity createWorld).1) p = []
    simp [mapSet, mapDelete]

theorem observer_replay_leaves_empty_world_witness :
    ∃ state, createObserverDeserializer plainFloats (0 + 3) (comp 9)
        (flushQueue plainFloats
          [{ entityId := 7, type := .AddEntity, componentId := -1, targetId := none, relationData := none },
            { entityId := 7, type := .AddComponent, componentId := 0, targetId := none, relationData := none },
            { entityId := 7, type := .RemoveComponent, componentId := 0, targetId := none, relationData := none },
            { entityId := 7, type := .RemoveEntity, componentId := -1, targetId := none, relationData := none }])
        4 { world := createWorld, mapping := [], components := [NetComponent.plain (comp 0)] } 0
        = .ok state ∧
      (∀ e, entityExists state.world e = false) ∧ getAllEntities state.world = [] ∧
      state.mapping = [] :=
  observer_replay_leaves_empty_world plainFloats 0 (comp 9) [NetComponent.plain (comp 0)] 7 0
    (NetComponent.plain (comp 0)) (by decide) (by decide) rfl rfl rfl

/-! ## The snapshot codec on a relation without payload -/

/-- C5 (failing input): entities 1 and 2, `addComponent(world, 1, Likes(2))`, where `Likes`
has an array store per target and no value is stored for entity 1. The snapshot has 27
bytes, none for the payload. Decoding it into an empty world, the deserializer reads 8
payload bytes after the relation record, so the record of entity 2 is read from the wrong
place and a later read throws a `RangeError`. With a value stored (`Likes(2)[1] = 5`) the
snapshot has 35 bytes and the decoding returns with the entities 1 and 2. -/
theorem snapshot_breaks_on_missing_payload :
    packetBytes (createSnapshotSerializer plainFloats
      (finalWorld (runCalls 30 [.addEntity, .addEntity, .addComponent 1 (Pair Likes (.eid 2))]))
      [.relation Likes (fun _ => .array (fun _ => none))])
      = [0, 0, 0, 2, 0, 0, 0, 1, 1, 0, 0, 0, 0, 2, 0, 0, 0, 2, 0, 0, 0, 0, 1, 0, 0, 0, 2] ∧
    snapshotOutcome (createSnapshotDeserializer plainFloats 30 16
      [0, 0, 0, 2, 0, 0, 0, 1, 1, 0, 0, 0, 0, 2, 0, 0, 0, 2, 0, 0, 0, 0, 1, 0, 0, 0, 2]
      { world := createWorld, mapping := [],
        components := [.relation Likes (fun _ => .array (fun _ => none))] })
      = (1, [], []) ∧
    snapshotOutcome (createSnapshotDeserializer plainFloats 30 16
      (packetBytes (createSnapshotSerializer plainFloats
        (finalWorld (runCalls 30 [.addEntity, .addEntity,
          .addComponent 1 (Pair Likes (.eid 2))]))
        [.relation Likes (fun _ => .array (fun i => if i = 1 then some 5 else none))]))
      { world := createWorld, mapping := [],
        components := [.relation Likes (fun _ => .array (fun _ => none))] })
      = (0, [1, 2], [(1, 1), (2, 2)]) := by
  decide!

/-! ## What `removeComponent` does to the component set of an entity -/

theorem getRelationTargets_ok (w : World) (e : Int) (r : Relation) (cs : List Component)
    (he : entityExists w e = true) (hcs : mapGet w.entityComponents e = some cs) :
    getRelationTargets w e r = .ok (relationTargetsOf cs r) := by
  have he2 : isEntityIdAlive w.entityIndex e = true := he
  unfold getRelationTargets getEntityComponents
  simp only [he2, Bool.not_true, Bool.false_eq_true, ↓reduceIte, hcs]
  rfl

theorem removeComponent_single (f : Nat) (w : World) (e : Int) (c : Component)
    (he : entityExists w e = true) :
    removeComponent (f + 1) w e [c] = removeComponentEach f w e c := by
  rw [removeComponent]
  simp only [he, Bool.not_true, Bool.false_eq_true, ↓reduceIte, List.foldlM_cons,
    List.foldlM_nil]
  cases removeComponentEach f w e c <;> rfl

theorem detach_sem (w : World) (e : Int) (c : Component) (cs : List Component)
    (h : WorldInv w) (he : entityExists w e = true)
    (hcs : mapGet w.entityComponents e = some cs) (hc : hasComponent w e c = true) :
    ∃ w1, detach w e c = .ok w1 ∧ WorldInv w1 ∧ entityExists w1 e = true ∧
      mapGet w1.entityComponents e = some (setDelete cs c) ∧
      w1.entitiesWithRelations = w.entitiesWithRelations ∧ w1.entityIndex = w.entityIndex := by
  obtain ⟨w1, hdt⟩ := detach_ok w e c h he hc
  have hp := Prim.detach w e c w1 he hc hdt
  obtain ⟨d0, cs0, qs, dq, _, hcs0, hw⟩ := detach_fields w e c w1 hdt
  rw [hcs] at hcs0
  cases hcs0
  refine ⟨w1, hdt, worldInv_prim hp h, exists_of_reach (reach_prim hp) e he, ?_,
    (detach_quiet w e c w1 hdt).2, prim_entityIndex hp⟩
  rw [hw]
  exact mapGet_mapSet_same _ _ _

theorem filter_not_mem_cons (cs : List Component) (c : Component) (D : List Component) :
    (setDelete cs c).filter (fun x => decide (x ∉ D))
      = cs.filter (fun x => decide (x ∉ c :: D)) := by
  unfold setDelete
  rw [List.filter_filter]
  apply List.filter_congr
  intro x _
  simp only [List.mem_cons, not_or, Bool.decide_and, decide_not]
  rw [Bool.and_comm]

theorem filter_not_mem_append (cs : List Component) (D1 D2 : List Component) :
    (cs.filter (fun x => decide (x ∉ D1))).filter (fun x => decide (x ∉ D2))
      = cs.filter (fun x => decide (x ∉ D1 ++ D2)) := by
  rw [List.filter_filter]
  apply List.filter_congr
  intro x _
  simp only [List.mem_append, not_or, Bool.decide_and, decide_not]
  rw [Bool.and_comm]

theorem setDelete_length_lt (cs : List Component) (c : Component) (hc : c ∈ cs) :
    (setDelete cs c).length < cs.length := by
  unfold setDelete
  apply List.length_filter_lt_length_iff_exists.2
  exact ⟨c, hc, by simp⟩

/-- `removeComponentEach` on an entity that exists in a well-formed world, with fuel for
the size of its component set: it returns, and the component set of the entity loses the
components of a list `D` that holds the component and, for a pair `r(t)`, at most the
wildcard pairs `Pair(Wildcard, t)`, `Pair(r, Wildcard)` and `Pair(Wildcard, Wildcard)`. -/
theorem removeEach_sem (n : Nat) :
    ∀ (fuel : Nat) (w : World) (e : Int) (c : Component) (cs : List Component),
      2 * n + 1 ≤ fuel → WorldInv w → entityExists w e = true →
      mapGet w.entityComponents e = some cs → cs.length ≤ n →
      ∃ (w2 : World) (D : List Component), removeComponentEach fuel w e c = .ok w2 ∧ WorldInv w2 ∧
        entityExists w2 e = true ∧
        mapGet w2.entityComponents e = some (cs.filter (fun x => decide (x ∉ D))) ∧
        w2.entitiesWithRelations = w.entitiesWithRelations ∧
        w2.entityIndex = w.entityIndex ∧ c ∈ D ∧
        (∀ d, d ∈ D → d = c ∨ ∃ r t, c = .pair r t ∧
          (d = Pair Wildcard t ∨ d = Pair r (.rel Wildcard) ∨
            d = Pair Wildcard (.rel Wildcard))) ∧
        (hasComponent w e c = false → w2 = w) := by
  induction n with
  | zero =>
    intro fuel w e c cs hfuel h he hcs hlen
    obtain ⟨f, rfl⟩ : ∃ f, fuel = f + 1 := ⟨fuel - 1, by omega⟩
    have hnil : cs = [] := List.length_eq_zero.1 (Nat.le_zero.1 hlen)
    have hno : hasComponent w e c = false := by
      rw [← Bool.not_eq_true, hasComponent_iff_mem h e cs hcs c, hnil]
      exact List.not_mem_nil _
    refine ⟨w, [c], ?_, h, he, ?_, rfl, rfl, List.mem_singleton.2 rfl, ?_, fun _ => rfl⟩
    · rw [removeComponentEach]
      simp [hno]
    · rw [hcs, hnil]; rfl
    · intro d hd
      exact Or.inl (List.mem_singleton.1 hd)
  | succ n ih =>
    intro fuel w e c cs hfuel h he hcs hlen
    obtain ⟨f, rfl⟩ : ∃ f, fuel = f + 1 := ⟨fuel - 1, by omega⟩
    cases hhas : hasComponent w e c with
    | false =>
      have hnot : c ∉ cs := by
        rw [← hasComponent_iff_mem h e cs hcs c, hhas]
        exact Bool.false_ne_true
      refine ⟨w, [c], ?_, h, he, ?_, rfl, rfl, List.mem_singleton.2 rfl, ?_, fun _ => rfl⟩
      · rw [removeComponentEach]
        simp [hhas]
      · rw [hcs]
        congr 1
        symm
        apply List.filter_eq_self.2
        intro x hx
        simp only [List.mem_singleton, decide_not, Bool.not_eq_eq_eq_not, Bool.not_true,
          decide_eq_false_iff_not]
        intro hxc
        exact hnot (hxc ▸ hx)
      · intro d hd
        exact Or.inl (List.mem_singleton.1 hd)
    | true =>
      have hmem : c ∈ cs := (hasComponent_iff_mem h e cs hcs c).1 hhas
      obtain ⟨w1, hdt, h1, he1, hcs1, hr1, hx1⟩ := detach_sem w e c cs h he hcs hhas
      have hlen1 : (setDelete cs c).length ≤ n := by
        have := setDelete_length_lt cs c hmem
        omega
      cases c with
      | plain k =>
        refine ⟨w1, [Component.plain k], ?_, h1, he1, ?_, hr1, hx1, List.mem_singleton.2 rfl, ?_,
          fun hf => Bool.noConfusion hf⟩
        · rw [removeComponentEach]
          simp [hhas, hdt, bind, Except.bind, pure, Except.pure]
        · rw [hcs1, ← filter_not_mem_cons, List.filter_eq_self.2]
          intro x _
          simp
        · intro d hd
          exact Or.inl (List.mem_singleton.1 hd)
      | prefab =>
        refine ⟨w1, [Component.prefab], ?_, h1, he1, ?_, hr1, hx1, List.mem_singleton.2 rfl, ?_,
          fun hf => Bool.noConfusion hf⟩
        · rw [removeComponentEach]
          simp [hhas, hdt, bind, Except.bind, pure, Except.pure]
        · rw [hcs1, ← filter_not_mem_cons, List.filter_eq_self.2]
          intro x _
          simp
        · intro d hd
          exact Or.inl (List.mem_singleton.1 hd)
      | fn r0 =>
        refine ⟨w1, [Component.fn r0], ?_, h1, he1, ?_, hr1, hx1, List.mem_singleton.2 rfl, ?_,
          fun hf => Bool.noConfusion hf⟩
        · rw [removeComponentEach]
          simp [hhas, hdt, bind, Except.bind, pure, Except.pure]
        · rw [hcs1, ← filter_not_mem_cons, List.filter_eq_self.2]
          intro x _
          simp
        · intro d hd
          exact Or.inl (List.mem_singleton.1 hd)
      | keyed k c2 =>
        refine ⟨w1, [Component.keyed k c2], ?_, h1, he1, ?_, hr1, hx1,
          List.mem_singleton.2 rfl, ?_, fun hf => Bool.noConfusion hf⟩
        · rw [removeComponentEach]
          simp [hhas, hdt, bind, Except.bind, pure, Except.pure]
        · rw [hcs1, ← filter_not_mem_cons, List.filter_eq_self.2]
          intro x _
          simp
        · intro d hd
          exact Or.inl (List.mem_singleton.1 hd)
      | pair r t =>
        obtain ⟨f2, rfl⟩ : ∃ f2, f = f2 + 1 := ⟨f - 1, by omega⟩
        obtain ⟨w2, D1, hrm1, h2, he2, hcs2, hr2, hx2, hD1, hD1sub, _⟩ :=
          ih f2 w1 e (Pair Wildcard t) (setDelete cs (.pair r t)) (by omega) h1 he1 hcs1 hlen1
        have hlen2 : ((setDelete cs (.pair r t)).filter (fun x => decide (x ∉ D1))).length ≤ n :=
          le_trans (List.length_filter_le _ _) hlen1
        have htargets := getRelationTargets_ok w2 e r _ he2 hcs2
        have hstep1 : removeComponent (f2 + 1) w1 e [Pair Wildcard t] = .ok w2 := by
          rw [removeComponent_single f2 w1 e _ he1]; exact hrm1
        by_cases hempty : (relationTargetsOf
            ((setDelete cs (.pair r t)).filter (fun x => decide (x ∉ D1))) r).length = 0
        · obtain ⟨w3, D2, hrm2, h3, he3, hcs3, hr3, hx3, hD2, hD2sub, _⟩ :=
            ih f2 w2 e (Pair r (.rel Wildcard)) _ (by omega) h2 he2 hcs2 hlen2
          have hstep2 : removeComponent (f2 + 1) w2 e [Pair r (.rel Wildcard)] = .ok w3 := by
            rw [removeComponent_single f2 w2 e _ he2]; exact hrm2
          refine ⟨w3, Component.pair r t :: (D1 ++ D2), ?_, h3, he3, ?_, ?_, ?_,
            List.mem_cons_self _ _, ?_, fun hf => Bool.noConfusion hf⟩
          · rw [removeComponentEach]
            simp only [hhas, Bool.not_true, Bool.false_eq_true, ↓reduceIte, hdt, bind,
              Except.bind, hstep1, htargets, hempty, hstep2]
          · rw [hcs3, filter_not_mem_append, filter_not_mem_cons]
          · rw [hr3, hr2, hr1]
          · rw [hx3, hx2, hx1]
          · intro d hd
            rcases List.mem_cons.1 hd with hd | hd
            · exact Or.inl hd
            · right
              refine ⟨r, t, rfl, ?_⟩
              rcases List.mem_append.1 hd with hd | hd
              · rcases hD1sub d hd with h0 | ⟨r1, t1, hc1, h0⟩
                · exact Or.inl h0
                · have hc2 : Component.pair Wildcard t = Component.pair r1 t1 := hc1
                  injection hc2 with hra hta
                  subst hra hta
                  rcases h0 with h0 | h0 | h0
                  · exact Or.inl h0
                  · exact Or.inr (Or.inr h0)
                  · exact Or.inr (Or.inr h0)
              · rcases hD2sub d hd with h0 | ⟨r1, t1, hc1, h0⟩
                · exact Or.inr (Or.inl h0)
                · have hc2 : Component.pair r (.rel Wildcard) = Component.pair r1 t1 := hc1
                  injection hc2 with hra hta
                  subst hra hta
                  rcases h0 with h0 | h0 | h0
                  · exact Or.inr (Or.inr h0)
                  · exact Or.inr (Or.inl h0)
                  · exact Or.inr (Or.inr h0)
        · refine ⟨w2, Component.pair r t :: D1, ?_, h2, he2, ?_, ?_, ?_,
            List.mem_cons_self _ _, ?_, fun hf => Bool.noConfusion hf⟩
          · rw [removeComponentEach]
            simp only [hhas, Bool.not_true, Bool.false_eq_true, ↓reduceIte, hdt, bind,
              Except.bind, hstep1, htargets, hempty, pure, Except.pure]
          · rw [hcs2, filter_not_mem_cons]
          · rw [hr2, hr1]
          · rw [hx2, hx1]
          · intro d hd
            rcases List.mem_cons.1 hd with hd | hd
            · exact Or.inl hd
            · right
              refine ⟨r, t, rfl, ?_⟩
              rcases hD1sub d hd with h0 | ⟨r1, t1, hc1, h0⟩
              · exact Or.inl h0
              · have hc2 : Component.pair Wildcard t = Component.pair r1 t1 := hc1
                injection hc2 with hra hta
                subst hra hta
                rcases h0 with h0 | h0 | h0
                · exact Or.inl h0
                · exact Or.inr (Or.inr h0)
                · exact Or.inr (Or.inr h0)

/-! ## Removing a pair component -/

theorem relationTargetsOf_filter_nil (cs : List Component) (p : Component → Bool) (r : Relation)
    (h : relationTargetsOf cs r = []) : relationTargetsOf (cs.filter p) r = [] := by
  have hsub : (relationTargetsOf (cs.filter p) r).Sublist (relationTargetsOf cs r) :=
    List.Sublist.filterMap _ (List.filter_sublist cs)
  rw [h] at hsub
  exact List.eq_nil_of_sublist_nil hsub

theorem removePair_outcome (w : World) (h : WorldInv w) (e : Int) (cs : List Component)
    (r : Relation) (t : Int) (fuel : Nat) (he : entityExists w e = true)
    (hcs : mapGet w.entityComponents e = some cs) (hfuel : 2 * cs.length + 2 ≤ fuel)
    (hpair : hasComponent w e (Pair r (.eid t)) = true)
    (hwild : hasComponent w e (Pair r (.rel Wildcard)) = true) :
    ∃ w2, removeComponent fuel w e [Pair r (.eid t)] = .ok w2 ∧
      hasComponent w2 e (Pair r (.eid t)) = false ∧
      hasComponent w2 e (Pair Wildcard (.eid t)) = false ∧
      ∃ targets, getRelationTargets w2 e r = .ok targets ∧
        (hasComponent w2 e (Pair r (.rel Wildcard)) = true ↔ targets ≠ []) := by
  obtain ⟨f, rfl⟩ : ∃ f, fuel = f + 1 := ⟨fuel - 1, by omega⟩
  obtain ⟨f1, rfl⟩ : ∃ f1, f = f1 + 1 := ⟨f - 1, by omega⟩
  have hmem : Pair r (.eid t) ∈ cs := (hasComponent_iff_mem h e cs hcs _).1 hpair
  have hpos : 0 < cs.length := List.length_pos_of_mem hmem
  obtain ⟨f2, rfl⟩ : ∃ f2, f1 = f2 + 1 := ⟨f1 - 1, by omega⟩
  have hwmem : Pair r (.rel Wildcard) ∈ cs := (hasComponent_iff_mem h e cs hcs _).1 hwild
  obtain ⟨w1, hdt, h1, he1, hcs1, hr1, hx1⟩ := detach_sem w e _ cs h he hcs hpair
  have hlt := setDelete_length_lt cs _ hmem
  have hfuel2 : 2 * (cs.length - 1) + 1 ≤ f2 := by omega
  have hlen1 : (setDelete cs (Pair r (.eid t))).length ≤ cs.length - 1 := by omega
  obtain ⟨w2, D1, hrm1, h2, he2, hcs2, _, _, hD1, hD1sub, hnoop1⟩ :=
    removeEach_sem (cs.length - 1) f2 w1 e (Pair Wildcard (.eid t))
      (setDelete cs (Pair r (.eid t))) hfuel2 h1 he1 hcs1 hlen1
  have hstep1 : removeComponent (f2 + 1) w1 e [Pair Wildcard (.eid t)] = .ok w2 := by
    rw [removeComponent_single f2 w1 e _ he1]; exact hrm1
  have htargets := getRelationTargets_ok w2 e r _ he2 hcs2
  have hpair2 : hasComponent w e (Component.pair r (.eid t)) = true := hpair
  have hdt2 : detach w e (Component.pair r (.eid t)) = .ok w1 := hdt
  -- membership in the component set after the first two removals
  have hc1 : Pair r (.eid t) ∉ setDelete cs (Pair r (.eid t)) := by
    rw [mem_setDelete]
    exact fun hh => hh.2 rfl
  have hc2 : Pair r (.eid t) ∉ (setDelete cs (Pair r (.eid t))).filter
      (fun x => decide (x ∉ D1)) := fun hh => hc1 (List.mem_filter.1 hh).1
  have hm2 : Pair Wildcard (.eid t) ∉ (setDelete cs (Pair r (.eid t))).filter
      (fun x => decide (x ∉ D1)) := by
    intro hh
    have := (List.mem_filter.1 hh).2
    simp only [decide_not, Bool.not_eq_eq_eq_not, Bool.not_true, decide_eq_false_iff_not] at this
    exact this hD1
  have hw2 : Pair r (.rel Wildcard) ∈ (setDelete cs (Pair r (.eid t))).filter
      (fun x => decide (x ∉ D1)) := by
    by_cases hrw : r = Wildcard
    · -- the mirror is the component itself: the nested call is a no-op
      subst hrw
      have hgone : hasComponent w1 e (Pair Wildcard (.eid t)) = false := by
        rw [← Bool.not_eq_true, hasComponent_iff_mem h1 e _ hcs1]
        exact hc1
      have hsame := hnoop1 hgone
      rw [hsame, hcs1] at hcs2
      rw [← Option.some.inj hcs2, mem_setDelete]
      refine ⟨hwmem, ?_⟩
      intro hh
      cases hh
    · rw [List.mem_filter, mem_setDelete]
      refine ⟨⟨hwmem, fun hh => by cases hh⟩, ?_⟩
      simp only [decide_not, Bool.not_eq_eq_eq_not, Bool.not_true, decide_eq_false_iff_not]
      intro hin
      rcases hD1sub _ hin with h0 | ⟨r1, t1, hpr, h0⟩
      · cases h0
      · have hpr2 : Component.pair Wildcard (.eid t) = Component.pair r1 t1 := hpr
        injection hpr2 with hra hta
        subst hra hta
        rcases h0 with h0 | h0 | h0
        · cases h0
        · have h00 : Component.pair r (.rel Wildcard) = Component.pair Wildcard (.rel Wildcard) := h0
          injection h00 with hr0 _
          exact hrw hr0
        · have h00 : Component.pair r (.rel Wildcard) = Component.pair Wildcard (.rel Wildcard) := h0
          injection h00 with hr0 _
          exact hrw hr0
  by_cases hempty : (relationTargetsOf
      ((setDelete cs (Pair r (.eid t))).filter (fun x => decide (x ∉ D1))) r).length = 0
  · have hlen2 : ((setDelete cs (Pair r (.eid t))).filter (fun x => decide (x ∉ D1))).length
        ≤ cs.length - 1 := by
      have := List.length_filter_le (fun x => decide (x ∉ D1)) (setDelete cs (Pair r (.eid t)))
      omega
    obtain ⟨w3, D2, hrm2, h3, he3, hcs3, _, _, hD2, _, _⟩ :=
      removeEach_sem (cs.length - 1) f2 w2 e (Pair r (.rel Wildcard))
        ((setDelete cs (Pair r (.eid t))).filter (fun x => decide (x ∉ D1))) hfuel2 h2 he2
        hcs2 hlen2
    have hstep2 : removeComponent (f2 + 1) w2 e [Pair r (.rel Wildcard)] = .ok w3 := by
      rw [removeComponent_single f2 w2 e _ he2]; exact hrm2
    have hnil : relationTargetsOf (((setDelete cs (Pair r (.eid t))).filter
        (fun x => decide (x ∉ D1))).filter (fun x => decide (x ∉ D2))) r = [] :=
      relationTargetsOf_filter_nil _ _ r (List.length_eq_zero.1 hempty)
    refine ⟨w3, ?_, ?_, ?_, [], ?_, ?_⟩
    · rw [removeComponent_single _ w e _ he]
      show removeComponentEach _ w e (Component.pair r (.eid t)) = _
      rw [removeComponentEach]
      simp only [hpair2, Bool.not_true, Bool.false_eq_true, ↓reduceIte, hdt2, bind,
        Except.bind, hstep1, htargets, hempty, hstep2]
    · rw [← Bool.not_eq_true, hasComponent_iff_mem h3 e _ hcs3]
      exact fun hh => hc2 (List.mem_filter.1 hh).1
    · rw [← Bool.not_eq_true, hasComponent_iff_mem h3 e _ hcs3]
      exact fun hh => hm2 (List.mem_filter.1 hh).1
    · rw [getRelationTargets_ok w3 e r _ he3 hcs3, hnil]
    · constructor
      · intro hh
        rw [hasComponent_iff_mem h3 e _ hcs3] at hh
        have := (List.mem_filter.1 hh).2
        simp only [decide_not, Bool.not_eq_eq_eq_not, Bool.not_true,
          decide_eq_false_iff_not] at this
        exact absurd hD2 this
      · intro hh
        exact absurd rfl hh
  · refine ⟨w2, ?_, ?_, ?_, _, htargets, ?_⟩
    · rw [removeComponent_single _ w e _ he]
      show removeComponentEach _ w e (Component.pair r (.eid t)) = _
      rw [removeComponentEach]
      simp only [hpair2, Bool.not_true, Bool.false_eq_true, ↓reduceIte, hdt2, bind,
        Except.bind, hstep1, htargets, hempty, pure, Except.pure]
    · rw [← Bool.not_eq_true, hasComponent_iff_mem h2 e _ hcs2]
      exact hc2
    · rw [← Bool.not_eq_true, hasComponent_iff_mem h2 e _ hcs2]
      exact hm2
    · constructor
      · intro _ hnil
        apply hempty
        rw [hnil]
        rfl
      · intro _
        rw [hasComponent_iff_mem h2 e _ hcs2]
        exact hw2

/-- C22 (counterexample): entity 1 holds `Likes(2)` and `Likes(3)` and `Pair(Likes,
Wildcard)` was removed from it directly. It still holds `Likes(2)`; after
`removeComponent(world, 1, Likes(2))` the targets of `Likes` are `[3]`, not empty, while
entity 1 does not have `Pair(Likes, Wildcard)`. -/
theorem wildcard_pair_not_restored :
    [hasComponent (finalWorld (runCalls 30 [.addEntity, .addEntity, .addEntity,
        .addComponent 1 (Pair Likes (.eid 2)), .addComponent 1 (Pair Likes (.eid 3)),
        .removeComponent 1 (Pair Likes (.rel Wildcard))])) 1 (Pair Likes (.eid 2)),
      returns (runCalls 30 [.addEntity, .addEntity, .addEntity,
        .addComponent 1 (Pair Likes (.eid 2)), .addComponent 1 (Pair Likes (.eid 3)),
        .removeComponent 1 (Pair Likes (.rel Wildcard)),
        .removeComponent 1 (Pair Likes (.eid 2))]),
      hasComponent (finalWorld (runCalls 30 [.addEntity, .addEntity, .addEntity,
        .addComponent 1 (Pair Likes (.eid 2)), .addComponent 1 (Pair Likes (.eid 3)),
        .removeComponent 1 (Pair Likes (.rel Wildcard)),
        .removeComponent 1 (Pair Likes (.eid 2))])) 1 (Pair Likes (.rel Wildcard))] =
      [true, true, false] ∧
    (getRelationTargets (finalWorld (runCalls 30 [.addEntity, .addEntity, .addEntity,
        .addComponent 1 (Pair Likes (.eid 2)), .addComponent 1 (Pair Likes (.eid 3)),
        .removeComponent 1 (Pair Likes (.rel Wildcard)),
        .removeComponent 1 (Pair Likes (.eid 2))])) 1 Likes).toOption = some [3] := by
  decide!

/-- C22 (amended): in a world left by a sequence of calls (fewer than `2^24` ids handed
out), for an alive entity `e` (with component set `cs`) that holds `Pair(r, t)` for an entity `t` and holds `Pair(r,
Wildcard)`, `removeComponent(world, e, Pair(r, t))` returns (with fuel for the size of
the component set of `e`); afterwards `e` has neither `Pair(r, t)` nor `Pair(Wildcard,
t)`, and `e` has `Pair(r, Wildcard)` if and only if `getRelationTargets(world, e, r)` is
not empty. -/
theorem pair_removal_outcome (f : Nat) (calls : List Call) (w : World) (e t : Int)
    (r : Relation) (cs : List Component) (fuel : Nat)
    (hrun : runCalls f calls = .ok w) (hcap : w.entityIndex.maxId < 16777216)
    (he : entityExists w e = true) (hcs : mapGet w.entityComponents e = some cs)
    (hfuel : 2 * cs.length + 2 ≤ fuel)
    (hpair : hasComponent w e (Pair r (.eid t)) = true)
    (hwild : hasComponent w e (Pair r (.rel Wildcard)) = true) :
    ∃ w2, removeComponent fuel w e [Pair r (.eid t)] = .ok w2 ∧
      hasComponent w2 e (Pair r (.eid t)) = false ∧
      hasComponent w2 e (Pair Wildcard (.eid t)) = false ∧
      ∃ targets, getRelationTargets w2 e r = .ok targets ∧
        (hasComponent w2 e (Pair r (.rel Wildcard)) = true ↔ targets ≠ []) :=
  removePair_outcome w (worldInv_runCalls f calls w hrun hcap) e cs r t fuel he hcs
    hfuel hpair hwild

theorem pair_removal_outcome_witness :
    ∃ w2, removeComponent 30 (finalWorld (runCalls 30 [.addEntity, .addEntity, .addEntity,
        .addComponent 1 (Pair Likes (.eid 2)), .addComponent 1 (Pair Likes (.eid 3))])) 1
        [Pair Likes (.eid 2)] = .ok w2 ∧
      hasComponent w2 1 (Pair Likes (.eid 2)) = false ∧
      hasComponent w2 1 (Pair Wildcard (.eid 2)) = false ∧
      ∃ targets, getRelationTargets w2 1 Likes = .ok targets ∧
        (hasComponent w2 1 (Pair Likes (.rel Wildcard)) = true ↔ targets ≠ []) :=
  pair_removal_outcome 30 [.addEntity, .addEntity, .addEntity,
    .addComponent 1 (Pair Likes (.eid 2)), .addComponent 1 (Pair Likes (.eid 3))] _ 1 2 Likes
    [Pair Likes (.eid 2), Pair Likes (.rel Wildcard), Pair Wildcard (.rel Wildcard),
      Pair Wildcard (.eid 2), Pair Likes (.eid 3), Pair Wildcard (.eid 3)] 30
    (returns_eq _ (by decide!)) (by decide!) (by decide!) (by decide!) (by decide) (by decide!)
    (by decide!)

/-! ## Theorems: `removeEntity` returns -/

theorem foldlM_mono {σ α ε : Type} (f g : σ → α → Except ε σ)
    (hfg : ∀ s a s', f s a = .ok s' → g s a = .ok s') :
    ∀ (l : List α) (s s' : σ), l.foldlM f s = .ok s' → l.foldlM g s = .ok s' := by
  intro l
  induction l with
  | nil => intro s s' h; exact h
  | cons a rest ih =>
    intro s s' h
    rw [List.foldlM_cons] at h ⊢
    obtain ⟨s1, h1, h2⟩ := bind_ok_inv _ _ _ h
    rw [hfg _ _ _ h1]
    exact ih _ _ h2

/-- More fuel does not change what `removeComponent` returns. -/
theorem removeComponent_mono (f : Nat) :
    (∀ (g : Nat) (w : World) (e : Int) (cs : List Component) (w2 : World), f ≤ g →
      removeComponent f w e cs = .ok w2 → removeComponent g w e cs = .ok w2) ∧
    (∀ (g : Nat) (w : World) (e : Int) (c : Component) (w2 : World), f ≤ g →
      removeComponentEach f w e c = .ok w2 → removeComponentEach g w e c = .ok w2) := by
  induction f with
  | zero =>
    constructor
    · intro g w e cs w2 _ h
      rw [removeComponent] at h
      cases h
    · intro g w e c w2 _ h
      rw [removeComponentEach] at h
      cases h
  | succ f ih =>
    constructor
    · intro g w e cs w2 hg h
      obtain ⟨g, rfl⟩ : ∃ g2, g = g2 + 1 := ⟨g - 1, by omega⟩
      rw [removeComponent] at h ⊢
      split at h
      · cases h
      · rename_i hex
        rw [if_neg hex]
        exact foldlM_mono _ _ (fun s a s' hs => ih.2 g s e a s' (by omega) hs) _ _ _ h
    · intro g w e c w2 hg h
      obtain ⟨g, rfl⟩ : ∃ g2, g = g2 + 1 := ⟨g - 1, by omega⟩
      have hfg : f ≤ g := by omega
      rw [removeComponentEach] at h ⊢
      split at h
      · rename_i hhas
        rw [if_pos hhas]
        exact h
      · rename_i hhas
        rw [if_neg hhas]
        obtain ⟨w1, h1, h2⟩ := bind_ok_inv _ _ _ h
        simp only [h1, bind, Except.bind]
        cases c with
        | pair r t =>
          simp only at h2 ⊢
          obtain ⟨w3, h3, h4⟩ := bind_ok_inv _ _ _ h2
          obtain ⟨ts, h5, h6⟩ := bind_ok_inv _ _ _ h4
          have h3b := ih.1 g _ _ _ _ hfg h3
          simp only [h3b, h5, bind, Except.bind]
          split at h6
          · rename_i hlen
            rw [if_pos hlen]
            exact ih.1 g _ _ _ _ hfg h6
          · rename_i hlen
            rw [if_neg hlen]
            exact h6
        | plain k => exact h2
        | prefab => exact h2
        | fn r => exact h2
        | keyed k c2 => exact h2

/-- `removeComponent` of one component returns on an entity that exists in a well-formed
world, whatever the fuel from some point on; the index and `entitiesWithRelations` stay. -/
theorem removeComponent_returns (w : World) (e : Int) (c : Component) (h : WorldInv w)
    (he : entityExists w e = true) :
    ∃ (F : Nat) (w2 : World), (∀ fuel, F ≤ fuel → removeComponent fuel w e [c] = .ok w2) ∧
      WorldInv w2 ∧ w2.entityIndex = w.entityIndex ∧
      w2.entitiesWithRelations = w.entitiesWithRelations := by
  obtain ⟨cs, hcs⟩ := (h.keys e).2 he
  obtain ⟨w2, D, hrun, hinv, _, _, hrel, hix, _⟩ :=
    removeEach_sem cs.length (2 * cs.length + 1) w e c cs (le_refl _) h he hcs (le_refl _)
  refine ⟨2 * cs.length + 2, w2, ?_, hinv, hix, hrel⟩
  intro fuel hfuel
  have h1 : removeComponent (2 * cs.length + 2) w e [c] = .ok w2 := by
    rw [removeComponent_single _ w e c he]
    exact hrun
  exact (removeComponent_mono _).1 fuel w e [c] w2 hfuel h1

theorem bind_ok_intro {ε α β : Type} (x : Except ε α) (f : α → Except ε β) (a : α) (b : β)
    (hx : x = .ok a) (hf : f a = .ok b) : (x >>= f) = .ok b := by
  rw [hx]; exact hf

theorem foldlM_rel {σ α : Type} (proj : σ → World) (R : World → World → Prop)
    (Q : σ → Prop) (f : σ → α → Res σ) (hrefl : ∀ w, R w w)
    (htrans : ∀ a b c, R a b → R b c → R a c) :
    ∀ (l : List α), (∀ a, a ∈ l → ∀ s s', Q s → f s a = .ok s' → R (proj s) (proj s') ∧ Q s') →
      ∀ (s s' : σ), Q s → l.foldlM f s = .ok s' → R (proj s) (proj s') ∧ Q s' := by
  intro l
  induction l with
  | nil =>
    intro _ s s' hq h
    cases h
    exact ⟨hrefl _, hq⟩
  | cons a rest ih =>
    intro hstep s s' hq h
    rw [List.foldlM_cons] at h
    obtain ⟨s1, hs1, h2⟩ := bind_ok_inv _ _ _ h
    obtain ⟨r1, q1⟩ := hstep a (List.mem_cons_self _ _) s s1 hq hs1
    obtain ⟨r2, q2⟩ := ih (fun b hb => hstep b (List.mem_cons_of_mem _ hb)) s1 s' q1 h2
    exact ⟨htrans _ _ _ r1 r2, q2⟩

/-- An induction principle for `addComponent`: a relation between worlds that is
reflexive and transitive, carries the invariant `I` (under which the entities that exist
satisfy `A`), and holds across `attach`, the
updates of `entitiesWithRelations` and the `removeComponent` of the exclusive branch
holds across `addComponent`, for the components `Ok` admits; the last clause is the part
of the `forEach` body after `attach`. -/
theorem addComponent_rel (R : World → World → Prop) (Ok : Component → Prop)
    (I : World → Prop) (A : Int → Prop) (hrefl : ∀ w, R w w)
    (htrans : ∀ a b c, R a b → R b c → R a c) (hI : ∀ a b, R a b → I a → I b)
    (hA : ∀ w e, I w → entityExists w e = true → A e)
    (hattach : ∀ w e c w1 b, Ok c → I w → entityExists w e = true →
      attach w e c = .ok (w1, b) → R w w1)
    (hrel : ∀ (w : World) (s : List Target), R w { w with entitiesWithRelations := s })
    (hremove : ∀ r t, Ok (.pair r t) → r.exclusiveRelation = true → t ≠ .rel Wildcard →
      ∀ n y e old y2, I y → entityExists y e = true → Target.eid old ≠ t →
        removeComponent n y e [Pair r (.eid old)] = .ok y2 → R y y2)
    (hnest : ∀ r t, Ok (.pair r t) → Ok (.pair r (.rel Wildcard)) ∧ Ok (.pair Wildcard t) ∧
      (∀ x, A x → Ok (.pair Wildcard (.eid x))) ∧ Ok (.pair Wildcard (.rel r)))
    (hpar : ∀ t, Ok (.pair IsA t) → ∀ w y i ts, I w → getRelationTargets w y IsA = .ok ts →
      i ∈ ts → Ok (.pair IsA (.eid i)))
    (hinh : ∀ t, Ok (.pair IsA t) → ∀ w i comps d, I w → getEntityComponents w i = .ok comps →
      d ∈ comps → d ≠ Prefab → Ok d.unwrap) (fuel : Nat) :
    (∀ w eid cs w', I w → (∀ c, c ∈ cs → Ok c.unwrap) → addComponent fuel w eid cs = .ok w' →
      R w w') ∧
    (∀ w eid c w', I w → Ok c.unwrap → entityExists w eid = true →
      addComponentEach fuel w eid c = .ok w' → R w w') ∧
    (∀ w baseEid inheritedEid visited r, I w → Ok (.pair IsA (.eid inheritedEid)) →
      recursivelyInherit fuel w baseEid inheritedEid visited = .ok r → R w r.1) ∧
    (∀ w eid c w1 attached w', I w → Ok c.unwrap → entityExists w eid = true →
      attach w eid c.unwrap = .ok (w1, attached) →
      addComponentEach fuel w eid c = .ok w' → R w1 w') := by
  induction fuel with
  | zero =>
    refine ⟨?_, ?_, ?_, ?_⟩
    · intro w eid cs w' _ _ h; rw [addComponent] at h; cases h
    · intro w eid c w' _ _ _ h; rw [addComponentEach] at h; cases h
    · intro w b i v r _ _ h; rw [recursivelyInherit] at h; cases h
    · intro w eid c w1 attached w' _ _ _ _ h; rw [addComponentEach] at h; cases h
  | succ n ih =>
    obtain ⟨ih1, ih2, ih3, _⟩ := ih
    have hone : ∀ (r : Relation) (t : Target), Ok (.pair r t) →
        ∀ d, d ∈ [Pair r t] → Ok d.unwrap := by
      intro r t hc d hd
      rw [List.mem_singleton.1 hd]
      exact hc
    have hbody : ∀ w eid c w1 attached w', I w → Ok c.unwrap → entityExists w eid = true →
        attach w eid c.unwrap = .ok (w1, attached) →
        addComponentEach (n + 1) w eid c = .ok w' → R w1 w' := by
      intro w eid c w1 attached w' hiw hokc hex hat0 h
      rw [addComponentEach] at h
      obtain ⟨⟨w1b, attachedb⟩, hat, h2⟩ := bind_ok_inv _ _ _ h
      rw [hat0] at hat
      cases hat
      have hi1 : I w1 := hI _ _ (hattach w eid c.unwrap w1 attached hokc hiw hex hat0) hiw
      have hex1 : entityExists w1 eid = true :=
        exists_of_reach (reach_prim (Prim.attach w eid c.unwrap w1 attached hex hat0)) eid hex
      have hIsA : ∀ (relation : Relation) (target : Target), Ok (.pair relation target) →
          ∀ (y z : World), I y →
          (if relation = IsA then do
              let inheritedTargets ← getRelationTargets y eid IsA
              let r ← inheritedTargets.foldlM
                (fun (w : World) inherited => do
                  let r ← recursivelyInherit n w eid inherited []
                  pure r.1) y
              pure r
            else pure y) = Except.ok z → R y z := by
        intro relation target hok y z hiy hh
        split at hh
        · rename_i hrelIsA
          rw [hrelIsA] at hok
          obtain ⟨targets, htargets, h9⟩ := bind_ok_inv _ _ _ hh
          obtain ⟨wr, hwr, h10⟩ := bind_ok_inv _ _ _ h9
          simp only [pure, Except.pure] at h10
          cases h10
          refine (foldlM_rel (fun (s : World) => s) R I _ hrefl htrans targets ?_
            y _ hiy hwr).1
          intro a ha wx wy hix hh2
          obtain ⟨r, hr, h11⟩ := bind_ok_inv _ _ _ hh2
          simp only [pure, Except.pure] at h11
          cases h11
          have rr := ih3 _ _ _ _ _ hix (hpar target hok y eid a targets hiy htargets ha) hr
          exact ⟨rr, hI _ _ rr hix⟩
        · simp only [pure, Except.pure] at hh
          cases hh; exact hrefl _
      have hExcl : ∀ (relation : Relation) (target : Target), Ok (.pair relation target) →
          ∀ (y z : World), I y → entityExists y eid = true →
          (do
            let world6 ←
              if relation.exclusiveRelation = true ∧ target ≠ .rel Wildcard then do
                let targets ← getRelationTargets y eid relation
                match targets.head? with
                | some oldTarget =>
                  if Target.eid oldTarget ≠ target then
                    removeComponent n y eid [Pair relation (.eid oldTarget)]
                  else pure y
                | none => pure y
              else pure y
            if relation = IsA then do
              let inheritedTargets ← getRelationTargets world6 eid IsA
              let r ← inheritedTargets.foldlM
                (fun (w : World) inherited => do
                  let r ← recursivelyInherit n w eid inherited []
                  pure r.1) world6
              pure r
            else pure world6) = Except.ok z → R y z := by
        intro relation target hok y z hiy hey hh
        dsimp only at hh
        split at hh
        · rename_i hcond
          obtain ⟨targets, _, h9⟩ := bind_ok_inv _ _ _ hh
          split at h9
          · split at h9
            · rename_i hne
              obtain ⟨y2, hy2, h10⟩ := bind_ok_inv _ _ _ h9
              have rr := hremove relation target hok hcond.1 hcond.2 n y eid _ y2 hiy hey hne hy2
              exact htrans _ _ _ rr (hIsA _ _ hok _ _ (hI _ _ rr hiy) h10)
            · exact hIsA _ _ hok _ _ hiy h9
          · exact hIsA _ _ hok _ _ hiy h9
        · exact hIsA _ _ hok _ _ hiy hh
      simp only at h2
      split at h2
      · cases h2; exact hrefl _
      · generalize c.unwrap = cu at h2 hokc
        cases cu with
        | pair relation target =>
          obtain ⟨n1, n2, n3, n4⟩ := hnest relation target hokc
          simp only at h2
          obtain ⟨w2, hw2, h3⟩ := bind_ok_inv _ _ _ h2
          have r2 : R w1 w2 := ih1 _ _ _ _ hi1 (hone _ _ n1) hw2
          have hi2 : I w2 := hI _ _ r2 hi1
          have hex2 : entityExists w2 eid = true :=
            exists_of_reach ((reach_addComponent n).1 _ _ _ _ hw2) eid hex1
          obtain ⟨w3, hw3, h4⟩ := bind_ok_inv _ _ _ h3
          have r3 : R w2 w3 := ih1 _ _ _ _ hi2 (hone _ _ n2) hw3
          have hi3 : I w3 := hI _ _ r3 hi2
          have hex3 : entityExists w3 eid = true :=
            exists_of_reach ((reach_addComponent n).1 _ _ _ _ hw3) eid hex2
          cases target with
          | eid tt =>
            simp only at h4
            obtain ⟨wa, hwa, h6⟩ := bind_ok_inv _ _ _ h4
            obtain ⟨wb, hwb, h7⟩ := bind_ok_inv _ _ _ h6
            have ra : R w3 wa := ih1 _ _ _ _ hi3 (hone _ _ (n3 eid (hA w3 eid hi3 hex3))) hwa
            have hia : I wa := hI _ _ ra hi3
            have rb : R wa wb := ih1 _ _ _ _ hia (hone _ _ n4) hwb
            have hib : I wb := hI _ _ rb hia
            have hexb : entityExists wb eid = true :=
              exists_of_reach ((reach_addComponent n).1 _ _ _ _ hwb) eid
                (exists_of_reach ((reach_addComponent n).1 _ _ _ _ hwa) eid hex3)
            have rc := hrel wb (setAdd (setAdd wb.entitiesWithRelations (Target.eid tt)) (Target.eid eid))
            have hic := hI _ _ rc hib
            have rd := hrel { wb with entitiesWithRelations := setAdd (setAdd wb.entitiesWithRelations (Target.eid tt)) (Target.eid eid) } (setAdd (setAdd (setAdd wb.entitiesWithRelations (Target.eid tt)) (Target.eid eid)) (Target.eid tt))
            have hid := hI _ _ rd hic
            have r4 := hExcl _ _ hokc _ _ hid (by exact hexb) h7
            exact htrans _ _ _ r2 (htrans _ _ _ r3 (htrans _ _ _ ra
              (htrans _ _ _ rb (htrans _ _ _ rc (htrans _ _ _ rd r4)))))
          | rel tr =>
            simp only at h4
            have rc := hrel w3 (setAdd w3.entitiesWithRelations (Target.rel tr))
            have hic := hI _ _ rc hi3
            have r4 := hExcl _ _ hokc _ _ hic (by exact hex3) h4
            exact htrans _ _ _ r2 (htrans _ _ _ r3 (htrans _ _ _ rc r4))
        | plain k => simp only [pure, Except.pure] at h2; cases h2; exact hrefl _
        | prefab => simp only [pure, Except.pure] at h2; cases h2; exact hrefl _
        | fn r => simp only [pure, Except.pure] at h2; cases h2; exact hrefl _
        | keyed k c2 => simp only [pure, Except.pure] at h2; cases h2; exact hrefl _
    have heach : ∀ w eid c w', I w → Ok c.unwrap → entityExists w eid = true →
        addComponentEach (n + 1) w eid c = .ok w' → R w w' := by
      intro w eid c w' hiw hokc hex h
      have h0 := h
      rw [addComponentEach] at h0
      obtain ⟨⟨w1, attached⟩, hat, _⟩ := bind_ok_inv _ _ _ h0
      exact htrans _ _ _ (hattach w eid c.unwrap w1 attached hokc hiw hex hat)
        (hbody w eid c w1 attached w' hiw hokc hex hat h)
    refine ⟨?_, heach, ?_, hbody⟩
    · intro w eid cs w' hiw hok h
      rw [addComponent] at h
      split at h
      · cases h
      · rename_i hex
        have hex2 : entityExists w eid = true := by simpa using hex
        exact (foldlM_rel (fun (s : World) => s) R (fun s => I s ∧ entityExists s eid = true)
          (fun w c => addComponentEach n w eid c) hrefl htrans cs
          (fun a ha s s' hq hs => ⟨ih2 s eid a s' hq.1 (hok a ha) hq.2 hs,
            hI _ _ (ih2 s eid a s' hq.1 (hok a ha) hq.2 hs) hq.1,
            exists_of_reach ((reach_addComponent n).2.1 s eid a s' hq.2 hs) eid hq.2⟩)
          w w' ⟨hiw, hex2⟩ h).1
    · intro w b i v r hiw hok0 h
      rw [recursivelyInherit] at h
      split at h
      · cases h; exact hrefl _
      · obtain ⟨w1, hw1, h2⟩ := bind_ok_inv _ _ _ h
        have r1 : R w w1 := ih1 _ _ _ _ hiw (hone _ _ hok0) hw1
        have hi1 : I w1 := hI _ _ r1 hiw
        obtain ⟨components, hcomps, h3⟩ := bind_ok_inv _ _ _ h2
        obtain ⟨w2, hw2, h4⟩ := bind_ok_inv _ _ _ h3
        have r2q := foldlM_rel (fun (s : World) => s) R I
          (fun (w : World) component =>
            if component = Prefab then pure w
            else if !hasComponent w b component then addComponent n w b [component]
            else pure w) hrefl htrans components
          (by
            intro a ha wx wy hix hh
            simp only at hh
            split at hh
            · simp only [pure, Except.pure] at hh
              cases hh; exact ⟨hrefl _, hix⟩
            · rename_i hnp
              split at hh
              · have hoka : Ok a.unwrap := hinh _ hok0 w1 i components a hi1 hcomps ha hnp
                have rr := ih1 _ _ _ _ hix
                  (fun d hd => by rw [List.mem_singleton.1 hd]; exact hoka) hh
                exact ⟨rr, hI _ _ rr hix⟩
              · simp only [pure, Except.pure] at hh
                cases hh; exact ⟨hrefl _, hix⟩) w1 w2 hi1 hw2
        obtain ⟨parents, hparents, h5⟩ := bind_ok_inv _ _ _ h4
        have r3 := (foldlM_rel (fun (s : World × List Int) => s.1) R (fun s => I s.1)
          (fun (acc : World × List Int) parentEid =>
            recursivelyInherit n acc.1 b parentEid acc.2) hrefl htrans parents
          (fun a ha s s' hs hh =>
            ⟨ih3 _ _ _ _ _ hs (hpar _ hok0 w2 i a parents r2q.2 hparents ha) hh,
              hI _ _ (ih3 _ _ _ _ _ hs (hpar _ hok0 w2 i a parents r2q.2 hparents ha) hh) hs⟩)
          _ _ r2q.2 h5).1
        exact htrans _ _ _ r1 (htrans _ _ _ r2q.1 r3)

theorem holds_iff_has {w : World} (h : WorldInv w) (y : Int) (d : Component) :
    Holds w y d ↔ hasComponent w y d = true := by
  constructor
  · rintro ⟨cs, hcs, hd⟩
    exact (h.sets y cs hcs).2 d hd
  · intro hc
    obtain ⟨dd, hdd, hbit⟩ := (hasComponent_testBit h.reg y d).1 hc
    obtain ⟨c2, d2, cs2, hd2, hg, hk, hcs2, hmem⟩ := h.bits y _ _ hbit
    have hcc : c2 = d := regInv_same_slot h.reg c2 d d2 dd hd2 hdd hg hk
    exact ⟨cs2, hcs2, hcc ▸ hmem⟩

theorem attach_holds (w : World) (e : Int) (c : Component) (w1 : World) (b : Bool)
    (hat : attach w e c = .ok (w1, b)) (y : Int) (d : Component) (hd : Holds w y d) :
    Holds w1 y d := by
  obtain ⟨cs, hcs, hmem⟩ := hd
  obtain ⟨_, f2, _, _, _⟩ := ensureRegistered_fields w c
  rcases attach_fields w e c w1 b hat with ⟨_, _, hw⟩ | ⟨_, _, d0, cs0, qs, dq, _, hcs0, hw⟩
  · refine ⟨cs, ?_, hmem⟩
    rw [hw, f2]
    exact hcs
  · rw [f2] at hcs0
    by_cases hy : y = e
    · rw [hy] at hcs
      rw [hcs] at hcs0
      cases hcs0
      refine ⟨setAdd cs c, ?_, (mem_setAdd cs c d).2 (Or.inl hmem)⟩
      rw [hw, hy]
      exact mapGet_mapSet_same _ _ _
    · refine ⟨cs, ?_, hmem⟩
      rw [hw]
      show mapGet (mapSet (ensureRegistered w c).entityComponents e (setAdd cs0 c)) y = some cs
      rw [mapGet_mapSet_ne _ _ _ _ hy, f2]
      exact hcs

/-- `removeComponent` on an entity leaves the component sets of the other entities. -/
theorem removeComponent_others (fuel : Nat) :
    (∀ w e cs w2, removeComponent fuel w e cs = .ok w2 → ∀ z, z ≠ e →
      mapGet w2.entityComponents z = mapGet w.entityComponents z) ∧
    (∀ w e c w2, removeComponentEach fuel w e c = .ok w2 → ∀ z, z ≠ e →
      mapGet w2.entityComponents z = mapGet w.entityComponents z) := by
  induction fuel with
  | zero =>
    constructor
    · intro w e cs w2 h; rw [removeComponent] at h; cases h
    · intro w e c w2 h; rw [removeComponentEach] at h; cases h
  | succ n ih =>
    constructor
    · intro w e cs w2 h z hz
      rw [removeComponent] at h
      split at h
      · cases h
      · have hfold : ∀ (l : List Component) (a b : World),
            l.foldlM (fun w c => removeComponentEach n w e c) a = .ok b →
            mapGet b.entityComponents z = mapGet a.entityComponents z := by
          intro l
          induction l with
          | nil => intro a b hh; cases hh; rfl
          | cons c rest ihl =>
            intro a b hh
            rw [List.foldlM_cons] at hh
            obtain ⟨a1, h1, h2⟩ := bind_ok_inv _ _ _ hh
            rw [ihl a1 b h2]
            exact ih.2 a e c a1 h1 z hz
        exact hfold cs w w2 h
    · intro w e c w2 h z hz
      rw [removeComponentEach] at h
      split at h
      · cases h; rfl
      · obtain ⟨w1, hdt, h2⟩ := bind_ok_inv _ _ _ h
        obtain ⟨d, cs, qs, dq, _, _, hw1⟩ := detach_fields w e c w1 hdt
        have hz1 : mapGet w1.entityComponents z = mapGet w.entityComponents z := by
          rw [hw1]
          exact mapGet_mapSet_ne _ _ _ _ hz
        cases c with
        | pair r t =>
          simp only at h2
          obtain ⟨w3, h3, h4⟩ := bind_ok_inv _ _ _ h2
          obtain ⟨ts, _, h6⟩ := bind_ok_inv _ _ _ h4
          have hz3 := ih.1 _ _ _ _ h3 z hz
          split at h6
          · rw [ih.1 _ _ _ _ h6 z hz, hz3, hz1]
          · cases h6
            rw [hz3, hz1]
        | plain k => cases h2; exact hz1
        | prefab => cases h2; exact hz1
        | fn r => cases h2; exact hz1
        | keyed k c2 => cases h2; exact hz1

/-- What a returned `removeComponent` of one component did to the component set of the
entity, whatever the fuel it was run with. -/
theorem remove_returned_sem (n : Nat) (w : World) (e : Int) (c : Component) (w2 : World)
    (cs : List Component) (h : WorldInv w) (he : entityExists w e = true)
    (hcs : mapGet w.entityComponents e = some cs)
    (hrun : removeComponent n w e [c] = .ok w2) :
    ∃ D : List Component, WorldInv w2 ∧
      mapGet w2.entityComponents e = some (cs.filter (fun x => decide (x ∉ D))) ∧
      w2.entitiesWithRelations = w.entitiesWithRelations ∧ w2.entityIndex = w.entityIndex ∧
      c ∈ D ∧
      (∀ d, d ∈ D → d = c ∨ ∃ r t, c = .pair r t ∧
        (d = Pair Wildcard t ∨ d = Pair r (.rel Wildcard) ∨ d = Pair Wildcard (.rel Wildcard))) := by
  have hbig := (removeComponent_mono n).1 (max n (2 * cs.length + 2)) w e [c] w2
    (le_max_left _ _) hrun
  obtain ⟨g, hg⟩ : ∃ g, max n (2 * cs.length + 2) = g + 1 :=
    ⟨max n (2 * cs.length + 2) - 1, by have := le_max_right n (2 * cs.length + 2); omega⟩
  rw [hg, removeComponent_single g w e c he] at hbig
  have hg2 : 2 * cs.length + 1 ≤ g := by
    have := le_max_right n (2 * cs.length + 2)
    omega
  obtain ⟨w3, D, hr, hinv, _, hcs3, hrel, hix, hcD, hD, _⟩ :=
    removeEach_sem cs.length g w e c cs hg2 h he hcs (le_refl _)
  rw [hbig] at hr
  cases hr
  exact ⟨D, hinv, hcs3, hrel, hix, hcD, hD⟩

theorem keeps_refl (keep : Int → Component → Prop) (w : World) : Keeps keep w w :=
  fun h => ⟨h, rfl, fun _ _ hd _ => hd⟩

theorem keeps_trans (keep : Int → Component → Prop) (a b c : World) (h1 : Keeps keep a b)
    (h2 : Keeps keep b c) : Keeps keep a c := by
  intro ha
  obtain ⟨hb, hib, hkb⟩ := h1 ha
  obtain ⟨hc, hic, hkc⟩ := h2 hb
  exact ⟨hc, hic.trans hib, fun y d hd hk => hkc y d (hkb y d hd hk) hk⟩

theorem keeps_attach (keep : Int → Component → Prop) (w : World) (e : Int) (c : Component)
    (w1 : World) (b : Bool) (he : entityExists w e = true) (hat : attach w e c = .ok (w1, b)) :
    Keeps keep w w1 :=
  fun h => ⟨worldInv_prim (Prim.attach w e c w1 b he hat) h,
    prim_entityIndex (Prim.attach w e c w1 b he hat),
    fun y d hd _ => attach_holds w e c w1 b hat y d hd⟩

theorem keeps_relations (keep : Int → Component → Prop) (w : World) (s : List Target) :
    Keeps keep w { w with entitiesWithRelations := s } :=
  fun h => ⟨worldInv_prim (Prim.relations w s) h, rfl, fun _ _ hd _ => hd⟩

/-- A returned `removeComponent(world, e, c)` keeps every member of a component set but
`c` and, for a pair `c`, the three wildcard pairs it can take along. -/
theorem remove_holds (n : Nat) (y : World) (e : Int) (c : Component) (y2 : World)
    (h : WorldInv y) (he : entityExists y e = true)
    (hrun : removeComponent n y e [c] = .ok y2) (z : Int) (d : Component) (hd : Holds y z d)
    (hsafe : z = e → d ≠ c ∧ ∀ r t, c = .pair r t →
      d ≠ Pair Wildcard t ∧ d ≠ Pair r (.rel Wildcard) ∧ d ≠ Pair Wildcard (.rel Wildcard)) :
    Holds y2 z d := by
  obtain ⟨cs, hcs, hmem⟩ := hd
  by_cases hz : z = e
  · obtain ⟨hne, hpair⟩ := hsafe hz
    rw [hz] at hcs
    obtain ⟨D, _, hcs2, _, _, _, hD⟩ := remove_returned_sem n y e c y2 cs h he hcs hrun
    refine ⟨_, by rw [hz]; exact hcs2, ?_⟩
    rw [List.mem_filter]
    refine ⟨hmem, ?_⟩
    simp only [decide_not, Bool.not_eq_eq_eq_not, Bool.not_true, decide_eq_false_iff_not]
    intro hdD
    rcases hD d hdD with hdc | ⟨r, t, hc, hw⟩
    · exact hne hdc
    · obtain ⟨h1, h2, h3⟩ := hpair r t hc
      rcases hw with hw | hw | hw
      · exact h1 hw
      · exact h2 hw
      · exact h3 hw
  · refine ⟨cs, ?_, hmem⟩
    rw [(removeComponent_others n).1 y e [c] y2 hrun z hz]
    exact hcs

theorem keeps_remove (keep : Int → Component → Prop) (n : Nat) (y : World) (e : Int)
    (c : Component) (y2 : World) (he : entityExists y e = true)
    (hrun : removeComponent n y e [c] = .ok y2)
    (hsafe : ∀ d, keep e d → d ≠ c ∧ ∀ r t, c = .pair r t →
      d ≠ Pair Wildcard t ∧ d ≠ Pair r (.rel Wildcard) ∧ d ≠ Pair Wildcard (.rel Wildcard)) :
    Keeps keep y y2 := by
  intro h
  have hr := (reach_removeComponent n).1 y e [c] y2 hrun
  refine ⟨worldInv_reach hr h, reach_entityIndex hr, ?_⟩
  intro z d hd hk
  exact remove_holds n y e c y2 h he hrun z d hd (fun hz => hsafe d (hz ▸ hk))

/-- `addComponent` keeps, in every component set, the members that are not replaceable. -/
theorem add_keeps_sturdy (fuel : Nat) :
    (∀ w eid cs w', addComponent fuel w eid cs = .ok w' →
      Keeps (fun _ d => d.replaceable = false) w w') ∧
    (∀ w eid c w1 attached w', entityExists w eid = true →
      attach w eid c.unwrap = .ok (w1, attached) →
      addComponentEach fuel w eid c = .ok w' → Keeps (fun _ d => d.replaceable = false) w1 w') := by
  obtain ⟨h1, _, _, h4⟩ := addComponent_rel (Keeps (fun _ d => d.replaceable = false))
    (fun _ => True) (fun _ => True) (fun _ => True) (keeps_refl _) (keeps_trans _)
    (fun _ _ _ _ => trivial) (fun _ _ _ _ => trivial)
    (fun w e c w1 b _ _ he hat => keeps_attach _ w e c w1 b he hat)
    (fun w s => keeps_relations _ w s)
    (fun r t _ hex _ n y e old y2 _ he _ hrun => by
      apply keeps_remove _ n y e _ y2 he hrun
      intro d hk
      refine ⟨?_, ?_⟩
      · intro hdc
        rw [hdc] at hk
        simp [Pair, Component.replaceable, hex] at hk
      · intro r2 t2 hc
        cases hc
        refine ⟨?_, ?_, ?_⟩
        · intro hdc
          rw [hdc] at hk
          simp [Pair, Component.replaceable] at hk
        · intro hdc
          rw [hdc] at hk
          simp [Pair, Component.replaceable, hex] at hk
        · intro hdc
          rw [hdc] at hk
          simp [Pair, Component.replaceable] at hk)
    (fun _ _ _ => ⟨trivial, trivial, fun _ _ => trivial, trivial⟩)
    (fun _ _ _ _ _ _ _ _ _ => trivial) (fun _ _ _ _ _ _ _ _ _ _ => trivial) fuel
  exact ⟨fun w eid cs w' h => h1 w eid cs w' trivial (fun _ _ => trivial) h,
    fun w eid c w1 attached w' he hat h => h4 w eid c w1 attached w' trivial trivial he hat h⟩

theorem quiet_nested (r : Relation) (t : Target) (h : (Component.pair r t).quiet = true) :
    (Component.pair r (.rel Wildcard)).quiet = true ∧ (Component.pair Wildcard t).quiet = true ∧
      (∀ x, (Component.pair Wildcard (.eid x)).quiet = true) ∧
      (Component.pair Wildcard (.rel r)).quiet = true := by
  refine ⟨?_, ?_, ?_, ?_⟩
  · simp only [Component.quiet, Bool.or_eq_true, Bool.and_eq_true, decide_eq_true_eq,
      Bool.not_eq_true', decide_eq_false_iff_not] at h ⊢
    rcases h with h | h
    · exact Or.inl h
    · exact Or.inr ⟨trivial, h.2⟩
  · simp [Component.quiet]
  · intro x; simp [Component.quiet]
  · simp [Component.quiet]

theorem quiet_not_exclusive (r : Relation) (t : Target) (h : (Component.pair r t).quiet = true)
    (hex : r.exclusiveRelation = true) (ht : t ≠ .rel Wildcard) : False := by
  simp only [Component.quiet, Bool.or_eq_true, Bool.and_eq_true, decide_eq_true_eq,
    Bool.not_eq_true', decide_eq_false_iff_not] at h
  rcases h with h | h
  · rw [h] at hex
    exact absurd hex (by decide)
  · exact ht h.1

theorem quiet_not_isa (t : Target) (h : (Component.pair IsA t).quiet = true) : False := by
  simp only [Component.quiet, Bool.or_eq_true, Bool.and_eq_true, decide_eq_true_eq,
    Bool.not_eq_true', decide_eq_false_iff_not] at h
  rcases h with h | h
  · exact absurd h (by decide)
  · exact h.2 trivial

/-- `addComponent` of a quiet component keeps every member of every component set. -/
theorem add_keeps_quiet (fuel : Nat) :
    (∀ w eid cs w', (∀ c, c ∈ cs → c.unwrap.quiet = true) → addComponent fuel w eid cs = .ok w' →
      Keeps (fun _ _ => True) w w') ∧
    (∀ w eid c w1 attached w', c.unwrap.quiet = true → entityExists w eid = true →
      attach w eid c.unwrap = .ok (w1, attached) →
      addComponentEach fuel w eid c = .ok w' → Keeps (fun _ _ => True) w1 w') := by
  obtain ⟨h1, _, _, h4⟩ := addComponent_rel (Keeps (fun _ _ => True))
    (fun c => c.quiet = true) (fun _ => True) (fun _ => True) (keeps_refl _) (keeps_trans _)
    (fun _ _ _ _ => trivial) (fun _ _ _ _ => trivial)
    (fun w e c w1 b _ _ he hat => keeps_attach _ w e c w1 b he hat)
    (fun w s => keeps_relations _ w s)
    (fun r t hq hex ht _ _ _ _ _ _ _ _ _ => (quiet_not_exclusive r t hq hex ht).elim)
    (fun r t hq => ⟨(quiet_nested r t hq).1, (quiet_nested r t hq).2.1,
      fun x _ => (quiet_nested r t hq).2.2.1 x, (quiet_nested r t hq).2.2.2⟩)
    (fun t hq => (quiet_not_isa t hq).elim)
    (fun t hq => (quiet_not_isa t hq).elim) fuel
  exact ⟨fun w eid cs w' hq h => h1 w eid cs w' trivial hq h,
    fun w eid c w1 attached w' hq he hat h => h4 w eid c w1 attached w' trivial hq he hat h⟩

/-- `addComponent` of a pair of an exclusive relation keeps that pair on the entity it
is added to: the exclusive branch removes the pair of another target only. -/
theorem add_keeps_own (e0 : Int) (r0 : Relation) (t0 : Target)
    (hex0 : r0.exclusiveRelation = true) (fuel : Nat) :
    ∀ w eid c w1 attached w', (c.unwrap = .pair r0 t0 ∨ c.unwrap.quiet = true) →
      entityExists w eid = true → attach w eid c.unwrap = .ok (w1, attached) →
      addComponentEach fuel w eid c = .ok w' →
      Keeps (fun y d => y = e0 ∧ d = .pair r0 t0) w1 w' := by
  have hW : r0 ≠ Wildcard := by
    intro hh
    rw [hh] at hex0
    exact absurd hex0 (by decide)
  have hI : r0 ≠ IsA := by
    intro hh
    rw [hh] at hex0
    exact absurd hex0 (by decide)
  have hnoisa : ∀ t, ((Component.pair IsA t) = .pair r0 t0 ∨
      (Component.pair IsA t).quiet = true) → False := by
    intro t hok
    rcases hok with hok | hok
    · simp only [Component.pair.injEq] at hok
      exact absurd hok.1.symm hI
    · exact (quiet_not_isa t hok).elim
  obtain ⟨_, _, _, h4⟩ := addComponent_rel (Keeps (fun y d => y = e0 ∧ d = .pair r0 t0))
    (fun c => c = .pair r0 t0 ∨ c.quiet = true) (fun _ => True) (fun _ => True) (keeps_refl _)
    (keeps_trans _) (fun _ _ _ _ => trivial) (fun _ _ _ _ => trivial)
    (fun w e c w1 b _ _ he hat => keeps_attach _ w e c w1 b he hat)
    (fun w s => keeps_relations _ w s)
    (fun r t hok hex ht n y e old y2 _ he hne hrun => by
      rcases hok with hok | hok
      · cases hok
        apply keeps_remove _ n y e _ y2 he hrun
        rintro d ⟨_, hd⟩
        rw [hd]
        refine ⟨?_, ?_⟩
        · intro hdc
          simp only [Pair, Component.pair.injEq, true_and] at hdc
          exact hne hdc.symm
        · intro r2 t2 hc
          simp only [Pair, Component.pair.injEq] at hc
          obtain ⟨hr2, ht2⟩ := hc
          subst hr2
          refine ⟨?_, ?_, ?_⟩
          · intro hdc
            simp only [Pair, Component.pair.injEq] at hdc
            exact hW hdc.1
          · intro hdc
            simp only [Pair, Component.pair.injEq, true_and] at hdc
            exact ht hdc
          · intro hdc
            simp only [Pair, Component.pair.injEq] at hdc
            exact hW hdc.1
      · exact (quiet_not_exclusive r t hok hex ht).elim)
    (fun r t hok => by
      rcases hok with hok | hok
      · cases hok
        refine ⟨Or.inr ?_, Or.inr ?_, fun x _ => Or.inr ?_, Or.inr ?_⟩
        · simp [Component.quiet, hI]
        · simp [Component.quiet]
        · simp [Component.quiet]
        · simp [Component.quiet]
      · obtain ⟨q1, q2, q3, q4⟩ := quiet_nested r t hok
        exact ⟨Or.inr q1, Or.inr q2, fun x _ => Or.inr (q3 x), Or.inr q4⟩)
    (fun t hok => (hnoisa t hok).elim) (fun t hok => (hnoisa t hok).elim) fuel
  exact fun w eid c w1 attached w' hok he hat h =>
    h4 w eid c w1 attached w' trivial hok he hat h

/-- After a returned `addComponent(world, e, c)` of a component that has no key
`component`, the component set of `e` holds `c`. -/
theorem add_presence (n : Nat) (w : World) (e : Int) (c : Component) (w2 : World)
    (h : WorldInv w) (he : entityExists w e = true) (hkey : c.unwrap = c)
    (hrun : addComponentEach n w e c = .ok w2) : WorldInv w2 ∧ Holds w2 e c := by
  obtain ⟨w1, b, hat⟩ := attach_ok w e c h he
  have h1 : WorldInv w1 := worldInv_prim (Prim.attach w e c w1 b he hat) h
  have hh1 : Holds w1 e c :=
    (holds_iff_has h1 e c).2 (attach_presence w e c h he w1 b hat).1
  have hat2 : attach w e c.unwrap = .ok (w1, b) := by rw [hkey]; exact hat
  have hfin : ∀ keep : Int → Component → Prop, keep e c → Keeps keep w1 w2 →
      WorldInv w2 ∧ Holds w2 e c := by
    intro keep hk hkeeps
    obtain ⟨h2, _, hk2⟩ := hkeeps h1
    exact ⟨h2, hk2 e c hh1 hk⟩
  have hquiet : c.quiet = true → WorldInv w2 ∧ Holds w2 e c := by
    intro hq
    exact hfin _ trivial ((add_keeps_quiet n).2 w e c w1 b w2 (by rw [hkey]; exact hq) he hat2 hrun)
  cases c with
  | pair r t =>
    by_cases hex : r.exclusiveRelation = true
    · exact hfin _ ⟨rfl, rfl⟩
        (add_keeps_own e r t hex n w e (.pair r t) w1 b w2 (Or.inl hkey) he hat2 hrun)
    · by_cases hw : r = Wildcard
      · exact hquiet (by simp [Component.quiet, hw])
      · exact hfin _ (by simp [Component.replaceable, hex, hw])
          ((add_keeps_sturdy n).2 w e (.pair r t) w1 b w2 he hat2 hrun)
  | plain k => exact hquiet rfl
  | prefab => exact hquiet rfl
  | fn r => exact hquiet rfl
  | keyed k c2 => exact hquiet rfl

theorem addComponent_single_inv (fuel : Nat) (w : World) (e : Int) (c : Component) (wa : World)
    (hadd : addComponent fuel w e [c] = .ok wa) :
    ∃ n, fuel = n + 1 ∧ entityExists w e = true ∧ addComponentEach n w e c = .ok wa := by
  cases fuel with
  | zero => rw [addComponent] at hadd; cases hadd
  | succ n =>
    rw [addComponent] at hadd
    split at hadd
    · cases hadd
    · rename_i hex
      rw [List.foldlM_cons] at hadd
      obtain ⟨w1, h1, h2⟩ := bind_ok_inv _ _ _ hadd
      cases h2
      exact ⟨n, rfl, by simpa using hex, h1⟩

/-! ### `addComponent` of an `IsA` pair: what is inherited -/

theorem mapGet_mem {κ ν : Type} [DecidableEq κ] (m : List (κ × ν)) (k : κ) (v : ν)
    (h : mapGet m k = some v) : (k, v) ∈ m := by
  induction m with
  | nil => simp [mapGet] at h
  | cons p rest ih =>
    obtain ⟨k2, v2⟩ := p
    by_cases hk : k2 = k
    · simp only [mapGet, hk, ↓reduceIte, Option.some.injEq] at h
      rw [hk, h]
      exact List.mem_cons_self _ _
    · simp only [mapGet, hk, ↓reduceIte] at h
      exact List.mem_cons_of_mem _ (ih h)

theorem keyless_of_noKeyed {w : World} (h : WorldInv w) (hk : noKeyed w = true) : Keyless w := by
  refine ⟨h, ?_⟩
  rintro y d ⟨cs, hcs, hd⟩
  unfold noKeyed at hk
  rw [List.all_eq_true] at hk
  have h1 := hk (y, cs) (mapGet_mem _ _ _ hcs)
  rw [List.all_eq_true] at h1
  simpa using h1 d hd

theorem mem_relationTargetsOf (cs : List Component) (r : Relation) (q : Int)
    (h : Pair r (.eid q) ∈ cs) : q ∈ relationTargetsOf cs r := by
  unfold relationTargetsOf
  rw [List.mem_filterMap]
  exact ⟨_, h, by simp [Pair]⟩

theorem getEntityComponents_holds (w : World) (i : Int) (cs : List Component)
    (h : getEntityComponents w i = .ok cs) : mapGet w.entityComponents i = some cs := by
  unfold getEntityComponents at h
  split at h
  · cases h
  · split at h
    · cases h
    · rename_i cs2 hcs
      cases h
      exact hcs

theorem attach_holds_inv (w : World) (e : Int) (c : Component) (w1 : World) (b : Bool)
    (hat : attach w e c = .ok (w1, b)) (y : Int) (d : Component) (hd : Holds w1 y d) :
    Holds w y d ∨ d = c := by
  obtain ⟨cs, hcs, hmem⟩ := hd
  obtain ⟨_, f2, _, _, _⟩ := ensureRegistered_fields w c
  rcases attach_fields w e c w1 b hat with ⟨_, _, hw⟩ | ⟨_, _, d0, cs0, qs, dq, _, hcs0, hw⟩
  · left
    refine ⟨cs, ?_, hmem⟩
    rw [hw, f2] at hcs
    exact hcs
  · rw [f2] at hcs0
    rw [hw] at hcs
    by_cases hy : y = e
    · rw [hy] at hcs
      have hcs2 : mapGet (mapSet (ensureRegistered w c).entityComponents e (setAdd cs0 c)) e
          = some cs := hcs
      rw [mapGet_mapSet_same] at hcs2
      cases hcs2
      rcases (mem_setAdd cs0 c d).1 hmem with hm | hm
      · left
        exact ⟨cs0, by rw [hy]; exact hcs0, hm⟩
      · right
        exact hm
    · left
      have hcs2 : mapGet (mapSet (ensureRegistered w c).entityComponents e (setAdd cs0 c)) y
          = some cs := hcs
      rw [mapGet_mapSet_ne _ _ _ _ hy, f2] at hcs2
      exact ⟨cs, hcs2, hmem⟩

theorem attach_attached (w : World) (e : Int) (c : Component) (h : WorldInv w)
    (he : entityExists w e = true) (w1 : World) (b : Bool) (hat : attach w e c = .ok (w1, b))
    (hnew : hasComponent w e c = false) : b = true := by
  have h1 : WorldInv w1 := worldInv_prim (Prim.attach w e c w1 b he hat) h
  obtain ⟨cs, hcs⟩ := (h.keys e).2 he
  obtain ⟨_, f2, _, _, _⟩ := ensureRegistered_fields w c
  rcases attach_fields w e c w1 b hat with ⟨_, hhas, hw⟩ | ⟨hb, _⟩
  · have hcs1 : mapGet w1.entityComponents e = some cs := by rw [hw, f2]; exact hcs
    rw [← hw] at hhas
    have hm := (hasComponent_iff_mem h1 e cs hcs1 c).1 hhas
    have := (hasComponent_iff_mem h e cs hcs c).2 hm
    rw [hnew] at this
    cases this
  · exact hb

/-- A returned `removeComponent` adds no member to a component set. -/
theorem remove_shrinks (n : Nat) (y : World) (e : Int) (c : Component) (y2 : World)
    (h : WorldInv y) (he : entityExists y e = true)
    (hrun : removeComponent n y e [c] = .ok y2) (z : Int) (d : Component) (hd : Holds y2 z d) :
    Holds y z d := by
  obtain ⟨cs2, hcs2, hmem⟩ := hd
  by_cases hz : z = e
  · obtain ⟨cs, hcs⟩ := (h.keys e).2 he
    obtain ⟨D, _, hf, _⟩ := remove_returned_sem n y e c y2 cs h he hcs hrun
    rw [hz] at hcs2
    rw [hf] at hcs2
    cases hcs2
    exact ⟨cs, by rw [hz]; exact hcs, (List.mem_filter.1 hmem).1⟩
  · refine ⟨cs2, ?_, hmem⟩
    rw [← (removeComponent_others n).1 y e [c] y2 hrun z hz]
    exact hcs2

theorem gains_refl (w : World) : Gains w w := fun h => ⟨h, fun _ _ hd => Or.inl hd⟩

theorem gains_trans (a b c : World) (h1 : Gains a b) (h2 : Gains b c) : Gains a c := by
  intro ha
  obtain ⟨hb, g1⟩ := h1 ha
  obtain ⟨hc, g2⟩ := h2 hb
  refine ⟨hc, ?_⟩
  intro y d hd
  rcases g2 y d hd with hh | hh
  · exact g1 y d hh
  · exact Or.inr hh

theorem gains_keyless (a b : World) (h : Gains a b) (ha : Keyless a) : Keyless b := by
  obtain ⟨hb, g⟩ := h ha.1
  refine ⟨hb, ?_⟩
  intro y d hd
  rcases g y d hd with hh | hh
  · exact ha.2 y d hh
  · exact hh.1

/-- A returned `addComponent` of components without a key `component` other than `Prefab`,
in a world whose component sets hold no object with such a key, adds only such components
to the component sets. -/
theorem add_gains (fuel : Nat) :
    ∀ w eid cs w', Keyless w → (∀ c, c ∈ cs → c.unwrap.unwrap = c.unwrap ∧ c.unwrap ≠ Prefab) →
      addComponent fuel w eid cs = .ok w' → Gains w w' := by
  have hpair : ∀ (r : Relation) (t : Target),
      (Component.pair r t).unwrap = Component.pair r t ∧ Component.pair r t ≠ Prefab :=
    fun r t => ⟨rfl, by simp [Prefab]⟩
  exact (addComponent_rel Gains (fun c => c.unwrap = c ∧ c ≠ Prefab) Keyless (fun _ => True)
    gains_refl gains_trans gains_keyless (fun _ _ _ _ => trivial)
    (fun w e c w1 b hok hi he hat h => ⟨worldInv_prim (Prim.attach w e c w1 b he hat) h,
      fun y d hd => by
        rcases attach_holds_inv w e c w1 b hat y d hd with hh | hh
        · exact Or.inl hh
        · rw [hh]; exact Or.inr hok⟩)
    (fun w s h => ⟨worldInv_prim (Prim.relations w s) h, fun _ _ hd => Or.inl hd⟩)
    (fun r t _ _ _ n y e old y2 hi he _ hrun h =>
      ⟨worldInv_reach ((reach_removeComponent n).1 y e _ y2 hrun) h,
        fun z d hd => Or.inl (remove_shrinks n y e _ y2 h he hrun z d hd)⟩)
    (fun r t _ => ⟨hpair _ _, hpair _ _, fun _ _ => hpair _ _, hpair _ _⟩)
    (fun _ _ _ _ _ _ _ _ _ => hpair _ _)
    (fun t _ w i comps d hi hget hd hnp => by
      have hu : d.unwrap = d := hi.2 i d ⟨comps, getEntityComponents_holds w i comps hget, hd⟩
      rw [hu]
      exact ⟨hu, hnp⟩) fuel).1

theorem inherited_refl (w0 : World) (b : Int) (w : World) (v : List Int) (h : Keyless w) :
    Inherited w0 b w v w v :=
  ⟨h, fun _ _ hd _ => hd, fun _ hy => hy, fun _ hy hn => absurd hy hn⟩

theorem inherited_trans (w0 : World) (b : Int) (w : World) (v : List Int) (w1 : World)
    (v1 : List Int) (w2 : World) (v2 : List Int) (h1 : Inherited w0 b w v w1 v1)
    (h2 : Inherited w0 b w1 v1 w2 v2) : Inherited w0 b w v w2 v2 := by
  refine ⟨h2.keyless, fun y d hd hs => h2.kept y d (h1.kept y d hd hs) hs,
    fun y hy => h2.sub y (h1.sub y hy), ?_⟩
  intro y hy hn
  by_cases hy1 : y ∈ v1
  · obtain ⟨hc, hp⟩ := h1.copied y hy1 hn
    exact ⟨fun d hd hnp hs => h2.kept b d (hc d hd hnp hs) hs, fun q hq => h2.sub q (hp q hq)⟩
  · exact h2.copied y hy hy1

/-- The loop of `recursivelyInherit` over the components of the inherited entity: the
members that are not replaceable are kept, and the base entity has afterwards every
component of the list that is neither `Prefab` nor replaceable. -/
theorem copy_fold (n : Nat) (b : Int) :
    ∀ (comps : List Component) (wx w2 : World), Keyless wx →
      (∀ d, d ∈ comps → d.unwrap = d) →
      comps.foldlM (fun (w : World) component =>
        if component = Prefab then pure w
        else if !hasComponent w b component then addComponent n w b [component]
        else pure w) wx = .ok w2 →
      Keyless w2 ∧ (∀ y d, Holds wx y d → d.replaceable = false → Holds w2 y d) ∧
        ∀ d, d ∈ comps → d ≠ Prefab → d.replaceable = false → Holds w2 b d := by
  intro comps
  induction comps with
  | nil =>
    intro wx w2 hk _ h
    cases h
    exact ⟨hk, fun _ _ hd _ => hd, fun _ hd => absurd hd (List.not_mem_nil _)⟩
  | cons c rest ih =>
    intro wx w2 hk hkeys h
    rw [List.foldlM_cons] at h
    obtain ⟨wy, hstep, hrest⟩ := bind_ok_inv _ _ _ h
    have hcu : c.unwrap = c := hkeys c (List.mem_cons_self _ _)
    have hone : Keyless wy ∧ (∀ y d, Holds wx y d → d.replaceable = false → Holds wy y d) ∧
        (c ≠ Prefab → Holds wy b c) := by
      split at hstep
      · rename_i hp
        simp only [pure, Except.pure] at hstep
        cases hstep
        exact ⟨hk, fun _ _ hd _ => hd, fun hnp => absurd hp hnp⟩
      · rename_i hnp
        split at hstep
        · obtain ⟨m, _, he, heach⟩ := addComponent_single_inv n wx b c wy hstep
          obtain ⟨_, hh⟩ := add_presence m wx b c wy hk.1 he hcu heach
          have hkeep := ((add_keeps_sturdy n).1 wx b [c] wy hstep hk.1).2.2
          have hg := add_gains n wx b [c] wy hk
            (fun d hd => by rw [List.mem_singleton.1 hd, hcu]; exact ⟨hcu, hnp⟩) hstep
          exact ⟨gains_keyless _ _ hg hk, hkeep, fun _ => hh⟩
        · rename_i hhas
          simp only [pure, Except.pure] at hstep
          cases hstep
          have hhas2 : hasComponent wx b c = true := by simpa using hhas
          exact ⟨hk, fun _ _ hd _ => hd, fun _ => (holds_iff_has hk.1 b c).2 hhas2⟩
    obtain ⟨hky, hkept, hc⟩ := hone
    obtain ⟨hk2, hkept2, hrest2⟩ := ih wy w2 hky
      (fun d hd => hkeys d (List.mem_cons_of_mem _ hd)) hrest
    refine ⟨hk2, fun y d hd hs => hkept2 y d (hkept y d hd hs) hs, ?_⟩
    intro d hd hnp hs
    rcases List.mem_cons.1 hd with hdc | hdr
    · rw [hdc]
      rw [hdc] at hnp hs
      exact hkept2 b c (hc hnp) hs
    · exact hrest2 d hdr hnp hs

/-- What `recursivelyInherit` has done when it returns. -/
theorem inherit_spec (w0 : World) (b : Int) (n : Nat) :
    ∀ (w : World) (i : Int) (v : List Int) (r : World × List Int), Keyless w →
      (∀ y d, Holds w0 y d → d.replaceable = false → Holds w y d) →
      recursivelyInherit n w b i v = .ok r → Inherited w0 b w v r.1 r.2 ∧ i ∈ r.2 := by
  induction n with
  | zero =>
    intro w i v r _ _ h
    rw [recursivelyInherit] at h
    cases h
  | succ n ih =>
    intro w i v r hk hdesc h
    rw [recursivelyInherit] at h
    split at h
    · rename_i hmem
      cases h
      exact ⟨inherited_refl w0 b w v hk, hmem⟩
    · rename_i hnv
      obtain ⟨w1, hw1, h2⟩ := bind_ok_inv _ _ _ h
      obtain ⟨comps, hcomps, h3⟩ := bind_ok_inv _ _ _ h2
      obtain ⟨w2, hw2, h4⟩ := bind_ok_inv _ _ _ h3
      obtain ⟨parents, hparents, h5⟩ := bind_ok_inv _ _ _ h4
      have hisa : ∀ q, (Pair IsA (.eid q)).replaceable = false := fun q => by
        simp [Pair, Component.replaceable, IsA, Wildcard]
      have hkept1 := ((add_keeps_sturdy n).1 w b _ w1 hw1 hk.1).2.2
      have hk1 : Keyless w1 := gains_keyless _ _ (add_gains n w b _ w1 hk
        (fun d hd => by
          rw [List.mem_singleton.1 hd]
          exact ⟨rfl, by simp [Pair, Prefab, Component.unwrap]⟩) hw1) hk
      have hset1 := getEntityComponents_holds w1 i comps hcomps
      obtain ⟨hk2, hkept2, hcopied⟩ := copy_fold n b comps w1 w2 hk1
        (fun d hd => hk1.2 i d ⟨comps, hset1, hd⟩) hw2
      have hdesc2 : ∀ y d, Holds w0 y d → d.replaceable = false → Holds w2 y d :=
        fun y d hd hs => hkept2 y d (hkept1 y d (hdesc y d hd hs) hs) hs
      have hpar : ∀ (ps : List Int) (acc acc2 : World × List Int), Keyless acc.1 →
          (∀ y d, Holds w0 y d → d.replaceable = false → Holds acc.1 y d) →
          ps.foldlM (fun (acc : World × List Int) parentEid =>
            recursivelyInherit n acc.1 b parentEid acc.2) acc = .ok acc2 →
          Inherited w0 b acc.1 acc.2 acc2.1 acc2.2 ∧ ∀ q, q ∈ ps → q ∈ acc2.2 := by
        intro ps
        induction ps with
        | nil =>
          intro acc acc2 hka _ hf
          cases hf
          exact ⟨inherited_refl w0 b _ _ hka, fun _ hq => absurd hq (List.not_mem_nil _)⟩
        | cons q rest ihl =>
          intro acc acc2 hka hda hf
          rw [List.foldlM_cons] at hf
          obtain ⟨acc1, hq, hrest⟩ := bind_ok_inv _ _ _ hf
          obtain ⟨i1, hq1⟩ := ih acc.1 q acc.2 acc1 hka hda hq
          obtain ⟨i2, hr2⟩ := ihl acc1 acc2 i1.keyless
            (fun y d hd hs => i1.kept y d (hda y d hd hs) hs) hrest
          refine ⟨inherited_trans w0 b _ _ _ _ _ _ i1 i2, ?_⟩
          intro q2 hq2
          rcases List.mem_cons.1 hq2 with hh | hh
          · rw [hh]; exact i2.sub q hq1
          · exact hr2 q2 hh
      obtain ⟨ifold, hpars⟩ := hpar parents (w2, v ++ [i]) r hk2 hdesc2 h5
      have hi : i ∈ r.2 := ifold.sub i (by simp)
      refine ⟨⟨ifold.keyless,
        fun y d hd hs => ifold.kept y d (hkept2 y d (hkept1 y d hd hs) hs) hs,
        fun y hy => ifold.sub y (by simp [hy]), ?_⟩, hi⟩
      intro y hy hyv
      by_cases hyi : y = i
      · rw [hyi]
        refine ⟨?_, ?_⟩
        · intro d hd hnp hs
          have hd1 : Holds w1 i d := hkept1 i d (hdesc i d hd hs) hs
          obtain ⟨cs, hcs, hm⟩ := hd1
          rw [hset1] at hcs
          cases hcs
          exact ifold.kept b d (hcopied d hm hnp hs) hs
        · intro q hq
          have hq2 : Holds w2 i (Pair IsA (.eid q)) := hdesc2 i _ hq (hisa q)
          obtain ⟨cs, hcs, hm⟩ := hq2
          apply hpars q
          unfold getRelationTargets at hparents
          obtain ⟨cs2, hcs2, hp2⟩ := bind_ok_inv _ _ _ hparents
          have := getEntityComponents_holds w2 i cs2 hcs2
          rw [hcs] at this
          cases this
          simp only [pure, Except.pure] at hp2
          cases hp2
          exact mem_relationTargetsOf cs IsA q hm
      · exact ifold.copied y hy (by simp [hyv, hyi])

theorem add_next (n : Nat) (w : World) (eid : Int) (cs : List Component) (w2 : World)
    (hk : Keyless w) (hok : ∀ c, c ∈ cs → c.unwrap.unwrap = c.unwrap ∧ c.unwrap ≠ Prefab)
    (hrun : addComponent n w eid cs = .ok w2) :
    Keyless w2 ∧ ∀ y d, Holds w y d → d.replaceable = false → Holds w2 y d :=
  ⟨gains_keyless _ _ (add_gains n w eid cs w2 hk hok hrun) hk,
    ((add_keeps_sturdy n).1 w eid cs w2 hrun hk.1).2.2⟩

theorem reach_visited (w0 : World) (h0 : WorldInv w0) (b : Int) (w w2 : World) (v2 : List Int)
    (hin : Inherited w0 b w [] w2 v2) (t : Int) (ht : t ∈ v2) (y : Int)
    (hy : IsAReachable w0 t y) : y ∈ v2 := by
  induction hy with
  | base => exact ht
  | step y q _ hq ih =>
    exact (hin.copied y ih (List.not_mem_nil _)).2 q ((holds_iff_has h0 y _).2 hq)

/-- The loop of the `IsA` branch of `addComponent` over the `IsA` targets of the entity. -/
theorem top_fold (w0 : World) (h0 : WorldInv w0) (e : Int) (m : Nat) :
    ∀ (targets : List Int) (wx w2 : World), Keyless wx →
      (∀ y d, Holds w0 y d → d.replaceable = false → Holds wx y d) →
      targets.foldlM (fun (w : World) inherited => do
        let r ← recursivelyInherit m w e inherited []
        pure r.1) wx = .ok w2 →
      Keyless w2 ∧ (∀ y d, Holds wx y d → d.replaceable = false → Holds w2 y d) ∧
        ∀ t, t ∈ targets → ∀ y, IsAReachable w0 t y →
          ∀ d, Holds w0 y d → d ≠ Prefab → d.replaceable = false → Holds w2 e d := by
  intro targets
  induction targets with
  | nil =>
    intro wx w2 hk _ h
    cases h
    exact ⟨hk, fun _ _ hd _ => hd, fun _ ht => absurd ht (List.not_mem_nil _)⟩
  | cons t rest ih =>
    intro wx w2 hk hdesc h
    rw [List.foldlM_cons] at h
    obtain ⟨wy, hstep, hrest⟩ := bind_ok_inv _ _ _ h
    obtain ⟨r, hr, hp⟩ := bind_ok_inv _ _ _ hstep
    simp only [pure, Except.pure] at hp
    cases hp
    obtain ⟨hin, ht⟩ := inherit_spec w0 e m wx t [] r hk hdesc hr
    obtain ⟨hk2, hkept2, hrest2⟩ := ih r.1 w2 hin.keyless
      (fun y d hd hs => hin.kept y d (hdesc y d hd hs) hs) hrest
    refine ⟨hk2, fun y d hd hs => hkept2 y d (hin.kept y d hd hs) hs, ?_⟩
    intro t2 ht2 y hy d hd hnp hs
    rcases List.mem_cons.1 ht2 with hh | hh
    · rw [hh] at hy
      have hyv := reach_visited w0 h0 e wx r.1 r.2 hin t ht y hy
      exact hkept2 e d ((hin.copied y hyv (List.not_mem_nil _)).1 d hd hnp hs) hs
    · exact hrest2 t2 hh y hy d hd hnp hs

/-- A returned `addComponent(world, e, IsA(p))` on an entity that has not `IsA(p)`, in a
world whose component sets hold no object with a key `component`: the entity has afterwards
every component, other than `Prefab` and the replaceable ones, of the entities reached
from `p` through `IsA` targets. -/
theorem isa_add_copies (n : Nat) (w : World) (e p : Int) (w2 : World) (hk : Keyless w)
    (he : entityExists w e = true) (hnew : hasComponent w e (Pair IsA (.eid p)) = false)
    (h : addComponentEach n w e (Pair IsA (.eid p)) = .ok w2) :
    ∀ y, IsAReachable w p y →
      ∀ d, Holds w y d → d ≠ Prefab → d.replaceable = false → Holds w2 e d := by
  cases n with
  | zero => rw [addComponentEach] at h; cases h
  | succ m =>
    rw [addComponentEach] at h
    obtain ⟨⟨w1, attached⟩, hat, h2⟩ := bind_ok_inv _ _ _ h
    have hat1 : attach w e (Pair IsA (.eid p)) = .ok (w1, attached) := hat
    have hb := attach_attached w e _ hk.1 he w1 attached hat1 hnew
    subst hb
    have hpair : ∀ (r : Relation) (t : Target) (c : Component), c ∈ [Pair r t] →
        c.unwrap.unwrap = c.unwrap ∧ c.unwrap ≠ Prefab := by
      intro r t c hc
      rw [List.mem_singleton.1 hc]
      exact ⟨rfl, by simp [Pair, Prefab, Component.unwrap]⟩
    have hsturdy : (Pair IsA (.eid p)).replaceable = false := by
      simp [Pair, Component.replaceable, IsA, Wildcard]
    have hk1 : Keyless w1 := by
      refine ⟨worldInv_prim (Prim.attach w e _ w1 true he hat1) hk.1, ?_⟩
      intro y d hd
      rcases attach_holds_inv w e _ w1 true hat1 y d hd with hh | hh
      · exact hk.2 y d hh
      · rw [hh]; rfl
    have hd1 : ∀ y d, Holds w y d → d.replaceable = false → Holds w1 y d :=
      fun y d hd _ => attach_holds w e _ w1 true hat1 y d hd
    have hown1 : Holds w1 e (Pair IsA (.eid p)) :=
      (holds_iff_has hk1.1 e _).2 (attach_presence w e _ hk.1 he w1 true hat1).1
    simp only [Component.unwrap, Pair, Bool.not_true, Bool.false_eq_true, ↓reduceIte] at h2
    obtain ⟨wa, hwa, h3⟩ := bind_ok_inv _ _ _ h2
    obtain ⟨hka, hda⟩ := add_next m w1 e _ wa hk1 (hpair _ _) hwa
    obtain ⟨wb, hwb, h4⟩ := bind_ok_inv _ _ _ h3
    obtain ⟨hkb, hdb⟩ := add_next m wa e _ wb hka (hpair _ _) hwb
    obtain ⟨wc, hwc, h5⟩ := bind_ok_inv _ _ _ h4
    obtain ⟨hkc, hdc⟩ := add_next m wb p _ wc hkb (hpair _ _) hwc
    obtain ⟨wd, hwd, h6⟩ := bind_ok_inv _ _ _ h5
    obtain ⟨hkd, hdd⟩ := add_next m wc p _ wd hkc (hpair _ _) hwd
    obtain ⟨wy, hwy, h7⟩ := bind_ok_inv _ _ _ h6
    simp only [pure, Except.pure] at hwy
    cases hwy
    have hne : ¬(IsA.exclusiveRelation = true ∧ Target.eid p ≠ Target.rel Wildcard) :=
      fun hh => by simp [IsA] at hh
    rw [if_neg hne] at h7
    obtain ⟨wz, hwz, h8⟩ := bind_ok_inv _ _ _ h7
    simp only [pure, Except.pure] at hwz
    cases hwz
    obtain ⟨targets, htargets, h9⟩ := bind_ok_inv _ _ _ h8
    obtain ⟨wr, hwr, h10⟩ := bind_ok_inv _ _ _ h9
    simp only [pure, Except.pure] at h10
    cases h10
    have hownd : Holds wd e (Pair IsA (.eid p)) :=
      hdd e _ (hdc e _ (hdb e _ (hda e _ hown1 hsturdy) hsturdy) hsturdy) hsturdy
    have hdescd : ∀ y d, Holds w y d → d.replaceable = false → Holds wd y d :=
      fun y d hd hs => hdd y d (hdc y d (hdb y d (hda y d (hd1 y d hd hs) hs) hs) hs) hs
    have hkx : Keyless { wd with entitiesWithRelations := setAdd (setAdd (setAdd wd.entitiesWithRelations (Target.eid p)) (Target.eid e)) (Target.eid p) } :=
      ⟨worldInv_prim (Prim.relations wd _) hkd.1, fun y d hd => hkd.2 y d hd⟩
    obtain ⟨_, _, hcop⟩ := top_fold w hk.1 e m targets _ w2 hkx hdescd hwr
    have hp : p ∈ targets := by
      unfold getRelationTargets at htargets
      obtain ⟨cs2, hcs2, hp2⟩ := bind_ok_inv _ _ _ htargets
      have hg := getEntityComponents_holds _ e cs2 hcs2
      obtain ⟨cs, hcs, hm⟩ := hownd
      have hg2 : mapGet wd.entityComponents e = some cs2 := hg
      rw [hcs] at hg2
      cases hg2
      simp only [pure, Except.pure] at hp2
      cases hp2
      exact mem_relationTargetsOf _ IsA p hm
    exact hcop p hp

/-! ### Exclusive relations: at most one target -/

theorem mem_relationTargetsOf_iff (cs : List Component) (r : Relation) (q : Int) :
    q ∈ relationTargetsOf cs r ↔ Pair r (.eid q) ∈ cs := by
  constructor
  · intro h
    unfold relationTargetsOf at h
    rw [List.mem_filterMap] at h
    obtain ⟨c, hc, hq⟩ := h
    cases c with
    | pair r2 t =>
      cases t with
      | eid tt =>
        by_cases h2 : r2 = r
        · simp only [h2, ↓reduceIte, Option.some.injEq] at hq
          rw [← hq, ← h2]
          rw [h2] at hc ⊢
          exact hc
        · simp [h2] at hq
      | rel tr => simp at hq
    | plain n => simp at hq
    | prefab => simp at hq
    | fn r2 => simp at hq
    | keyed n c2 => simp at hq
  · exact mem_relationTargetsOf cs r q

/-- The component sets after `attach`: the component is appended to the set of the
entity when it was not a member, and nothing else changes. -/
theorem attach_sets (w : World) (e : Int) (c : Component) (h : WorldInv w)
    (he : entityExists w e = true) (w1 : World) (b : Bool) (hat : attach w e c = .ok (w1, b)) :
    (∀ y, y ≠ e → componentsOf w1 y = componentsOf w y) ∧
    (b = false → componentsOf w1 e = componentsOf w e ∧ c ∈ componentsOf w e) ∧
    (b = true → componentsOf w1 e = componentsOf w e ++ [c] ∧ c ∉ componentsOf w e) := by
  obtain ⟨cs, hcs⟩ := (h.keys e).2 he
  obtain ⟨_, f2, _, _, _⟩ := ensureRegistered_fields w c
  have hreg := worldInv_ensureRegistered w c h
  have hcsr : mapGet (ensureRegistered w c).entityComponents e = some cs := by rw [f2]; exact hcs
  rcases attach_fields w e c w1 b hat with ⟨hb, hhas, hw⟩ | ⟨hb, hhas, d0, cs0, qs, dq, _, hcs0, hw⟩
  · subst hb
    refine ⟨?_, ?_, fun hh => (by cases hh)⟩
    · intro y _
      unfold componentsOf
      rw [hw, f2]
    · intro _
      refine ⟨by unfold componentsOf; rw [hw, f2], ?_⟩
      unfold componentsOf
      rw [hcs]
      exact (hasComponent_iff_mem hreg e cs hcsr c).1 hhas
  · subst hb
    rw [hcsr] at hcs0
    cases hcs0
    have hnot : c ∉ cs := by
      intro hm
      have := (hasComponent_iff_mem hreg e cs hcsr c).2 hm
      rw [hhas] at this
      cases this
    refine ⟨?_, fun hh => (by cases hh), ?_⟩
    · intro y hy
      unfold componentsOf
      rw [hw]
      show (mapGet (mapSet (ensureRegistered w c).entityComponents e (setAdd cs c)) y).getD [] = _
      rw [mapGet_mapSet_ne _ _ _ _ hy, f2]
    · intro _
      unfold componentsOf
      rw [hw, hcs]
      show (mapGet (mapSet (ensureRegistered w c).entityComponents e (setAdd cs c)) e).getD [] = _ ∧ _
      rw [mapGet_mapSet_same]
      refine ⟨?_, hnot⟩
      unfold setAdd
      rw [if_neg hnot]
      rfl

theorem getRelationTargets_eq (w : World) (e : Int) (r : Relation) (ts : List Int)
    (h : getRelationTargets w e r = .ok ts) : ts = targetsIn w e r := by
  unfold getRelationTargets at h
  obtain ⟨cs, hcs, hp⟩ := bind_ok_inv _ _ _ h
  have hm := getEntityComponents_holds w e cs hcs
  simp only [pure, Except.pure] at hp
  cases hp
  unfold targetsIn componentsOf
  rw [hm]
  rfl

theorem exclInv_sameTargets (a b : World) (hs : SameTargets a b) (ha : WorldInv a)
    (h : ExclInv a) : ExclInv b := by
  intro y r hr
  rw [(hs ha).2 y r hr]
  exact h y r hr

theorem quiet_wild_relation (t : Target) : (Component.pair Wildcard t).quiet = true := by
  simp [Component.quiet]

theorem single_quiet (c : Component) (hq : c.quiet = true) (hu : c.unwrap = c) :
    ∀ d, d ∈ [c] → d.unwrap.quiet = true := by
  intro d hd
  rw [List.mem_singleton.1 hd, hu]
  exact hq

theorem addComponent_single (f : Nat) (w : World) (e : Int) (c : Component)
    (he : entityExists w e = true) :
    addComponent (f + 1) w e [c] = addComponentEach f w e c := by
  rw [addComponent]
  simp only [he, Bool.not_true, Bool.false_eq_true, ↓reduceIte, List.foldlM_cons,
    List.foldlM_nil]
  cases addComponentEach f w e c <;> rfl

/-- When the entity has the component already, `addComponent` returns after `attach`. -/
theorem addComponent_present (fuel : Nat) (w : World) (e : Int) (c : Component)
    (he : entityExists w e = true) (w1 : World)
    (hat : attach w e c.unwrap = .ok (w1, false)) : addComponent (fuel + 2) w e [c] = .ok w1 := by
  rw [addComponent_single _ w e c he, addComponentEach]
  simp only [hat, bind, Except.bind]
  rfl

theorem missing_mono (a b : World) (s : Finset (Int × Component))
    (h : ∀ y d, hasComponent a y d = true → hasComponent b y d = true) :
    missing b s ⊆ missing a s := by
  intro p hp
  unfold missing at hp ⊢
  rw [Finset.mem_filter] at hp ⊢
  refine ⟨hp.1, ?_⟩
  cases hh : hasComponent a p.1 p.2 with
  | false => rfl
  | true =>
    have := h _ _ hh
    rw [hp.2] at this
    cases this

theorem missing_subset (w : World) (s t : Finset (Int × Component)) (h : s ⊆ t) :
    missing w s ⊆ missing w t := by
  unfold missing
  exact Finset.filter_subset_filter _ h

theorem missing_lt (a b : World) (s : Finset (Int × Component)) (x : Int) (c : Component)
    (h : ∀ y d, hasComponent a y d = true → hasComponent b y d = true)
    (hs : (x, c) ∈ s) (ha : hasComponent a x c = false) (hb : hasComponent b x c = true) :
    (missing b s).card < (missing a s).card := by
  apply Finset.card_lt_card
  rw [Finset.ssubset_iff_of_subset (missing_mono a b s h)]
  refine ⟨(x, c), ?_, ?_⟩
  · unfold missing
    rw [Finset.mem_filter]
    exact ⟨hs, ha⟩
  · unfold missing
    rw [Finset.mem_filter]
    intro hh
    have := hh.2
    simp only at this
    rw [hb] at this
    cases this

/-- What a returned `addComponent` of a quiet component keeps: the invariant, the
entities, and the components that the entities have. -/
theorem quiet_add_facts (n : Nat) (w : World) (x : Int) (c : Component) (w2 : World)
    (h : WorldInv w) (hq : c.quiet = true) (hu : c.unwrap = c)
    (hrun : addComponent n w x [c] = .ok w2) :
    WorldInv w2 ∧ (∀ e, entityExists w2 e = entityExists w e) ∧
      ∀ y d, hasComponent w y d = true → hasComponent w2 y d = true := by
  have hr := (reach_addComponent n).1 w x [c] w2 hrun
  have h2 := worldInv_reach hr h
  refine ⟨h2, fun e => reach_entityExists hr e, ?_⟩
  intro y d hd
  have hk := (add_keeps_quiet n).1 w x [c] w2 (single_quiet c hq hu) hrun h
  exact (holds_iff_has h2 y d).1 (hk.2.2 y d ((holds_iff_has h y d).2 hd) trivial)

theorem nested_first (x : Int) (r : Relation) (t : Target) :
    nestedAdds x (.pair r (.rel Wildcard)) ⊆ nestedAdds x (.pair r t) := by
  intro p hp
  cases t <;> simp only [nestedAdds, Finset.mem_insert, Finset.mem_singleton] at hp ⊢ <;> tauto

theorem nested_second (x : Int) (r : Relation) (t : Target) :
    nestedAdds x (.pair Wildcard t) ⊆ nestedAdds x (.pair r t) := by
  intro p hp
  cases t <;> simp only [nestedAdds, Finset.mem_insert, Finset.mem_singleton] at hp ⊢ <;> tauto

theorem nested_third (x : Int) (r : Relation) (tt : Int) :
    nestedAdds tt (.pair Wildcard (.eid x)) ⊆ nestedAdds x (.pair r (.eid tt)) := by
  intro p hp
  simp only [nestedAdds, Finset.mem_insert, Finset.mem_singleton] at hp ⊢
  tauto

theorem nested_fourth (x : Int) (r : Relation) (tt : Int) :
    nestedAdds tt (.pair Wildcard (.rel r)) ⊆ nestedAdds x (.pair r (.eid tt)) := by
  intro p hp
  simp only [nestedAdds, Finset.mem_insert, Finset.mem_singleton] at hp ⊢
  tauto

theorem nested_self (x : Int) (c : Component) : (x, c) ∈ nestedAdds x c := by
  cases c with
  | pair r t => cases t <;> simp [nestedAdds]
  | plain n => simp [nestedAdds]
  | prefab => simp [nestedAdds]
  | fn r => simp [nestedAdds]
  | keyed n c2 => simp [nestedAdds]

/-- The exclusive branch of `addComponent`, for a relation other than `IsA`, returns. -/
theorem exclusive_branch_returns (eid : Int) (relation : Relation) (target : Target)
    (y : World) (hnI : relation ≠ IsA) (hy : WorldInv y) (he : entityExists y eid = true) :
    ∃ (F : Nat) (z : World), ∀ n, F ≤ n →
      (do
        let world6 ←
          if relation.exclusiveRelation = true ∧ target ≠ .rel Wildcard then do
            let targets ← getRelationTargets y eid relation
            match targets.head? with
            | some oldTarget =>
              if Target.eid oldTarget ≠ target then
                removeComponent n y eid [Pair relation (.eid oldTarget)]
              else pure y
            | none => pure y
          else pure y
        if relation = IsA then do
          let inheritedTargets ← getRelationTargets world6 eid IsA
          let r ← inheritedTargets.foldlM
            (fun (w : World) inherited => do
              let r ← recursivelyInherit n w eid inherited []
              pure r.1) world6
          pure r
        else pure world6) = Except.ok z := by
  by_cases hcond : relation.exclusiveRelation = true ∧ target ≠ .rel Wildcard
  · obtain ⟨cs, hcs⟩ := (hy.keys eid).2 he
    have hget := getRelationTargets_ok y eid relation cs he hcs
    cases hhead : (relationTargetsOf cs relation).head? with
    | none =>
      refine ⟨0, y, ?_⟩
      intro n _
      dsimp only
      rw [if_pos hcond]
      simp only [hget, bind, Except.bind, hhead, pure, Except.pure, hnI, ↓reduceIte]
    | some old =>
      by_cases hne : Target.eid old ≠ target
      · obtain ⟨F, wr, hr, _⟩ := removeComponent_returns y eid (Pair relation (.eid old)) hy he
        refine ⟨F, wr, ?_⟩
        intro n hn
        dsimp only
        rw [if_pos hcond]
        simp only [hget, bind, Except.bind, hhead, hr n hn, pure, Except.pure, hnI, ↓reduceIte]
        rw [if_pos hne]
      · refine ⟨0, y, ?_⟩
        intro n _
        dsimp only
        rw [if_pos hcond]
        simp only [hget, bind, Except.bind, hhead, pure, Except.pure, hnI, ↓reduceIte]
        rw [if_neg hne]
  · refine ⟨0, y, ?_⟩
    intro n _
    dsimp only
    rw [if_neg hcond]
    simp only [bind, Except.bind, pure, Except.pure, hnI, ↓reduceIte]

theorem attach_mono (w : World) (e : Int) (c : Component) (h : WorldInv w)
    (he : entityExists w e = true) (w1 : World) (b : Bool) (hat : attach w e c = .ok (w1, b)) :
    ∀ y d, hasComponent w y d = true → hasComponent w1 y d = true := by
  intro y d hd
  have h1 : WorldInv w1 := worldInv_prim (Prim.attach w e c w1 b he hat) h
  exact (holds_iff_has h1 y d).1 (attach_holds w e c w1 b hat y d ((holds_iff_has h y d).2 hd))

theorem attach_was_missing (w : World) (e : Int) (c : Component) (h : WorldInv w)
    (he : entityExists w e = true) (w1 : World) (hat : attach w e c = .ok (w1, true)) :
    hasComponent w e c = false := by
  obtain ⟨cs, hcs⟩ := (h.keys e).2 he
  have hn := ((attach_sets w e c h he w1 true hat).2.2 rfl).2
  cases hh : hasComponent w e c with
  | false => rfl
  | true =>
    exfalso
    apply hn
    unfold componentsOf
    rw [hcs]
    exact (hasComponent_iff_mem h e cs hcs c).1 hh

/-- With every target an entity that exists, `addComponent` of a component whose relation
is not `IsA` returns, whatever the fuel from some point on: by induction on the number of
nested calls whose component the entity has not yet. -/
theorem add_returns (k : Nat) :
    ∀ (w : World) (x : Int) (c : Component), WorldInv w → entityExists w x = true →
      (∀ r t, c.unwrap = .pair r t → r ≠ IsA ∧ ∀ tt, t = .eid tt → entityExists w tt = true) →
      (missing w (nestedAdds x c.unwrap)).card < k →
      ∃ (F : Nat) (w2 : World), ∀ fuel, F ≤ fuel → addComponent fuel w x [c] = .ok w2 := by
  induction k with
  | zero =>
    intro w x c _ _ _ hk
    exact absurd hk (Nat.not_lt_zero _)
  | succ k ih =>
    intro w x c h he hcalm hcard
    obtain ⟨w1, b, hat⟩ := attach_ok w x c.unwrap h he
    have two : ∀ fuel, 2 ≤ fuel → ∃ f, fuel = f + 2 := fun fuel hf => ⟨fuel - 2, by omega⟩
    cases b with
    | false =>
      refine ⟨2, w1, ?_⟩
      intro fuel hf
      obtain ⟨f, rfl⟩ := two fuel hf
      exact addComponent_present f w x c he w1 hat
    | true =>
      have hplain : c.unwrap.isPairComponent = false →
          ∃ (F : Nat) (w2 : World), ∀ fuel, F ≤ fuel → addComponent fuel w x [c] = .ok w2 := by
        intro hp
        refine ⟨2, w1, ?_⟩
        intro fuel hf
        obtain ⟨f, rfl⟩ := two fuel hf
        exact addComponent_plain f w x c he hp w1 true hat
      cases hcu : c.unwrap with
      | plain n => exact hplain (by rw [hcu]; rfl)
      | prefab => exact hplain (by rw [hcu]; rfl)
      | fn r => exact hplain (by rw [hcu]; rfl)
      | keyed n c2 => exact hplain (by rw [hcu]; rfl)
      | pair r t =>
        rw [hcu] at hat hcard
        obtain ⟨hnI, halive⟩ := hcalm r t hcu
        have h1 : WorldInv w1 := worldInv_prim (Prim.attach w x _ w1 true he hat) h
        have hal1 : ∀ e, entityExists w1 e = entityExists w e :=
          fun e => reach_entityExists (reach_prim (Prim.attach w x _ w1 true he hat)) e
        have hmono1 := attach_mono w x _ h he w1 true hat
        have hlt : (missing w1 (nestedAdds x (.pair r t))).card < k := by
          have := missing_lt w w1 (nestedAdds x (.pair r t)) x (.pair r t) hmono1
            (nested_self x _) (attach_was_missing w x _ h he w1 hat)
            (attach_presence w x _ h he w1 true hat).1
          omega
        have nest : ∀ (wa : World) (x2 : Int) (c2 : Component), WorldInv wa →
            (∀ e, entityExists wa e = entityExists w e) →
            (∀ y d, hasComponent w1 y d = true → hasComponent wa y d = true) →
            c2.quiet = true → c2.unwrap = c2 → entityExists w x2 = true →
            (∀ r2 t2, c2 = .pair r2 t2 →
              r2 ≠ IsA ∧ ∀ tt, t2 = .eid tt → entityExists w tt = true) →
            nestedAdds x2 c2 ⊆ nestedAdds x (.pair r t) →
            ∃ (F : Nat) (wb : World), (∀ fuel, F ≤ fuel → addComponent fuel wa x2 [c2] = .ok wb) ∧
              WorldInv wb ∧ (∀ e, entityExists wb e = entityExists w e) ∧
              ∀ y d, hasComponent w1 y d = true → hasComponent wb y d = true := by
          intro wa x2 c2 ha hala hmonoa hq hu hx2 hcalm2 hsub
          have hc : (missing wa (nestedAdds x2 c2.unwrap)).card < k := by
            rw [hu]
            exact lt_of_le_of_lt (Finset.card_le_card
              ((missing_subset wa _ _ hsub).trans (missing_mono w1 wa _ hmonoa))) hlt
          obtain ⟨F, wb, hr⟩ := ih wa x2 c2 ha (by rw [hala]; exact hx2)
            (fun r2 t2 hc2 => by
              rw [hu] at hc2
              obtain ⟨g1, g2⟩ := hcalm2 r2 t2 hc2
              exact ⟨g1, fun tt htt => by rw [hala]; exact g2 tt htt⟩) hc
          obtain ⟨hb, halb, hmonob⟩ := quiet_add_facts F wa x2 c2 wb ha hq hu (hr F (le_refl _))
          exact ⟨F, wb, hr, hb, fun e => (halb e).trans (hala e),
            fun y d hd => hmonob y d (hmonoa y d hd)⟩
        have hq1 : (Component.pair r (.rel Wildcard)).quiet = true := by
          simp [Component.quiet, hnI]
        have hpairI : ∀ (t2 : Target), (∀ tt, t2 = .eid tt → entityExists w tt = true) →
            ∀ r2 t3, Component.pair Wildcard t2 = .pair r2 t3 →
              r2 ≠ IsA ∧ ∀ tt, t3 = .eid tt → entityExists w tt = true := by
          intro t2 ht2 r2 t3 hh
          cases hh
          exact ⟨by simp [Wildcard, IsA], ht2⟩
        obtain ⟨F1, w2, hr1, hi2, hal2, hmono2⟩ := nest w1 x (.pair r (.rel Wildcard)) h1 hal1
          (fun _ _ hd => hd) hq1 rfl he
          (fun r2 t2 hh => by
            cases hh
            exact ⟨hnI, fun tt htt => by cases htt⟩) (nested_first x r t)
        obtain ⟨F2, w3, hr2, hi3, hal3, hmono3⟩ := nest w2 x (.pair Wildcard t) hi2 hal2
          hmono2 (quiet_wild_relation t) rfl he (hpairI t halive) (nested_second x r t)
        cases t with
        | eid tt =>
          have htt : entityExists w tt = true := halive tt rfl
          obtain ⟨F3, wa, hr3, hia, hala, hmonoa⟩ := nest w3 tt (.pair Wildcard (.eid x)) hi3
            hal3 hmono3 (quiet_wild_relation _) rfl htt
            (hpairI _ (fun e2 he2 => by cases he2; exact he)) (nested_third x r tt)
          obtain ⟨F4, wb, hr4, hib, halb, hmonob⟩ := nest wa tt (.pair Wildcard (.rel r)) hia
            hala hmonoa (quiet_wild_relation _) rfl htt
            (hpairI _ (fun e2 he2 => by cases he2)) (nested_fourth x r tt)
          obtain ⟨Fx, z, hx⟩ := exclusive_branch_returns x r (.eid tt)
            { wb with entitiesWithRelations := setAdd (setAdd (setAdd wb.entitiesWithRelations (Target.eid tt)) (Target.eid x)) (Target.eid tt) }
            hnI (worldInv_prim (Prim.relations wb _) hib) (by
              have : entityExists wb x = true := by rw [halb]; exact he
              exact this)
          refine ⟨max (max F1 F2) (max (max F3 F4) Fx) + 2, z, ?_⟩
          intro fuel hf
          obtain ⟨f, rfl⟩ := two fuel (by omega)
          have g1 : F1 ≤ f := by
            have := le_max_left F1 F2
            have := le_max_left (max F1 F2) (max (max F3 F4) Fx)
            omega
          have g2 : F2 ≤ f := by
            have := le_max_right F1 F2
            have := le_max_left (max F1 F2) (max (max F3 F4) Fx)
            omega
          have g3 : F3 ≤ f := by
            have := le_max_left F3 F4
            have := le_max_left (max F3 F4) Fx
            have := le_max_right (max F1 F2) (max (max F3 F4) Fx)
            omega
          have g4 : F4 ≤ f := by
            have := le_max_right F3 F4
            have := le_max_left (max F3 F4) Fx
            have := le_max_right (max F1 F2) (max (max F3 F4) Fx)
            omega
          have g5 : Fx ≤ f := by
            have := le_max_right (max F3 F4) Fx
            have := le_max_right (max F1 F2) (max (max F3 F4) Fx)
            omega
          rw [addComponent_single _ w x c he, addComponentEach]
          rw [hcu]
          refine bind_ok_intro _ _ (w1, true) _ hat ?_
          simp only [Bool.not_true, Bool.false_eq_true, ↓reduceIte]
          refine bind_ok_intro _ _ w2 _ (hr1 f g1) ?_
          refine bind_ok_intro _ _ w3 _ (hr2 f g2) ?_
          refine bind_ok_intro _ _ wa _ (hr3 f g3) ?_
          refine bind_ok_intro _ _ wb _ (hr4 f g4) ?_
          rw [pure_bind]
          exact hx f g5
        | rel tr =>
          obtain ⟨Fx, z, hx⟩ := exclusive_branch_returns x r (.rel tr)
            { w3 with entitiesWithRelations := setAdd w3.entitiesWithRelations (Target.rel tr) }
            hnI (worldInv_prim (Prim.relations w3 _) hi3) (by
              have : entityExists w3 x = true := by rw [hal3]; exact he
              exact this)
          refine ⟨max (max F1 F2) Fx + 2, z, ?_⟩
          intro fuel hf
          obtain ⟨f, rfl⟩ := two fuel (by omega)
          have g1 : F1 ≤ f := by
            have := le_max_left F1 F2
            have := le_max_left (max F1 F2) Fx
            omega
          have g2 : F2 ≤ f := by
            have := le_max_right F1 F2
            have := le_max_left (max F1 F2) Fx
            omega
          have g5 : Fx ≤ f := by
            have := le_max_right (max F1 F2) Fx
            omega
          rw [addComponent_single _ w x c he, addComponentEach]
          rw [hcu]
          refine bind_ok_intro _ _ (w1, true) _ hat ?_
          simp only [Bool.not_true, Bool.false_eq_true, ↓reduceIte]
          refine bind_ok_intro _ _ w2 _ (hr1 f g1) ?_
          refine bind_ok_intro _ _ w3 _ (hr2 f g2) ?_
          rw [pure_bind]
          exact hx f g5

theorem holds_of_components (w : World) (y : Int) (d : Component)
    (h : d ∈ componentsOf w y) : Holds w y d := by
  unfold componentsOf at h
  cases hcs : mapGet w.entityComponents y with
  | none => rw [hcs] at h; cases h
  | some cs =>
    rw [hcs] at h
    exact ⟨cs, hcs, h⟩

theorem holds_of_target (w : World) (y i : Int) (r : Relation) (ts : List Int)
    (hget : getRelationTargets w y r = .ok ts) (hi : i ∈ ts) : Holds w y (Pair r (.eid i)) := by
  rw [getRelationTargets_eq w y r ts hget] at hi
  exact holds_of_components w y _ ((mem_relationTargetsOf_iff _ r i).1 hi)

theorem fits_pair (ix : EntityIndex) (U : Finset Component) (r : Relation) (t : Target)
    (halive : ∀ tt, t = .eid tt → isEntityIdAlive ix tt = true)
    (hisa : r = IsA → Component.pair r t ∈ U) : Fits ix U (.pair r t) := by
  refine ⟨rfl, ?_, ?_⟩
  · intro r2 tt hc
    cases hc
    exact halive tt rfl
  · intro t2 hc
    cases hc
    exact hisa rfl

theorem wildcard_ne_isa : Wildcard ≠ IsA := by
  simp [Wildcard, IsA]

/-- A returned `addComponent` of components that fit, or `recursivelyInherit` of an
entity whose `IsA` pair fits, leaves a settled world settled. -/
theorem add_settled (ix : EntityIndex) (U : Finset Component)
    (hU : Pair IsA (.rel Wildcard) ∈ U) (fuel : Nat) :
    (∀ w eid cs w', Settled ix U w → (∀ c, c ∈ cs → Fits ix U c.unwrap) →
      addComponent fuel w eid cs = .ok w' → Settled ix U w') ∧
    (∀ w b i v r, Settled ix U w → Fits ix U (.pair IsA (.eid i)) →
      recursivelyInherit fuel w b i v = .ok r → Settled ix U r.1) := by
  obtain ⟨h1, _, h3, _⟩ := addComponent_rel (fun a b => Settled ix U a → Settled ix U b)
    (Fits ix U) (Settled ix U) (fun x => isEntityIdAlive ix x = true)
    (fun _ h => h) (fun _ _ _ h1 h2 h => h2 (h1 h)) (fun _ _ h hi => h hi)
    (fun w e hi he => by
      unfold entityExists at he
      rw [hi.index] at he
      exact he)
    (fun w e c w1 b hok hi he hat _ =>
      ⟨worldInv_prim (Prim.attach w e c w1 b he hat) hi.inv,
        (prim_entityIndex (Prim.attach w e c w1 b he hat)).trans hi.index,
        fun y d hd => by
          rcases attach_holds_inv w e c w1 b hat y d hd with hh | hh
          · exact hi.fits y d hh
          · rw [hh]; exact hok⟩)
    (fun w s hi => ⟨worldInv_prim (Prim.relations w s) hi.inv, hi.index,
      fun y d hd => hi.fits y d hd⟩)
    (fun r t _ _ _ n y e old y2 hi he _ hrun _ =>
      ⟨worldInv_reach ((reach_removeComponent n).1 y e _ y2 hrun) hi.inv,
        (reach_entityIndex ((reach_removeComponent n).1 y e _ y2 hrun)).trans hi.index,
        fun z d hd => hi.fits z d (remove_shrinks n y e _ y2 hi.inv he hrun z d hd)⟩)
    (fun r t hok => by
      refine ⟨fits_pair ix U _ _ (fun tt htt => by cases htt) (fun hr => by rw [hr]; exact hU),
        fits_pair ix U _ _ (fun tt htt => hok.2.1 r tt (by rw [htt]))
          (fun hr => absurd hr wildcard_ne_isa),
        fun x hx => fits_pair ix U _ _ (fun tt htt => by cases htt; exact hx)
          (fun hr => absurd hr wildcard_ne_isa),
        fits_pair ix U _ _ (fun tt htt => by cases htt) (fun hr => absurd hr wildcard_ne_isa)⟩)
    (fun t _ w y i ts hi hget hmem => hi.fits y _ (holds_of_target w y i IsA ts hget hmem))
    (fun t _ w i comps d hi hget hd _ => by
      have hf := hi.fits i d ⟨comps, getEntityComponents_holds w i comps hget, hd⟩
      rw [hf.1]
      exact hf) fuel
  exact ⟨fun w eid cs w' hi hok h => h1 w eid cs w' hi hok h hi,
    fun w b i v r hi hok h => h3 w b i v r hi hok h hi⟩

/-- A returned `recursivelyInherit` keeps, in every component set, the members that are
not replaceable. -/
theorem inherit_keeps_sturdy (fuel : Nat) :
    ∀ w b i v r, recursivelyInherit fuel w b i v = .ok r →
      Keeps (fun _ d => d.replaceable = false) w r.1 := by
  obtain ⟨_, _, h3, _⟩ := addComponent_rel (Keeps (fun _ d => d.replaceable = false))
    (fun _ => True) (fun _ => True) (fun _ => True) (keeps_refl _) (keeps_trans _)
    (fun _ _ _ _ => trivial) (fun _ _ _ _ => trivial)
    (fun w e c w1 b _ _ he hat => keeps_attach _ w e c w1 b he hat)
    (fun w s => keeps_relations _ w s)
    (fun r t _ hex _ n y e old y2 _ he _ hrun => by
      apply keeps_remove _ n y e _ y2 he hrun
      intro d hk
      refine ⟨?_, ?_⟩
      · intro hdc
        rw [hdc] at hk
        simp [Pair, Component.replaceable, hex] at hk
      · intro r2 t2 hc
        cases hc
        refine ⟨?_, ?_, ?_⟩
        · intro hdc
          rw [hdc] at hk
          simp [Pair, Component.replaceable] at hk
        · intro hdc
          rw [hdc] at hk
          simp [Pair, Component.replaceable, hex] at hk
        · intro hdc
          rw [hdc] at hk
          simp [Pair, Component.replaceable] at hk)
    (fun _ _ _ => ⟨trivial, trivial, fun _ _ => trivial, trivial⟩)
    (fun _ _ _ _ _ _ _ _ _ => trivial) (fun _ _ _ _ _ _ _ _ _ _ => trivial) fuel
  exact fun w b i v r h => h3 w b i v r trivial trivial h

theorem isaMissing_mono (U : Finset Component) (hUs : ∀ d, d ∈ U → d.replaceable = false)
    (a b : World) (e : Int) (ha : WorldInv a)
    (hk : Keeps (fun _ d => d.replaceable = false) a b) :
    isaMissing U b e ⊆ isaMissing U a e := by
  obtain ⟨hb, _, hkeep⟩ := hk ha
  intro d hd
  unfold isaMissing at hd ⊢
  rw [Finset.mem_filter] at hd ⊢
  refine ⟨hd.1, ?_⟩
  cases hh : hasComponent a e d with
  | false => rfl
  | true =>
    have := (holds_iff_has hb e d).1 (hkeep e d ((holds_iff_has ha e d).2 hh) (hUs d hd.1))
    rw [hd.2] at this
    cases this

/-- What a returned `addComponent` of components that fit leaves: a settled world in which
the entity `e` has every member of `U` that it had. -/
theorem after_add (ix : EntityIndex) (U : Finset Component) (hU : Pair IsA (.rel Wildcard) ∈ U)
    (hUs : ∀ d, d ∈ U → d.replaceable = false) (e : Int) (n : Nat) (w : World) (x : Int)
    (cs : List Component) (w2 : World) (hs : Settled ix U w)
    (hok : ∀ c, c ∈ cs → Fits ix U c.unwrap) (hrun : addComponent n w x cs = .ok w2) :
    Settled ix U w2 ∧ isaMissing U w2 e ⊆ isaMissing U w e :=
  ⟨(add_settled ix U hU n).1 w x cs w2 hs hok hrun,
    isaMissing_mono U hUs w w2 e hs.inv ((add_keeps_sturdy n).1 w x cs w2 hrun)⟩

theorem after_inherit (ix : EntityIndex) (U : Finset Component)
    (hU : Pair IsA (.rel Wildcard) ∈ U) (hUs : ∀ d, d ∈ U → d.replaceable = false) (e : Int)
    (n : Nat) (w : World) (b i : Int) (v : List Int) (r : World × List Int)
    (hs : Settled ix U w) (hok : Fits ix U (.pair IsA (.eid i)))
    (hrun : recursivelyInherit n w b i v = .ok r) :
    Settled ix U r.1 ∧ isaMissing U r.1 e ⊆ isaMissing U w e :=
  ⟨(add_settled ix U hU n).2 w b i v r hs hok hrun,
    isaMissing_mono U hUs w r.1 e hs.inv (inherit_keeps_sturdy n w b i v r hrun)⟩

theorem unvisited_lt (E : Finset Int) (v : List Int) (i : Int) (hi : i ∈ E) (hv : i ∉ v) :
    (unvisited E (v ++ [i])).card < (unvisited E v).card := by
  apply Finset.card_lt_card
  unfold unvisited
  rw [Finset.ssubset_iff_of_subset]
  · refine ⟨i, ?_, ?_⟩
    · simp [hi, hv]
    · simp
  · intro x hx
    simp only [Finset.mem_sdiff, List.mem_toFinset, List.mem_append, List.mem_singleton,
      not_or] at hx ⊢
    exact ⟨hx.1, hx.2.1⟩

theorem unvisited_mono (E : Finset Int) (v v2 : List Int) (h : ∀ y, y ∈ v → y ∈ v2) :
    (unvisited E v2).card ≤ (unvisited E v).card := by
  apply Finset.card_le_card
  unfold unvisited
  intro x hx
  simp only [Finset.mem_sdiff, List.mem_toFinset] at hx ⊢
  exact ⟨hx.1, fun hh => hx.2 (h x hh)⟩

theorem settled_exists (ix : EntityIndex) (U : Finset Component) (w : World)
    (hs : Settled ix U w) (i : Int) (hi : isEntityIdAlive ix i = true) :
    entityExists w i = true := by
  unfold entityExists
  rw [hs.index]
  exact hi

theorem getEntityComponents_ok (w : World) (e : Int) (cs : List Component)
    (he : entityExists w e = true) (hcs : mapGet w.entityComponents e = some cs) :
    getEntityComponents w e = .ok cs := by
  have he2 : isEntityIdAlive w.entityIndex e = true := he
  unfold getEntityComponents
  simp only [he2, Bool.not_true, Bool.false_eq_true, ↓reduceIte, hcs]

/-- The loop of `recursivelyInherit` over the components of the inherited entity returns,
when `addComponent` on the base entity returns in the settled worlds where the base entity
has fewer than `m` members of `U` missing. -/
theorem copy_returns (ix : EntityIndex) (U : Finset Component)
    (hU : Pair IsA (.rel Wildcard) ∈ U) (hUs : ∀ d, d ∈ U → d.replaceable = false) (e : Int)
    (m : Nat)
    (HP : ∀ w c, Settled ix U w → Fits ix U c → (isaMissing U w e).card < m →
      ∃ (F : Nat) (w2 : World), ∀ fuel, F ≤ fuel → addComponent fuel w e [c] = .ok w2) :
    ∀ (comps : List Component) (w : World), Settled ix U w → (isaMissing U w e).card < m →
      (∀ d, d ∈ comps → Fits ix U d) →
      ∃ (F : Nat) (w2 : World),
        (∀ fuel, F ≤ fuel → comps.foldlM (fun (w : World) component =>
          if component = Prefab then pure w
          else if !hasComponent w e component then addComponent fuel w e [component]
          else pure w) w = .ok w2) ∧
        Settled ix U w2 ∧ (isaMissing U w2 e).card < m := by
  intro comps
  induction comps with
  | nil =>
    intro w hs hM _
    exact ⟨0, w, fun _ _ => rfl, hs, hM⟩
  | cons d rest ih =>
    intro w hs hM hfit
    have hrestfit : ∀ d2, d2 ∈ rest → Fits ix U d2 :=
      fun d2 h2 => hfit d2 (List.mem_cons_of_mem _ h2)
    have hskip : (∀ fuel : Nat, (if d = Prefab then (pure w : Res World)
          else if !hasComponent w e d then addComponent fuel w e [d] else pure w) = .ok w) →
        ∃ (F : Nat) (w2 : World),
          (∀ fuel, F ≤ fuel → (d :: rest).foldlM (fun (w : World) component =>
            if component = Prefab then pure w
            else if !hasComponent w e component then addComponent fuel w e [component]
            else pure w) w = .ok w2) ∧
          Settled ix U w2 ∧ (isaMissing U w2 e).card < m := by
      intro hstep
      obtain ⟨F, w2, hr, hs2, hM2⟩ := ih w hs hM hrestfit
      refine ⟨F, w2, ?_, hs2, hM2⟩
      intro fuel hf
      rw [List.foldlM_cons]
      exact bind_ok_intro _ _ w _ (hstep fuel) (hr fuel hf)
    by_cases hp : d = Prefab
    · exact hskip (fun fuel => by rw [if_pos hp]; rfl)
    · by_cases hh : hasComponent w e d = true
      · exact hskip (fun fuel => by
          rw [if_neg hp]
          simp only [hh, Bool.not_true, Bool.false_eq_true, ↓reduceIte]
          rfl)
      · obtain ⟨F1, w1, h1⟩ := HP w d hs (hfit d (List.mem_cons_self _ _)) hM
        have hfd : ∀ c, c ∈ [d] → Fits ix U c.unwrap := by
          intro c hc
          rw [List.mem_singleton.1 hc, (hfit d (List.mem_cons_self _ _)).1]
          exact hfit d (List.mem_cons_self _ _)
        obtain ⟨hs1, hsub1⟩ := after_add ix U hU hUs e F1 w e [d] w1 hs hfd (h1 F1 (le_refl _))
        obtain ⟨F2, w2, h2, hs2, hM2⟩ := ih w1 hs1
          (lt_of_le_of_lt (Finset.card_le_card hsub1) hM) hrestfit
        refine ⟨max F1 F2, w2, ?_, hs2, hM2⟩
        intro fuel hf
        rw [List.foldlM_cons]
        refine bind_ok_intro _ _ w1 _ ?_ (h2 fuel (le_trans (le_max_right _ _) hf))
        rw [if_neg hp]
        have hh2 : hasComponent w e d = false := by
          cases h3 : hasComponent w e d with
          | false => rfl
          | true => exact absurd h3 hh
        simp only [hh2, Bool.not_false, ↓reduceIte]
        exact h1 fuel (le_trans (le_max_left _ _) hf)

/-- In a settled world `recursivelyInherit` returns, under the same hypothesis on
`addComponent`: by induction on the number of entities not visited yet. -/
theorem inherit_returns (ix : EntityIndex) (U : Finset Component)
    (hU : Pair IsA (.rel Wildcard) ∈ U) (hUs : ∀ d, d ∈ U → d.replaceable = false)
    (E : Finset Int) (hE : ∀ x, isEntityIdAlive ix x = true → x ∈ E) (e : Int) (m : Nat)
    (HP : ∀ w c, Settled ix U w → Fits ix U c → (isaMissing U w e).card < m →
      ∃ (F : Nat) (w2 : World), ∀ fuel, F ≤ fuel → addComponent fuel w e [c] = .ok w2) :
    ∀ (j : Nat) (w : World) (i : Int) (v : List Int), Settled ix U w →
      (isaMissing U w e).card < m → Fits ix U (.pair IsA (.eid i)) →
      (unvisited E v).card < j →
      ∃ (F : Nat) (r : World × List Int),
        (∀ fuel, F ≤ fuel → recursivelyInherit fuel w e i v = .ok r) ∧
        Settled ix U r.1 ∧ (isaMissing U r.1 e).card < m ∧ ∀ y, y ∈ v → y ∈ r.2 := by
  intro j
  induction j with
  | zero =>
    intro w i v _ _ _ hj
    exact absurd hj (Nat.not_lt_zero _)
  | succ j ihj =>
    intro w i v hs hM hfit hj
    by_cases hmem : i ∈ v
    · refine ⟨1, (w, v), ?_, hs, hM, fun y hy => hy⟩
      intro fuel hf
      obtain ⟨f, rfl⟩ : ∃ f, fuel = f + 1 := ⟨fuel - 1, by omega⟩
      rw [recursivelyInherit, if_pos hmem]
    · have hialive : isEntityIdAlive ix i = true := hfit.2.1 IsA i rfl
      have hlt : (unvisited E (v ++ [i])).card < j := by
        have := unvisited_lt E v i (hE i hialive) hmem
        omega
      obtain ⟨F1, w1, h1⟩ := HP w (.pair IsA (.eid i)) hs hfit hM
      have hfd : ∀ c, c ∈ [Pair IsA (.eid i)] → Fits ix U c.unwrap := by
        intro c hc
        rw [List.mem_singleton.1 hc]
        exact hfit
      obtain ⟨hs1, hsub1⟩ := after_add ix U hU hUs e F1 w e _ w1 hs hfd (h1 F1 (le_refl _))
      have hM1 := lt_of_le_of_lt (Finset.card_le_card hsub1) hM
      have hi1 := settled_exists ix U w1 hs1 i hialive
      obtain ⟨cs, hcs⟩ := (hs1.inv.keys i).2 hi1
      obtain ⟨F2, w2, h2, hs2, hM2⟩ := copy_returns ix U hU hUs e m HP cs w1 hs1 hM1
        (fun d hd => hs1.fits i d ⟨cs, hcs, hd⟩)
      have hi2 := settled_exists ix U w2 hs2 i hialive
      obtain ⟨cs2, hcs2⟩ := (hs2.inv.keys i).2 hi2
      have hgetp := getRelationTargets_ok w2 i IsA cs2 hi2 hcs2
      have hpar : ∀ (ps : List Int), (∀ p, p ∈ ps → Fits ix U (.pair IsA (.eid p))) →
          ∀ (acc : World × List Int), Settled ix U acc.1 → (isaMissing U acc.1 e).card < m →
          (unvisited E acc.2).card < j →
          ∃ (F : Nat) (acc2 : World × List Int),
            (∀ fuel, F ≤ fuel → ps.foldlM (fun (acc : World × List Int) parentEid =>
              recursivelyInherit fuel acc.1 e parentEid acc.2) acc = .ok acc2) ∧
            Settled ix U acc2.1 ∧ (isaMissing U acc2.1 e).card < m ∧
            ∀ y, y ∈ acc.2 → y ∈ acc2.2 := by
        intro ps
        induction ps with
        | nil =>
          intro _ acc hsa hMa _
          exact ⟨0, acc, fun _ _ => rfl, hsa, hMa, fun y hy => hy⟩
        | cons p rest ihl =>
          intro hfits acc hsa hMa hja
          obtain ⟨Fa, r1, ha, hsr, hMr, hsubr⟩ := ihj acc.1 p acc.2 hsa hMa
            (hfits p (List.mem_cons_self _ _)) hja
          obtain ⟨Fb, acc2, hb, hs3, hM3, hsub3⟩ := ihl
            (fun q hq => hfits q (List.mem_cons_of_mem _ hq)) r1 hsr hMr
            (lt_of_le_of_lt (unvisited_mono E acc.2 r1.2 hsubr) hja)
          refine ⟨max Fa Fb, acc2, ?_, hs3, hM3, fun y hy => hsub3 y (hsubr y hy)⟩
          intro fuel hf
          rw [List.foldlM_cons]
          exact bind_ok_intro _ _ r1 _ (ha fuel (le_trans (le_max_left _ _) hf))
            (hb fuel (le_trans (le_max_right _ _) hf))
      obtain ⟨F3, r, h3, hs3, hM3, hsub3⟩ := hpar (relationTargetsOf cs2 IsA)
        (fun p hp => hs2.fits i _ (holds_of_target w2 i p IsA _ hgetp hp))
        (w2, v ++ [i]) hs2 hM2 hlt
      refine ⟨max F1 (max F2 F3) + 1, r, ?_, hs3, hM3,
        fun y hy => hsub3 y (List.mem_append_left _ hy)⟩
      intro fuel hf
      obtain ⟨f, rfl⟩ : ∃ f, fuel = f + 1 := ⟨fuel - 1, by omega⟩
      have g1 : F1 ≤ f := by
        have := le_max_left F1 (max F2 F3)
        omega
      have g2 : F2 ≤ f := by
        have := le_max_left F2 F3
        have := le_max_right F1 (max F2 F3)
        omega
      have g3 : F3 ≤ f := by
        have := le_max_right F2 F3
        have := le_max_right F1 (max F2 F3)
        omega
      rw [recursivelyInherit, if_neg hmem]
      dsimp only
      refine bind_ok_intro _ _ w1 _ (h1 f g1) ?_
      refine bind_ok_intro _ _ cs _ (getEntityComponents_ok w1 i cs hi1 hcs) ?_
      refine bind_ok_intro _ _ w2 _ (h2 f g2) ?_
      refine bind_ok_intro _ _ _ _ hgetp ?_
      exact h3 f g3

/-- The loop of the `IsA` branch of `addComponent` over the `IsA` targets returns, under
the same hypothesis on `addComponent`. -/
theorem top_returns (ix : EntityIndex) (U : Finset Component)
    (hU : Pair IsA (.rel Wildcard) ∈ U) (hUs : ∀ d, d ∈ U → d.replaceable = false)
    (E : Finset Int) (hE : ∀ x, isEntityIdAlive ix x = true → x ∈ E) (e : Int) (m : Nat)
    (HP : ∀ w c, Settled ix U w → Fits ix U c → (isaMissing U w e).card < m →
      ∃ (F : Nat) (w2 : World), ∀ fuel, F ≤ fuel → addComponent fuel w e [c] = .ok w2) :
    ∀ (ts : List Int), (∀ t, t ∈ ts → Fits ix U (.pair IsA (.eid t))) →
      ∀ (w : World), Settled ix U w → (isaMissing U w e).card < m →
      ∃ (F : Nat) (w2 : World), ∀ fuel, F ≤ fuel →
        ts.foldlM (fun (w : World) inherited => do
          let r ← recursivelyInherit fuel w e inherited []
          pure r.1) w = .ok w2 := by
  intro ts
  induction ts with
  | nil =>
    intro _ w _ _
    exact ⟨0, w, fun _ _ => rfl⟩
  | cons t rest ih =>
    intro hfits w hs hM
    obtain ⟨F1, r, h1, hs1, hM1, _⟩ := inherit_returns ix U hU hUs E hE e m HP
      ((unvisited E []).card + 1) w t [] hs hM (hfits t (List.mem_cons_self _ _))
      (Nat.lt_succ_self _)
    obtain ⟨F2, w2, h2⟩ := ih (fun q hq => hfits q (List.mem_cons_of_mem _ hq)) r.1 hs1 hM1
    refine ⟨max F1 F2, w2, ?_⟩
    intro fuel hf
    rw [List.foldlM_cons]
    refine bind_ok_intro _ _ r.1 _ ?_ (h2 fuel (le_trans (le_max_right _ _) hf))
    exact bind_ok_intro _ _ r _ (h1 fuel (le_trans (le_max_left _ _) hf)) rfl

/-- In a settled world `addComponent(world, e, c)` returns for every component that fits,
the `IsA` pairs included: by induction on the number of members of `U` that `e` has
not. -/
theorem isa_add_returns (ix : EntityIndex) (U : Finset Component)
    (hU : Pair IsA (.rel Wildcard) ∈ U) (hUs : ∀ d, d ∈ U → d.replaceable = false)
    (E : Finset Int) (hE : ∀ x, isEntityIdAlive ix x = true → x ∈ E) (e : Int)
    (he : isEntityIdAlive ix e = true) (m : Nat) :
    ∀ w c, Settled ix U w → Fits ix U c → (isaMissing U w e).card < m →
      ∃ (F : Nat) (w2 : World), ∀ fuel, F ≤ fuel → addComponent fuel w e [c] = .ok w2 := by
  induction m with
  | zero =>
    intro w c _ _ hM
    exact absurd hM (Nat.not_lt_zero _)
  | succ m ih =>
    intro w c hs hfit hM
    have hex : entityExists w e = true := settled_exists ix U w hs e he
    have halive : ∀ x, isEntityIdAlive ix x = true → entityExists w x = true :=
      fun x hx => settled_exists ix U w hs x hx
    by_cases hisa : ∃ t, c = .pair IsA t
    · obtain ⟨t, rfl⟩ := hisa
      obtain ⟨w1, b, hat⟩ := attach_ok w e (Component.pair IsA t) hs.inv hex
      have two : ∀ fuel, 2 ≤ fuel → ∃ f, fuel = f + 2 := fun fuel hf => ⟨fuel - 2, by omega⟩
      cases b with
      | false =>
        refine ⟨2, w1, ?_⟩
        intro fuel hf
        obtain ⟨f, rfl⟩ := two fuel hf
        exact addComponent_present f w e _ hex w1 hat
      | true =>
        have hs1 : Settled ix U w1 :=
          ⟨worldInv_prim (Prim.attach w e _ w1 true hex hat) hs.inv,
            (prim_entityIndex (Prim.attach w e _ w1 true hex hat)).trans hs.index,
            fun y d hd => by
              rcases attach_holds_inv w e _ w1 true hat y d hd with hh | hh
              · exact hs.fits y d hh
              · rw [hh]; exact hfit⟩
        have hcU : Component.pair IsA t ∈ U := hfit.2.2 t rfl
        have hM1 : (isaMissing U w1 e).card < m := by
          have hsub : isaMissing U w1 e ⊆ isaMissing U w e :=
            isaMissing_mono U hUs w w1 e hs.inv
              (keeps_attach _ w e _ w1 true hex hat)
          have hlt : (isaMissing U w1 e).card < (isaMissing U w e).card := by
            apply Finset.card_lt_card
            rw [Finset.ssubset_iff_of_subset hsub]
            refine ⟨Component.pair IsA t, ?_, ?_⟩
            · unfold isaMissing
              rw [Finset.mem_filter]
              exact ⟨hcU, attach_was_missing w e _ hs.inv hex w1 hat⟩
            · unfold isaMissing
              rw [Finset.mem_filter]
              intro hh
              have := hh.2
              simp only at this
              rw [(attach_presence w e _ hs.inv hex w1 true hat).1] at this
              cases this
          omega
        have hfitW : Fits ix U (.pair IsA (.rel Wildcard)) :=
          fits_pair ix U _ _ (fun tt htt => by cases htt) (fun _ => hU)
        have single : ∀ (d : Component), Fits ix U d → ∀ c2, c2 ∈ [d] → Fits ix U c2.unwrap := by
          intro d hd c2 hc2
          rw [List.mem_singleton.1 hc2, hd.1]
          exact hd
        have calm : ∀ (w0 : World) (t2 : Target), Settled ix U w0 →
            (∀ tt, t2 = .eid tt → isEntityIdAlive ix tt = true) →
            ∀ r2 t3, (Component.pair Wildcard t2).unwrap = .pair r2 t3 →
              r2 ≠ IsA ∧ ∀ tt, t3 = .eid tt → entityExists w0 tt = true := by
          intro w0 t2 hs0 ht2 r2 t3 hh
          cases hh
          exact ⟨wildcard_ne_isa, fun tt htt => settled_exists ix U w0 hs0 tt (ht2 tt htt)⟩
        have htalive : ∀ tt, t = .eid tt → isEntityIdAlive ix tt = true :=
          fun tt htt => hfit.2.1 IsA tt (by rw [htt])
        obtain ⟨F1, w2, hr1⟩ := ih w1 (.pair IsA (.rel Wildcard)) hs1 hfitW hM1
        obtain ⟨hs2, hsub2⟩ := after_add ix U hU hUs e F1 w1 e _ w2 hs1 (single _ hfitW)
          (hr1 F1 (le_refl _))
        have hM2 := lt_of_le_of_lt (Finset.card_le_card hsub2) hM1
        obtain ⟨F2, w3, hr2⟩ := add_returns _ w2 e (.pair Wildcard t) hs2.inv
          (settled_exists ix U w2 hs2 e he) (calm w2 t hs2 htalive) (Nat.lt_succ_self _)
        have hfit2 : Fits ix U (.pair Wildcard t) :=
          fits_pair ix U _ _ htalive (fun hr => absurd hr wildcard_ne_isa)
        obtain ⟨hs3, hsub3⟩ := after_add ix U hU hUs e F2 w2 e _ w3 hs2 (single _ hfit2)
          (hr2 F2 (le_refl _))
        have hM3 := lt_of_le_of_lt (Finset.card_le_card hsub3) hM2
        have hfinish : ∀ (w5 : World), Settled ix U w5 → (isaMissing U w5 e).card < m →
            ∃ (F : Nat) (z : World), ∀ fuel, F ≤ fuel →
              (do
                let inheritedTargets ← getRelationTargets w5 e IsA
                let r ← inheritedTargets.foldlM
                  (fun (w : World) inherited => do
                    let r ← recursivelyInherit fuel w e inherited []
                    pure r.1) w5
                pure r) = Except.ok z := by
          intro w5 hs5 hM5
          have he5 := settled_exists ix U w5 hs5 e he
          obtain ⟨cs5, hcs5⟩ := (hs5.inv.keys e).2 he5
          have hget := getRelationTargets_ok w5 e IsA cs5 he5 hcs5
          obtain ⟨F, z, hz⟩ := top_returns ix U hU hUs E hE e m ih (relationTargetsOf cs5 IsA)
            (fun p hp => hs5.fits e _ (holds_of_target w5 e p IsA _ hget hp)) w5 hs5 hM5
          refine ⟨F, z, ?_⟩
          intro fuel hf
          refine bind_ok_intro _ _ _ _ hget ?_
          exact bind_ok_intro _ _ z _ (hz fuel hf) rfl
        have hnex : ∀ t2 : Target, ¬(IsA.exclusiveRelation = true ∧ t2 ≠ Target.rel Wildcard) :=
          fun t2 hh => by simp [IsA] at hh
        cases t with
        | eid tt =>
          have htt : isEntityIdAlive ix tt = true := htalive tt rfl
          obtain ⟨F3, wa, hr3⟩ := add_returns _ w3 tt (.pair Wildcard (.eid e)) hs3.inv
            (settled_exists ix U w3 hs3 tt htt)
            (calm w3 _ hs3 (fun x hx => by cases hx; exact he)) (Nat.lt_succ_self _)
          have hfit3 : Fits ix U (.pair Wildcard (.eid e)) :=
            fits_pair ix U _ _ (fun x hx => by cases hx; exact he)
              (fun hr => absurd hr wildcard_ne_isa)
          obtain ⟨hsa, hsuba⟩ := after_add ix U hU hUs e F3 w3 tt _ wa hs3 (single _ hfit3)
            (hr3 F3 (le_refl _))
          have hMa := lt_of_le_of_lt (Finset.card_le_card hsuba) hM3
          obtain ⟨F4, wb, hr4⟩ := add_returns _ wa tt (.pair Wildcard (.rel IsA)) hsa.inv
            (settled_exists ix U wa hsa tt htt)
            (calm wa _ hsa (fun x hx => by cases hx)) (Nat.lt_succ_self _)
          have hfit4 : Fits ix U (.pair Wildcard (.rel IsA)) :=
            fits_pair ix U _ _ (fun x hx => by cases hx) (fun hr => absurd hr wildcard_ne_isa)
          obtain ⟨hsb, hsubb⟩ := after_add ix U hU hUs e F4 wa tt _ wb hsa (single _ hfit4)
            (hr4 F4 (le_refl _))
          have hMb := lt_of_le_of_lt (Finset.card_le_card hsubb) hMa
          obtain ⟨Fx, z, hx⟩ := hfinish
            { wb with entitiesWithRelations := setAdd (setAdd (setAdd wb.entitiesWithRelations (Target.eid tt)) (Target.eid e)) (Target.eid tt) }
            ⟨worldInv_prim (Prim.relations wb _) hsb.inv, hsb.index, fun y d hd => hsb.fits y d hd⟩
            hMb
          refine ⟨max (max F1 F2) (max (max F3 F4) Fx) + 2, z, ?_⟩
          intro fuel hf
          obtain ⟨f, rfl⟩ := two fuel (by omega)
          have g1 : F1 ≤ f := by
            have := le_max_left F1 F2
            have := le_max_left (max F1 F2) (max (max F3 F4) Fx)
            omega
          have g2 : F2 ≤ f := by
            have := le_max_right F1 F2
            have := le_max_left (max F1 F2) (max (max F3 F4) Fx)
            omega
          have g3 : F3 ≤ f := by
            have := le_max_left F3 F4
            have := le_max_left (max F3 F4) Fx
            have := le_max_right (max F1 F2) (max (max F3 F4) Fx)
            omega
          have g4 : F4 ≤ f := by
            have := le_max_right F3 F4
            have := le_max_left (max F3 F4) Fx
            have := le_max_right (max F1 F2) (max (max F3 F4) Fx)
            omega
          have g5 : Fx ≤ f := by
            have := le_max_right (max F3 F4) Fx
            have := le_max_right (max F1 F2) (max (max F3 F4) Fx)
            omega
          rw [addComponent_single _ w e _ hex, addComponentEach]
          refine bind_ok_intro _ _ (w1, true) _ hat ?_
          simp only [Component.unwrap, Bool.not_true, Bool.false_eq_true, ↓reduceIte]
          refine bind_ok_intro _ _ w2 _ (hr1 f g1) ?_
          refine bind_ok_intro _ _ w3 _ (hr2 f g2) ?_
          refine bind_ok_intro _ _ wa _ (hr3 f g3) ?_
          refine bind_ok_intro _ _ wb _ (hr4 f g4) ?_
          rw [pure_bind, if_neg (hnex _), pure_bind]
          exact hx f g5
        | rel tr =>
          obtain ⟨Fx, z, hx⟩ := hfinish
            { w3 with entitiesWithRelations := setAdd w3.entitiesWithRelations (Target.rel tr) }
            ⟨worldInv_prim (Prim.relations w3 _) hs3.inv, hs3.index, fun y d hd => hs3.fits y d hd⟩
            hM3
          refine ⟨max (max F1 F2) Fx + 2, z, ?_⟩
          intro fuel hf
          obtain ⟨f, rfl⟩ := two fuel (by omega)
          have g1 : F1 ≤ f := by
            have := le_max_left F1 F2
            have := le_max_left (max F1 F2) Fx
            omega
          have g2 : F2 ≤ f := by
            have := le_max_right F1 F2
            have := le_max_left (max F1 F2) Fx
            omega
          have g5 : Fx ≤ f := by
            have := le_max_right (max F1 F2) Fx
            omega
          rw [addComponent_single _ w e _ hex, addComponentEach]
          refine bind_ok_intro _ _ (w1, true) _ hat ?_
          simp only [Component.unwrap, Bool.not_true, Bool.false_eq_true, ↓reduceIte]
          refine bind_ok_intro _ _ w2 _ (hr1 f g1) ?_
          refine bind_ok_intro _ _ w3 _ (hr2 f g2) ?_
          rw [pure_bind, if_neg (hnex _), pure_bind]
          exact hx f g5
    · exact add_returns _ w e c hs.inv hex
        (fun r t hc => by
          rw [hfit.1] at hc
          refine ⟨fun hr => hisa ⟨t, by rw [hc, hr]⟩, fun tt htt => ?_⟩
          exact halive tt (hfit.2.1 r tt (by rw [hc, htt])))
        (Nat.lt_succ_self _)

theorem targetsAlive_holds (w : World) (ht : targetsAlive w = true) (y : Int) (r : Relation)
    (tt : Int) (hd : Holds w y (.pair r (.eid tt))) : entityExists w tt = true := by
  obtain ⟨cs, hcs, hm⟩ := hd
  unfold targetsAlive at ht
  rw [List.all_eq_true] at ht
  have h1 := ht (y, cs) (mapGet_mem _ _ _ hcs)
  rw [List.all_eq_true] at h1
  exact h1 _ hm

/-- In a world left with the invariant, whose component sets hold no object with a key
`component` and no pair that targets an entity that does not exist, `addComponent` returns
for every entity that exists and every component that has no such key and whose target,
if an entity, exists: whatever the fuel from some point on. -/
theorem add_returns_settled (w : World) (e : Int) (c : Component) (h : WorldInv w)
    (hk : noKeyed w = true) (ht : targetsAlive w = true) (he : entityExists w e = true)
    (hc : c.unwrap = c) (htc : ∀ r tt, c = .pair r (.eid tt) → entityExists w tt = true) :
    ∃ (F : Nat) (w2 : World), ∀ fuel, F ≤ fuel → addComponent fuel w e [c] = .ok w2 := by
  classical
  have hkl := keyless_of_noKeyed h hk
  obtain ⟨U, hU⟩ : ∃ U : Finset Component, U =
      ((w.entityComponents.map Prod.snd).flatten ++ [Pair IsA (.rel Wildcard), c]).toFinset.filter
        (fun d => ∃ t, d = Component.pair IsA t) := ⟨_, rfl⟩
  have hmemU : ∀ d, d ∈ U ↔ (d ∈ (w.entityComponents.map Prod.snd).flatten ∨
      d = Pair IsA (.rel Wildcard) ∨ d = c) ∧ ∃ t, d = Component.pair IsA t := by
    intro d
    rw [hU, Finset.mem_filter, List.mem_toFinset, List.mem_append]
    simp
  have hUw : Pair IsA (.rel Wildcard) ∈ U := (hmemU _).2 ⟨Or.inr (Or.inl rfl), _, rfl⟩
  have hUs : ∀ d, d ∈ U → d.replaceable = false := by
    intro d hd
    obtain ⟨_, t, rfl⟩ := (hmemU d).1 hd
    simp [Component.replaceable, IsA, Wildcard]
  have hsettled : Settled w.entityIndex U w := by
    refine ⟨h, rfl, ?_⟩
    intro y d hd
    refine ⟨hkl.2 y d hd, ?_, ?_⟩
    · intro r tt hdc
      rw [hdc] at hd
      exact targetsAlive_holds w ht y r tt hd
    · intro t hdc
      obtain ⟨cs, hcs, hm⟩ := hd
      refine (hmemU d).2 ⟨Or.inl ?_, t, hdc⟩
      rw [List.mem_flatten]
      exact ⟨cs, List.mem_map.2 ⟨(y, cs), mapGet_mem _ _ _ hcs, rfl⟩, hm⟩
  have hfit : Fits w.entityIndex U c :=
    ⟨hc, fun r tt hcc => htc r tt hcc, fun t hcc => (hmemU c).2 ⟨Or.inr (Or.inr rfl), t, hcc⟩⟩
  exact isa_add_returns w.entityIndex U hUw hUs (getAllEntities w).toFinset
    (fun x hx => by
      rw [List.mem_toFinset]
      exact ((worldInv_agree h).1 x).2 hx) e he _ w c hsettled hfit (Nat.lt_succ_self _)

/-! ### Inheritance through `IsA`: the claim -/

/-- C23 (counterexample): six sequences of calls, each ending in a call
`addComponent(world, e, IsA(p))` on entities that exist, with `Targeting` exclusive.
(1) Entity 1 has `Targeting(3)` and 2 has `Targeting(4)`: after `addComponent(1, IsA(2))`
entity 1 has `Targeting(4)` and has lost `Targeting(3)` and `Pair(Wildcard, 3)`.
(2) Entity 1 has `IsA(2)` already and 2 got `comp 1` since: the call adds nothing, 1 has not
`comp 1`. (3) Entity 2 has `IsA(3)` and `Targeting(4)`, 3 has `Targeting(5)`: after
`addComponent(1, IsA(2))` entity 1 has `Targeting(5)` and neither `Targeting(4)` nor
`Pair(Wildcard, 4)`, which 2 has. (4) The component set of 2 holds an object `C` with a
key `component` that is `Prefab` and an object `D` whose key holds `comp 1`: after
`addComponent(1, IsA(2))` entity 1 has `Prefab` and has neither `C` nor `D`. (5) Entity 2
has `Likes(3)` and not `Pair(Wildcard, 3)`, and 3 was removed: `addComponent(1, IsA(2))`
throws, 1 and 2 existing. (6) Entity 1 has `Targeting(3)` and with it
`Pair(Targeting, Wildcard)`, and 2 has `Pair(Targeting, Likes)` without
`Pair(Targeting, Wildcard)`: after `addComponent(1, IsA(2))` entity 1 has
`Pair(Targeting, Likes)` and has lost `Pair(Targeting, Wildcard)`. -/
theorem inheritance_replaces_components :
    [returns (runCalls 60 [.addEntity, .addEntity, .addEntity, .addEntity,
        .addComponent 1 (Pair Targeting (.eid 3)), .addComponent 2 (Pair Targeting (.eid 4)),
        .addComponent 1 (Pair IsA (.eid 2))]),
      hasComponent (finalWorld (runCalls 60 [.addEntity, .addEntity, .addEntity, .addEntity,
        .addComponent 1 (Pair Targeting (.eid 3)), .addComponent 2 (Pair Targeting (.eid 4))])) 1
        (Pair Targeting (.eid 3)),
      hasComponent (finalWorld (runCalls 60 [.addEntity, .addEntity, .addEntity, .addEntity,
        .addComponent 1 (Pair Targeting (.eid 3)), .addComponent 2 (Pair Targeting (.eid 4))])) 1
        (Pair Wildcard (.eid 3)),
      hasComponent (finalWorld (runCalls 60 [.addEntity, .addEntity, .addEntity, .addEntity,
        .addComponent 1 (Pair Targeting (.eid 3)), .addComponent 2 (Pair Targeting (.eid 4)),
        .addComponent 1 (Pair IsA (.eid 2))])) 1 (Pair Targeting (.eid 3)),
      hasComponent (finalWorld (runCalls 60 [.addEntity, .addEntity, .addEntity, .addEntity,
        .addComponent 1 (Pair Targeting (.eid 3)), .addComponent 2 (Pair Targeting (.eid 4)),
        .addComponent 1 (Pair IsA (.eid 2))])) 1 (Pair Wildcard (.eid 3)),
      hasComponent (finalWorld (runCalls 60 [.addEntity, .addEntity, .addEntity, .addEntity,
        .addComponent 1 (Pair Targeting (.eid 3)), .addComponent 2 (Pair Targeting (.eid 4)),
        .addComponent 1 (Pair IsA (.eid 2))])) 1 (Pair Targeting (.eid 4))]
      = [true, true, true, false, false, true] ∧
    [returns (runCalls 60 [.addEntity, .addEntity, .addComponent 1 (Pair IsA (.eid 2)),
        .addComponent 2 (comp 1), .addComponent 1 (Pair IsA (.eid 2))]),
      hasComponent (finalWorld (runCalls 60 [.addEntity, .addEntity,
        .addComponent 1 (Pair IsA (.eid 2)), .addComponent 2 (comp 1)])) 2 (comp 1),
      hasComponent (finalWorld (runCalls 60 [.addEntity, .addEntity,
        .addComponent 1 (Pair IsA (.eid 2)), .addComponent 2 (comp 1),
        .addComponent 1 (Pair IsA (.eid 2))])) 1 (comp 1)]
      = [true, true, false] ∧
    [returns (runCalls 60 [.addEntity, .addEntity, .addEntity, .addEntity, .addEntity,
        .addComponent 2 (Pair IsA (.eid 3)), .addComponent 3 (Pair Targeting (.eid 5)),
        .addComponent 2 (Pair Targeting (.eid 4)), .addComponent 1 (Pair IsA (.eid 2))]),
      hasComponent (finalWorld (runCalls 60 [.addEntity, .addEntity, .addEntity, .addEntity,
        .addEntity, .addComponent 2 (Pair IsA (.eid 3)), .addComponent 3 (Pair Targeting (.eid 5)),
        .addComponent 2 (Pair Targeting (.eid 4))])) 2 (Pair Targeting (.eid 4)),
      hasComponent (finalWorld (runCalls 60 [.addEntity, .addEntity, .addEntity, .addEntity,
        .addEntity, .addComponent 2 (Pair IsA (.eid 3)), .addComponent 3 (Pair Targeting (.eid 5)),
        .addComponent 2 (Pair Targeting (.eid 4))])) 2 (Pair Wildcard (.eid 4)),
      hasComponent (finalWorld (runCalls 60 [.addEntity, .addEntity, .addEntity, .addEntity,
        .addEntity, .addComponent 2 (Pair IsA (.eid 3)), .addComponent 3 (Pair Targeting (.eid 5)),
        .addComponent 2 (Pair Targeting (.eid 4)), .addComponent 1 (Pair IsA (.eid 2))])) 1
        (Pair Targeting (.eid 4)),
      hasComponent (finalWorld (runCalls 60 [.addEntity, .addEntity, .addEntity, .addEntity,
        .addEntity, .addComponent 2 (Pair IsA (.eid 3)), .addComponent 3 (Pair Targeting (.eid 5)),
        .addComponent 2 (Pair Targeting (.eid 4)), .addComponent 1 (Pair IsA (.eid 2))])) 1
        (Pair Wildcard (.eid 4)),
      hasComponent (finalWorld (runCalls 60 [.addEntity, .addEntity, .addEntity, .addEntity,
        .addEntity, .addComponent 2 (Pair IsA (.eid 3)), .addComponent 3 (Pair Targeting (.eid 5)),
        .addComponent 2 (Pair Targeting (.eid 4)), .addComponent 1 (Pair IsA (.eid 2))])) 1
        (Pair Targeting (.eid 5))]
      = [true, true, true, false, false, true] ∧
    [returns (runCalls 60 [.addEntity, .addEntity,
        .addComponent 2 (.keyed 0 (.keyed 0 Prefab)), .addComponent 2 (.keyed 1 (.keyed 1 (comp 1))),
        .addComponent 1 (Pair IsA (.eid 2))]),
      hasComponent (finalWorld (runCalls 60 [.addEntity, .addEntity,
        .addComponent 2 (.keyed 0 (.keyed 0 Prefab)),
        .addComponent 2 (.keyed 1 (.keyed 1 (comp 1)))])) 2 (.keyed 0 Prefab),
      hasComponent (finalWorld (runCalls 60 [.addEntity, .addEntity,
        .addComponent 2 (.keyed 0 (.keyed 0 Prefab)),
        .addComponent 2 (.keyed 1 (.keyed 1 (comp 1)))])) 2 (.keyed 1 (comp 1)),
      hasComponent (finalWorld (runCalls 60 [.addEntity, .addEntity,
        .addComponent 2 (.keyed 0 (.keyed 0 Prefab)),
        .addComponent 2 (.keyed 1 (.keyed 1 (comp 1)))])) 1 Prefab,
      hasComponent (finalWorld (runCalls 60 [.addEntity, .addEntity,
        .addComponent 2 (.keyed 0 (.keyed 0 Prefab)), .addComponent 2 (.keyed 1 (.keyed 1 (comp 1))),
        .addComponent 1 (Pair IsA (.eid 2))])) 1 Prefab,
      hasComponent (finalWorld (runCalls 60 [.addEntity, .addEntity,
        .addComponent 2 (.keyed 0 (.keyed 0 Prefab)), .addComponent 2 (.keyed 1 (.keyed 1 (comp 1))),
        .addComponent 1 (Pair IsA (.eid 2))])) 1 (.keyed 0 Prefab),
      hasComponent (finalWorld (runCalls 60 [.addEntity, .addEntity,
        .addComponent 2 (.keyed 0 (.keyed 0 Prefab)), .addComponent 2 (.keyed 1 (.keyed 1 (comp 1))),
        .addComponent 1 (Pair IsA (.eid 2))])) 1 (.keyed 1 (comp 1))]
      = [true, true, true, false, true, false, false] ∧
    [returns (runCalls 60 [.addEntity, .addEntity, .addEntity,
        .addComponent 2 (Pair Likes (.eid 3)), .removeComponent 2 (Pair Wildcard (.eid 3)),
        .removeEntity 3]),
      entityExists (finalWorld (runCalls 60 [.addEntity, .addEntity, .addEntity,
        .addComponent 2 (Pair Likes (.eid 3)), .removeComponent 2 (Pair Wildcard (.eid 3)),
        .removeEntity 3])) 1,
      entityExists (finalWorld (runCalls 60 [.addEntity, .addEntity, .addEntity,
        .addComponent 2 (Pair Likes (.eid 3)), .removeComponent 2 (Pair Wildcard (.eid 3)),
        .removeEntity 3])) 2,
      (thrown (addComponent 60 (finalWorld (runCalls 60 [.addEntity, .addEntity, .addEntity,
        .addComponent 2 (Pair Likes (.eid 3)), .removeComponent 2 (Pair Wildcard (.eid 3)),
        .removeEntity 3])) 1 [Pair IsA (.eid 2)])).map Prod.fst == some Err.noEntity]
      = [true, true, true, true] ∧
    [returns (runCalls 60 [.addEntity, .addEntity, .addEntity,
        .addComponent 1 (Pair Targeting (.eid 3)), .addComponent 2 (Pair Targeting (.rel Likes)),
        .removeComponent 2 (Pair Targeting (.rel Wildcard)), .addComponent 1 (Pair IsA (.eid 2))]),
      hasComponent (finalWorld (runCalls 60 [.addEntity, .addEntity, .addEntity,
        .addComponent 1 (Pair Targeting (.eid 3)), .addComponent 2 (Pair Targeting (.rel Likes)),
        .removeComponent 2 (Pair Targeting (.rel Wildcard))])) 1 (Pair Targeting (.rel Wildcard)),
      hasComponent (finalWorld (runCalls 60 [.addEntity, .addEntity, .addEntity,
        .addComponent 1 (Pair Targeting (.eid 3)), .addComponent 2 (Pair Targeting (.rel Likes)),
        .removeComponent 2 (Pair Targeting (.rel Wildcard))])) 2 (Pair Targeting (.rel Wildcard)),
      hasComponent (finalWorld (runCalls 60 [.addEntity, .addEntity, .addEntity,
        .addComponent 1 (Pair Targeting (.eid 3)), .addComponent 2 (Pair Targeting (.rel Likes)),
        .removeComponent 2 (Pair Targeting (.rel Wildcard)),
        .addComponent 1 (Pair IsA (.eid 2))])) 1 (Pair Targeting (.rel Likes)),
      hasComponent (finalWorld (runCalls 60 [.addEntity, .addEntity, .addEntity,
        .addComponent 1 (Pair Targeting (.eid 3)), .addComponent 2 (Pair Targeting (.rel Likes)),
        .removeComponent 2 (Pair Targeting (.rel Wildcard)),
        .addComponent 1 (Pair IsA (.eid 2))])) 1 (Pair Targeting (.rel Wildcard))]
      = [true, true, false, true, false] := by
  decide!

/-- C23 (amended): in a world left by a sequence of calls (fewer than `2^24` ids handed
out) whose component sets hold no object with a key `component`. When no pair in a
component set targets an entity that does not exist, `addComponent(world, e, IsA(p))`
returns for entities `e` and `p` that exist (whatever the fuel from some point on). And
whenever the call returns for an entity `e` that had not `IsA(p)` already: `e` has every
component that `p` or an entity reached from `p` through `IsA` targets had before the
call, other than `Prefab` and the replaceable ones (the pairs of an exclusive relation and
the pairs `Pair(Wildcard, t)`); every component `e` had before that is not replaceable is
still present; and `e` has `Prefab` only if it had it before. -/
theorem inheritance_copies_components (f : Nat) (calls : List Call) (w : World) (e p : Int)
    (hrun : runCalls f calls = .ok w) (hcap : w.entityIndex.maxId < 16777216)
    (hkeys : noKeyed w = true) :
    (targetsAlive w = true → entityExists w e = true → entityExists w p = true →
      ∃ (F : Nat) (w2 : World), ∀ fuel, F ≤ fuel →
        addComponent fuel w e [Pair IsA (.eid p)] = .ok w2) ∧
    (∀ fuel w2, hasComponent w e (Pair IsA (.eid p)) = false →
      addComponent fuel w e [Pair IsA (.eid p)] = .ok w2 →
      (∀ y d, IsAReachable w p y → hasComponent w y d = true → d ≠ Prefab →
        d.replaceable = false → hasComponent w2 e d = true) ∧
      (∀ d, hasComponent w e d = true → d.replaceable = false → hasComponent w2 e d = true) ∧
      (hasComponent w2 e Prefab = true → hasComponent w e Prefab = true)) := by
  have h := worldInv_runCalls f calls w hrun hcap
  have hk := keyless_of_noKeyed h hkeys
  refine ⟨?_, ?_⟩
  · intro ht he hp
    exact add_returns_settled w e _ h hkeys ht he rfl (fun r tt hc => by cases hc; exact hp)
  · intro fuel w2 hnew hadd
    obtain ⟨n, _, he, heach⟩ := addComponent_single_inv fuel w e _ w2 hadd
    have hok : ∀ c, c ∈ [Pair IsA (.eid p)] → c.unwrap.unwrap = c.unwrap ∧ c.unwrap ≠ Prefab := by
      intro c hc
      rw [List.mem_singleton.1 hc]
      exact ⟨rfl, by simp [Pair, Prefab, Component.unwrap]⟩
    obtain ⟨h2, hgain⟩ := add_gains fuel w e _ w2 hk hok hadd h
    have hkept := ((add_keeps_sturdy fuel).1 w e _ w2 hadd h).2.2
    refine ⟨?_, ?_, ?_⟩
    · intro y d hy hd hnp hs
      exact (holds_iff_has h2 e d).1
        (isa_add_copies n w e p w2 hk he hnew heach y hy d ((holds_iff_has h y d).2 hd) hnp hs)
    · intro d hd hs
      exact (holds_iff_has h2 e d).1 (hkept e d ((holds_iff_has h e d).2 hd) hs)
    · intro hp
      rcases hgain e Prefab ((holds_iff_has h2 e _).2 hp) with hh | hh
      · exact (holds_iff_has h e _).1 hh
      · exact absurd rfl hh.2

theorem inheritance_copies_components_witness :
    targetsAlive (finalWorld (runCalls 30 [.addEntity, .addEntity, .addEntity,
      .addComponent 2 (comp 1), .addComponent 3 (comp 2), .addComponent 2 (Pair IsA (.eid 3)),
      .addComponent 3 (Pair IsA (.eid 2)), .addComponent 1 (comp 0)])) = true ∧
    hasComponent (finalWorld (runCalls 30 [.addEntity, .addEntity, .addEntity,
      .addComponent 2 (comp 1), .addComponent 3 (comp 2), .addComponent 2 (Pair IsA (.eid 3)),
      .addComponent 3 (Pair IsA (.eid 2)), .addComponent 1 (comp 0)])) 1 (Pair IsA (.eid 2)) = false ∧
    returns (addComponent 30 (finalWorld (runCalls 30 [.addEntity, .addEntity, .addEntity,
      .addComponent 2 (comp 1), .addComponent 3 (comp 2), .addComponent 2 (Pair IsA (.eid 3)),
      .addComponent 3 (Pair IsA (.eid 2)), .addComponent 1 (comp 0)])) 1 [Pair IsA (.eid 2)]) = true ∧
    ((targetsAlive (finalWorld (runCalls 30 [.addEntity, .addEntity, .addEntity,
      .addComponent 2 (comp 1), .addComponent 3 (comp 2), .addComponent 2 (Pair IsA (.eid 3)),
      .addComponent 3 (Pair IsA (.eid 2)), .addComponent 1 (comp 0)])) = true →
      entityExists (finalWorld (runCalls 30 [.addEntity, .addEntity, .addEntity,
      .addComponent 2 (comp 1), .addComponent 3 (comp 2), .addComponent 2 (Pair IsA (.eid 3)),
      .addComponent 3 (Pair IsA (.eid 2)), .addComponent 1 (comp 0)])) 1 = true →
      entityExists (finalWorld (runCalls 30 [.addEntity, .addEntity, .addEntity,
      .addComponent 2 (comp 1), .addComponent 3 (comp 2), .addComponent 2 (Pair IsA (.eid 3)),
      .addComponent 3 (Pair IsA (.eid 2)), .addComponent 1 (comp 0)])) 2 = true →
      ∃ (F : Nat) (w2 : World), ∀ fuel, F ≤ fuel →
        addComponent fuel (finalWorld (runCalls 30 [.addEntity, .addEntity, .addEntity,
      .addComponent 2 (comp 1), .addComponent 3 (comp 2), .addComponent 2 (Pair IsA (.eid 3)),
      .addComponent 3 (Pair IsA (.eid 2)), .addComponent 1 (comp 0)])) 1 [Pair IsA (.eid 2)] = .ok w2) ∧
    (∀ fuel w2, hasComponent (finalWorld (runCalls 30 [.addEntity, .addEntity, .addEntity,
      .addComponent 2 (comp 1), .addComponent 3 (comp 2), .addComponent 2 (Pair IsA (.eid 3)),
      .addComponent 3 (Pair IsA (.eid 2)), .addComponent 1 (comp 0)])) 1 (Pair IsA (.eid 2)) = false →
      addComponent fuel (finalWorld (runCalls 30 [.addEntity, .addEntity, .addEntity,
      .addComponent 2 (comp 1), .addComponent 3 (comp 2), .addComponent 2 (Pair IsA (.eid 3)),
      .addComponent 3 (Pair IsA (.eid 2)), .addComponent 1 (comp 0)])) 1 [Pair IsA (.eid 2)] = .ok w2 →
      (∀ y d, IsAReachable (finalWorld (runCalls 30 [.addEntity, .addEntity, .addEntity,
      .addComponent 2 (comp 1), .addComponent 3 (comp 2), .addComponent 2 (Pair IsA (.eid 3)),
      .addComponent 3 (Pair IsA (.eid 2)), .addComponent 1 (comp 0)])) 2 y →
        hasComponent (finalWorld (runCalls 30 [.addEntity, .addEntity, .addEntity,
      .addComponent 2 (comp 1), .addComponent 3 (comp 2), .addComponent 2 (Pair IsA (.eid 3)),
      .addComponent 3 (Pair IsA (.eid 2)), .addComponent 1 (comp 0)])) y d = true → d ≠ Prefab →
        d.replaceable = false → hasComponent w2 1 d = true) ∧
      (∀ d, hasComponent (finalWorld (runCalls 30 [.addEntity, .addEntity, .addEntity,
      .addComponent 2 (comp 1), .addComponent 3 (comp 2), .addComponent 2 (Pair IsA (.eid 3)),
      .addComponent 3 (Pair IsA (.eid 2)), .addComponent 1 (comp 0)])) 1 d = true → d.replaceable = false →
        hasComponent w2 1 d = true) ∧
      (hasComponent w2 1 Prefab = true →
        hasComponent (finalWorld (runCalls 30 [.addEntity, .addEntity, .addEntity,
      .addComponent 2 (comp 1), .addComponent 3 (comp 2), .addComponent 2 (Pair IsA (.eid 3)),
      .addComponent 3 (Pair IsA (.eid 2)), .addComponent 1 (comp 0)])) 1 Prefab = true))) :=
  ⟨by decide!, by decide!, by decide!,
    inheritance_copies_components 30 [.addEntity, .addEntity, .addEntity,
      .addComponent 2 (comp 1), .addComponent 3 (comp 2), .addComponent 2 (Pair IsA (.eid 3)),
      .addComponent 3 (Pair IsA (.eid 2)), .addComponent 1 (comp 0)] _ 1 2
      (returns_eq _ (by decide!)) (by decide!) (by decide!)⟩

/-! ### Presence of a component after `addComponent` and `removeComponent` -/

/-- C2 (counterexample): with entities 1 and 2, `addComponent(world, 2, Likes(1))` changes
`hasComponent(world, 2, Pair(Likes, Wildcard))` from `false` to `true`, and
`removeComponent(world, 2, Likes(1))` changes `hasComponent(world, 2, Pair(Wildcard, 1))`
from `true` to `false`: a call on one component changes the presence of another. For
an object `C` with a key `component` that holds the component `comp 1`,
`addComponent(world, 1, C)` attaches `comp 1`: afterwards `hasComponent(world, 1, C)` is
`false` and `hasComponent(world, 1, comp 1)` is `true`. And `addComponent` throws for a
pair whose target is no entity of the world (`Likes(7)` with one entity), and for `IsA(2)`
on entity 1 when entity 2 has `Likes(3)` without `Pair(Wildcard, 3)` and entity 3 was
removed, 1 and 2 existing. -/
theorem pair_call_changes_other_component :
    [hasComponent (finalWorld (runCalls 30 [.addEntity, .addEntity])) 2
        (Pair Likes (.rel Wildcard)),
      hasComponent (finalWorld (runCalls 30 [.addEntity, .addEntity,
        .addComponent 2 (Pair Likes (.eid 1))])) 2 (Pair Likes (.rel Wildcard)),
      hasComponent (finalWorld (runCalls 30 [.addEntity, .addEntity,
        .addComponent 2 (Pair Likes (.eid 1))])) 2 (Pair Wildcard (.eid 1)),
      hasComponent (finalWorld (runCalls 30 [.addEntity, .addEntity,
        .addComponent 2 (Pair Likes (.eid 1)), .removeComponent 2 (Pair Likes (.eid 1))])) 2
        (Pair Wildcard (.eid 1)),
      returns (runCalls 30 [.addEntity, .addEntity,
        .addComponent 2 (Pair Likes (.eid 1)), .removeComponent 2 (Pair Likes (.eid 1))])]
    = [false, true, true, false, true] ∧
    [returns (runCalls 30 [.addEntity, .addComponent 1 (.keyed 0 (comp 1))]),
      hasComponent (finalWorld (runCalls 30 [.addEntity, .addComponent 1 (.keyed 0 (comp 1))])) 1
        (.keyed 0 (comp 1)),
      hasComponent (finalWorld (runCalls 30 [.addEntity, .addComponent 1 (.keyed 0 (comp 1))])) 1
        (comp 1)]
    = [true, false, true] ∧
    [returns (runCalls 30 [.addEntity]),
      entityExists (finalWorld (runCalls 30 [.addEntity])) 1,
      returns (addComponent 30 (finalWorld (runCalls 30 [.addEntity])) 1
        [Pair Likes (.eid 7)])]
    = [true, true, false] ∧
    [returns (runCalls 60 [.addEntity, .addEntity, .addEntity,
        .addComponent 2 (Pair Likes (.eid 3)), .removeComponent 2 (Pair Wildcard (.eid 3)),
        .removeEntity 3]),
      entityExists (finalWorld (runCalls 60 [.addEntity, .addEntity, .addEntity,
        .addComponent 2 (Pair Likes (.eid 3)), .removeComponent 2 (Pair Wildcard (.eid 3)),
        .removeEntity 3])) 1,
      entityExists (finalWorld (runCalls 60 [.addEntity, .addEntity, .addEntity,
        .addComponent 2 (Pair Likes (.eid 3)), .removeComponent 2 (Pair Wildcard (.eid 3)),
        .removeEntity 3])) 2,
      (thrown (addComponent 60 (finalWorld (runCalls 60 [.addEntity, .addEntity, .addEntity,
        .addComponent 2 (Pair Likes (.eid 3)), .removeComponent 2 (Pair Wildcard (.eid 3)),
        .removeEntity 3])) 1 [Pair IsA (.eid 2)])).map Prod.fst == some Err.noEntity]
    = [true, true, true, true] := by
  decide!

/-- C2 (amended): in a world left by a sequence of calls (fewer than `2^24` ids handed
out), for an entity `e` that exists and a component `c` that has no key `component`:
`removeComponent(world, e, c)` returns (whatever the fuel from some point on) and
`hasComponent(e, c)` is false after it; `hasComponent(e, c)` is true after every
`addComponent(world, e, c)` that returns; `addComponent(world, e, c)` returns when `c` is
not a pair, and when `c` is a pair whose target, if an entity, exists, provided for a pair
of `IsA` that no component set of the world holds an object with a key `component` or a
pair that targets an entity that does not exist; and when `c` is not a pair, both calls
leave `hasComponent(e, d)` as it was for every other component `d`. -/
theorem component_presence (f : Nat) (calls : List Call) (w : World) (e : Int)
    (c : Component) (hrun : runCalls f calls = .ok w) (hcap : w.entityIndex.maxId < 16777216)
    (he : entityExists w e = true) (hkey : c.unwrap = c) :
    (∃ (F : Nat) (wr : World), (∀ fuel, F ≤ fuel → removeComponent fuel w e [c] = .ok wr) ∧
      hasComponent wr e c = false ∧
      (c.isPairComponent = false →
        ∀ d, d ≠ c → hasComponent wr e d = hasComponent w e d)) ∧
    (∀ fuel wa, addComponent fuel w e [c] = .ok wa → hasComponent wa e c = true) ∧
    ((∀ r t, c = .pair r t → (∀ tt, t = .eid tt → entityExists w tt = true) ∧
        (r = IsA → noKeyed w = true ∧ targetsAlive w = true)) →
      ∃ (F : Nat) (wa : World), ∀ fuel, F ≤ fuel → addComponent fuel w e [c] = .ok wa) ∧
    (c.isPairComponent = false →
      ∃ wa, (∀ fuel, 2 ≤ fuel → addComponent fuel w e [c] = .ok wa) ∧
        ∀ d, d ≠ c → hasComponent wa e d = hasComponent w e d) := by
  have h := worldInv_runCalls f calls w hrun hcap
  refine ⟨?_, ?_, ?_, ?_⟩
  · obtain ⟨F, wr, hr, hinvr, _, _⟩ := removeComponent_returns w e c h he
    obtain ⟨cs, hcs⟩ := (h.keys e).2 he
    obtain ⟨D, _, hcs2, _, _, hcD, _⟩ :=
      remove_returned_sem F w e c wr cs h he hcs (hr F (le_refl _))
    refine ⟨F, wr, hr, ?_, ?_⟩
    · rw [Bool.eq_false_iff]
      intro hh
      have hm := (hasComponent_iff_mem hinvr e _ hcs2 c).1 hh
      rw [List.mem_filter] at hm
      simp only [decide_not, Bool.not_eq_eq_eq_not, Bool.not_true, decide_eq_false_iff_not] at hm
      exact hm.2 hcD
    · intro hc d hne
      have hrem := removeComponent_plain (max F 2 - 2) w e c he hc
      have hF : max F 2 - 2 + 2 = max F 2 := by
        have := le_max_right F 2
        omega
      rw [hF, hr (max F 2) (le_max_left _ _)] at hrem
      cases hh : hasComponent w e c with
      | false =>
        rw [hh] at hrem
        simp only [Bool.false_eq_true, ↓reduceIte] at hrem
        cases hrem
        rfl
      | true =>
        rw [hh] at hrem
        simp only [↓reduceIte] at hrem
        exact (detach_presence w e c h he hh wr hrem.symm).2 d hne
  · intro fuel wa hadd
    obtain ⟨n, _, _, hea⟩ := addComponent_single_inv fuel w e c wa hadd
    obtain ⟨hinva, hh⟩ := add_presence n w e c wa h he hkey hea
    exact (holds_iff_has hinva e c).1 hh
  · intro hcalm
    by_cases hisa : ∃ t, c = .pair IsA t
    · obtain ⟨t, rfl⟩ := hisa
      obtain ⟨ha, hb⟩ := hcalm IsA t rfl
      exact add_returns_settled w e _ h (hb rfl).1 (hb rfl).2 he rfl
        (fun r tt hc => by cases hc; exact ha tt rfl)
    · exact add_returns _ w e c h he
        (fun r t hc => by
          rw [hkey] at hc
          exact ⟨fun hr => hisa ⟨t, by rw [hc, hr]⟩, (hcalm r t hc).1⟩)
        (Nat.lt_succ_self _)
  · intro hc
    obtain ⟨wa, b, hat⟩ := attach_ok w e c h he
    refine ⟨wa, ?_, (attach_presence w e c h he wa b hat).2⟩
    intro fuel hfuel
    obtain ⟨k, rfl⟩ : ∃ k, fuel = k + 2 := ⟨fuel - 2, by omega⟩
    exact addComponent_plain k w e c he (by rw [hkey]; exact hc) wa b (by rw [hkey]; exact hat)

theorem component_presence_witness :
    returns (addComponent 30 (finalWorld (runCalls 30 [.addEntity, .addEntity,
      .addComponent 1 (comp 1)])) 1 [Pair Likes (.eid 2)]) = true ∧
    ((∃ (F : Nat) (wr : World), (∀ fuel, F ≤ fuel → removeComponent fuel
          (finalWorld (runCalls 30 [.addEntity, .addEntity, .addComponent 1 (comp 1)])) 1
          [Pair Likes (.eid 2)] = .ok wr) ∧
        hasComponent wr 1 (Pair Likes (.eid 2)) = false ∧
        ((Pair Likes (.eid 2)).isPairComponent = false →
          ∀ d, d ≠ Pair Likes (.eid 2) → hasComponent wr 1 d = hasComponent
            (finalWorld (runCalls 30 [.addEntity, .addEntity, .addComponent 1 (comp 1)])) 1 d)) ∧
      (∀ fuel wa, addComponent fuel
          (finalWorld (runCalls 30 [.addEntity, .addEntity, .addComponent 1 (comp 1)])) 1
          [Pair Likes (.eid 2)] = .ok wa → hasComponent wa 1 (Pair Likes (.eid 2)) = true) ∧
      ((∀ r t, Pair Likes (.eid 2) = .pair r t → (∀ tt, t = .eid tt → entityExists
          (finalWorld (runCalls 30 [.addEntity, .addEntity, .addComponent 1 (comp 1)])) tt = true) ∧
          (r = IsA → noKeyed
            (finalWorld (runCalls 30 [.addEntity, .addEntity, .addComponent 1 (comp 1)])) = true ∧
            targetsAlive
              (finalWorld (runCalls 30 [.addEntity, .addEntity, .addComponent 1 (comp 1)]))
              = true)) →
        ∃ (F : Nat) (wa : World), ∀ fuel, F ≤ fuel → addComponent fuel
          (finalWorld (runCalls 30 [.addEntity, .addEntity, .addComponent 1 (comp 1)])) 1
          [Pair Likes (.eid 2)] = .ok wa) ∧
      ((Pair Likes (.eid 2)).isPairComponent = false →
        ∃ wa, (∀ fuel, 2 ≤ fuel → addComponent fuel
            (finalWorld (runCalls 30 [.addEntity, .addEntity, .addComponent 1 (comp 1)])) 1
            [Pair Likes (.eid 2)] = .ok wa) ∧
          ∀ d, d ≠ Pair Likes (.eid 2) → hasComponent wa 1 d = hasComponent
            (finalWorld (runCalls 30 [.addEntity, .addEntity, .addComponent 1 (comp 1)])) 1 d)) :=
  ⟨by decide!, component_presence 30 [.addEntity, .addEntity, .addComponent 1 (comp 1)] _ 1
    (Pair Likes (.eid 2)) (returns_eq _ (by decide!)) (by decide!) (by decide!) rfl⟩

end BitEcs

